import Mathlib

/-!
# update_engine: the payload delta applier (`delta_performer.cc`)

A shallow embedding of `DeltaPerformer`.  Bytes, block numbers, offsets and
sizes are natural numbers; where the C++ computes in `uint64_t` the
embedding reduces modulo `2 ^ 64` explicitly.  The applier's member
variables are the fields of `DeltaPerformer`; every member function takes
the state and returns the new state together with its C++ return value.

Collaborators whose code is outside `delta_performer.cc` (the protobuf
parser, the hash calculator's context serialisation, the payload
verifier, bzip2, the bspatch subprocess, the cancellation predicate) are
the fields of `Env`.  Progress accounting and logging
(`UpdateOverallProgress`, `LogProgress`, `SendUmaStat`) only feed log
output and are left out.
-/

namespace DeltaPerformer

/-! ## Data model -/

/-- A byte string (`std::vector<char>`, `std::string`). -/
abbrev Bytes := List Nat

/-- The modulus of `uint64_t` arithmetic. -/
def u64 : Nat := 2 ^ 64

/-- The sentinel start block of a sparse-hole extent (`kuint64max`). -/
def kSparseHole : Nat := 2 ^ 64 - 1

/-- An `Extent` of the manifest: a run of `num_blocks` blocks. -/
structure Extent where
  start_block : Nat
  num_blocks : Nat
  deriving DecidableEq, Repr

/-- The `Type` enum of `DeltaArchiveManifest_InstallOperation`; `UNKNOWN`
stands for any value that is none of the four the switch in `Write` names. -/
inductive OpType where
  | REPLACE
  | REPLACE_BZ
  | MOVE
  | BSDIFF
  | UNKNOWN
  deriving DecidableEq, Repr

/-- The message `DeltaArchiveManifest_InstallOperation`. -/
structure InstallOperation where
  type : OpType
  data_offset : Nat
  data_length : Nat
  src_extents : List Extent
  src_length : Nat
  dst_extents : List Extent
  dst_length : Nat
  data_sha256_hash : Bytes
  deriving DecidableEq, Repr

/-- The message `PartitionInfo`. -/
structure PartitionInfo where
  size : Nat
  hash : Bytes
  deriving DecidableEq, Repr

/-- The message `DeltaArchiveManifest`; an optional field that is not set is
`none`. -/
structure Manifest where
  install_operations : List InstallOperation
  kernel_install_operations : List InstallOperation
  block_size : Nat
  signatures_offset : Option Nat
  signatures_size : Option Nat
  old_kernel_info : Option PartitionInfo
  new_kernel_info : Option PartitionInfo
  old_rootfs_info : Option PartitionInfo
  new_rootfs_info : Option PartitionInfo
  minor_version : Nat
  deriving DecidableEq, Repr

/-- The manifest of a default-constructed applier. -/
def Manifest.empty : Manifest :=
  { install_operations := [], kernel_install_operations := [], block_size := 4096,
    signatures_offset := none, signatures_size := none, old_kernel_info := none,
    new_kernel_info := none, old_rootfs_info := none, new_rootfs_info := none,
    minor_version := 0 }

/-- The fields of `InstallPlan` that the applier reads. -/
structure InstallPlan where
  is_full_update : Bool
  payload_size : Nat
  payload_hash : Bytes
  metadata_size : Nat
  metadata_signature : Bytes
  kernel_hash : Bytes
  rootfs_hash : Bytes
  hash_checks_mandatory : Bool
  public_key_rsa : Bytes
  deriving DecidableEq, Repr

/-- The values of `ErrorCode` that `delta_performer.cc` produces, and
`kOther` for a reason supplied by the cancellation predicate. -/
inductive ErrorCode where
  | kSuccess
  | kDownloadInvalidMetadataMagicString
  | kUnsupportedMajorPayloadVersion
  | kDownloadInvalidMetadataSize
  | kDownloadMetadataSignatureMissingError
  | kDownloadMetadataSignatureError
  | kDownloadMetadataSignatureVerificationError
  | kDownloadMetadataSignatureMismatch
  | kDownloadManifestParseError
  | kPayloadMismatchedType
  | kUnsupportedMinorPayloadVersion
  | kDownloadStateInitializationError
  | kDownloadOperationHashMissingError
  | kDownloadOperationHashVerificationError
  | kDownloadOperationHashMismatch
  | kDownloadOperationExecutionError
  | kPayloadSizeMismatchError
  | kDownloadPayloadVerificationError
  | kPayloadHashMismatchError
  | kSignedDeltaPayloadExpectedError
  | kDownloadPayloadPubKeyVerificationError
  | kOther (n : Nat)
  deriving DecidableEq, Repr

/-- The return values of `ParsePayloadMetadata`. -/
inductive MetadataParseResult where
  | kMetadataParseSuccess
  | kMetadataParseError
  | kMetadataParseInsufficientData
  deriving DecidableEq, Repr

/-! ## The preference store -/

/-- Modelled from the spec: the persisted checkpoint store behind
`PrefsInterface` (section 6, "Checkpoint key/value fields"), one optional
value per key with atomic per-key get and set.  A key that is absent or
unreadable is `none`.  `writable = false` makes every set fail and leave
the store as it is. -/
structure Prefs where
  writable : Bool
  kPrefsUpdateStateNextOperation : Option Int
  kPrefsUpdateStateNextDataOffset : Option Int
  kPrefsUpdateStateNextDataLength : Option Int
  kPrefsUpdateStateSHA256Context : Option Bytes
  kPrefsUpdateStateSignedSHA256Context : Option Bytes
  kPrefsUpdateStateSignatureBlob : Option Bytes
  kPrefsManifestMetadataSize : Option Int
  kPrefsUpdateCheckResponseHash : Option Bytes
  kPrefsResumedUpdateFailures : Option Int
  deriving DecidableEq, Repr

/-- A store with no key set. -/
def Prefs.empty : Prefs :=
  { writable := true,
    kPrefsUpdateStateNextOperation := none, kPrefsUpdateStateNextDataOffset := none,
    kPrefsUpdateStateNextDataLength := none, kPrefsUpdateStateSHA256Context := none,
    kPrefsUpdateStateSignedSHA256Context := none, kPrefsUpdateStateSignatureBlob := none,
    kPrefsManifestMetadataSize := none, kPrefsUpdateCheckResponseHash := none,
    kPrefsResumedUpdateFailures := none }

/-- The value an `int64_t` parameter receives from a `uint64_t` argument. -/
def toInt64 (n : Nat) : Int :=
  if n % u64 < 2 ^ 63 then ((n % u64 : Nat) : Int) else ((n % u64 : Nat) : Int) - (2 : Int) ^ 64

/-- The value a `uint64_t` variable receives from an `int64_t`. -/
def ofInt64 (i : Int) : Nat := (i % (2 : Int) ^ 64).toNat

/-- `kUpdateStateOperationInvalid`. -/
def kUpdateStateOperationInvalid : Int := -1

/-- `kMaxResumedUpdateFailures`. -/
def kMaxResumedUpdateFailures : Int := 10

/-- `prefs->SetInt64(kPrefsUpdateStateNextOperation, v)`. -/
def Prefs.setNextOperation (p : Prefs) (v : Int) : Bool × Prefs :=
  if p.writable then (true, { p with kPrefsUpdateStateNextOperation := some v }) else (false, p)

/-- `prefs->SetInt64(kPrefsUpdateStateNextDataOffset, v)`. -/
def Prefs.setNextDataOffset (p : Prefs) (v : Int) : Bool × Prefs :=
  if p.writable then (true, { p with kPrefsUpdateStateNextDataOffset := some v }) else (false, p)

/-- `prefs->SetInt64(kPrefsUpdateStateNextDataLength, v)`. -/
def Prefs.setNextDataLength (p : Prefs) (v : Int) : Bool × Prefs :=
  if p.writable then (true, { p with kPrefsUpdateStateNextDataLength := some v }) else (false, p)

/-- `prefs->SetString(kPrefsUpdateStateSHA256Context, v)`. -/
def Prefs.setSHA256Context (p : Prefs) (v : Bytes) : Bool × Prefs :=
  if p.writable then (true, { p with kPrefsUpdateStateSHA256Context := some v }) else (false, p)

/-- `prefs->SetString(kPrefsUpdateStateSignedSHA256Context, v)`. -/
def Prefs.setSignedSHA256Context (p : Prefs) (v : Bytes) : Bool × Prefs :=
  if p.writable then (true, { p with kPrefsUpdateStateSignedSHA256Context := some v })
  else (false, p)

/-- `prefs->SetString(kPrefsUpdateStateSignatureBlob, v)`. -/
def Prefs.setSignatureBlob (p : Prefs) (v : Bytes) : Bool × Prefs :=
  if p.writable then (true, { p with kPrefsUpdateStateSignatureBlob := some v }) else (false, p)

/-- `prefs->SetInt64(kPrefsManifestMetadataSize, v)`. -/
def Prefs.setManifestMetadataSize (p : Prefs) (v : Int) : Bool × Prefs :=
  if p.writable then (true, { p with kPrefsManifestMetadataSize := some v }) else (false, p)

/-- `prefs->SetString(kPrefsUpdateCheckResponseHash, v)`. -/
def Prefs.setUpdateCheckResponseHash (p : Prefs) (v : Bytes) : Bool × Prefs :=
  if p.writable then (true, { p with kPrefsUpdateCheckResponseHash := some v }) else (false, p)

/-- `prefs->SetInt64(kPrefsResumedUpdateFailures, v)`. -/
def Prefs.setResumedUpdateFailures (p : Prefs) (v : Int) : Bool × Prefs :=
  if p.writable then (true, { p with kPrefsResumedUpdateFailures := some v }) else (false, p)

/-! ## Block devices -/

/-- Modelled from the spec: a target partition behind an open file
descriptor, "treated as opaque byte ranges": `size` bytes, the byte at
offset `i` being `data i`. -/
structure Device where
  size : Nat
  data : Nat → Nat

/-- Modelled from the spec: `utils::PReadAll` followed by the caller's test
that all `count` bytes were read: the bytes at `[off, off + count)`, or
`none` when the range is not inside the device; reading no bytes always
succeeds. -/
def Device.pread (d : Device) (off count : Nat) : Option Bytes :=
  if count = 0 ∨ off + count ≤ d.size then
    some ((List.range count).map (fun i => d.data (off + i)))
  else none

/-- Modelled from the spec: `utils::PWriteAll`: stores `bytes` at
`[off, off + bytes.length)` and reports success, or fails, leaving the
device as it is, when the range is not inside the device; writing no bytes
always succeeds. -/
def Device.pwrite (d : Device) (bytes : Bytes) (off : Nat) : Bool × Device :=
  if bytes.length = 0 then (true, d)
  else if off + bytes.length ≤ d.size then
    (true, { d with data := fun i =>
      if off ≤ i ∧ i < off + bytes.length then bytes.getD (i - off) 0 else d.data i })
  else (false, d)

/-- Modelled from the spec: `DirectExtentWriter::Write`: the data goes to
the extents in order, each extent taking at most its own byte length; a
sparse-hole extent takes its share without a device write; data left over
when the extents are used up is a failure. -/
def writeExtents (d : Device) (block_size : Nat) : List Extent → Bytes → Bool × Device
  | [], data => (data.isEmpty, d)
  | e :: es, data =>
    if data.isEmpty then (true, d)
    else
      let n := min data.length ((e.num_blocks * block_size) % u64)
      if e.start_block = kSparseHole then writeExtents d block_size es (data.drop n)
      else
        let r := d.pwrite (data.take n) ((e.start_block * block_size) % u64)
        if r.1 then writeExtents r.2 block_size es (data.drop n) else (false, r.2)

/-- Modelled from the spec: the zeros `ZeroPadExtentWriter::End` appends so
that the bytes written fill the last block ("destination bytes beyond the
raw length but within the last allocated block are zero-filled"). -/
def zeroPad (block_size len : Nat) : Bytes :=
  if block_size = 0 then [] else List.replicate ((block_size - len % block_size) % block_size) 0

/-! ## Block sets -/

/-- Modelled from the spec: the block-set of `ExtentRanges` after
`AddRepeatedExtents`: every block of every extent. -/
def blockSet : List Extent → Finset Nat
  | [] => ∅
  | e :: es => Finset.Ico e.start_block (e.start_block + e.num_blocks) ∪ blockSet es

/-- Modelled from the spec: `ExtentRanges::blocks()`, the number of blocks
in the set. -/
def blocks (r : Finset Nat) : Nat := r.card

/-- Modelled from the spec: `ExtentRanges::SubtractRepeatedExtents`, which
removes from the set every block of the given extents. -/
def SubtractRepeatedExtents (r : Finset Nat) (es : List Extent) : Finset Nat :=
  r \ blockSet es

/-! ## Collaborators -/

/-- The collaborators of the applier that live outside
`delta_performer.cc`, as functions. -/
structure Env where
  /-- The constant `kDeltaMagic`. -/
  kDeltaMagic : Bytes
  /-- The call `manifest_.ParseFromArray(p, n)`, given the bytes from `p` on. -/
  ParseFromArray : Bytes → Nat → Option Manifest
  /-- The call `update_attempter()->ShouldCancel(error)`: the reason when
  cancellation is requested. -/
  ShouldCancel : Option ErrorCode
  /-- The call `OmahaHashCalculator::GetContext` on a calculator that was
  fed the given bytes. -/
  GetContext : Bytes → Bytes
  /-- The call `OmahaHashCalculator::SetContext`: the bytes the restored
  calculator counts as fed, or `none` when the context is refused. -/
  SetContext : Bytes → Option Bytes
  /-- The calls `Finalize()` and `raw_hash()` on a calculator fed the given
  bytes: `none` when `Finalize` fails. -/
  raw_hash : Bytes → Option Bytes
  /-- The result `hash()` of a calculator fed the given bytes and finalized. -/
  hash : Bytes → Bytes
  /-- The call `OmahaHashCalculator::Base64Decode`. -/
  Base64Decode : Bytes → Option Bytes
  /-- The call `hardware()->IsOfficialBuild()`. -/
  IsOfficialBuild : Bool
  /-- The call `utils::FileExists`. -/
  FileExists : String → Bool
  /-- The call `utils::DecodeAndStoreBase64String`: the path of the file
  written. -/
  DecodeAndStoreBase64String : Bytes → Option String
  /-- The call `PayloadVerifier::GetRawHashFromSignature`. -/
  GetRawHashFromSignature : Bytes → String → Option Bytes
  /-- The call `PayloadVerifier::VerifySignature`. -/
  VerifySignature : Bytes → String → Option Bytes
  /-- The call `PayloadVerifier::PadRSA2048SHA256Hash`. -/
  PadRSA2048SHA256Hash : Bytes → Bytes
  /-- The decompressor behind `BzipExtentWriter`. -/
  bunzip : Bytes → Option Bytes
  /-- Whether `utils::MakeTempFile` and writing the patch to it succeed. -/
  tempFileOk : Bool
  /-- The bspatch subprocess on the target device, given the patch and the
  two position strings: `none` when it cannot be run, else its exit code
  and the device it leaves. -/
  bspatch : Device → Bytes → String → String → Option (Int × Device)

/-! ## The applier state -/

/-- The member variables of `DeltaPerformer`, the two target devices behind
`fd_` and `kernel_fd_`, the store behind `prefs_`, and the global flag of
`Terminator`. -/
structure State where
  prefs : Prefs
  install_plan : InstallPlan
  public_key_path : String
  fd : Device
  kernel_fd : Device
  manifest : Manifest
  manifest_parsed : Bool
  manifest_valid : Bool
  metadata_size : Nat
  next_operation_num : Nat
  num_rootfs_operations : Nat
  num_total_operations : Nat
  buffer : Bytes
  buffer_offset : Nat
  last_updated_buffer_offset : Nat
  block_size : Nat
  /-- The bytes passed to `hash_calculator_.Update` so far, in order. -/
  hash_calculator : Bytes
  /-- Whether `hash_calculator_.Finalize()` has run. -/
  hash_finalized : Bool
  signed_hash_context : Bytes
  signatures_message_data : Bytes
  /-- The flag of `Terminator::set_exit_blocked`. -/
  exit_blocked : Bool

/-- A freshly constructed applier on the given store, plan and devices. -/
def State.fresh (prefs : Prefs) (plan : InstallPlan) (key : String) (fd kernel_fd : Device) :
    State :=
  { prefs := prefs, install_plan := plan, public_key_path := key, fd := fd,
    kernel_fd := kernel_fd, manifest := Manifest.empty, manifest_parsed := false,
    manifest_valid := false, metadata_size := 0, next_operation_num := 0,
    num_rootfs_operations := 0, num_total_operations := 0, buffer := [], buffer_offset := 0,
    last_updated_buffer_offset := u64 - 1, block_size := 0, hash_calculator := [],
    hash_finalized := false, signed_hash_context := [], signatures_message_data := [],
    exit_blocked := false }

/-- The result of a member function that returns `bool` and sets `*error`. -/
structure WriteResult where
  ok : Bool
  error : ErrorCode
  state : State

/-- An operation with every field at its protobuf default. -/
def InstallOperation.empty : InstallOperation :=
  { type := OpType.REPLACE, data_offset := 0, data_length := 0, src_extents := [],
    src_length := 0, dst_extents := [], dst_length := 0, data_sha256_hash := [] }

/-! ## Buffer and hash -/

/-- `DeltaPerformer::CopyDataToBuffer`: moves at most `max - buffer_.size()`
bytes (computed in `size_t`) from the front of the input to the end of the
buffer; returns the state and the input that is left. -/
def CopyDataToBuffer (s : State) (bytes : Bytes) (max : Nat) : State × Bytes :=
  if bytes.length = 0 then (s, bytes)
  else
    let read_len := min bytes.length ((max % u64 + u64 - s.buffer.length % u64) % u64)
    ({ s with buffer := s.buffer ++ bytes.take read_len }, bytes.drop read_len)

/-- `DeltaPerformer::DiscardBuffer`. -/
def DiscardBuffer (s : State) (do_advance_offset : Bool) : State :=
  { s with
    buffer_offset :=
      if do_advance_offset then (s.buffer_offset + s.buffer.length) % u64 else s.buffer_offset,
    hash_calculator := s.hash_calculator ++ s.buffer,
    buffer := [] }

/-- `DeltaPerformer::HandleOpResult`: the result and the value of `*error`
afterwards. -/
def HandleOpResult (op_result : Bool) (error : ErrorCode) : Bool × ErrorCode :=
  if op_result then (true, error) else (false, ErrorCode.kDownloadOperationExecutionError)

/-- `DeltaPerformer::IsIdempotentOperation`. -/
def IsIdempotentOperation (op : InstallOperation) : Bool :=
  if op.src_extents.length = 0 then true
  else
    let src_ranges := blockSet op.src_extents
    let block_count := blocks src_ranges
    let src_ranges := SubtractRepeatedExtents src_ranges op.dst_extents
    decide (block_count = blocks src_ranges)

/-! ## Checkpoints -/

/-- `DeltaPerformer::CanResumeUpdate`. -/
def CanResumeUpdate (prefs : Prefs) (update_check_response_hash : Bytes) : Bool :=
  match prefs.kPrefsUpdateStateNextOperation with
  | none => false
  | some next_operation =>
    if ¬ (next_operation ≠ kUpdateStateOperationInvalid ∧ next_operation > 0) then false
    else
      match prefs.kPrefsUpdateCheckResponseHash with
      | none => false
      | some interrupted_hash =>
        if ¬ (¬ interrupted_hash.isEmpty ∧ interrupted_hash = update_check_response_hash) then
          false
        else if (match prefs.kPrefsResumedUpdateFailures with
            | none => true
            | some resumed_update_failures =>
              decide (resumed_update_failures ≤ kMaxResumedUpdateFailures)) = false then false
        else
          match prefs.kPrefsUpdateStateNextDataOffset with
          | none => false
          | some next_data_offset =>
            if ¬ (next_data_offset ≥ 0) then false
            else
              match prefs.kPrefsUpdateStateSHA256Context with
              | none => false
              | some sha256_context =>
                if sha256_context.isEmpty then false
                else
                  match prefs.kPrefsManifestMetadataSize with
                  | none => false
                  | some manifest_metadata_size => decide (manifest_metadata_size > 0)

/-- `DeltaPerformer::ResetUpdateProgress`. -/
def ResetUpdateProgress (prefs : Prefs) (quick : Bool) : Bool × Prefs :=
  let r := prefs.setNextOperation kUpdateStateOperationInvalid
  if ¬ r.1 then (false, r.2)
  else if ¬ quick then
    let p := (r.2.setUpdateCheckResponseHash []).2
    let p := (p.setNextDataOffset (-1)).2
    let p := (p.setNextDataLength 0).2
    let p := (p.setSHA256Context []).2
    let p := (p.setSignedSHA256Context []).2
    let p := (p.setSignatureBlob []).2
    let p := (p.setManifestMetadataSize (-1)).2
    let p := (p.setResumedUpdateFailures 0).2
    (true, p)
  else (true, r.2)

/-- The operation with index `next_operation_num_`: a rootfs operation
below `num_rootfs_operations_`, else a kernel operation. -/
def currentOp (s : State) : InstallOperation :=
  if s.next_operation_num ≥ s.num_rootfs_operations then
    s.manifest.kernel_install_operations.getD
      (s.next_operation_num - s.num_rootfs_operations) InstallOperation.empty
  else s.manifest.install_operations.getD s.next_operation_num InstallOperation.empty

/-- `DeltaPerformer::CheckpointUpdateProgress`. -/
def CheckpointUpdateProgress (env : Env) (s : State) : Bool × State :=
  let s := { s with exit_blocked := true }
  if s.last_updated_buffer_offset ≠ s.buffer_offset then
    let s := { s with prefs := (ResetUpdateProgress s.prefs true).2 }
    let r := s.prefs.setSHA256Context (env.GetContext s.hash_calculator)
    if ¬ r.1 then (false, { s with prefs := r.2 })
    else
      let r := r.2.setNextDataOffset (toInt64 s.buffer_offset)
      if ¬ r.1 then (false, { s with prefs := r.2 })
      else
        let s := { s with prefs := r.2, last_updated_buffer_offset := s.buffer_offset }
        let r := s.prefs.setNextDataLength
          (if s.next_operation_num < s.num_total_operations then
            toInt64 (currentOp s).data_length else 0)
        if ¬ r.1 then (false, { s with prefs := r.2 })
        else
          let r := r.2.setNextOperation (toInt64 s.next_operation_num)
          (r.1, { s with prefs := r.2 })
  else
    let r := s.prefs.setNextOperation (toInt64 s.next_operation_num)
    (r.1, { s with prefs := r.2 })

/-- `DeltaPerformer::VerifySourcePartitions`. -/
def VerifySourcePartitions (s : State) : Bool :=
  let kernel_valid : Bool :=
    match s.manifest.old_kernel_info with
    | none => true
    | some info =>
      decide (¬ s.install_plan.kernel_hash.isEmpty ∧
        s.install_plan.kernel_hash.length = info.hash.length ∧
        s.install_plan.kernel_hash = info.hash)
  if kernel_valid = false then false
  else
    match s.manifest.old_rootfs_info with
    | none => true
    | some info =>
      decide (¬ s.install_plan.rootfs_hash.isEmpty ∧
        s.install_plan.rootfs_hash.length = info.hash.length ∧
        s.install_plan.rootfs_hash = info.hash)

/-- `DeltaPerformer::PrimeUpdateState`. -/
def PrimeUpdateState (env : Env) (s : State) : Bool × State :=
  let s := { s with block_size := s.manifest.block_size }
  match (match s.prefs.kPrefsUpdateStateNextOperation with
      | none => none
      | some next_operation =>
        if next_operation = kUpdateStateOperationInvalid ∨ next_operation ≤ 0 then none
        else some next_operation) with
  | none => (VerifySourcePartitions s, s)
  | some next_operation =>
    let s := { s with next_operation_num := ofInt64 next_operation }
    match s.prefs.kPrefsUpdateStateNextDataOffset with
    | none => (false, s)
    | some next_data_offset =>
      if ¬ (next_data_offset ≥ 0) then (false, s)
      else
        let s := { s with buffer_offset := ofInt64 next_data_offset }
        let s := { s with signed_hash_context :=
          (s.prefs.kPrefsUpdateStateSignedSHA256Context).getD s.signed_hash_context }
        let s := { s with signatures_message_data :=
          (s.prefs.kPrefsUpdateStateSignatureBlob).getD s.signatures_message_data }
        match s.prefs.kPrefsUpdateStateSHA256Context with
        | none => (false, s)
        | some hash_context =>
          match env.SetContext hash_context with
          | none => (false, s)
          | some fed =>
            let s := { s with hash_calculator := fed }
            match s.prefs.kPrefsManifestMetadataSize with
            | none => (false, s)
            | some manifest_metadata_size =>
              if ¬ (manifest_metadata_size > 0) then (false, s)
              else
                let s := { s with metadata_size := ofInt64 manifest_metadata_size }
                let resumed_update_failures :=
                  match s.prefs.kPrefsResumedUpdateFailures with
                  | some n => toInt64 (ofInt64 (n + 1))
                  | none => 1
                (true, { s with prefs :=
                  (s.prefs.setResumedUpdateFailures resumed_update_failures).2 })

/-! ## Metadata -/

/-- `kDeltaVersionSize`. -/
def kDeltaVersionSize : Nat := 8

/-- `kDeltaManifestSizeSize`. -/
def kDeltaManifestSizeSize : Nat := 8

/-- `kSupportedMajorPayloadVersion`. -/
def kSupportedMajorPayloadVersion : Nat := 1

/-- `kSupportedMinorPayloadVersion`. -/
def kSupportedMinorPayloadVersion : Nat := 1

/-- `kFullPayloadMinorVersion`. -/
def kFullPayloadMinorVersion : Nat := 0

/-- `DeltaPerformer::GetVersionOffset`. -/
def GetVersionOffset (env : Env) : Nat := env.kDeltaMagic.length

/-- `DeltaPerformer::GetManifestSizeOffset`. -/
def GetManifestSizeOffset (env : Env) : Nat := env.kDeltaMagic.length + kDeltaVersionSize

/-- `DeltaPerformer::GetManifestOffset`. -/
def GetManifestOffset (env : Env) : Nat := GetManifestSizeOffset env + kDeltaManifestSizeSize

/-- The value `be64toh` gives for the eight bytes at `off`, each byte taken
as an unsigned char. -/
def be64 (payload : Bytes) (off : Nat) : Nat :=
  ((payload.drop off).take 8).foldl (fun acc b => acc * 256 + b % 256) 0

/-- `DeltaPerformer::GetPublicKeyFromResponse`: the temporary key file, when
the key of the response is to be used. -/
def GetPublicKeyFromResponse (env : Env) (s : State) : Option String :=
  if env.IsOfficialBuild ∨ env.FileExists s.public_key_path ∨
      s.install_plan.public_key_rsa.isEmpty then none
  else env.DecodeAndStoreBase64String s.install_plan.public_key_rsa

/-- The variable `path_to_public_key` of `ValidateMetadataSignature` and
`VerifyPayload`. -/
def path_to_public_key (env : Env) (s : State) : String :=
  (GetPublicKeyFromResponse env s).getD s.public_key_path

/-- `DeltaPerformer::ValidateMetadataSignature`, on the bytes from
`metadata` on. -/
def ValidateMetadataSignature (env : Env) (s : State) (metadata : Bytes) (metadata_size : Nat) :
    ErrorCode :=
  if s.install_plan.metadata_signature.isEmpty then
    if s.install_plan.hash_checks_mandatory then
      ErrorCode.kDownloadMetadataSignatureMissingError
    else ErrorCode.kSuccess
  else
    match env.Base64Decode s.install_plan.metadata_signature with
    | none => ErrorCode.kDownloadMetadataSignatureError
    | some metadata_signature =>
      match env.GetRawHashFromSignature metadata_signature (path_to_public_key env s) with
      | none => ErrorCode.kDownloadMetadataSignatureError
      | some expected_metadata_hash =>
        match env.raw_hash (metadata.take metadata_size) with
        | none => ErrorCode.kDownloadMetadataSignatureVerificationError
        | some raw =>
          let calculated_metadata_hash := env.PadRSA2048SHA256Hash raw
          if calculated_metadata_hash.isEmpty then
            ErrorCode.kDownloadMetadataSignatureVerificationError
          else if calculated_metadata_hash ≠ expected_metadata_hash then
            ErrorCode.kDownloadMetadataSignatureMismatch
          else ErrorCode.kSuccess

/-- `DeltaPerformer::ValidateManifest`. -/
def ValidateManifest (s : State) : ErrorCode :=
  if s.install_plan.is_full_update then
    if s.manifest.old_kernel_info.isSome ∨ s.manifest.old_rootfs_info.isSome then
      ErrorCode.kPayloadMismatchedType
    else if s.manifest.minor_version ≠ kFullPayloadMinorVersion then
      ErrorCode.kUnsupportedMinorPayloadVersion
    else ErrorCode.kSuccess
  else if s.manifest.minor_version ≠ kSupportedMinorPayloadVersion then
    ErrorCode.kUnsupportedMinorPayloadVersion
  else ErrorCode.kSuccess

/-- The header branch of `ParsePayloadMetadata` (taken when the manifest
size is not known yet): an early return, or the state with
`metadata_size_` set and the manifest size read from the header. -/
def ParseHeader (env : Env) (s : State) (payload : Bytes) :
    Sum (MetadataParseResult × ErrorCode × State) (State × Nat) :=
  let manifest_offset := GetManifestOffset env
  if payload.length < manifest_offset then
    Sum.inl (MetadataParseResult.kMetadataParseInsufficientData, ErrorCode.kSuccess, s)
  else if payload.take env.kDeltaMagic.length ≠ env.kDeltaMagic then
    Sum.inl (MetadataParseResult.kMetadataParseError,
      ErrorCode.kDownloadInvalidMetadataMagicString, s)
  else
    let major_payload_version := be64 payload (GetVersionOffset env)
    if major_payload_version ≠ kSupportedMajorPayloadVersion then
      Sum.inl (MetadataParseResult.kMetadataParseError,
        ErrorCode.kUnsupportedMajorPayloadVersion, s)
    else
      let manifest_size := be64 payload (GetManifestSizeOffset env)
      let s := { s with metadata_size := (manifest_offset + manifest_size) % u64 }
      if s.install_plan.hash_checks_mandatory ∧
          s.install_plan.metadata_size ≠ s.metadata_size then
        Sum.inl (MetadataParseResult.kMetadataParseError,
          ErrorCode.kDownloadInvalidMetadataSize, s)
      else Sum.inr (s, manifest_size)

/-- The part of `ParsePayloadMetadata` after the header branch. -/
def ParseBody (env : Env) (s : State) (manifest_size : Nat) (payload : Bytes) :
    MetadataParseResult × ErrorCode × State :=
  if payload.length < s.metadata_size then
    (MetadataParseResult.kMetadataParseInsufficientData, ErrorCode.kSuccess, s)
  else
    let error := ValidateMetadataSignature env s payload s.metadata_size
    if error ≠ ErrorCode.kSuccess ∧ s.install_plan.hash_checks_mandatory then
      (MetadataParseResult.kMetadataParseError, error, s)
    else
      match env.ParseFromArray (payload.drop (GetManifestOffset env)) manifest_size with
      | none =>
        (MetadataParseResult.kMetadataParseError, ErrorCode.kDownloadManifestParseError, s)
      | some m =>
        (MetadataParseResult.kMetadataParseSuccess, ErrorCode.kSuccess,
          { s with manifest := m, manifest_parsed := true })

/-- `DeltaPerformer::ParsePayloadMetadata`: the result, `*error` and the
state afterwards. -/
def ParsePayloadMetadata (env : Env) (s : State) (payload : Bytes) :
    MetadataParseResult × ErrorCode × State :=
  let manifest_offset := GetManifestOffset env
  let manifest_size :=
    if s.metadata_size ≠ 0 then (s.metadata_size + u64 - manifest_offset % u64) % u64 else 0
  if manifest_size = 0 then
    match ParseHeader env s payload with
    | Sum.inl r => r
    | Sum.inr (s, manifest_size) => ParseBody env s manifest_size payload
  else ParseBody env s manifest_size payload

/-- `DeltaPerformer::ValidateOperationHash`. -/
def ValidateOperationHash (env : Env) (s : State) (operation : InstallOperation) : ErrorCode :=
  if operation.data_sha256_hash.length = 0 then
    if operation.data_length = 0 then ErrorCode.kSuccess
    else if s.manifest.signatures_offset.getD 0 ≠ 0 ∧
        s.manifest.signatures_offset.getD 0 = operation.data_offset then ErrorCode.kSuccess
    else if s.install_plan.hash_checks_mandatory then
      ErrorCode.kDownloadOperationHashMissingError
    else ErrorCode.kSuccess
  else
    let expected_op_hash := operation.data_sha256_hash
    match env.raw_hash (s.buffer.take operation.data_length) with
    | none => ErrorCode.kDownloadOperationHashVerificationError
    | some calculated_op_hash =>
      if calculated_op_hash ≠ expected_op_hash then ErrorCode.kDownloadOperationHashMismatch
      else ErrorCode.kSuccess

/-- `DeltaPerformer::CanPerformInstallOperation`. -/
def CanPerformInstallOperation (s : State) (operation : InstallOperation) : Bool :=
  if operation.type = OpType.MOVE then true
  else if operation.data_offset < s.buffer_offset then false
  else decide ((operation.data_offset + operation.data_length) % u64 ≤
    (s.buffer_offset + s.buffer.length) % u64)

/-! ## Operation appliers -/

/-- The device behind `fd`, chosen by `is_kernel_partition ? kernel_fd_ : fd_`. -/
def State.device (s : State) (is_kernel_partition : Bool) : Device :=
  if is_kernel_partition then s.kernel_fd else s.fd

/-- The state after the device behind the chosen descriptor became `d`. -/
def State.setDevice (s : State) (is_kernel_partition : Bool) (d : Device) : State :=
  if is_kernel_partition then { s with kernel_fd := d } else { s with fd := d }

/-- `DeltaPerformer::ExtractSignatureMessage`. -/
def ExtractSignatureMessage (env : Env) (s : State) (operation : InstallOperation) :
    Bool × State :=
  if operation.type ≠ OpType.REPLACE ∨ s.manifest.signatures_offset.isNone ∨
      s.manifest.signatures_offset.getD 0 ≠ operation.data_offset then (false, s)
  else if ¬ (s.manifest.signatures_size.isSome ∧
      s.manifest.signatures_size.getD 0 = operation.data_length) then (false, s)
  else if ¬ s.signatures_message_data.isEmpty then (false, s)
  else if ¬ (s.buffer_offset = s.manifest.signatures_offset.getD 0) then (false, s)
  else if ¬ (s.buffer.length ≥ s.manifest.signatures_size.getD 0) then (false, s)
  else
    let blob := s.buffer.take (s.manifest.signatures_size.getD 0)
    let s := { s with signatures_message_data := blob }
    let s := { s with prefs := (s.prefs.setSignatureBlob s.signatures_message_data).2 }
    let s := { s with signed_hash_context := env.GetContext s.hash_calculator }
    let s := { s with prefs := (s.prefs.setSignedSHA256Context s.signed_hash_context).2 }
    (true, s)

/-- `DeltaPerformer::PerformReplaceOperation`.  The writer is the
zero-padding writer over the direct writer, behind the decompressor for
`REPLACE_BZ`. -/
def PerformReplaceOperation (env : Env) (s : State) (operation : InstallOperation)
    (is_kernel_partition : Bool) : Bool × State :=
  if ¬ (s.buffer_offset = operation.data_offset) then (false, s)
  else if ¬ (s.buffer.length ≥ operation.data_length) then (false, s)
  else
    let s := (ExtractSignatureMessage env s operation).2
    let blob := s.buffer.take operation.data_length
    let out : Option Bytes :=
      if operation.type = OpType.REPLACE then some blob
      else if operation.type = OpType.REPLACE_BZ then env.bunzip blob
      else none
    match out with
    | none => (false, s)
    | some data =>
      let r := writeExtents (s.device is_kernel_partition) s.block_size operation.dst_extents
        (data ++ zeroPad s.block_size data.length)
      let s := s.setDevice is_kernel_partition r.2
      if ¬ r.1 then (false, s) else (true, DiscardBuffer s true)

/-- The sum of `num_blocks` over the extents, in `uint64_t`. -/
def totalBlocks (es : List Extent) : Nat :=
  es.foldl (fun acc e => (acc + e.num_blocks) % u64) 0

/-- The read loop of `PerformMoveOperation`: the bytes of the source
extents in order, zeros for a sparse hole; `none` when a read fails or
comes back short. -/
def moveRead (d : Device) (block_size : Nat) : List Extent → Option Bytes
  | [] => some []
  | extent :: rest =>
    let bytes := (extent.num_blocks * block_size) % u64
    let part : Option Bytes :=
      if extent.start_block = kSparseHole then some (List.replicate bytes 0)
      else d.pread ((extent.start_block * block_size) % u64) bytes
    match part with
    | none => none
    | some b =>
      match moveRead d block_size rest with
      | none => none
      | some bs => some (b ++ bs)

/-- The write loop of `PerformMoveOperation`, from position `bytes_written`
of `buf`: a sparse-hole extent is skipped. -/
def moveWrite (d : Device) (block_size : Nat) (buf : Bytes) :
    List Extent → Nat → Bool × Device
  | [], _ => (true, d)
  | extent :: rest, bytes_written =>
    let bytes := (extent.num_blocks * block_size) % u64
    if extent.start_block = kSparseHole then
      moveWrite d block_size buf rest (bytes_written + bytes)
    else
      let r := d.pwrite ((buf.drop bytes_written).take bytes)
        ((extent.start_block * block_size) % u64)
      if ¬ r.1 then (false, r.2) else moveWrite r.2 block_size buf rest (bytes_written + bytes)

/-- The step shared by `PerformMoveOperation` and `PerformBsdiffOperation`
right before the destination is written: for a non-idempotent operation,
block the exit and reset the progress (quick). -/
def markNonIdempotent (s : State) (operation : InstallOperation) : State :=
  if ¬ IsIdempotentOperation operation then
    { s with exit_blocked := true, prefs := (ResetUpdateProgress s.prefs true).2 }
  else s

/-- `DeltaPerformer::PerformMoveOperation`.  The vector `buf` has
`blocks_to_write * block_size_` bytes, zero-initialised, and holds the
bytes read from its start on. -/
def PerformMoveOperation (s : State) (operation : InstallOperation)
    (is_kernel_partition : Bool) : Bool × State :=
  let blocks_to_write := totalBlocks operation.dst_extents
  let buf_size := (blocks_to_write * s.block_size) % u64
  match moveRead (s.device is_kernel_partition) s.block_size operation.src_extents with
  | none => (false, s)
  | some read =>
    let buf := read ++ List.replicate (buf_size - read.length) 0
    let s := markNonIdempotent s operation
    let r := moveWrite (s.device is_kernel_partition) s.block_size buf operation.dst_extents 0
    (r.1, s.setDevice is_kernel_partition r.2)

/-- The loop of `ExtentsToBsdiffPositionsString`: the string built so far
and the length covered so far. -/
def positionsLoop (block_size full_length : Nat) :
    List Extent → String → Nat → String × Nat
  | [], ret, length => (ret, length)
  | extent :: rest, ret, length =>
    let start : Int := toInt64 extent.start_block
    let this_length := min ((full_length % u64 + u64 - length % u64) % u64)
      ((extent.num_blocks * block_size) % u64)
    let start : Int :=
      if start = toInt64 kSparseHole then -1 else toInt64 (ofInt64 start * block_size)
    positionsLoop block_size full_length rest
      (ret ++ toString start ++ ":" ++ toString this_length ++ ",")
      ((length + this_length) % u64)

/-- `DeltaPerformer::ExtentsToBsdiffPositionsString`: the positions string,
or `none` for the return value `false`. -/
def ExtentsToBsdiffPositionsString (extents : List Extent) (block_size full_length : Nat) :
    Option String :=
  let r := positionsLoop block_size full_length extents "" 0
  if ¬ (r.2 = full_length) then none
  else if ¬ r.1.isEmpty then some (r.1.dropRight 1)
  else some r.1

/-- The part of `PerformBsdiffOperation` that writes the destination: the
bspatch subprocess on the target device and the zero fill of the rest of
the last block. -/
def bsdiffApply (env : Env) (s : State) (operation : InstallOperation)
    (is_kernel_partition : Bool) (patch : Bytes) (input_positions output_positions : String) :
    Bool × State :=
  match env.bspatch (s.device is_kernel_partition) patch input_positions output_positions with
  | none => (false, s)
  | some (return_code, d) =>
    let s := s.setDevice is_kernel_partition d
    if ¬ (return_code = 0) then (false, s)
    else if operation.dst_length % s.block_size ≠ 0 then
      let last_extent := operation.dst_extents.getLastD ⟨0, 0⟩
      let end_byte :=
        (((last_extent.start_block + last_extent.num_blocks) % u64) * s.block_size) % u64
      let begin_byte :=
        (end_byte + u64 -
          ((s.block_size + u64 - operation.dst_length % s.block_size) % u64)) % u64
      let zeros := List.replicate ((end_byte + u64 - begin_byte) % u64) 0
      let r := (s.device is_kernel_partition).pwrite zeros begin_byte
      (r.1, s.setDevice is_kernel_partition r.2)
    else (true, s)

/-- `DeltaPerformer::PerformBsdiffOperation`. -/
def PerformBsdiffOperation (env : Env) (s : State) (operation : InstallOperation)
    (is_kernel_partition : Bool) : Bool × State :=
  if ¬ (s.buffer_offset = operation.data_offset) then (false, s)
  else if ¬ (s.buffer.length ≥ operation.data_length) then (false, s)
  else
    match ExtentsToBsdiffPositionsString operation.src_extents s.block_size
        operation.src_length with
    | none => (false, s)
    | some input_positions =>
      match ExtentsToBsdiffPositionsString operation.dst_extents s.block_size
          operation.dst_length with
      | none => (false, s)
      | some output_positions =>
        if ¬ env.tempFileOk then (false, s)
        else
          let patch := s.buffer.take operation.data_length
          let s := DiscardBuffer s true
          let s := markNonIdempotent s operation
          bsdiffApply env s operation is_kernel_partition patch input_positions
            output_positions

/-! ## Write -/

/-- The outcome of one pass through the body of a loop of `Write`: a
`return`, or the state and the input left for the next pass. -/
inductive LoopStep where
  | ret (r : WriteResult)
  | next (s : State) (bytes : Bytes)

/-- The steps of `Write` between `ValidateManifest` and `PrimeUpdateState`:
the manifest becomes valid, the buffer is discarded into the hash without
advancing the offset, and the metadata size is stored. -/
def metadataPrepare (s : State) : State :=
  let s := { s with manifest_valid := true }
  let s := DiscardBuffer s false
  { s with prefs := (s.prefs.setManifestMetadataSize (toInt64 s.metadata_size)).2 }

/-- The part of the body of the loop `while (!manifest_valid_)` of `Write`
after `ParsePayloadMetadata` returned success. -/
def metadataFinish (env : Env) (s : State) (rest : Bytes) : LoopStep :=
  let error := ValidateManifest s
  if error ≠ ErrorCode.kSuccess then LoopStep.ret ⟨false, error, s⟩
  else
    let p := PrimeUpdateState env (metadataPrepare s)
    if ¬ p.1 then LoopStep.ret ⟨false, ErrorCode.kDownloadStateInitializationError, p.2⟩
    else
      let s := p.2
      let s := { s with num_rootfs_operations := s.manifest.install_operations.length }
      let s := { s with num_total_operations :=
        s.num_rootfs_operations + s.manifest.kernel_install_operations.length }
      LoopStep.next s rest

/-- The body of the loop `while (!manifest_valid_)` of `Write` after its
call of `CopyDataToBuffer`, with the input `rest` that the call left. -/
def metadataBody (env : Env) (do_read_header : Bool) (s : State) (rest : Bytes) : LoopStep :=
  let r := ParsePayloadMetadata env s s.buffer
  let s := r.2.2
  if r.1 = MetadataParseResult.kMetadataParseError then LoopStep.ret ⟨false, r.2.1, s⟩
  else if r.1 = MetadataParseResult.kMetadataParseInsufficientData then
    if do_read_header ∧ s.metadata_size ≠ 0 then LoopStep.next s rest
    else LoopStep.ret ⟨true, r.2.1, s⟩
  else metadataFinish env s rest

/-- The body of the loop `while (!manifest_valid_)` of `Write`. -/
def metadataStep (env : Env) (s : State) (bytes : Bytes) : LoopStep :=
  let do_read_header : Bool := decide (s.metadata_size = 0)
  let c := CopyDataToBuffer s bytes
    (if do_read_header then GetManifestOffset env else s.metadata_size)
  metadataBody env do_read_header c.1 c.2

/-- The loop `while (!manifest_valid_)` of `Write`, at most `fuel` passes:
`none` when the passes are used up before the loop ends. -/
def metadataLoop (env : Env) : Nat → State → Bytes → Option LoopStep
  | fuel, s, bytes =>
    if s.manifest_valid then some (LoopStep.next s bytes)
    else
      match fuel with
      | 0 => none
      | n + 1 =>
        match metadataStep env s bytes with
        | LoopStep.ret r => some (LoopStep.ret r)
        | LoopStep.next s b => metadataLoop env n s b

/-- The dispatch on the operation type in `Write`, with `HandleOpResult`
applied: the result, `*error` and the state. -/
def performOperation (env : Env) (s : State) (op : InstallOperation)
    (is_kernel_partition : Bool) (error : ErrorCode) : (Bool × ErrorCode) × State :=
  if op.type = OpType.REPLACE ∨ op.type = OpType.REPLACE_BZ then
    let r := PerformReplaceOperation env s op is_kernel_partition
    (HandleOpResult r.1 error, r.2)
  else if op.type = OpType.MOVE then
    let r := PerformMoveOperation s op is_kernel_partition
    (HandleOpResult r.1 error, r.2)
  else if op.type = OpType.BSDIFF then
    let r := PerformBsdiffOperation env s op is_kernel_partition
    (HandleOpResult r.1 error, r.2)
  else (HandleOpResult false error, s)

/-- The body of the loop `while (next_operation_num_ < num_total_operations_)`
of `Write` after its call of `CopyDataToBuffer`, with the input `rest` that
the call left.  The exit unblocker declared in the body unblocks the exit
whenever the pass is left after its declaration. -/
def operationBody (env : Env) (s : State) (op : InstallOperation)
    (is_kernel_partition : Bool) (rest : Bytes) : LoopStep :=
  if ¬ CanPerformInstallOperation s op then LoopStep.ret ⟨true, ErrorCode.kSuccess, s⟩
  else
    let error :=
      if ¬ s.install_plan.metadata_signature.isEmpty then ValidateOperationHash env s op
      else ErrorCode.kSuccess
    if error ≠ ErrorCode.kSuccess ∧ s.install_plan.hash_checks_mandatory then
      LoopStep.ret ⟨false, error, s⟩
    else
      let r := performOperation env s op is_kernel_partition ErrorCode.kSuccess
      if ¬ r.1.1 then LoopStep.ret ⟨false, r.1.2, { r.2 with exit_blocked := false }⟩
      else
        let s := { r.2 with next_operation_num := r.2.next_operation_num + 1 }
        let s := (CheckpointUpdateProgress env s).2
        LoopStep.next { s with exit_blocked := false } rest

/-- The body of the loop `while (next_operation_num_ < num_total_operations_)`
of `Write`. -/
def operationStep (env : Env) (s : State) (bytes : Bytes) : LoopStep :=
  match env.ShouldCancel with
  | some e => LoopStep.ret ⟨false, e, s⟩
  | none =>
    let is_kernel_partition : Bool := decide (s.next_operation_num ≥ s.num_rootfs_operations)
    let op := currentOp s
    let c := CopyDataToBuffer s bytes op.data_length
    operationBody env c.1 op is_kernel_partition c.2

/-- The loop `while (next_operation_num_ < num_total_operations_)` of
`Write` and the `return true` after it, at most `fuel` passes: `none` when
the passes are used up before the loop ends. -/
def operationsLoop (env : Env) : Nat → State → Bytes → Option WriteResult
  | fuel, s, bytes =>
    if ¬ (s.next_operation_num < s.num_total_operations) then
      some ⟨true, ErrorCode.kSuccess, s⟩
    else
      match fuel with
      | 0 => none
      | n + 1 =>
        match operationStep env s bytes with
        | LoopStep.ret r => some r
        | LoopStep.next s b => operationsLoop env n s b

/-- `DeltaPerformer::Write` on the bytes `bytes`: the return value,
`*error` and the state.  The metadata loop gets two passes and the
operations loop one pass per operation that is left; `none` would mean a
loop needs more. -/
def Write (env : Env) (s : State) (bytes : Bytes) : Option WriteResult :=
  match metadataLoop env 2 s bytes with
  | none => none
  | some (LoopStep.ret r) => some r
  | some (LoopStep.next s b) =>
    operationsLoop env (s.num_total_operations - s.next_operation_num) s b

/-! ## Finalization -/

/-- `DeltaPerformer::Close`, both descriptors closing without error: the
return value and the state, with the hash finalized. -/
def Close (s : State) : Int × State :=
  (if ¬ s.buffer.isEmpty then -1 else 0, { s with hash_finalized := true })

/-- `DeltaPerformer::VerifyPayload`. -/
def VerifyPayload (env : Env) (s : State) (update_check_response_hash : Bytes)
    (update_check_response_size : Nat) : ErrorCode :=
  let key := path_to_public_key env s
  if ¬ (update_check_response_size = (s.metadata_size + s.buffer_offset) % u64) then
    ErrorCode.kPayloadSizeMismatchError
  else
    let payload_hash_data : Bytes := if s.hash_finalized then env.hash s.hash_calculator else []
    if payload_hash_data.isEmpty then ErrorCode.kDownloadPayloadVerificationError
    else if ¬ (payload_hash_data = update_check_response_hash) then
      ErrorCode.kPayloadHashMismatchError
    else if ¬ env.FileExists key then ErrorCode.kSuccess
    else if s.signatures_message_data.isEmpty then ErrorCode.kSignedDeltaPayloadExpectedError
    else
      match env.VerifySignature s.signatures_message_data key with
      | none => ErrorCode.kDownloadPayloadPubKeyVerificationError
      | some signed_hash_data =>
        match env.SetContext s.signed_hash_context with
        | none => ErrorCode.kDownloadPayloadPubKeyVerificationError
        | some fed =>
          match env.raw_hash fed with
          | none => ErrorCode.kDownloadPayloadPubKeyVerificationError
          | some raw =>
            let hash_data := env.PadRSA2048SHA256Hash raw
            if hash_data.isEmpty then ErrorCode.kDownloadPayloadPubKeyVerificationError
            else if hash_data ≠ signed_hash_data then
              ErrorCode.kDownloadPayloadPubKeyVerificationError
            else ErrorCode.kSuccess

/-! ## Reading the device back -/

/-- The bytes of the device at `[off, off + count)`. -/
def Device.range (d : Device) (off count : Nat) : Bytes :=
  (List.range count).map (fun i => d.data (off + i))

/-- The bytes of the device in the byte ranges
`[start_block * B, (start_block + num_blocks) * B)` of the extents, taken
in order. -/
def Device.extentBytes (d : Device) (B : Nat) : List Extent → Bytes
  | [] => []
  | e :: es => d.range (e.start_block * B) (e.num_blocks * B) ++ d.extentBytes B es

/-- Byte offset `i` lies in the byte range of the extent `e`. -/
def Extent.covers (e : Extent) (B i : Nat) : Prop :=
  e.start_block * B ≤ i ∧ i < (e.start_block + e.num_blocks) * B

/-- The total byte length of the extents. -/
def extentsLength (B : Nat) : List Extent → Nat
  | [] => 0
  | e :: es => e.num_blocks * B + extentsLength B es

/-- No byte offset lies in the ranges of two of the extents. -/
def extentsDisjoint (B : Nat) : List Extent → Prop
  | [] => True
  | e :: es => (∀ e2 ∈ es, ∀ i, e.covers B i → ¬ e2.covers B i) ∧ extentsDisjoint B es

/-! ## Example inputs -/

/-- A device of `n` bytes, the byte at offset `i` being `i % 251`. -/
def exDevice (n : Nat) : Device := { size := n, data := fun i => i % 251 }

/-- A manifest with one rootfs operation list and no kernel operation. -/
def exManifest (ops : List InstallOperation) : Manifest :=
  { Manifest.empty with install_operations := ops, minor_version := 1 }

/-- Collaborators for the examples: the magic is "CrAU", every manifest
parses to `m`, contexts are the fed bytes behind a tag byte, hashes are
the bytes themselves, no key file exists, bspatch leaves the device as it
is and exits with 0. -/
def exEnv (m : Manifest) : Env :=
  { kDeltaMagic := [67, 114, 65, 85],
    ParseFromArray := fun _ _ => some m,
    ShouldCancel := none,
    GetContext := fun fed => 1 :: fed,
    SetContext := fun ctx => match ctx with
      | 1 :: fed => some fed
      | _ => none,
    raw_hash := fun b => some b,
    hash := fun b => 1 :: b,
    Base64Decode := fun b => some b,
    IsOfficialBuild := true,
    FileExists := fun _ => false,
    DecodeAndStoreBase64String := fun _ => none,
    GetRawHashFromSignature := fun b _ => some b,
    VerifySignature := fun b _ => some b,
    PadRSA2048SHA256Hash := fun b => b,
    bunzip := fun b => some b,
    tempFileOk := true,
    bspatch := fun d _ _ _ => some (0, d) }

/-- An install plan for a delta update with optional hash checks and no
metadata signature. -/
def exPlan : InstallPlan :=
  { is_full_update := false, payload_size := 0, payload_hash := [], metadata_size := 0,
    metadata_signature := [], kernel_hash := [], rootfs_hash := [],
    hash_checks_mandatory := false, public_key_rsa := [] }

/-- The header of a payload with an empty manifest: the magic, version 1
and manifest length 0. -/
def exHeader : Bytes := [67, 114, 65, 85, 0, 0, 0, 0, 0, 0, 0, 1, 0, 0, 0, 0, 0, 0, 0, 0]

/-- A fresh applier on an empty store and two example devices of 64 bytes. -/
def exFresh : State := State.fresh Prefs.empty exPlan "key" (exDevice 64) (exDevice 64)

/-- An example store that `CanResumeUpdate` accepts for the response hash
`[7]`. -/
def exResumablePrefs : Prefs :=
  { Prefs.empty with
    kPrefsUpdateStateNextOperation := some 3,
    kPrefsUpdateStateNextDataOffset := some 100,
    kPrefsUpdateStateNextDataLength := some 10,
    kPrefsUpdateStateSHA256Context := some [1, 2],
    kPrefsManifestMetadataSize := some 20,
    kPrefsUpdateCheckResponseHash := some [7] }

/-- An example `REPLACE` operation. -/
def exReplace (data_offset data_length : Nat) (src dst : List Extent) : InstallOperation :=
  { InstallOperation.empty with
    type := OpType.REPLACE, data_offset := data_offset, data_length := data_length,
    src_extents := src, dst_extents := dst }

/-- An example `MOVE` operation. -/
def exMove (data_length : Nat) (src dst : List Extent) : InstallOperation :=
  { InstallOperation.empty with
    type := OpType.MOVE, data_length := data_length, src_extents := src, dst_extents := dst }

/-- An example manifest with block size 4: a Move that declares five data
bytes, then a Replace of three bytes at data offset 2. -/
def exGateManifest : Manifest :=
  { exManifest [exMove 5 [] [], exReplace 2 3 [] [⟨0, 1⟩]] with block_size := 4 }

/-- An applier that has a valid manifest with the single operation
`exReplace 2 3`, buffer offset 0 and five buffered bytes. -/
def exGateState : State :=
  { exFresh with
    manifest_valid := true, manifest := exManifest [exReplace 2 3 [] [⟨0, 1⟩]],
    num_rootfs_operations := 1, num_total_operations := 1, block_size := 4,
    buffer := [1, 2, 3, 4, 5] }

/-- The return value, the error code and the operation counter of a result
of `Write`. -/
def WriteResult.summary (r : WriteResult) : Bool × ErrorCode × Nat :=
  (r.ok, r.error, r.state.next_operation_num)

/-- An applier with a valid manifest, block size 4, four buffered bytes
and a store that `CanResumeUpdate` accepts for the response hash `[7]`. -/
def exResumableState : State :=
  { exFresh with
    prefs := exResumablePrefs, manifest_valid := true, block_size := 4,
    manifest := exManifest [exReplace 0 4 [⟨0, 1⟩] [⟨0, 1⟩]],
    num_rootfs_operations := 1, num_total_operations := 1, buffer := [9, 9, 9, 9] }

/-- An applier with block size 4 and the eight buffered bytes 1..8, about
to run a Replace whose two destination extents are both block 0. -/
def exOverlapState : State :=
  { exFresh with
    manifest_valid := true, block_size := 4,
    manifest := exManifest [exReplace 0 8 [] [⟨0, 1⟩, ⟨0, 1⟩]],
    num_rootfs_operations := 1, num_total_operations := 1,
    buffer := [1, 2, 3, 4, 5, 6, 7, 8] }

/-- An applier with block size 4096 on a rootfs device of 65536 bytes, with
a buffered blob of 16384 bytes of value 7. -/
def exReplaceState : State :=
  { exFresh with
    fd := exDevice 65536, manifest_valid := true, block_size := 4096,
    manifest := exManifest [exReplace 0 16384 [] [⟨10, 4⟩]],
    num_rootfs_operations := 1, num_total_operations := 1,
    buffer := List.replicate 16384 7 }

/-- A sequence of calls `Write(c1)`, ..., `Write(cn)` on one applier, which
stops after the first call that returns `false`: the result of the last
call made (success on the unchanged state when there is no call). -/
def WriteChunks (env : Env) : State → List Bytes → Option WriteResult
  | s, [] => some ⟨true, ErrorCode.kSuccess, s⟩
  | s, c :: cs =>
    match Write env s c with
    | none => none
    | some r => if r.ok then WriteChunks env r.state cs else some r

/-- The manifests on which `Write` does not depend on the chunk boundaries:
a Move carries no data and no operation's data range wraps around
`2 ^ 64`. -/
def ManifestWF (m : Manifest) : Prop :=
  ∀ op ∈ m.install_operations ++ m.kernel_install_operations,
    (op.type = OpType.MOVE → op.data_length = 0) ∧ op.data_offset + op.data_length < u64

/-- An example manifest with block size 4: a Move that declares two data
bytes, then a Replace of one byte at data offset 0 into block 0. -/
def exChunkManifest : Manifest :=
  { exManifest [exMove 2 [] [], exReplace 0 1 [] [⟨0, 1⟩]] with block_size := 4 }

/-- The fields of a result of `Write` that can be compared by evaluation. -/
structure Outcome where
  ok : Bool
  error : ErrorCode
  manifest_valid : Bool
  next_operation_num : Nat
  buffer_offset : Nat
  buffer : Bytes
  hash_calculator : Bytes
  deriving DecidableEq, Repr

/-- The fields of a result of `Write` that the chunk-independence claim
compares, the devices apart. -/
def WriteResult.outcome (r : WriteResult) : Outcome :=
  { ok := r.ok, error := r.error, manifest_valid := r.state.manifest_valid,
    next_operation_num := r.state.next_operation_num, buffer_offset := r.state.buffer_offset,
    buffer := r.state.buffer, hash_calculator := r.state.hash_calculator }

/-- The number of bytes `CopyDataToBuffer` may still copy for the limit
`max`: `max - buffer_.size()` in `size_t`. -/
def room (s : State) (max : Nat) : Nat := (max % u64 + u64 - s.buffer.length % u64) % u64

/-- A pass of a loop of `Write` that got `b` as further input behind its
own. -/
def LoopStep.addRest : LoopStep → Bytes → LoopStep
  | LoopStep.ret r, _ => LoopStep.ret r
  | LoopStep.next s x, b => LoopStep.next s (x ++ b)

/-- The limit that the metadata loop passes to `CopyDataToBuffer`: the
header size while the metadata size is unknown, then the metadata size. -/
def metadataLimit (env : Env) (s : State) : Nat :=
  if s.metadata_size = 0 then GetManifestOffset env else s.metadata_size

/-- The fields of the state that no pass of the operations loop changes,
together with the operation counter. -/
structure Static where
  manifest : Manifest
  manifest_valid : Bool
  manifest_parsed : Bool
  num_rootfs_operations : Nat
  num_total_operations : Nat
  next_operation_num : Nat
  install_plan : InstallPlan
  metadata_size : Nat
  block_size : Nat
  public_key_path : String
  hash_finalized : Bool

/-- The fields of `s` listed in `Static`. -/
def State.static (s : State) : Static :=
  { manifest := s.manifest, manifest_valid := s.manifest_valid,
    manifest_parsed := s.manifest_parsed, num_rootfs_operations := s.num_rootfs_operations,
    num_total_operations := s.num_total_operations, next_operation_num := s.next_operation_num,
    install_plan := s.install_plan, metadata_size := s.metadata_size,
    block_size := s.block_size, public_key_path := s.public_key_path,
    hash_finalized := s.hash_finalized }

/-- The states on which `Write` does not depend on the chunk boundaries:
before the manifest is valid, the buffer is within the header size while
the metadata size is unknown and within the metadata size afterwards; with
a valid manifest, the manifest is `ManifestWF`, the operation counts are
those of the manifest and the buffer is within the data length of the
operation that is next. -/
def Inv (env : Env) (s : State) : Prop :=
  (s.manifest_valid = false →
    (s.metadata_size = 0 ∧ s.buffer.length ≤ GetManifestOffset env) ∨
    (GetManifestOffset env < s.metadata_size ∧ s.metadata_size < u64 ∧
      s.buffer.length ≤ s.metadata_size)) ∧
  (s.manifest_valid = true →
    ManifestWF s.manifest ∧
    s.num_rootfs_operations = s.manifest.install_operations.length ∧
    s.num_total_operations =
      s.num_rootfs_operations + s.manifest.kernel_install_operations.length ∧
    (s.next_operation_num < s.num_total_operations →
      s.buffer.length ≤ (currentOp s).data_length))

/-- The pass that `Write` makes next on the state `s`: an operations pass
once the manifest is valid, a metadata pass before. -/
def writeStep (env : Env) (s : State) (x : Bytes) : LoopStep :=
  if s.manifest_valid then operationStep env s x else metadataStep env s x

/-- The limit that the pass made next passes to `CopyDataToBuffer`. -/
def writeLimit (env : Env) (s : State) : Nat :=
  if s.manifest_valid then (currentOp s).data_length else metadataLimit env s

/-- A further call `Write(b)` after a call of `Write` with the result `r`,
made only if that call returned `true`. -/
def WriteThen (env : Env) (r : Option WriteResult) (b : Bytes) : Option WriteResult :=
  match r with
  | none => none
  | some r => if r.ok then Write env r.state b else some r

/-- An example manifest that is `ManifestWF`, with block size 4: a Replace
of two bytes into block 0, a Move of block 0 to block 1, and a Replace of
one byte into block 2. -/
def exWFManifest : Manifest :=
  { exManifest [exReplace 0 2 [] [⟨0, 1⟩], exMove 0 [⟨0, 1⟩] [⟨1, 1⟩],
      exReplace 2 1 [] [⟨2, 1⟩]] with block_size := 4 }

/-- The hash accumulator, the buffer and the buffer offset of a state. -/
def State.consumed (s : State) : Bytes × Bytes × Nat :=
  (s.hash_calculator, s.buffer, s.buffer_offset)

/-- The hash accumulator, the buffer and the buffer offset after the
buffer of `s` was discarded with the offset advanced. -/
def State.discarded (s : State) : Bytes × Bytes × Nat :=
  (s.hash_calculator ++ s.buffer, [], (s.buffer_offset + s.buffer.length) % u64)

/-- A store on which `PrimeUpdateState` starts a new update: the
next-operation key is absent or not positive. -/
def freshPath (p : Prefs) : Prop :=
  ∀ n, p.kPrefsUpdateStateNextOperation = some n → n ≤ 0

/-- An applier on which every further `Write` returns at once: every
operation is applied, or the data gate is closed with the buffer at its
limit. -/
def Frozen (s : State) : Prop :=
  s.manifest_valid = true ∧
  (¬ s.next_operation_num < s.num_total_operations ∨
    (room s (currentOp s).data_length = 0 ∧
      CanPerformInstallOperation s (currentOp s) = false))

/-- The hash accumulator invariant on the payload `P`: the bytes hashed
followed by the bytes buffered are a prefix of `P`; nothing is hashed
before the manifest is valid, and `metadata_size_ + buffer_offset_` bytes
afterwards. -/
def HashInv (P : Bytes) (s : State) : Prop :=
  (∃ t, s.hash_calculator ++ s.buffer ++ t = P) ∧
  (s.manifest_valid = false → s.hash_calculator = []) ∧
  (s.manifest_valid = true →
    s.hash_calculator.length = s.metadata_size + s.buffer_offset)

/-- The invariant of a fresh update that goes on: `HashInv`, and before the
manifest is valid the buffer offset is 0, the store starts a new update
and the buffer is within the limit of the metadata pass. -/
def RunInv (env : Env) (P : Bytes) (s : State) : Prop :=
  HashInv P s ∧
  (s.manifest_valid = false →
    s.buffer_offset = 0 ∧ freshPath s.prefs ∧
    ((s.metadata_size = 0 ∧ s.buffer.length ≤ GetManifestOffset env) ∨
      (GetManifestOffset env < s.metadata_size ∧ s.metadata_size < u64 ∧
        s.buffer.length ≤ s.metadata_size)))

/-- The state that a pass of a loop of `Write` leaves. -/
def LoopStep.state : LoopStep → State
  | LoopStep.ret r => r.state
  | LoopStep.next s _ => s

/-- Collaborators as in `exEnv`, with a parser that accepts a manifest only
when the array holds the number of bytes it is asked to parse. -/
def exFitEnv (m : Manifest) : Env :=
  { exEnv m with ParseFromArray := fun b n => if n ≤ b.length then some m else none }

/-! ## Resuming -/

/-- The part of the state on which the operations loop depends: the values
in the store, the offset of the last checkpoint, the signature fields and
the exit block are set to fixed values. -/
def State.core (s : State) : State :=
  { s with
    prefs := { Prefs.empty with writable := s.prefs.writable },
    last_updated_buffer_offset := 0, signed_hash_context := [],
    signatures_message_data := [], exit_blocked := false }

/-- The result of a pass, with its state reduced to `State.core`. -/
def LoopStep.core : LoopStep → LoopStep
  | LoopStep.ret r => LoopStep.ret ⟨r.ok, r.error, r.state.core⟩
  | LoopStep.next s x => LoopStep.next s.core x

/-- The result of `Write`, with its state reduced to `State.core`. -/
def WriteResult.core (r : WriteResult) : WriteResult := ⟨r.ok, r.error, r.state.core⟩

/-- The part of the store and of the state that applying an operation
leaves as it is: whether the store is writable, the stored next data
offset, hash context and metadata size, and the offset of the last
checkpoint. -/
def State.kept (s : State) : Bool × Option Int × Option Bytes × Option Int × Nat :=
  (s.prefs.writable, s.prefs.kPrefsUpdateStateNextDataOffset,
    s.prefs.kPrefsUpdateStateSHA256Context, s.prefs.kPrefsManifestMetadataSize,
    s.last_updated_buffer_offset)

/-- The store holds the buffer offset and the hash context of the state,
written by the last checkpoint. -/
def Synced (env : Env) (s : State) : Prop :=
  s.last_updated_buffer_offset = s.buffer_offset ∧
  s.prefs.kPrefsUpdateStateNextDataOffset = some (toInt64 s.buffer_offset) ∧
  s.prefs.kPrefsUpdateStateSHA256Context = some (env.GetContext s.hash_calculator)

/-- The store holds the progress of the state: the next operation, the
buffer offset, the hash context and the metadata size. -/
def Persisted (env : Env) (s : State) : Prop :=
  s.prefs.writable = true ∧
  s.prefs.kPrefsManifestMetadataSize = some (toInt64 s.metadata_size) ∧
  s.prefs.kPrefsUpdateStateNextOperation = some (toInt64 s.next_operation_num) ∧
  Synced env s

/-- The manifests whose Move operations carry no data. -/
def MoveFree (m : Manifest) : Prop :=
  ∀ op ∈ m.install_operations ++ m.kernel_install_operations,
    op.type = OpType.MOVE → op.data_length = 0

/-- The first `k` passes of the operations loop of `Write`, when each of
them completes its operation: the state and the input left after them. -/
def opsRun (env : Env) : Nat → State → Bytes → Option (State × Bytes)
  | 0, s, x => some (s, x)
  | k + 1, s, x =>
    if s.next_operation_num < s.num_total_operations then
      match operationStep env s x with
      | LoopStep.next s1 x1 => opsRun env k s1 x1
      | LoopStep.ret _ => none
    else none

/-- The states of an uninterrupted run between two passes of the operations
loop, with the input `x` that is left of the payload `P`: the manifest is
valid and its Move operations carry no data, the buffer is empty, the bytes
hashed and the input left make up the payload, the store is writable and
holds the metadata size, and the last checkpoint, if there was one, is in
the store. -/
def Ready (env : Env) (P : Bytes) (s : State) (x : Bytes) : Prop :=
  s.manifest_valid = true ∧ HashInv P s ∧ s.buffer = [] ∧ s.hash_calculator ++ x = P ∧
  s.prefs.writable = true ∧
  s.prefs.kPrefsManifestMetadataSize = some (toInt64 s.metadata_size) ∧
  MoveFree s.manifest ∧
  s.num_rootfs_operations = s.manifest.install_operations.length ∧
  s.num_total_operations =
    s.num_rootfs_operations + s.manifest.kernel_install_operations.length ∧
  (Synced env s ∨ s.last_updated_buffer_offset = u64 - 1)

/-- The state `s` on another store and other devices. -/
def State.reseat (s : State) (p : Prefs) (d1 d2 : Device) : State :=
  { s with prefs := p, fd := d1, kernel_fd := d2 }

/-- The state with which the operations loop of a new update starts, after
the metadata loop parsed the manifest into the state `t`. -/
def startState (t : State) : State :=
  { metadataPrepare t with
    block_size := t.manifest.block_size,
    num_rootfs_operations := t.manifest.install_operations.length,
    num_total_operations :=
      t.manifest.install_operations.length + t.manifest.kernel_install_operations.length }

/-- The state of an applier that is interrupted right after operation `k`
of `Write(P)` completed and its checkpoint was written: the state after the
metadata loop and the first `k` passes of the operations loop. -/
def InterruptedAfter (env : Env) (s : State) (P : Bytes) (k : Nat) : Option State :=
  match metadataLoop env 2 s P with
  | some (LoopStep.next s0 x0) => (opsRun env k s0 x0).map Prod.fst
  | _ => none

/-- The data offset from which a resumed download goes on: the stored next
data offset when the store holds progress, as `PrimeUpdateState` tests it,
and 0 when it holds none. -/
def ResumeOffset (p : Prefs) : Nat :=
  match p.kPrefsUpdateStateNextOperation with
  | none => 0
  | some a => if a ≤ 0 then 0 else ofInt64 ((p.kPrefsUpdateStateNextDataOffset).getD 0)

/-- The bytes fed to the applier that resumes from the state `sk` of an
interrupted applier: the metadata of the payload `P`, followed by the
payload from the persisted next data offset on. -/
def ResumeFeed (sk : State) (P : Bytes) : Bytes :=
  P.take sk.metadata_size ++ P.drop (sk.metadata_size + ResumeOffset sk.prefs)

/-- The new applier that resumes from the state `sk` of an interrupted
applier: it is created on the store and the devices that `sk` left. -/
def ResumedApplier (sk : State) : State :=
  State.fresh sk.prefs sk.install_plan sk.public_key_path sk.fd sk.kernel_fd

/-- The state of the example applier `exFresh` interrupted after the second
operation of the manifest `exWFManifest` completed, on the payload with an
empty manifest blob and the data bytes `9, 8, 7`. -/
def exInterrupted : State :=
  (InterruptedAfter (exFitEnv exWFManifest) exFresh (exHeader ++ [9, 8, 7]) 2).getD exFresh

/-! ## Telemetry -/

/-- The codes that `ValidateOperationHash` passes to `SendUmaStat`, in
order. -/
def ValidateOperationHashUma (s : State) (operation : InstallOperation) : List ErrorCode :=
  if operation.data_sha256_hash.length = 0 then
    if operation.data_length = 0 then []
    else if s.manifest.signatures_offset.getD 0 ≠ 0 ∧
        s.manifest.signatures_offset.getD 0 = operation.data_offset then []
    else if s.install_plan.hash_checks_mandatory then []
    else [ErrorCode.kDownloadOperationHashMissingError]
  else []

/-- The codes that the hash check of a pass of the operations loop of
`Write` passes to `SendUmaStat`, in order, when the pass reaches the check:
those of `ValidateOperationHash`, then the error that `Write` goes on to
ignore. -/
def operationUma (env : Env) (s : State) (op : InstallOperation) : List ErrorCode :=
  if ¬ s.install_plan.metadata_signature.isEmpty then
    let error := ValidateOperationHash env s op
    ValidateOperationHashUma s op ++
      (if error ≠ ErrorCode.kSuccess then
        if s.install_plan.hash_checks_mandatory then [] else [error]
      else [])
  else []

/-- An applier with a valid manifest of one Replace of one byte that
carries the data hash `[1]`, an install plan with a metadata signature and
mandatory hash checks, and no buffered byte. -/
def exHashState : State :=
  { exFresh with
    manifest_valid := true, block_size := 4,
    manifest := exManifest [{ exReplace 0 1 [] [⟨0, 1⟩] with data_sha256_hash := [1] }],
    num_rootfs_operations := 1, num_total_operations := 1,
    install_plan := { exPlan with metadata_signature := [5], hash_checks_mandatory := true } }

/-- The header of a payload that announces a manifest of `2 ^ 64 - 1`
bytes: the magic, version 1 and eight bytes `0xff`. -/
def exWrapHeader : Bytes :=
  [67, 114, 65, 85, 0, 0, 0, 0, 0, 0, 0, 1, 255, 255, 255, 255, 255, 255, 255, 255]

/-- The codes that `ValidateMetadataSignature` passes to `SendUmaStat`, in
order. -/
def ValidateMetadataSignatureUma (s : State) : List ErrorCode :=
  if s.install_plan.metadata_signature.isEmpty then
    if s.install_plan.hash_checks_mandatory then []
    else [ErrorCode.kDownloadMetadataSignatureMissingError]
  else []

/-- The codes that the part of `ParsePayloadMetadata` after the header
branch passes to `SendUmaStat`, in order. -/
def ParseBodyUma (env : Env) (s : State) (payload : Bytes) : List ErrorCode :=
  if payload.length < s.metadata_size then []
  else
    (if s.install_plan.metadata_size = s.metadata_size then []
      else [ErrorCode.kDownloadInvalidMetadataSize]) ++
    ValidateMetadataSignatureUma s ++
    (let error := ValidateMetadataSignature env s payload s.metadata_size
     if error ≠ ErrorCode.kSuccess then
       if s.install_plan.hash_checks_mandatory then [] else [error]
     else [])

/-- The codes that `ParsePayloadMetadata` passes to `SendUmaStat`, in
order. -/
def ParsePayloadMetadataUma (env : Env) (s : State) (payload : Bytes) : List ErrorCode :=
  let manifest_offset := GetManifestOffset env
  let manifest_size :=
    if s.metadata_size ≠ 0 then (s.metadata_size + u64 - manifest_offset % u64) % u64 else 0
  if manifest_size = 0 then
    match ParseHeader env s payload with
    | Sum.inl _ => []
    | Sum.inr (s, _) => ParseBodyUma env s payload
  else ParseBodyUma env s payload

/-- A fresh applier whose install plan makes the hash checks mandatory and
carries no metadata size. -/
def exMandatory : State :=
  { exFresh with install_plan := { exPlan with hash_checks_mandatory := true } }

/-- A payload whose metadata is the header (the magic, version 1, manifest
length 1) and the one manifest byte 7. -/
def exSignedPayload : Bytes :=
  [67, 114, 65, 85, 0, 0, 0, 0, 0, 0, 0, 1, 0, 0, 0, 0, 0, 0, 0, 1, 7]

/-- A fresh applier with mandatory hash checks whose install plan announces
21 bytes of metadata and carries the metadata signature `sig`. -/
def exSigned (sig : Bytes) : State :=
  { exFresh with
    install_plan :=
      { exPlan with metadata_size := 21, metadata_signature := sig,
                    hash_checks_mandatory := true } }

/-- An applier with a valid manifest that declares a signature blob of four
bytes at data offset 0, of size `size`, and whose one operation is a Replace
of those four bytes into block 0 of the rootfs device; the block size is 4. -/
def exSignatureState (size : Option Nat) : State :=
  { exFresh with
    manifest_valid := true, block_size := 4,
    manifest :=
      { exManifest [exReplace 0 4 [] [⟨0, 1⟩]] with
        block_size := 4, signatures_offset := some 0, signatures_size := size },
    num_rootfs_operations := 1, num_total_operations := 1 }

/-- A manifest for a delta update, with no operation, that declares the
hash `[5]` for the old rootfs partition. -/
def exSourceManifest : Manifest :=
  { exManifest [] with old_rootfs_info := some ⟨64, [5]⟩ }

/-! ## The sets of a checkpoint, one by one -/

/-- A `Set` call on the store that `CheckpointUpdateProgress` issues: the
key and the value. -/
inductive PrefSet where
  | nextOperation (v : Int)
  | sha256Context (v : Bytes)
  | nextDataOffset (v : Int)
  | nextDataLength (v : Int)
  deriving DecidableEq, Repr

/-- Modelled from the spec: the store after a set that succeeds ("atomic
per-key get/set"): the key holds the value and no other key changes. -/
def PrefSet.apply (p : Prefs) : PrefSet → Prefs
  | PrefSet.nextOperation v => { p with kPrefsUpdateStateNextOperation := some v }
  | PrefSet.sha256Context v => { p with kPrefsUpdateStateSHA256Context := some v }
  | PrefSet.nextDataOffset v => { p with kPrefsUpdateStateNextDataOffset := some v }
  | PrefSet.nextDataLength v => { p with kPrefsUpdateStateNextDataLength := some v }

/-- The `Set` calls that `CheckpointUpdateProgress` issues when every call
succeeds, in order, each with whether the function tests its result and
returns when it is false (`TEST_AND_RETURN_FALSE`).  The result of the
quick `ResetUpdateProgress` is not tested. -/
def checkpointSets (env : Env) (s : State) : List (PrefSet × Bool) :=
  (if s.last_updated_buffer_offset ≠ s.buffer_offset then
    [(PrefSet.nextOperation kUpdateStateOperationInvalid, false),
     (PrefSet.sha256Context (env.GetContext s.hash_calculator), true),
     (PrefSet.nextDataOffset (toInt64 s.buffer_offset), true),
     (PrefSet.nextDataLength
        (if s.next_operation_num < s.num_total_operations then
          toInt64 (currentOp s).data_length else 0), true)]
  else []) ++
  [(PrefSet.nextOperation (toInt64 s.next_operation_num), true)]

/-- Modelled from the spec: the store when the process dies after `n` of
the calls in `sets` were issued, the call with index `i` succeeding exactly
when `ok i`: a call that fails leaves the store as it is, and ends the
sequence when its result is tested. -/
def runSets (ok : Nat → Bool) : Nat → Nat → Prefs → List (PrefSet × Bool) → Prefs
  | 0, _, p, _ => p
  | _ + 1, _, p, [] => p
  | n + 1, i, p, (w, tested) :: rest =>
    if ok i then runSets ok n (i + 1) (w.apply p) rest
    else if tested then p
    else runSets ok n (i + 1) p rest

/-- The next-operation index, next data offset and hash context of the
checkpoint that `CheckpointUpdateProgress` writes for the state `s`. -/
def checkpointOf (env : Env) (s : State) : Int × Int × Bytes :=
  (toInt64 s.next_operation_num, toInt64 s.buffer_offset, env.GetContext s.hash_calculator)

/-- The store holds the next-operation index, next data offset and hash
context `c`. -/
def Prefs.holds (p : Prefs) (c : Int × Int × Bytes) : Bool :=
  decide (p.kPrefsUpdateStateNextOperation = some c.1 ∧
    p.kPrefsUpdateStateNextDataOffset = some c.2.1 ∧
    p.kPrefsUpdateStateSHA256Context = some c.2.2)

/-- An applier that wrote its last checkpoint before operation 3, at buffer
offset 100 with the hash fed `[2]` (the store is `exResumablePrefs`), and has
since applied operation 3, which consumed ten bytes and fed the byte 9. -/
def exCheckpointState : State :=
  { exFresh with
    prefs := exResumablePrefs, manifest_valid := true,
    next_operation_num := 4, num_rootfs_operations := 4, num_total_operations := 4,
    buffer_offset := 110, last_updated_buffer_offset := 100, hash_calculator := [2, 9] }

/-- The store of `exCheckpointState` when the process dies after `n` sets
of `CheckpointUpdateProgress`, the sets with index 0 (the invalid marker)
and 4 (the new next-operation index) failing and the others succeeding. -/
def exLostReset (n : Nat) : Prefs :=
  runSets (fun i => decide (i ≠ 0 ∧ i ≠ 4)) n 0 exCheckpointState.prefs
    (checkpointSets (exEnv exFresh.manifest) exCheckpointState)

/-- An applier with a valid manifest whose one operation has a type that is
none of the four that `Write` dispatches on, and carries no data. -/
def exUnknownState : State :=
  { exFresh with
    manifest_valid := true, block_size := 4,
    manifest := exManifest [{ InstallOperation.empty with type := OpType.UNKNOWN }],
    num_rootfs_operations := 1, num_total_operations := 1 }

/-- An example manifest with block size 4: a Move that declares five data
bytes, then a Replace of three bytes at data offset 0. -/
def exOverfullManifest : Manifest :=
  { exManifest [exMove 5 [] [], exReplace 0 3 [] [⟨0, 1⟩]] with block_size := 4 }

/-- An applier with a valid manifest, block size 4, whose one operation is a
Replace of three bytes at data offset 0, with five buffered bytes. -/
def exOverfullState : State :=
  { exFresh with
    manifest_valid := true, manifest := exManifest [exReplace 0 3 [] [⟨0, 1⟩]],
    num_rootfs_operations := 1, num_total_operations := 1, block_size := 4,
    buffer := [1, 2, 3, 4, 5] }

/-! ## The position list, as the specification words it -/

/-- The item `start:length` of the position list for the extent `e` that
takes `len` bytes: the start is the byte offset `start_block * block_size`
as `StringPrintf` prints the `int64_t`, or -1 for a sparse hole. -/
def positionItem (block_size : Nat) (e : Extent) (len : Nat) : String :=
  toString (if e.start_block = kSparseHole then (-1 : Int)
    else toInt64 (e.start_block * block_size)) ++ ":" ++ toString len

/-- The number of bytes of `full_length` that fall in each extent, in
extent order, when `covered` bytes fell in the extents before: what is left
of `full_length`, at most the byte length of the extent. -/
def emittedLengths (block_size full_length : Nat) : List Extent → Nat → List Nat
  | [], _ => []
  | e :: es, covered =>
    min (full_length - covered) ((e.num_blocks * block_size) % u64) ::
      emittedLengths block_size full_length es
        (covered + min (full_length - covered) ((e.num_blocks * block_size) % u64))

/-- The strings joined by commas, with no trailing comma; the empty string
for no strings. -/
def joinComma : List String → String
  | [] => ""
  | [a] => a
  | a :: b :: rest => a ++ "," ++ joinComma (b :: rest)

/-- The position list as the specification words it: the items
`start:length` of the extents in order, joined by commas. -/
def positionsSpec (extents : List Extent) (block_size full_length : Nat) : String :=
  joinComma (List.zipWith (positionItem block_size) extents
    (emittedLengths block_size full_length extents 0))

/-- The strings, each followed by a comma. -/
def trailComma : List String → String
  | [] => ""
  | a :: rest => a ++ "," ++ trailComma rest

/-- A fresh applier with mandatory hash checks whose install plan announces
99 bytes of metadata and carries the metadata signature that matches the 21
bytes of metadata of `exSignedPayload`. -/
def exMismatchState : State :=
  { exFresh with
    install_plan :=
      { exPlan with metadata_size := 99, metadata_signature := exSignedPayload,
                    hash_checks_mandatory := true } }

/-- The sum over the extents of their byte lengths `num_blocks * block_size`,
each product in `uint64_t`. -/
def extentsBytes64 (block_size : Nat) : List Extent → Nat
  | [] => 0
  | e :: es => (e.num_blocks * block_size) % u64 + extentsBytes64 block_size es

/-- An example manifest with block size 4 that declares a signature blob of
four bytes at data offset 0: a Move that declares five data bytes, then a
Replace of four bytes at data offset 0 into block 0. -/
def exSignatureOverfullManifest : Manifest :=
  { exManifest [exMove 5 [] [], exReplace 0 4 [] [⟨0, 1⟩]] with
    block_size := 4, signatures_offset := some 0, signatures_size := some 4 }

/-! # Theorems -/

/-! ## C9: the response hash gates resumption -/

/-- C9: `CanResumeUpdate(prefs, h)` is false whenever the stored
update-check-response hash is unreadable, empty or different from `h`,
whatever the other stored fields are. -/
theorem CanResumeUpdate_hash_mismatch (prefs : Prefs) (h : Bytes)
    (hne : ∀ x, prefs.kPrefsUpdateCheckResponseHash = some x → x = [] ∨ x ≠ h) :
    CanResumeUpdate prefs h = false := by
  unfold CanResumeUpdate
  cases hop : prefs.kPrefsUpdateStateNextOperation with
  | none => rfl
  | some n =>
    cases hh : prefs.kPrefsUpdateCheckResponseHash with
    | none => simp
    | some x =>
      have hx := hne x hh
      have hbad : ¬ (¬ (x.isEmpty = true) ∧ x = h) := by
        rintro ⟨h1, h2⟩
        rcases hx with hx | hx
        · exact h1 (by simp [hx])
        · exact hx h2
      simp only [hbad, not_false_eq_true, if_true, ite_self]

/-- C9, at a concrete store: every field is well formed and the
next-operation index is positive, and the store is accepted for its own
hash `[7]`, yet it is refused for the hash `[8]`. -/
theorem CanResumeUpdate_hash_mismatch_witness :
    CanResumeUpdate exResumablePrefs [7] = true ∧ CanResumeUpdate exResumablePrefs [8] = false :=
  ⟨by decide, CanResumeUpdate_hash_mismatch exResumablePrefs [8] (by
    intro x hx
    have : x = [7] := by
      have h7 : exResumablePrefs.kPrefsUpdateCheckResponseHash = some [7] := rfl
      rw [h7] at hx
      exact (Option.some.inj hx).symm
    right
    rw [this]
    decide)⟩

/-! ## C10: final payload verification -/

/-- C10: `VerifyPayload(h, n)` succeeds only if `n` equals
`metadata_size_ + buffer_offset_` (a `uint64_t` sum), the finalized payload
hash is non-empty and equal to `h`, and, when the public key file exists,
the signature blob is non-empty and the digest recovered from it equals the
non-empty padded digest finalized from the signed hash context.  The first
check that fails, in that order, decides the error code, and the result is
the same for both values of `hash_checks_mandatory`. -/
theorem VerifyPayload_checks (env : Env) (s : State) (h : Bytes) (n : Nat) :
    (VerifyPayload env s h n = ErrorCode.kSuccess →
      n = (s.metadata_size + s.buffer_offset) % u64 ∧
      s.hash_finalized = true ∧ env.hash s.hash_calculator ≠ [] ∧
      env.hash s.hash_calculator = h ∧
      (env.FileExists (path_to_public_key env s) = true →
        s.signatures_message_data ≠ [] ∧
        ∃ fed raw, env.SetContext s.signed_hash_context = some fed ∧
          env.raw_hash fed = some raw ∧ env.PadRSA2048SHA256Hash raw ≠ [] ∧
          env.VerifySignature s.signatures_message_data (path_to_public_key env s) =
            some (env.PadRSA2048SHA256Hash raw))) ∧
    (n ≠ (s.metadata_size + s.buffer_offset) % u64 →
      VerifyPayload env s h n = ErrorCode.kPayloadSizeMismatchError) ∧
    (n = (s.metadata_size + s.buffer_offset) % u64 →
      (s.hash_finalized = false ∨ env.hash s.hash_calculator = []) →
      VerifyPayload env s h n = ErrorCode.kDownloadPayloadVerificationError) ∧
    (n = (s.metadata_size + s.buffer_offset) % u64 → s.hash_finalized = true →
      env.hash s.hash_calculator ≠ [] → env.hash s.hash_calculator ≠ h →
      VerifyPayload env s h n = ErrorCode.kPayloadHashMismatchError) ∧
    (n = (s.metadata_size + s.buffer_offset) % u64 → s.hash_finalized = true →
      env.hash s.hash_calculator ≠ [] → env.hash s.hash_calculator = h →
      env.FileExists (path_to_public_key env s) = true → s.signatures_message_data = [] →
      VerifyPayload env s h n = ErrorCode.kSignedDeltaPayloadExpectedError) ∧
    (n = (s.metadata_size + s.buffer_offset) % u64 → s.hash_finalized = true →
      env.hash s.hash_calculator ≠ [] → env.hash s.hash_calculator = h →
      env.FileExists (path_to_public_key env s) = true → s.signatures_message_data ≠ [] →
      (¬ ∃ fed raw, env.SetContext s.signed_hash_context = some fed ∧
          env.raw_hash fed = some raw ∧ env.PadRSA2048SHA256Hash raw ≠ [] ∧
          env.VerifySignature s.signatures_message_data (path_to_public_key env s) =
            some (env.PadRSA2048SHA256Hash raw)) →
      VerifyPayload env s h n = ErrorCode.kDownloadPayloadPubKeyVerificationError) ∧
    (∀ b : Bool,
      VerifyPayload env
        { s with install_plan := { s.install_plan with hash_checks_mandatory := b } } h n =
      VerifyPayload env s h n) := by
  have p2 : n ≠ (s.metadata_size + s.buffer_offset) % u64 →
      VerifyPayload env s h n = ErrorCode.kPayloadSizeMismatchError := by
    intro hn
    unfold VerifyPayload
    simp [hn]
  have p3 : n = (s.metadata_size + s.buffer_offset) % u64 →
      (s.hash_finalized = false ∨ env.hash s.hash_calculator = []) →
      VerifyPayload env s h n = ErrorCode.kDownloadPayloadVerificationError := by
    intro hn hh
    unfold VerifyPayload
    rcases hh with hh | hh <;> simp [hn, hh]
  have p4 : n = (s.metadata_size + s.buffer_offset) % u64 → s.hash_finalized = true →
      env.hash s.hash_calculator ≠ [] → env.hash s.hash_calculator ≠ h →
      VerifyPayload env s h n = ErrorCode.kPayloadHashMismatchError := by
    intro hn hf hne hh
    unfold VerifyPayload
    simp [hn, hf, hne, hh]
  have p5 : n = (s.metadata_size + s.buffer_offset) % u64 → s.hash_finalized = true →
      env.hash s.hash_calculator ≠ [] → env.hash s.hash_calculator = h →
      env.FileExists (path_to_public_key env s) = true → s.signatures_message_data = [] →
      VerifyPayload env s h n = ErrorCode.kSignedDeltaPayloadExpectedError := by
    intro hn hf hne hh hk hsig
    subst hh
    unfold VerifyPayload
    simp [hn, hf, hne, hk, hsig]
  have p6 : n = (s.metadata_size + s.buffer_offset) % u64 → s.hash_finalized = true →
      env.hash s.hash_calculator ≠ [] → env.hash s.hash_calculator = h →
      env.FileExists (path_to_public_key env s) = true → s.signatures_message_data ≠ [] →
      (¬ ∃ fed raw, env.SetContext s.signed_hash_context = some fed ∧
          env.raw_hash fed = some raw ∧ env.PadRSA2048SHA256Hash raw ≠ [] ∧
          env.VerifySignature s.signatures_message_data (path_to_public_key env s) =
            some (env.PadRSA2048SHA256Hash raw)) →
      VerifyPayload env s h n = ErrorCode.kDownloadPayloadPubKeyVerificationError := by
    intro hn hf hne hh hk hsig hno
    unfold VerifyPayload
    simp only [hn, hf, hk, hsig]
    simp only [not_true_eq_false, if_false, if_true, hh]
    have e1 : (env.hash s.hash_calculator).isEmpty = false := by
      cases hc : env.hash s.hash_calculator with
      | nil => exact absurd hc hne
      | cons a l => rfl
    have e2 : s.signatures_message_data.isEmpty = false := by
      cases hc : s.signatures_message_data with
      | nil => exact absurd hc hsig
      | cons a l => rfl
    rw [hh] at e1
    simp only [e1, e2, Bool.false_eq_true, if_false]
    cases hvs : env.VerifySignature s.signatures_message_data (path_to_public_key env s) with
    | none => rfl
    | some d =>
      simp only []
      cases hsc : env.SetContext s.signed_hash_context with
      | none => rfl
      | some fed =>
        simp only []
        cases hrh : env.raw_hash fed with
        | none => rfl
        | some raw =>
          simp only []
          split_ifs with h6 h7
          · rfl
          · rfl
          · exfalso
            apply hno
            refine ⟨fed, raw, hsc, hrh, ?_, ?_⟩
            · intro hc
              rw [hc] at h6
              exact h6 rfl
            · simp at h7
              rw [hvs, h7]
  refine ⟨?_, p2, p3, p4, p5, p6, ?_⟩
  · intro hv
    by_cases hn : n = (s.metadata_size + s.buffer_offset) % u64
    swap
    · rw [p2 hn] at hv; exact absurd hv (by decide)
    cases hf : s.hash_finalized
    · rw [p3 hn (Or.inl hf)] at hv; exact absurd hv (by decide)
    by_cases hne : env.hash s.hash_calculator = []
    · rw [p3 hn (Or.inr hne)] at hv; exact absurd hv (by decide)
    by_cases hh : env.hash s.hash_calculator = h
    swap
    · rw [p4 hn hf hne hh] at hv; exact absurd hv (by decide)
    refine ⟨hn, rfl, hne, hh, ?_⟩
    intro hk
    by_cases hsig : s.signatures_message_data = []
    · rw [p5 hn hf hne hh hk hsig] at hv; exact absurd hv (by decide)
    refine ⟨hsig, ?_⟩
    by_contra hno
    rw [p6 hn hf hne hh hk hsig hno] at hv
    exact absurd hv (by decide)
  · intro b
    rfl

/-! ## C7: the idempotence test -/

/-- Removing a set leaves the number of elements unchanged exactly when the
two sets are disjoint. -/
theorem card_sdiff_eq_iff_disjoint (a b : Finset Nat) :
    (a \ b).card = a.card ↔ Disjoint a b := by
  constructor
  · intro h
    have hsub : a \ b ⊆ a := Finset.sdiff_subset
    have heq : a \ b = a := Finset.eq_of_subset_of_card_le hsub (by omega)
    exact Finset.sdiff_eq_self_iff_disjoint.mp heq
  · intro h
    rw [Finset.sdiff_eq_self_iff_disjoint.mpr h]

/-- C7: `IsIdempotentOperation(op)` is true iff `op` has no source extents
or removing the destination blocks from the set of source blocks leaves
the number of source blocks unchanged; and that is the case iff the set of
source blocks and the set of destination blocks are disjoint. -/
theorem IsIdempotentOperation_iff (op : InstallOperation) :
    (IsIdempotentOperation op = true ↔
      (op.src_extents = [] ∨
        blocks (SubtractRepeatedExtents (blockSet op.src_extents) op.dst_extents) =
          blocks (blockSet op.src_extents))) ∧
    (IsIdempotentOperation op = true ↔
      Disjoint (blockSet op.src_extents) (blockSet op.dst_extents)) := by
  have key : IsIdempotentOperation op = true ↔
      (op.src_extents = [] ∨
        blocks (SubtractRepeatedExtents (blockSet op.src_extents) op.dst_extents) =
          blocks (blockSet op.src_extents)) := by
    unfold IsIdempotentOperation
    by_cases h : op.src_extents = []
    · simp [h]
    · have hl : ¬ op.src_extents.length = 0 := by
        intro hc
        exact h (List.length_eq_zero.mp hc)
      simp only [hl, if_false, decide_eq_true_eq, h, false_or]
      exact eq_comm
  refine ⟨key, ?_⟩
  rw [key]
  unfold blocks SubtractRepeatedExtents
  rw [card_sdiff_eq_iff_disjoint]
  constructor
  · rintro (h | h)
    · rw [h]
      simp [blockSet]
    · exact h
  · intro h
    exact Or.inr h

/-! ## C4: data gating -/

/-- C4, as stated, fails: with buffer offset 0 and five buffered bytes, the
Replace operation with data offset 2 and data length 3 passes
`CanPerformInstallOperation` although `buffer_offset_` differs from its
data offset, and `Write` returns failure with
`kDownloadOperationExecutionError` instead of success.  `Write` reaches
such a state on the payload of `exGateManifest`. -/
theorem CanPerformInstallOperation_not_exact :
    (currentOp exGateState).type ≠ OpType.MOVE ∧
    exGateState.buffer_offset ≠ (currentOp exGateState).data_offset ∧
    CanPerformInstallOperation exGateState (currentOp exGateState) = true ∧
    (Write (exEnv exGateState.manifest) exGateState []).map WriteResult.summary =
      some (false, ErrorCode.kDownloadOperationExecutionError, 0) ∧
    (Write (exEnv exGateManifest) exFresh (exHeader ++ [1, 2, 3, 4, 5])).map
      WriteResult.summary = some (false, ErrorCode.kDownloadOperationExecutionError, 1) := by
  refine ⟨by decide, by decide, by decide, by decide!, by decide!⟩

/-- C4, amended: in the pass of `Write` for the operation `op` on the
state `s1` left by `CopyDataToBuffer`: a Move passes the gate; an operation
that is not a Move passes it iff `data_offset >= buffer_offset_` and
`data_offset + data_length <= buffer_offset_ + buffer_.size()` (sums in
`uint64_t`), which, when the buffer holds at most `data_length` bytes and
`data_offset + data_length < 2 ^ 64`, is iff `buffer_offset_ == data_offset`
and the buffer holds at least `data_length` bytes; and when the gate is not
passed the pass, and with it `Write`, returns success with `kSuccess`, and
the operation counter and both devices are as before. -/
theorem CanPerformInstallOperation_gate (env : Env) (s : State) (bytes : Bytes) (fuel : Nat)
    (hcancel : env.ShouldCancel = none) (hnext : s.next_operation_num < s.num_total_operations) :
    (((currentOp s).type = OpType.MOVE →
      CanPerformInstallOperation (CopyDataToBuffer s bytes (currentOp s).data_length).1
        (currentOp s) = true) ∧
    ((currentOp s).type ≠ OpType.MOVE →
      (CanPerformInstallOperation (CopyDataToBuffer s bytes (currentOp s).data_length).1
          (currentOp s) = true ↔
        (currentOp s).data_offset ≥
            (CopyDataToBuffer s bytes (currentOp s).data_length).1.buffer_offset ∧
          ((currentOp s).data_offset + (currentOp s).data_length) % u64 ≤
            ((CopyDataToBuffer s bytes (currentOp s).data_length).1.buffer_offset +
              (CopyDataToBuffer s bytes (currentOp s).data_length).1.buffer.length) % u64))) ∧
    (((currentOp s).type ≠ OpType.MOVE →
      (CopyDataToBuffer s bytes (currentOp s).data_length).1.buffer.length ≤
        (currentOp s).data_length →
      (currentOp s).data_offset + (currentOp s).data_length < u64 →
      (CanPerformInstallOperation (CopyDataToBuffer s bytes (currentOp s).data_length).1
          (currentOp s) = true ↔
        (CopyDataToBuffer s bytes (currentOp s).data_length).1.buffer_offset =
            (currentOp s).data_offset ∧
          (CopyDataToBuffer s bytes (currentOp s).data_length).1.buffer.length ≥
            (currentOp s).data_length)) ∧
    (CanPerformInstallOperation (CopyDataToBuffer s bytes (currentOp s).data_length).1
        (currentOp s) = false →
      operationsLoop env (fuel + 1) s bytes =
        some ⟨true, ErrorCode.kSuccess,
          (CopyDataToBuffer s bytes (currentOp s).data_length).1⟩ ∧
      (CopyDataToBuffer s bytes (currentOp s).data_length).1.next_operation_num =
        s.next_operation_num ∧
      (CopyDataToBuffer s bytes (currentOp s).data_length).1.fd = s.fd ∧
      (CopyDataToBuffer s bytes (currentOp s).data_length).1.kernel_fd = s.kernel_fd)) := by
  generalize hs1 : (CopyDataToBuffer s bytes (currentOp s).data_length).1 = s1
  generalize hop : currentOp s = op at *
  refine ⟨⟨?_, ?_⟩, ?_, ?_⟩
  · intro hm
    simp [CanPerformInstallOperation, hm]
  · intro hm
    simp [CanPerformInstallOperation, hm]
  · intro hm hlen hsum
    simp only [CanPerformInstallOperation, hm, if_false]
    by_cases hlt : op.data_offset < s1.buffer_offset
    · simp only [hlt, if_true]
      constructor
      · intro h; exact absurd h (by decide)
      · rintro ⟨h1, _⟩; omega
    · simp only [hlt, if_false, decide_eq_true_eq]
      have h1 : (op.data_offset + op.data_length) % u64 = op.data_offset + op.data_length :=
        Nat.mod_eq_of_lt hsum
      rw [h1]
      by_cases hb : s1.buffer_offset + s1.buffer.length < u64
      · rw [Nat.mod_eq_of_lt hb]
        omega
      · exfalso
        omega
  · intro hcan
    have hfields : s1.next_operation_num = s.next_operation_num ∧ s1.fd = s.fd ∧
        s1.kernel_fd = s.kernel_fd := by
      rw [← hs1]
      unfold CopyDataToBuffer
      split_ifs <;> exact ⟨rfl, rfl, rfl⟩
    refine ⟨?_, hfields⟩
    unfold operationsLoop
    simp only [hnext, not_true_eq_false, if_false]
    unfold operationStep operationBody
    simp only [hcancel, hop, hs1, hcan]
    simp

/-- C4, amended, at a concrete input: on a state with one Replace of three
bytes and two bytes of input the gate is not passed and `Write` returns
success with the operation counter and the device unchanged. -/
theorem CanPerformInstallOperation_gate_witness :
    operationsLoop (exEnv exGateState.manifest) 1 { exGateState with buffer := [] } [1, 2] =
      some ⟨true, ErrorCode.kSuccess,
        (CopyDataToBuffer { exGateState with buffer := [] } [1, 2] 3).1⟩ :=
  ((CanPerformInstallOperation_gate (exEnv exGateState.manifest)
    { exGateState with buffer := [] } [1, 2] 0 rfl (by decide)).2.2 (by decide)).1

/-! ## C8: the reset before a non-idempotent write -/

/-- `CanResumeUpdate` refuses a store whose next-operation key holds the
invalid marker. -/
theorem CanResumeUpdate_invalid (prefs : Prefs) (h : Bytes)
    (hinv : prefs.kPrefsUpdateStateNextOperation = some kUpdateStateOperationInvalid) :
    CanResumeUpdate prefs h = false := by
  unfold CanResumeUpdate
  rw [hinv]
  simp

/-- C8, as stated, fails: a Replace whose source and destination extents
are both block 0 is not idempotent for `IsIdempotentOperation`, yet
`PerformReplaceOperation` writes its destination (byte 0 of the device
changes from 0 to 9) with the exit not blocked and the store untouched, so
that `CanResumeUpdate` still accepts the store. -/
theorem PerformReplaceOperation_no_reset :
    IsIdempotentOperation (currentOp exResumableState) = false ∧
    (performOperation (exEnv exResumableState.manifest) exResumableState
      (currentOp exResumableState) false ErrorCode.kSuccess).1.1 = true ∧
    exResumableState.fd.data 0 = 0 ∧
    (performOperation (exEnv exResumableState.manifest) exResumableState
      (currentOp exResumableState) false ErrorCode.kSuccess).2.fd.data 0 = 9 ∧
    (performOperation (exEnv exResumableState.manifest) exResumableState
      (currentOp exResumableState) false ErrorCode.kSuccess).2.exit_blocked = false ∧
    (performOperation (exEnv exResumableState.manifest) exResumableState
      (currentOp exResumableState) false ErrorCode.kSuccess).2.prefs.kPrefsUpdateStateNextOperation
        = some 3 ∧
    CanResumeUpdate (performOperation (exEnv exResumableState.manifest) exResumableState
      (currentOp exResumableState) false ErrorCode.kSuccess).2.prefs [7] = true := by
  refine ⟨by decide!, by decide!, by decide!, by decide!, by decide!, by decide!, by decide!⟩

/-- C8, amended: for a Move or a binary-diff operation that
`IsIdempotentOperation` rejects, on a store that accepts the write, the
state `markNonIdempotent s op` from which the destination is written (the
write loop of `PerformMoveOperation`, the bspatch run of
`PerformBsdiffOperation`) has the exit blocked and the invalid marker -1 as
next-operation index, so that `CanResumeUpdate` refuses it for every
response hash, and both devices are still as before. -/
theorem markNonIdempotent_resets (env : Env) (s : State) (op : InstallOperation)
    (is_kernel_partition : Bool)
    (hni : IsIdempotentOperation op = false) (hw : s.prefs.writable = true) :
    (markNonIdempotent s op).exit_blocked = true ∧
    (markNonIdempotent s op).prefs.kPrefsUpdateStateNextOperation = some (-1) ∧
    (∀ h, CanResumeUpdate (markNonIdempotent s op).prefs h = false) ∧
    (markNonIdempotent s op).fd = s.fd ∧ (markNonIdempotent s op).kernel_fd = s.kernel_fd ∧
    (∀ read, moveRead (s.device is_kernel_partition) s.block_size op.src_extents = some read →
      PerformMoveOperation s op is_kernel_partition =
        ((moveWrite ((markNonIdempotent s op).device is_kernel_partition) s.block_size
            (read ++ List.replicate
              ((totalBlocks op.dst_extents * s.block_size) % u64 - read.length) 0)
            op.dst_extents 0).1,
          (markNonIdempotent s op).setDevice is_kernel_partition
            (moveWrite ((markNonIdempotent s op).device is_kernel_partition) s.block_size
              (read ++ List.replicate
                ((totalBlocks op.dst_extents * s.block_size) % u64 - read.length) 0)
              op.dst_extents 0).2)) ∧
    (∀ input_positions output_positions,
      s.buffer_offset = op.data_offset → s.buffer.length ≥ op.data_length →
      ExtentsToBsdiffPositionsString op.src_extents s.block_size op.src_length =
        some input_positions →
      ExtentsToBsdiffPositionsString op.dst_extents s.block_size op.dst_length =
        some output_positions →
      env.tempFileOk = true →
      PerformBsdiffOperation env s op is_kernel_partition =
        bsdiffApply env (markNonIdempotent (DiscardBuffer s true) op) op is_kernel_partition
          (s.buffer.take op.data_length) input_positions output_positions ∧
      (markNonIdempotent (DiscardBuffer s true) op).exit_blocked = true ∧
      (∀ h, CanResumeUpdate (markNonIdempotent (DiscardBuffer s true) op).prefs h = false) ∧
      (markNonIdempotent (DiscardBuffer s true) op).fd = s.fd ∧
      (markNonIdempotent (DiscardBuffer s true) op).kernel_fd = s.kernel_fd) := by
  have hmark : ∀ t : State, t.prefs.writable = true →
      (markNonIdempotent t op).exit_blocked = true ∧
      (markNonIdempotent t op).prefs.kPrefsUpdateStateNextOperation = some (-1) ∧
      (markNonIdempotent t op).fd = t.fd ∧ (markNonIdempotent t op).kernel_fd = t.kernel_fd := by
    intro t ht
    simp [markNonIdempotent, hni, ResetUpdateProgress, Prefs.setNextOperation, ht,
      kUpdateStateOperationInvalid]
  obtain ⟨h1, h2, h3, h4⟩ := hmark s hw
  refine ⟨h1, h2, fun h => CanResumeUpdate_invalid _ h h2, h3, h4, ?_, ?_⟩
  · intro read hread
    simp only [PerformMoveOperation, hread]
    have hb : (markNonIdempotent s op).block_size = s.block_size := by
      simp [markNonIdempotent, hni]
    rw [hb]
  · intro input_positions output_positions ho hl hin hout htmp
    have hw2 : (DiscardBuffer s true).prefs.writable = true := hw
    obtain ⟨g1, g2, g3, g4⟩ := hmark (DiscardBuffer s true) hw2
    refine ⟨?_, g1, fun h => CanResumeUpdate_invalid _ h g2, g3, g4⟩
    simp [PerformBsdiffOperation, ho, hl, hin, hout, htmp]

/-- C8, amended, at a concrete input: a Move of block 0 onto itself on a
store that `CanResumeUpdate` accepted. -/
theorem markNonIdempotent_resets_witness :
    CanResumeUpdate exResumableState.prefs [7] = true ∧
    (markNonIdempotent exResumableState (exMove 0 [⟨0, 1⟩] [⟨0, 1⟩])).exit_blocked = true ∧
    (∀ h, CanResumeUpdate
      (markNonIdempotent exResumableState (exMove 0 [⟨0, 1⟩] [⟨0, 1⟩])).prefs h = false) :=
  ⟨by decide,
    (markNonIdempotent_resets (exEnv exResumableState.manifest) exResumableState
      (exMove 0 [⟨0, 1⟩] [⟨0, 1⟩]) false (by decide!) (by decide)).1,
    (markNonIdempotent_resets (exEnv exResumableState.manifest) exResumableState
      (exMove 0 [⟨0, 1⟩] [⟨0, 1⟩]) false (by decide!) (by decide)).2.2.1⟩

/-! ## Devices and extents -/

/-- The number of bytes read back from a range. -/
theorem Device.length_range (d : Device) (off count : Nat) :
    (d.range off count).length = count := by
  simp [Device.range]

/-- A successful `pwrite` keeps the size of the device. -/
theorem Device.pwrite_size (d : Device) (bytes : Bytes) (off : Nat) :
    (d.pwrite bytes off).2.size = d.size := by
  unfold Device.pwrite
  split_ifs <;> rfl

/-- A `pwrite` leaves every byte outside `[off, off + bytes.length)` as it
was. -/
theorem Device.pwrite_outside (d : Device) (bytes : Bytes) (off i : Nat)
    (hi : ¬ (off ≤ i ∧ i < off + bytes.length)) :
    (d.pwrite bytes off).2.data i = d.data i := by
  unfold Device.pwrite
  split_ifs
  · rfl
  · simp [hi]
  · rfl

/-- After a successful `pwrite` the written range reads back as the bytes
written. -/
theorem Device.pwrite_range (d : Device) (bytes : Bytes) (off : Nat)
    (hok : (d.pwrite bytes off).1 = true) :
    (d.pwrite bytes off).2.range off bytes.length = bytes := by
  unfold Device.pwrite at hok ⊢
  by_cases h0 : bytes.length = 0
  · simp only [h0, if_true]
    have : bytes = [] := List.length_eq_zero.mp h0
    subst this
    simp [Device.range]
  · simp only [h0, if_false] at hok ⊢
    by_cases h1 : off + bytes.length ≤ d.size
    · simp only [h1, if_true]
      apply List.ext_getElem
      · simp [Device.range]
      · intro n h2 h3
        simp only [Device.range, List.getElem_map, List.getElem_range]
        have hn : n < bytes.length := h3
        simp [hn, List.getD_eq_getElem?_getD, List.getElem?_eq_getElem hn]
    · simp [h1] at hok

/-- Two devices that agree on a range read back the same bytes there. -/
theorem Device.range_congr (d1 d2 : Device) (off count : Nat)
    (h : ∀ i, off ≤ i → i < off + count → d1.data i = d2.data i) :
    d1.range off count = d2.range off count := by
  unfold Device.range
  apply List.map_congr_left
  intro i hi
  have hi2 : i < count := List.mem_range.mp hi
  exact h (off + i) (by omega) (by omega)

/-- The total byte length of the extents is what reading them back gives. -/
theorem Device.length_extentBytes (d : Device) (B : Nat) (es : List Extent) :
    (d.extentBytes B es).length = extentsLength B es := by
  induction es with
  | nil => rfl
  | cons e es ih => simp [Device.extentBytes, extentsLength, Device.length_range, ih]

/-- Two devices that agree on every byte covered by the extents read back
the same bytes from them. -/
theorem Device.extentBytes_congr (d1 d2 : Device) (B : Nat) (es : List Extent)
    (h : ∀ i, (∃ e ∈ es, e.covers B i) → d1.data i = d2.data i) :
    d1.extentBytes B es = d2.extentBytes B es := by
  induction es with
  | nil => rfl
  | cons e es ih =>
    simp only [Device.extentBytes]
    rw [Device.range_congr d1 d2, ih]
    · intro i hi
      obtain ⟨e2, he2, hc⟩ := hi
      exact h i ⟨e2, List.mem_cons_of_mem _ he2, hc⟩
    · intro i h1 h2
      apply h i
      refine ⟨e, List.mem_cons_self _ _, h1, ?_⟩
      rw [Nat.add_mul]
      exact h2

/-- The block size divides the total byte length of the extents. -/
theorem dvd_extentsLength (B : Nat) (es : List Extent) : B ∣ extentsLength B es := by
  induction es with
  | nil => exact dvd_zero B
  | cons e es ih =>
    simp only [extentsLength]
    exact dvd_add (Dvd.intro_left _ rfl) ih

/-- What a successful `writeExtents` leaves: for extents without a sparse
hole, with byte offsets below `2 ^ 64` and pairwise disjoint ranges, and
data of exactly their total length, the extents read back as the data and
every byte outside them is unchanged. -/
theorem writeExtents_spec (B : Nat) (es : List Extent)
    (hns : ∀ e ∈ es, e.start_block ≠ kSparseHole)
    (hov : ∀ e ∈ es, (e.start_block + e.num_blocks) * B < u64)
    (hdis : extentsDisjoint B es) (d : Device) (data : Bytes)
    (hlen : data.length = extentsLength B es)
    (hok : (writeExtents d B es data).1 = true) :
    (writeExtents d B es data).2.extentBytes B es = data ∧
    (∀ i, (∀ e ∈ es, ¬ e.covers B i) → (writeExtents d B es data).2.data i = d.data i) ∧
    (writeExtents d B es data).2.size = d.size := by
  induction es generalizing d data with
  | nil =>
    have : data = [] := List.length_eq_zero.mp hlen
    subst this
    simp [writeExtents, Device.extentBytes]
  | cons e es ih =>
    have hov_e := hov e (List.mem_cons_self _ _)
    have hns_e := hns e (List.mem_cons_self _ _)
    have hnB : e.num_blocks * B < u64 := by
      have : e.num_blocks * B ≤ (e.start_block + e.num_blocks) * B :=
        Nat.mul_le_mul_right B (Nat.le_add_left _ _)
      omega
    have hsB : e.start_block * B < u64 := by
      have : e.start_block * B ≤ (e.start_block + e.num_blocks) * B :=
        Nat.mul_le_mul_right B (Nat.le_add_right _ _)
      omega
    simp only [extentsLength] at hlen
    by_cases hemp : data.isEmpty = true
    · have hd : data = [] := List.isEmpty_iff.mp hemp
      subst hd
      have h0 : extentsLength B (e :: es) = 0 := by
        simp only [extentsLength]
        simpa using hlen.symm
      refine ⟨?_, ?_, ?_⟩
      · apply List.eq_nil_of_length_eq_zero
        rw [Device.length_extentBytes, h0]
      · intro i _
        simp [writeExtents]
      · simp [writeExtents]
    · have hmin : min data.length ((e.num_blocks * B) % u64) = e.num_blocks * B := by
        rw [Nat.mod_eq_of_lt hnB]
        omega
      have hoff : (e.start_block * B) % u64 = e.start_block * B := Nat.mod_eq_of_lt hsB
      have hunf : writeExtents d B (e :: es) data =
          if (d.pwrite (data.take (e.num_blocks * B)) (e.start_block * B)).1 = true then
            writeExtents (d.pwrite (data.take (e.num_blocks * B)) (e.start_block * B)).2 B es
              (data.drop (e.num_blocks * B))
          else (false, (d.pwrite (data.take (e.num_blocks * B)) (e.start_block * B)).2) := by
        rw [writeExtents]
        simp only [hemp, hns_e, hmin, hoff]
        simp
      rw [hunf] at hok ⊢
      by_cases hw : (d.pwrite (data.take (e.num_blocks * B)) (e.start_block * B)).1 = true
      · simp only [hw, if_true] at hok ⊢
        have hlen2 : (data.drop (e.num_blocks * B)).length = extentsLength B es := by
          simp only [List.length_drop]
          omega
        obtain ⟨ih1, ih2, ih3⟩ := ih (fun x hx => hns x (List.mem_cons_of_mem _ hx))
          (fun x hx => hov x (List.mem_cons_of_mem _ hx)) hdis.2 _ _ hlen2 hok
        have htl : (data.take (e.num_blocks * B)).length = e.num_blocks * B := by
          simp only [List.length_take]
          omega
        refine ⟨?_, ?_, ?_⟩
        · simp only [Device.extentBytes]
          rw [ih1]
          have hr : Device.range
              (writeExtents (d.pwrite (data.take (e.num_blocks * B)) (e.start_block * B)).2 B es
                (data.drop (e.num_blocks * B))).2 (e.start_block * B) (e.num_blocks * B) =
              data.take (e.num_blocks * B) := by
            rw [Device.range_congr _
              (d.pwrite (data.take (e.num_blocks * B)) (e.start_block * B)).2]
            · have := Device.pwrite_range d (data.take (e.num_blocks * B)) (e.start_block * B) hw
              rw [htl] at this
              exact this
            · intro i h1 h2
              apply ih2
              intro e2 he2 hc
              exact hdis.1 e2 he2 i ⟨h1, by rw [Nat.add_mul]; exact h2⟩ hc
          rw [hr, List.take_append_drop]
        · intro i hi
          rw [ih2 i (fun x hx => hi x (List.mem_cons_of_mem _ hx))]
          apply Device.pwrite_outside
          rw [htl]
          intro hc
          exact hi e (List.mem_cons_self _ _) ⟨hc.1, by rw [Nat.add_mul]; exact hc.2⟩
        · rw [ih3, Device.pwrite_size]
      · simp [hw] at hok

/-- `writeExtents` succeeds when the extents hold no sparse hole, lie inside
the device and the data has exactly their total length. -/
theorem writeExtents_ok (B : Nat) (es : List Extent)
    (hns : ∀ e ∈ es, e.start_block ≠ kSparseHole)
    (hov : ∀ e ∈ es, (e.start_block + e.num_blocks) * B < u64) (d : Device) (data : Bytes)
    (hlen : data.length = extentsLength B es)
    (hfit : ∀ e ∈ es, (e.start_block + e.num_blocks) * B ≤ d.size) :
    (writeExtents d B es data).1 = true := by
  induction es generalizing d data with
  | nil =>
    have : data = [] := List.length_eq_zero.mp hlen
    subst this
    simp [writeExtents]
  | cons e es ih =>
    have hov_e := hov e (List.mem_cons_self _ _)
    have hns_e := hns e (List.mem_cons_self _ _)
    have hfit_e := hfit e (List.mem_cons_self _ _)
    have hnB : e.num_blocks * B < u64 := by
      have : e.num_blocks * B ≤ (e.start_block + e.num_blocks) * B :=
        Nat.mul_le_mul_right B (Nat.le_add_left _ _)
      omega
    have hsB : e.start_block * B < u64 := by
      have : e.start_block * B ≤ (e.start_block + e.num_blocks) * B :=
        Nat.mul_le_mul_right B (Nat.le_add_right _ _)
      omega
    simp only [extentsLength] at hlen
    rw [writeExtents]
    by_cases hemp : data.isEmpty = true
    · simp [hemp]
    · have hmin : min data.length ((e.num_blocks * B) % u64) = e.num_blocks * B := by
        rw [Nat.mod_eq_of_lt hnB]
        omega
      have hoff : (e.start_block * B) % u64 = e.start_block * B := Nat.mod_eq_of_lt hsB
      have htl : (data.take (e.num_blocks * B)).length = e.num_blocks * B := by
        simp only [List.length_take]
        omega
      have hw : (d.pwrite (data.take (e.num_blocks * B)) (e.start_block * B)).1 = true := by
        unfold Device.pwrite
        rw [htl]
        have : e.start_block * B + e.num_blocks * B ≤ d.size := by
          rw [← Nat.add_mul]
          exact hfit_e
        split_ifs <;> rfl
      simp only [hemp, hns_e, hmin, hoff, hw]
      simp only [Bool.false_eq_true, if_false, if_true]
      apply ih (fun x hx => hns x (List.mem_cons_of_mem _ hx))
        (fun x hx => hov x (List.mem_cons_of_mem _ hx))
      · simp only [List.length_drop]
        omega
      · intro x hx
        rw [Device.pwrite_size]
        exact hfit x (List.mem_cons_of_mem _ hx)

/-! ## C5: Replace writes the blob and nothing else -/

/-- `ExtractSignatureMessage` touches neither the buffer nor the devices nor
the block size. -/
theorem ExtractSignatureMessage_frame (env : Env) (s : State) (op : InstallOperation) :
    (ExtractSignatureMessage env s op).2.buffer = s.buffer ∧
    (ExtractSignatureMessage env s op).2.fd = s.fd ∧
    (ExtractSignatureMessage env s op).2.kernel_fd = s.kernel_fd ∧
    (ExtractSignatureMessage env s op).2.block_size = s.block_size ∧
    (ExtractSignatureMessage env s op).2.buffer_offset = s.buffer_offset ∧
    (ExtractSignatureMessage env s op).2.hash_calculator = s.hash_calculator := by
  unfold ExtractSignatureMessage
  split_ifs <;> exact ⟨rfl, rfl, rfl, rfl, rfl, rfl⟩

/-- The device read after it was set. -/
theorem State.device_setDevice (s : State) (k : Bool) (d : Device) :
    (s.setDevice k d).device k = d := by
  cases k <;> rfl

/-- Setting one device leaves the other one. -/
theorem State.device_setDevice_other (s : State) (k : Bool) (d : Device) :
    (s.setDevice k d).device (!k) = s.device (!k) := by
  cases k <;> rfl

/-- `DiscardBuffer` leaves the devices. -/
theorem DiscardBuffer_device (s : State) (b k : Bool) :
    (DiscardBuffer s b).device k = s.device k := by
  cases k <;> rfl

/-- The zero padding after data that fills whole blocks is empty. -/
theorem zeroPad_of_dvd (B len : Nat) (h : B ∣ len) : zeroPad B len = [] := by
  unfold zeroPad
  split_ifs with h0
  · rfl
  · rw [Nat.mod_eq_zero_of_dvd h]
    simp

/-- `PerformReplaceOperation` succeeds on a Replace whose blob is at the head
of the buffer and has the total length of destination extents that hold no
sparse hole and lie inside the device. -/
theorem PerformReplaceOperation_ok (env : Env) (s : State) (op : InstallOperation) (k : Bool)
    (htype : op.type = OpType.REPLACE) (hoff : s.buffer_offset = op.data_offset)
    (hbuf : op.data_length ≤ s.buffer.length)
    (hns : ∀ e ∈ op.dst_extents, e.start_block ≠ kSparseHole)
    (hov : ∀ e ∈ op.dst_extents, (e.start_block + e.num_blocks) * s.block_size < u64)
    (hlen : op.data_length = extentsLength s.block_size op.dst_extents)
    (hfit : ∀ e ∈ op.dst_extents,
      (e.start_block + e.num_blocks) * s.block_size ≤ (s.device k).size) :
    (PerformReplaceOperation env s op k).1 = true := by
  obtain ⟨f1, f2, f3, f4, -, -⟩ := ExtractSignatureMessage_frame env s op
  have fdev : ∀ b, (ExtractSignatureMessage env s op).2.device b = s.device b := by
    intro b
    cases b
    · exact f2
    · exact f3
  have htl : (s.buffer.take op.data_length).length = extentsLength s.block_size op.dst_extents := by
    rw [List.length_take]
    omega
  have hpad : zeroPad s.block_size (s.buffer.take op.data_length).length = [] := by
    rw [htl]
    exact zeroPad_of_dvd _ _ (dvd_extentsLength _ _)
  have hw := writeExtents_ok s.block_size op.dst_extents hns hov (s.device k)
    (s.buffer.take op.data_length) htl hfit
  unfold PerformReplaceOperation
  simp only [hoff, hbuf, ge_iff_le, not_true_eq_false, if_false, htype, if_true]
  rw [f1, f4, fdev, hpad, List.append_nil]
  simp only [hw, not_true_eq_false, if_false]

/-- C5, as stated, fails: with block size 4 and the two destination
extents `[{0,1},{0,1}]`, which hold no sparse hole and have the total
length 8 of the blob `1..8`, `PerformReplaceOperation` succeeds and the
extents read back as `5,6,7,8,5,6,7,8`, not as the blob. -/
theorem PerformReplaceOperation_overlap :
    (currentOp exOverlapState).type = OpType.REPLACE ∧
    (∀ e ∈ (currentOp exOverlapState).dst_extents, e.start_block ≠ kSparseHole) ∧
    (currentOp exOverlapState).data_length =
      extentsLength exOverlapState.block_size (currentOp exOverlapState).dst_extents ∧
    (PerformReplaceOperation (exEnv exOverlapState.manifest) exOverlapState
      (currentOp exOverlapState) false).1 = true ∧
    ((PerformReplaceOperation (exEnv exOverlapState.manifest) exOverlapState
      (currentOp exOverlapState) false).2.device false).extentBytes 4
        (currentOp exOverlapState).dst_extents = [5, 6, 7, 8, 5, 6, 7, 8] ∧
    exOverlapState.buffer.take (currentOp exOverlapState).data_length =
      [1, 2, 3, 4, 5, 6, 7, 8] := by
  refine ⟨by decide, by decide, by decide, by decide!, by decide!, by decide⟩

/-- C5, amended: for a Replace with block size `B` whose destination
extents hold no sparse hole, end below byte `2 ^ 64` and are pairwise
disjoint, and a blob (the first `data_length` buffered bytes) whose length
is the total destination byte length, a successful
`PerformReplaceOperation` leaves the target device with the blob in the
byte ranges of the destination extents taken in order, every byte outside
those ranges unchanged, and the other device untouched. -/
theorem PerformReplaceOperation_writes_blob (env : Env) (s : State) (op : InstallOperation)
    (k : Bool) (htype : op.type = OpType.REPLACE)
    (hns : ∀ e ∈ op.dst_extents, e.start_block ≠ kSparseHole)
    (hov : ∀ e ∈ op.dst_extents, (e.start_block + e.num_blocks) * s.block_size < u64)
    (hdis : extentsDisjoint s.block_size op.dst_extents)
    (hlen : op.data_length = extentsLength s.block_size op.dst_extents)
    (hok : (PerformReplaceOperation env s op k).1 = true) :
    ((PerformReplaceOperation env s op k).2.device k).extentBytes s.block_size op.dst_extents =
      s.buffer.take op.data_length ∧
    (∀ i, (∀ e ∈ op.dst_extents, ¬ e.covers s.block_size i) →
      ((PerformReplaceOperation env s op k).2.device k).data i = (s.device k).data i) ∧
    ((PerformReplaceOperation env s op k).2.device k).size = (s.device k).size ∧
    (PerformReplaceOperation env s op k).2.device (!k) = s.device (!k) := by
  obtain ⟨f1, f2, f3, f4, -, -⟩ := ExtractSignatureMessage_frame env s op
  have fdev : ∀ b, (ExtractSignatureMessage env s op).2.device b = s.device b := by
    intro b
    cases b
    · exact f2
    · exact f3
  unfold PerformReplaceOperation at hok ⊢
  by_cases h1 : s.buffer_offset = op.data_offset
  swap
  · simp [h1] at hok
  by_cases h2 : s.buffer.length ≥ op.data_length
  swap
  · simp [h1, h2] at hok
  simp only [h1, h2, not_true_eq_false, if_false, htype, if_true] at hok ⊢
  have htl : (s.buffer.take op.data_length).length = extentsLength s.block_size op.dst_extents := by
    rw [List.length_take]
    omega
  have hpad : zeroPad s.block_size (s.buffer.take op.data_length).length = [] := by
    rw [htl]
    exact zeroPad_of_dvd _ _ (dvd_extentsLength _ _)
  rw [f1, f4, fdev, hpad, List.append_nil] at hok ⊢
  by_cases hw : (writeExtents (s.device k) s.block_size op.dst_extents
      (s.buffer.take op.data_length)).1 = true
  swap
  · simp [hw] at hok
  obtain ⟨w1, w2, w3⟩ := writeExtents_spec s.block_size op.dst_extents hns hov hdis
    (s.device k) (s.buffer.take op.data_length) htl hw
  simp only [hw, not_true_eq_false, if_false]
  rw [DiscardBuffer_device, State.device_setDevice, DiscardBuffer_device,
    State.device_setDevice_other, fdev]
  exact ⟨w1, w2, w3, rfl⟩

/-- C5, amended, at the input of the claim: block size 4096, the
destination extent `{start=10,num=4}` and a blob of 16384 bytes: the blob
lands at byte offset 40960 and every byte before 40960 or from 57344 on is
unchanged. -/
theorem PerformReplaceOperation_writes_blob_witness :
    ((PerformReplaceOperation (exEnv exReplaceState.manifest) exReplaceState
      (exReplace 0 16384 [] [⟨10, 4⟩]) false).2.device false).range 40960 16384 =
      List.replicate 16384 7 ∧
    (∀ i, (i < 40960 ∨ 57344 ≤ i) →
      ((PerformReplaceOperation (exEnv exReplaceState.manifest) exReplaceState
        (exReplace 0 16384 [] [⟨10, 4⟩]) false).2.device false).data i =
        (exDevice 65536).data i) := by
  have h := PerformReplaceOperation_writes_blob (exEnv exReplaceState.manifest) exReplaceState
    (exReplace 0 16384 [] [⟨10, 4⟩]) false rfl (by decide) (by decide)
    (by simp [extentsDisjoint, exReplace]) (by decide)
    (PerformReplaceOperation_ok _ _ _ _ rfl rfl
      (by
        show 16384 ≤ (List.replicate 16384 7).length
        rw [List.length_replicate])
      (by decide) (by decide) (by decide) (by decide))
  refine ⟨?_, ?_⟩
  · have h1 := h.1
    simp only [exReplace, Device.extentBytes, List.append_nil] at h1
    have hb : (exReplaceState.buffer.take 16384) = List.replicate 16384 7 := by
      show (List.replicate 16384 7).take 16384 = List.replicate 16384 7
      rw [List.take_replicate, Nat.min_self]
    rw [hb] at h1
    exact h1
  · intro i hi
    have h2 := h.2.1 i (by
      intro e he
      simp only [exReplace, List.mem_singleton] at he
      subst he
      simp only [Extent.covers]
      have : exReplaceState.block_size = 4096 := rfl
      rw [this]
      omega)
    exact h2

/-! ## C6: Move copies source to destination -/

/-- `markNonIdempotent` touches neither the devices nor the block size nor
the buffer. -/
theorem markNonIdempotent_frame (s : State) (op : InstallOperation) :
    (markNonIdempotent s op).fd = s.fd ∧ (markNonIdempotent s op).kernel_fd = s.kernel_fd ∧
    (markNonIdempotent s op).block_size = s.block_size ∧
    (markNonIdempotent s op).buffer = s.buffer := by
  unfold markNonIdempotent
  split_ifs <;> exact ⟨rfl, rfl, rfl, rfl⟩

/-- C1, as stated, fails: for the manifest `exChunkManifest`, whose Move
declares two data bytes, one `Write` of the whole payload ends with buffer
offset 4 and all four data bytes hashed, while the same payload written as
the two chunks `header ++ [9, 8]` and `[7, 6]` ends with buffer offset 2 and
two data bytes hashed. -/
theorem Write_chunk_dependent :
    (Write (exEnv exChunkManifest) exFresh ((exHeader ++ [9, 8]) ++ [7, 6])).map
        WriteResult.outcome =
      some ⟨true, ErrorCode.kSuccess, true, 2, 4, [], exHeader ++ [9, 8, 7, 6]⟩ ∧
    (WriteChunks (exEnv exChunkManifest) exFresh [exHeader ++ [9, 8], [7, 6]]).map
        WriteResult.outcome =
      some ⟨true, ErrorCode.kSuccess, true, 2, 2, [], exHeader ++ [9, 8]⟩ := by
  refine ⟨by decide!, by decide!⟩

/-- A state whose buffer is replaced by itself is the same state. -/
theorem State.buffer_self (s : State) : { s with buffer := s.buffer } = s := by
  cases s
  rfl

/-- `CopyDataToBuffer` moves the first `room` bytes of the input to the
buffer. -/
theorem CopyDataToBuffer_room (s : State) (bytes : Bytes) (max : Nat) :
    CopyDataToBuffer s bytes max =
      ({ s with buffer := s.buffer ++ bytes.take (room s max) }, bytes.drop (room s max)) := by
  unfold CopyDataToBuffer room
  by_cases h0 : bytes.length = 0
  · have : bytes = [] := List.length_eq_zero.mp h0
    subst this
    simp [State.buffer_self]
  · simp only [h0, if_false]
    generalize (max % u64 + u64 - s.buffer.length % u64) % u64 = r
    by_cases hle : bytes.length ≤ r
    · rw [Nat.min_eq_left hle, List.take_of_length_le hle, List.drop_of_length_le hle,
        List.take_of_length_le (le_refl _), List.drop_of_length_le (le_refl _)]
    · rw [Nat.min_eq_right (by omega)]

/-- The room left after a part of it was copied. -/
theorem room_append (s : State) (max : Nat) (a : Bytes) (ha : a.length < room s max) :
    room { s with buffer := s.buffer ++ a } max = room s max - a.length := by
  unfold room at ha ⊢
  simp only [List.length_append]
  unfold u64 at ha ⊢
  norm_num at ha ⊢
  omega

/-- The body of an operation pass hands the input left by the copy step on
unread. -/
theorem operationBody_addRest (env : Env) (s : State) (op : InstallOperation) (k : Bool)
    (x b : Bytes) :
    operationBody env s op k (x ++ b) = (operationBody env s op k x).addRest b := by
  unfold operationBody
  simp only []
  split_ifs <;> rfl

/-- Input behind an operation pass that its copy step does not reach is
handed on unread. -/
theorem operationStep_append_full (env : Env) (s : State) (a b : Bytes)
    (hfull : room s (currentOp s).data_length ≤ a.length) :
    operationStep env s (a ++ b) = (operationStep env s a).addRest b := by
  unfold operationStep
  cases env.ShouldCancel with
  | some e => rfl
  | none =>
    simp only []
    rw [CopyDataToBuffer_room, CopyDataToBuffer_room, List.take_append_of_le_length hfull,
      List.drop_append_of_le_length hfull]
    exact operationBody_addRest _ _ _ _ _ _

/-- An operation pass on input that ends before the room is used up copies
all of it; the pass on the state it leaves, given more input, is the pass
on both inputs in one. -/
theorem operationStep_append_part (env : Env) (s : State) (a b : Bytes)
    (hcancel : env.ShouldCancel = none)
    (hpart : a.length < room s (currentOp s).data_length) :
    operationStep env { s with buffer := s.buffer ++ a } b = operationStep env s (a ++ b) := by
  unfold operationStep
  rw [hcancel]
  · simp only []
    rw [CopyDataToBuffer_room, CopyDataToBuffer_room]
    have hcur : currentOp { s with buffer := s.buffer ++ a } = currentOp s := rfl
    rw [hcur, room_append s _ a hpart]
    have ht : (a ++ b).take (room s (currentOp s).data_length) =
        a ++ b.take (room s (currentOp s).data_length - a.length) := by
      rw [List.take_append_eq_append_take, List.take_of_length_le (le_of_lt hpart)]
    have hd : (a ++ b).drop (room s (currentOp s).data_length) =
        b.drop (room s (currentOp s).data_length - a.length) := by
      rw [List.drop_append_eq_append_drop, List.drop_of_length_le (le_of_lt hpart),
        List.nil_append]
    rw [ht, hd]
    simp only [List.append_assoc]

/-- The metadata pass as a copy step followed by its body. -/
theorem metadataStep_eq (env : Env) (s : State) (x : Bytes) :
    metadataStep env s x =
      metadataBody env (decide (s.metadata_size = 0))
        (CopyDataToBuffer s x (metadataLimit env s)).1
        (CopyDataToBuffer s x (metadataLimit env s)).2 := by
  unfold metadataStep metadataLimit
  by_cases h : s.metadata_size = 0 <;> simp [h]

/-- The body of a metadata pass hands the input left by the copy step on
unread. -/
theorem metadataBody_addRest (env : Env) (h : Bool) (s : State) (x b : Bytes) :
    metadataBody env h s (x ++ b) = (metadataBody env h s x).addRest b := by
  unfold metadataBody metadataFinish
  simp only []
  split_ifs <;> rfl

/-- Input behind a metadata pass that its copy step does not reach is
handed on unread. -/
theorem metadataStep_append_full (env : Env) (s : State) (a b : Bytes)
    (hfull : room s (metadataLimit env s) ≤ a.length) :
    metadataStep env s (a ++ b) = (metadataStep env s a).addRest b := by
  rw [metadataStep_eq, metadataStep_eq, CopyDataToBuffer_room, CopyDataToBuffer_room,
    List.take_append_of_le_length hfull, List.drop_append_of_le_length hfull]
  exact metadataBody_addRest _ _ _ _ _

/-- A metadata pass on input that ends before the room is used up copies
all of it; the pass on the state it leaves, given more input, is the pass
on both inputs in one. -/
theorem metadataStep_append_part (env : Env) (s : State) (a b : Bytes)
    (hpart : a.length < room s (metadataLimit env s)) :
    metadataStep env { s with buffer := s.buffer ++ a } b = metadataStep env s (a ++ b) := by
  rw [metadataStep_eq, metadataStep_eq, CopyDataToBuffer_room, CopyDataToBuffer_room]
  have hlim : metadataLimit env { s with buffer := s.buffer ++ a } = metadataLimit env s := rfl
  rw [hlim, room_append s _ a hpart]
  have ht : (a ++ b).take (room s (metadataLimit env s)) =
      a ++ b.take (room s (metadataLimit env s) - a.length) := by
    rw [List.take_append_eq_append_take, List.take_of_length_le (le_of_lt hpart)]
  have hd : (a ++ b).drop (room s (metadataLimit env s)) =
      b.drop (room s (metadataLimit env s) - a.length) := by
    rw [List.drop_append_eq_append_drop, List.drop_of_length_le (le_of_lt hpart),
      List.nil_append]
  rw [ht, hd]
  simp only [List.append_assoc]

/-! ### What the appliers leave unchanged -/

/-- `setDevice` keeps the static fields. -/
theorem setDevice_static (s : State) (k : Bool) (d : Device) :
    (s.setDevice k d).static = s.static := by
  cases k <;> rfl

/-- `markNonIdempotent` keeps the static fields. -/
theorem markNonIdempotent_static (s : State) (op : InstallOperation) :
    (markNonIdempotent s op).static = s.static := by
  unfold markNonIdempotent
  split_ifs <;> rfl

/-- `ExtractSignatureMessage` keeps the static fields. -/
theorem ExtractSignatureMessage_static (env : Env) (s : State) (op : InstallOperation) :
    (ExtractSignatureMessage env s op).2.static = s.static := by
  unfold ExtractSignatureMessage
  split_ifs <;> rfl

/-- `CheckpointUpdateProgress` keeps the static fields, the buffer, the
buffer offset, the hash and the devices. -/
theorem CheckpointUpdateProgress_frame (env : Env) (s : State) :
    (CheckpointUpdateProgress env s).2.static = s.static ∧
    (CheckpointUpdateProgress env s).2.buffer = s.buffer ∧
    (CheckpointUpdateProgress env s).2.buffer_offset = s.buffer_offset ∧
    (CheckpointUpdateProgress env s).2.hash_calculator = s.hash_calculator ∧
    (CheckpointUpdateProgress env s).2.fd = s.fd ∧
    (CheckpointUpdateProgress env s).2.kernel_fd = s.kernel_fd := by
  unfold CheckpointUpdateProgress
  simp only []
  split_ifs <;> exact ⟨rfl, rfl, rfl, rfl, rfl, rfl⟩

/-- `DiscardBuffer` keeps the static fields. -/
theorem DiscardBuffer_static (s : State) (b : Bool) : (DiscardBuffer s b).static = s.static :=
  rfl

/-- `DiscardBuffer` empties the buffer. -/
theorem DiscardBuffer_buffer (s : State) (b : Bool) : (DiscardBuffer s b).buffer = [] := rfl

/-- `setDevice` keeps the buffer. -/
theorem setDevice_buffer (s : State) (k : Bool) (d : Device) :
    (s.setDevice k d).buffer = s.buffer := by
  cases k <;> rfl

/-- `PerformReplaceOperation` keeps the static fields, and empties the
buffer when it succeeds. -/
theorem PerformReplaceOperation_frame (env : Env) (s : State) (op : InstallOperation)
    (k : Bool) :
    (PerformReplaceOperation env s op k).2.static = s.static ∧
    ((PerformReplaceOperation env s op k).1 = true →
      (PerformReplaceOperation env s op k).2.buffer = []) := by
  have he := ExtractSignatureMessage_static env s op
  unfold PerformReplaceOperation
  simp only []
  repeat' split
  all_goals simp [setDevice_static, he, DiscardBuffer_static, DiscardBuffer_buffer]

/-- `PerformMoveOperation` keeps the static fields and the buffer. -/
theorem PerformMoveOperation_frame (s : State) (op : InstallOperation) (k : Bool) :
    (PerformMoveOperation s op k).2.static = s.static ∧
    (PerformMoveOperation s op k).2.buffer = s.buffer := by
  unfold PerformMoveOperation
  simp only []
  split
  · exact ⟨rfl, rfl⟩
  · refine ⟨?_, ?_⟩
    · rw [setDevice_static, markNonIdempotent_static]
    · have : ∀ (t : State) (d : Device), (t.setDevice k d).buffer = t.buffer := by
        intro t d
        cases k <;> rfl
      rw [this, (markNonIdempotent_frame s op).2.2.2]

/-- `bsdiffApply` keeps the static fields and the buffer. -/
theorem bsdiffApply_frame (env : Env) (s : State) (op : InstallOperation) (k : Bool)
    (patch : Bytes) (i o : String) :
    (bsdiffApply env s op k patch i o).2.static = s.static ∧
    (bsdiffApply env s op k patch i o).2.buffer = s.buffer := by
  unfold bsdiffApply
  simp only []
  repeat' split
  all_goals simp [setDevice_static, setDevice_buffer]

/-- `PerformBsdiffOperation` keeps the static fields, and empties the
buffer when it succeeds. -/
theorem PerformBsdiffOperation_frame (env : Env) (s : State) (op : InstallOperation)
    (k : Bool) :
    (PerformBsdiffOperation env s op k).2.static = s.static ∧
    ((PerformBsdiffOperation env s op k).1 = true →
      (PerformBsdiffOperation env s op k).2.buffer = []) := by
  unfold PerformBsdiffOperation
  simp only []
  repeat' split
  all_goals simp [bsdiffApply_frame, markNonIdempotent_static, DiscardBuffer_static,
    DiscardBuffer_buffer, (markNonIdempotent_frame _ _).2.2.2]

/-- The dispatch keeps the static fields; when it succeeds the buffer is
empty, or the operation is a Move and the buffer is as before. -/
theorem performOperation_frame (env : Env) (s : State) (op : InstallOperation) (k : Bool)
    (e : ErrorCode) :
    (performOperation env s op k e).2.static = s.static ∧
    ((performOperation env s op k e).1.1 = true →
      (op.type = OpType.MOVE ∧ (performOperation env s op k e).2.buffer = s.buffer) ∨
        (performOperation env s op k e).2.buffer = []) := by
  have hh : ∀ b : Bool, (HandleOpResult b e).1 = b := by
    intro b
    cases b <;> rfl
  unfold performOperation
  split_ifs with h1 h2 h3
  · simp only [hh]
    exact ⟨(PerformReplaceOperation_frame env s op k).1,
      fun h => Or.inr ((PerformReplaceOperation_frame env s op k).2 h)⟩
  · simp only [hh]
    exact ⟨(PerformMoveOperation_frame s op k).1,
      fun _ => Or.inl ⟨h2, (PerformMoveOperation_frame s op k).2⟩⟩
  · simp only [hh]
    exact ⟨(PerformBsdiffOperation_frame env s op k).1,
      fun h => Or.inr ((PerformBsdiffOperation_frame env s op k).2 h)⟩
  · refine ⟨rfl, fun h => ?_⟩
    rw [hh] at h
    exact absurd h (by simp)

/-- The body of an operation pass, with the result of the hash check and of
the dispatch named. -/
theorem operationBody_eq (env : Env) (s : State) (op : InstallOperation) (k : Bool)
    (rest : Bytes) :
    ∃ (v : ErrorCode) (r : (Bool × ErrorCode) × State),
      r = performOperation env s op k ErrorCode.kSuccess ∧
      operationBody env s op k rest =
        if CanPerformInstallOperation s op = false then
          LoopStep.ret ⟨true, ErrorCode.kSuccess, s⟩
        else if v ≠ ErrorCode.kSuccess ∧ s.install_plan.hash_checks_mandatory = true then
          LoopStep.ret ⟨false, v, s⟩
        else if r.1.1 = false then LoopStep.ret ⟨false, r.1.2, { r.2 with exit_blocked := false }⟩
        else
          LoopStep.next
            { (CheckpointUpdateProgress env
                { r.2 with next_operation_num := r.2.next_operation_num + 1 }).2 with
              exit_blocked := false } rest := by
  refine ⟨if ¬ s.install_plan.metadata_signature.isEmpty then ValidateOperationHash env s op
    else ErrorCode.kSuccess, performOperation env s op k ErrorCode.kSuccess, rfl, ?_⟩
  unfold operationBody
  simp only []
  by_cases h1 : CanPerformInstallOperation s op = true
  · simp only [h1, not_true_eq_false, if_false, Bool.true_eq_false]
    split_ifs <;> simp_all
  · simp only [h1, not_false_eq_true, if_true]
    simp only [Bool.not_eq_true] at h1
    simp [h1]

/-- A pass that goes on to the next operation: the input is handed on, the
operation counter is one more, the other static fields are as before, and
the buffer is empty, or the operation was a Move and the buffer is as
before. -/
theorem operationBody_next (env : Env) (s : State) (op : InstallOperation) (k : Bool)
    (rest : Bytes) (s1 : State) (x1 : Bytes)
    (h : operationBody env s op k rest = LoopStep.next s1 x1) :
    x1 = rest ∧
    s1.static = { s.static with next_operation_num := s.next_operation_num + 1 } ∧
    ((op.type = OpType.MOVE ∧ s1.buffer = s.buffer) ∨ s1.buffer = []) := by
  obtain ⟨v, r, hr, heq⟩ := operationBody_eq env s op k rest
  rw [heq] at h
  split_ifs at h with h1 h2 h3
  simp only [LoopStep.next.injEq] at h
  obtain ⟨hs, hx⟩ := h
  obtain ⟨f1, f2⟩ := performOperation_frame env s op k ErrorCode.kSuccess
  rw [← hr] at f1 f2
  obtain ⟨c1, c2, -, -, -, -⟩ := CheckpointUpdateProgress_frame env
    { r.2 with next_operation_num := r.2.next_operation_num + 1 }
  refine ⟨hx.symm, ?_, ?_⟩
  · have hn : r.2.next_operation_num = s.next_operation_num :=
      congrArg Static.next_operation_num f1
    rw [← hs]
    show (CheckpointUpdateProgress env _).2.static = _
    rw [c1, ← f1, ← hn]
    rfl
  · have hb : s1.buffer = r.2.buffer := by
      rw [← hs]
      exact c2
    rw [hb]
    exact f2 (by simpa using h3)

/-- A pass that returns success without going on returned at the data gate:
the state is the one the copy step left. -/
theorem operationBody_ret_ok (env : Env) (s : State) (op : InstallOperation) (k : Bool)
    (rest : Bytes) (r : WriteResult)
    (h : operationBody env s op k rest = LoopStep.ret r) (hok : r.ok = true) :
    r = ⟨true, ErrorCode.kSuccess, s⟩ ∧ CanPerformInstallOperation s op = false := by
  obtain ⟨v, p, -, heq⟩ := operationBody_eq env s op k rest
  rw [heq] at h
  split_ifs at h with h1 h2 h3
  · simp only [LoopStep.ret.injEq] at h
    exact ⟨h.symm, h1⟩
  · simp only [LoopStep.ret.injEq] at h
    rw [← h] at hok
    exact absurd hok (by simp)
  · simp only [LoopStep.ret.injEq] at h
    rw [← h] at hok
    exact absurd hok (by simp)

/-- At a closed gate the pass returns success on the state the copy step
left. -/
theorem operationBody_closed (env : Env) (s : State) (op : InstallOperation) (k : Bool)
    (rest : Bytes) (h : CanPerformInstallOperation s op = false) :
    operationBody env s op k rest = LoopStep.ret ⟨true, ErrorCode.kSuccess, s⟩ := by
  unfold operationBody
  simp [h]

/-! ### The data gate on a partly filled buffer -/

/-- The operation that is next is one of the operations of the manifest. -/
theorem currentOp_mem (s : State)
    (hr : s.num_rootfs_operations = s.manifest.install_operations.length)
    (ht : s.num_total_operations =
      s.num_rootfs_operations + s.manifest.kernel_install_operations.length)
    (hn : s.next_operation_num < s.num_total_operations) :
    currentOp s ∈ s.manifest.install_operations ++ s.manifest.kernel_install_operations := by
  unfold currentOp
  split_ifs with h
  · have hi : s.next_operation_num - s.num_rootfs_operations <
        s.manifest.kernel_install_operations.length := by omega
    rw [List.getD_eq_getElem _ _ hi]
    exact List.mem_append_right _ (List.getElem_mem hi)
  · have hi : s.next_operation_num < s.manifest.install_operations.length := by omega
    rw [List.getD_eq_getElem _ _ hi]
    exact List.mem_append_left _ (List.getElem_mem hi)

/-- The room of a buffer within a limit below `2 ^ 64`. -/
theorem room_eq (s : State) (max : Nat) (hmax : max < u64) (hbuf : s.buffer.length ≤ max) :
    room s max = max - s.buffer.length := by
  unfold room
  unfold u64 at hmax ⊢
  norm_num at hmax ⊢
  omega

/-- No room is left after the room was filled. -/
theorem room_filled (s : State) (max : Nat) (t : Bytes) (ht : t.length = room s max) :
    room { s with buffer := s.buffer ++ t } max = 0 := by
  unfold room at ht ⊢
  simp only [List.length_append]
  unfold u64 at ht ⊢
  norm_num at ht ⊢
  omega

/-- With a partly filled buffer the pass for an operation of a `ManifestWF`
manifest returns success at the data gate, keeping the bytes copied. -/
theorem operationStep_need_more (env : Env) (s : State) (a : Bytes)
    (hcancel : env.ShouldCancel = none) (hvalid : s.manifest_valid = true) (hinv : Inv env s)
    (hn : s.next_operation_num < s.num_total_operations)
    (hpart : a.length < room s (currentOp s).data_length) :
    operationStep env s a =
      LoopStep.ret ⟨true, ErrorCode.kSuccess, { s with buffer := s.buffer ++ a }⟩ := by
  obtain ⟨hwf, hr, ht, hb⟩ := hinv.2 hvalid
  have hb := hb hn
  obtain ⟨hmove, hsum⟩ := hwf _ (currentOp_mem s hr ht hn)
  have hL : (currentOp s).data_length < u64 := by omega
  rw [room_eq s _ hL hb] at hpart
  unfold operationStep
  rw [hcancel]
  simp only []
  rw [CopyDataToBuffer_room, room_eq s _ hL hb, List.take_of_length_le (le_of_lt hpart)]
  apply operationBody_closed
  unfold CanPerformInstallOperation
  have hnm : (currentOp s).type ≠ OpType.MOVE := by
    intro hc
    have := hmove hc
    omega
  simp only [hnm, if_false]
  split_ifs with h1
  · rfl
  · simp only [List.length_append, decide_eq_false_iff_not, not_le]
    rw [Nat.mod_eq_of_lt hsum, Nat.mod_eq_of_lt (by omega)]
    omega

/-- A pass that returned success at the data gate with the room used up
returns the same on any further input. -/
theorem operationStep_frozen (env : Env) (s : State) (a b : Bytes) (r : WriteResult)
    (hcancel : env.ShouldCancel = none)
    (hfull : room s (currentOp s).data_length ≤ a.length)
    (h : operationStep env s a = LoopStep.ret r) (hok : r.ok = true) :
    operationStep env r.state b = LoopStep.ret r ∧
    r.state = { s with buffer := s.buffer ++ a.take (room s (currentOp s).data_length) } ∧
    r.error = ErrorCode.kSuccess := by
  unfold operationStep at h
  rw [hcancel] at h
  simp only [] at h
  rw [CopyDataToBuffer_room] at h
  obtain ⟨hr, hgate⟩ := operationBody_ret_ok _ _ _ _ _ _ h hok
  subst hr
  refine ⟨?_, rfl, rfl⟩
  unfold operationStep
  rw [hcancel]
  simp only []
  rw [CopyDataToBuffer_room]
  rw [show currentOp { s with buffer := s.buffer ++ a.take (room s (currentOp s).data_length) }
    = currentOp s from rfl, room_filled s _ _ (by rw [List.length_take]; omega)]
  simp only [List.take_zero, List.append_nil, List.drop_zero]
  exact operationBody_closed _ _ _ _ _ hgate

/-! ### The metadata pass on a partly filled buffer -/

/-- The limit of the metadata pass is below `2 ^ 64` and the buffer is
within it. -/
theorem metadataLimit_bound (env : Env) (s : State) (hMO : GetManifestOffset env < u64)
    (hvalid : s.manifest_valid = false) (hinv : Inv env s) :
    metadataLimit env s < u64 ∧ s.buffer.length ≤ metadataLimit env s := by
  unfold metadataLimit
  rcases hinv.1 hvalid with ⟨h1, h2⟩ | ⟨h1, h2, h3⟩
  · simp only [h1, if_true]
    exact ⟨hMO, h2⟩
  · have : s.metadata_size ≠ 0 := by omega
    simp only [this, if_false]
    exact ⟨h2, h3⟩

/-- With a partly filled buffer the metadata pass returns success, keeping
the bytes copied. -/
theorem metadataStep_need_more (env : Env) (s : State) (a : Bytes)
    (hMO : GetManifestOffset env < u64)
    (hvalid : s.manifest_valid = false) (hinv : Inv env s)
    (hpart : a.length < room s (metadataLimit env s)) :
    metadataStep env s a =
      LoopStep.ret ⟨true, ErrorCode.kSuccess, { s with buffer := s.buffer ++ a }⟩ := by
  obtain ⟨hlim, hbuf⟩ := metadataLimit_bound env s hMO hvalid hinv
  rw [room_eq s _ hlim hbuf] at hpart
  rw [metadataStep_eq, CopyDataToBuffer_room, room_eq s _ hlim hbuf,
    List.take_of_length_le (le_of_lt hpart)]
  unfold metadataLimit at hpart
  rcases hinv.1 hvalid with ⟨h1, h2⟩ | ⟨h1, h2, h3⟩
  · simp only [h1, if_true] at hpart
    have hlen : s.buffer.length + a.length < GetManifestOffset env := by omega
    unfold metadataBody ParsePayloadMetadata ParseHeader
    simp [h1, hlen]
  · have hms : s.metadata_size ≠ 0 := by omega
    simp only [hms, if_false] at hpart
    have hlen : s.buffer.length + a.length < s.metadata_size := by omega
    have hmsz : (s.metadata_size + u64 - GetManifestOffset env % u64) % u64 ≠ 0 := by
      unfold u64 at h2 hMO ⊢
      norm_num at h2 hMO ⊢
      omega
    unfold metadataBody ParsePayloadMetadata ParseBody
    simp [hms, hmsz, hlen]

/-- What the header branch of `ParsePayloadMetadata` returns early: not
enough data for the header, with the state as it was, or a parse error. -/
theorem ParseHeader_inl (env : Env) (s : State) (p : Bytes)
    (r : MetadataParseResult × ErrorCode × State) (h : ParseHeader env s p = Sum.inl r) :
    (r = (MetadataParseResult.kMetadataParseInsufficientData, ErrorCode.kSuccess, s) ∧
      p.length < GetManifestOffset env) ∨
    r.1 = MetadataParseResult.kMetadataParseError := by
  unfold ParseHeader at h
  simp only [] at h
  split_ifs at h with h1 h2 h3 h4
  all_goals simp only [Sum.inl.injEq] at h
  · exact Or.inl ⟨h.symm, h1⟩
  · exact Or.inr (by rw [← h])
  · exact Or.inr (by rw [← h])
  · exact Or.inr (by rw [← h])

/-- What the header branch of `ParsePayloadMetadata` hands on: the header is
complete and the metadata size is set from it. -/
theorem ParseHeader_inr (env : Env) (s s1 : State) (p : Bytes) (m : Nat)
    (h : ParseHeader env s p = Sum.inr (s1, m)) :
    GetManifestOffset env ≤ p.length ∧
    s1 = { s with metadata_size := (GetManifestOffset env + m) % u64 } ∧
    m = be64 p (GetManifestSizeOffset env) := by
  unfold ParseHeader at h
  simp only [] at h
  split_ifs at h with h1 h2 h3 h4
  simp only [Sum.inr.injEq, Prod.mk.injEq] at h
  obtain ⟨h5, h6⟩ := h
  refine ⟨by omega, ?_, h6.symm⟩
  rw [← h5, ← h6]

/-- What the part of `ParsePayloadMetadata` after the header branch returns:
not enough data, with the state as it was, or a parse error, or success
with the parsed manifest. -/
theorem ParseBody_cases (env : Env) (s : State) (m : Nat) (p : Bytes) :
    (ParseBody env s m p =
        (MetadataParseResult.kMetadataParseInsufficientData, ErrorCode.kSuccess, s) ∧
      p.length < s.metadata_size) ∨
    (ParseBody env s m p).1 = MetadataParseResult.kMetadataParseError ∨
    (∃ mf, env.ParseFromArray (p.drop (GetManifestOffset env)) m = some mf ∧
      ParseBody env s m p = (MetadataParseResult.kMetadataParseSuccess, ErrorCode.kSuccess,
        { s with manifest := mf, manifest_parsed := true }) ∧
      s.metadata_size ≤ p.length) := by
  unfold ParseBody
  simp only []
  split_ifs with h1 h2
  · exact Or.inl ⟨rfl, h1⟩
  · exact Or.inr (Or.inl rfl)
  · cases hp : env.ParseFromArray (p.drop (GetManifestOffset env)) m with
    | none => exact Or.inr (Or.inl rfl)
    | some mf => exact Or.inr (Or.inr ⟨mf, rfl, rfl, by omega⟩)

/-- `ParsePayloadMetadata` while the metadata size is unknown. -/
theorem ParsePayloadMetadata_header (env : Env) (s : State) (p : Bytes)
    (h : s.metadata_size = 0) :
    ParsePayloadMetadata env s p =
      match ParseHeader env s p with
      | Sum.inl r => r
      | Sum.inr (s1, m) => ParseBody env s1 m p := by
  unfold ParsePayloadMetadata
  simp [h]

/-- `ParsePayloadMetadata` once the metadata size is known. -/
theorem ParsePayloadMetadata_body (env : Env) (s : State) (p : Bytes)
    (hMO : GetManifestOffset env < s.metadata_size) (hms : s.metadata_size < u64) :
    ParsePayloadMetadata env s p =
      ParseBody env s (s.metadata_size - GetManifestOffset env) p := by
  have h0 : s.metadata_size ≠ 0 := by omega
  have hmsz : (s.metadata_size + u64 - GetManifestOffset env % u64) % u64 =
      s.metadata_size - GetManifestOffset env := by
    unfold u64 at hms ⊢
    norm_num at hms ⊢
    omega
  unfold ParsePayloadMetadata
  simp only [h0, ne_eq, not_false_eq_true, if_true, hmsz]
  have : s.metadata_size - GetManifestOffset env ≠ 0 := by omega
  simp [this]

/-- `PrimeUpdateState` keeps the manifest, its validity, the buffer, the
install plan and the operation counts. -/
theorem PrimeUpdateState_frame (env : Env) (s : State) :
    (PrimeUpdateState env s).2.manifest = s.manifest ∧
    (PrimeUpdateState env s).2.manifest_valid = s.manifest_valid ∧
    (PrimeUpdateState env s).2.buffer = s.buffer ∧
    (PrimeUpdateState env s).2.install_plan = s.install_plan ∧
    (PrimeUpdateState env s).2.fd = s.fd ∧
    (PrimeUpdateState env s).2.kernel_fd = s.kernel_fd := by
  unfold PrimeUpdateState
  simp only []
  repeat' split
  all_goals exact ⟨rfl, rfl, rfl, rfl, rfl, rfl⟩

/-- The outcomes of `ParsePayloadMetadata` on a state whose metadata size,
when known, lies between the header size and `2 ^ 64`: not enough data with
the state as it was; not enough data for the manifest right after the
header set the metadata size; a parse error; or success with the parsed
manifest. -/
theorem ParsePayloadMetadata_cases (env : Env) (s : State) (p : Bytes)
    (hB : s.metadata_size ≠ 0 →
      GetManifestOffset env < s.metadata_size ∧ s.metadata_size < u64) :
    (ParsePayloadMetadata env s p =
        (MetadataParseResult.kMetadataParseInsufficientData, ErrorCode.kSuccess, s) ∧
      (if s.metadata_size = 0 then p.length < GetManifestOffset env
        else p.length < s.metadata_size)) ∨
    (s.metadata_size = 0 ∧ ∃ m,
      ParsePayloadMetadata env s p =
        (MetadataParseResult.kMetadataParseInsufficientData, ErrorCode.kSuccess,
          { s with metadata_size := (GetManifestOffset env + m) % u64 }) ∧
      GetManifestOffset env ≤ p.length ∧ p.length < (GetManifestOffset env + m) % u64 ∧
      m = be64 p (GetManifestSizeOffset env)) ∨
    (ParsePayloadMetadata env s p).1 = MetadataParseResult.kMetadataParseError ∨
    (∃ mf n ms, env.ParseFromArray (p.drop (GetManifestOffset env)) n = some mf ∧
      ParsePayloadMetadata env s p =
        (MetadataParseResult.kMetadataParseSuccess, ErrorCode.kSuccess,
          { s with metadata_size := ms, manifest := mf, manifest_parsed := true }) ∧
      ms ≤ p.length ∧ (s.metadata_size ≠ 0 → ms = s.metadata_size) ∧
      (s.metadata_size = 0 →
        ms = (GetManifestOffset env + be64 p (GetManifestSizeOffset env)) % u64 ∧
        GetManifestOffset env ≤ p.length ∧ n = be64 p (GetManifestSizeOffset env))) := by
  by_cases h0 : s.metadata_size = 0
  · rw [ParsePayloadMetadata_header env s p h0]
    cases hh : ParseHeader env s p with
    | inl r =>
      simp only []
      rcases ParseHeader_inl env s p r hh with ⟨h1, h2⟩ | h1
      · left
        simp only [h0, if_true]
        exact ⟨h1, h2⟩
      · right; right; left
        exact h1
    | inr q =>
      obtain ⟨s1, m⟩ := q
      simp only []
      obtain ⟨h1, h2, hm⟩ := ParseHeader_inr env s s1 p m hh
      rcases ParseBody_cases env s1 m p with ⟨h3, h4⟩ | h3 | ⟨mf, h3, h4, h5⟩
      · right; left
        refine ⟨h0, m, ?_, h1, ?_, hm⟩
        · rw [h3, h2]
        · rw [h2] at h4
          exact h4
      · right; right; left
        exact h3
      · right; right; right
        refine ⟨mf, m, (GetManifestOffset env + m) % u64, h3, ?_, ?_, fun hc => absurd h0 hc,
          fun _ => ⟨by rw [hm], h1, hm⟩⟩
        · rw [h4, h2]
        · rw [h2] at h5
          exact h5
  · obtain ⟨hMO, hms⟩ := hB h0
    rw [ParsePayloadMetadata_body env s p hMO hms]
    rcases ParseBody_cases env s (s.metadata_size - GetManifestOffset env) p with
      ⟨h3, h4⟩ | h3 | ⟨mf, h3, h4, h5⟩
    · left
      simp only [h0, if_false]
      exact ⟨h3, h4⟩
    · right; right; left
      exact h3
    · right; right; right
      refine ⟨mf, _, s.metadata_size, h3, ?_, h5, fun _ => rfl, fun hc => absurd hc h0⟩
      rw [h4]

/-- A metadata pass that goes on: the input is handed on, the state it
leaves satisfies `Inv`, and either the manifest is valid now or the pass
has just learnt the metadata size. -/
theorem metadataBody_next (env : Env) (s : State) (rest : Bytes) (s1 : State) (x1 : Bytes)
    (hvalid : s.manifest_valid = false)
    (hB : s.metadata_size ≠ 0 →
      GetManifestOffset env < s.metadata_size ∧ s.metadata_size < u64)
    (hparse : ∀ b n m, env.ParseFromArray b n = some m → ManifestWF m)
    (h : metadataBody env (decide (s.metadata_size = 0)) s rest = LoopStep.next s1 x1) :
    x1 = rest ∧ Inv env s1 ∧
    (s1.manifest_valid = true ∨
      (s.metadata_size = 0 ∧ s1.metadata_size ≠ 0 ∧ s1.manifest_valid = false)) := by
  unfold metadataBody at h
  rcases ParsePayloadMetadata_cases env s s.buffer hB with
    ⟨h1, -⟩ | ⟨h0, m, h1, h2, h3, -⟩ | h1 | ⟨mf, n, ms, hp, h1, -, -, -⟩
  · simp only [h1] at h
    by_cases h0 : s.metadata_size = 0 <;> simp [h0] at h
  · simp only [h1] at h
    have hne : (GetManifestOffset env + m) % u64 ≠ 0 := by omega
    simp only [reduceCtorEq, if_false, if_true] at h
    split_ifs at h with c1
    simp only [LoopStep.next.injEq] at h
    obtain ⟨hs, hx⟩ := h
    refine ⟨hx.symm, ?_, Or.inr ⟨h0, ?_, ?_⟩⟩
    · rw [← hs]
      refine ⟨fun _ => Or.inr ⟨?_, ?_, ?_⟩, fun hc => ?_⟩
      · show GetManifestOffset env < (GetManifestOffset env + m) % u64
        omega
      · exact Nat.mod_lt _ (by unfold u64; norm_num)
      · show s.buffer.length ≤ (GetManifestOffset env + m) % u64
        omega
      · have : s.manifest_valid = true := hc
        rw [hvalid] at this
        exact absurd this (by simp)
    · rw [← hs]
      exact hne
    · rw [← hs]
      exact hvalid
  · simp only [h1] at h
    simp at h
  · simp only [h1] at h
    simp only [reduceCtorEq, if_false] at h
    generalize hs2 : ({ s with metadata_size := ms, manifest := mf, manifest_parsed := true } :
      State) = s2 at h
    have hm2 : s2.manifest = mf := by rw [← hs2]
    unfold metadataFinish at h
    simp only [] at h
    split_ifs at h with h4 h5
    simp only [LoopStep.next.injEq] at h
    obtain ⟨hs, hx⟩ := h
    obtain ⟨f1, f2, f3, -, -, -⟩ := PrimeUpdateState_frame env (metadataPrepare s2)
    have g1 : (metadataPrepare s2).manifest = s2.manifest := rfl
    have g2 : (metadataPrepare s2).manifest_valid = true := rfl
    have g3 : (metadataPrepare s2).buffer = [] := rfl
    refine ⟨hx.symm, ?_, Or.inl ?_⟩
    · rw [← hs]
      refine ⟨fun hc => ?_, fun _ => ⟨?_, rfl, rfl, fun _ => ?_⟩⟩
      · have : (PrimeUpdateState env (metadataPrepare s2)).2.manifest_valid = false := hc
        rw [f2, g2] at this
        exact absurd this (by simp)
      · show ManifestWF (PrimeUpdateState env (metadataPrepare s2)).2.manifest
        rw [f1, g1, hm2]
        exact hparse _ _ _ hp
      · show (PrimeUpdateState env (metadataPrepare s2)).2.buffer.length ≤ _
        rw [f3, g3]
        exact Nat.zero_le _
    · rw [← hs]
      show (PrimeUpdateState env (metadataPrepare s2)).2.manifest_valid = true
      rw [f2, g2]

/-- A metadata pass that returns success returned for want of data: the
state is the one the copy step left and the buffer is short of the limit. -/
theorem metadataBody_ret_ok (env : Env) (s : State) (rest : Bytes) (r : WriteResult)
    (hB : s.metadata_size ≠ 0 →
      GetManifestOffset env < s.metadata_size ∧ s.metadata_size < u64)
    (h : metadataBody env (decide (s.metadata_size = 0)) s rest = LoopStep.ret r)
    (hok : r.ok = true) :
    r = ⟨true, ErrorCode.kSuccess, s⟩ ∧ s.buffer.length < metadataLimit env s := by
  unfold metadataBody at h
  rcases ParsePayloadMetadata_cases env s s.buffer hB with
    ⟨h1, h2⟩ | ⟨h0, m, h1, h2, h3, -⟩ | h1 | ⟨mf, n, ms, hp, h1, -, -, -⟩
  · simp only [h1] at h
    simp only [reduceCtorEq, if_false, if_true] at h
    split_ifs at h with c1
    simp only [LoopStep.ret.injEq] at h
    refine ⟨h.symm, ?_⟩
    unfold metadataLimit
    split_ifs at h2 ⊢ <;> exact h2
  · simp only [h1] at h
    simp only [reduceCtorEq, if_false, if_true] at h
    split_ifs at h with c1
    exfalso
    apply c1
    refine ⟨by simp [h0], ?_⟩
    show (GetManifestOffset env + m) % u64 ≠ 0
    omega
  · simp only [h1, if_true] at h
    simp only [LoopStep.ret.injEq] at h
    rw [← h] at hok
    exact absurd hok (by simp)
  · simp only [h1] at h
    simp only [reduceCtorEq, if_false] at h
    unfold metadataFinish at h
    simp only [] at h
    split_ifs at h with h4 h5
    all_goals
      simp only [LoopStep.ret.injEq] at h
      rw [← h] at hok
      exact absurd hok (by simp)

/-- An operations pass that goes on to the next operation leaves the
validity and the counts as they were, the operation counter one more, and
a state that satisfies `Inv`. -/
theorem operationStep_next (env : Env) (s : State) (x : Bytes) (s1 : State) (x1 : Bytes)
    (hvalid : s.manifest_valid = true) (hinv : Inv env s)
    (hn : s.next_operation_num < s.num_total_operations)
    (h : operationStep env s x = LoopStep.next s1 x1) :
    s1.manifest_valid = true ∧ s1.num_total_operations = s.num_total_operations ∧
    s1.next_operation_num = s.next_operation_num + 1 ∧ Inv env s1 := by
  obtain ⟨hwf, hr, ht, hb⟩ := hinv.2 hvalid
  have hb := hb hn
  obtain ⟨hmove, hsum⟩ := hwf _ (currentOp_mem s hr ht hn)
  unfold operationStep at h
  cases hc : env.ShouldCancel with
  | some e => simp [hc] at h
  | none =>
    simp only [hc] at h
    rw [CopyDataToBuffer_room] at h
    obtain ⟨-, f1, f2⟩ := operationBody_next _ _ _ _ _ _ _ h
    have e1 : s1.manifest_valid = s.manifest_valid := congrArg Static.manifest_valid f1
    have e2 : s1.num_total_operations = s.num_total_operations :=
      congrArg Static.num_total_operations f1
    have e3 : s1.next_operation_num = s.next_operation_num + 1 :=
      congrArg Static.next_operation_num f1
    have e4 : s1.manifest = s.manifest := congrArg Static.manifest f1
    have e5 : s1.num_rootfs_operations = s.num_rootfs_operations :=
      congrArg Static.num_rootfs_operations f1
    have hbuf : s1.buffer = [] := by
      rcases f2 with ⟨hm, hb2⟩ | hb2
      · have hL := hmove hm
        rw [hb2]
        have hroom : room s (currentOp s).data_length = 0 := by
          rw [room_eq s _ (by omega) hb]
          omega
        have hs0 : s.buffer = [] := List.length_eq_zero.mp (by omega)
        show s.buffer ++ List.take (room s (currentOp s).data_length) x = []
        rw [hroom, hs0]
        rfl
      · exact hb2
    refine ⟨by rw [e1, hvalid], e2, e3, fun hc2 => ?_, fun _ => ⟨?_, ?_, ?_, fun _ => ?_⟩⟩
    · rw [e1, hvalid] at hc2
      exact absurd hc2 (by simp)
    · rw [e4]
      exact hwf
    · rw [e5, e4]
      exact hr
    · rw [e2, e5, e4]
      exact ht
    · rw [hbuf]
      exact Nat.zero_le _

/-! ### Write, one pass at a time -/

/-- The bounds on a known metadata size that `Inv` gives. -/
theorem Inv.metadata_bounds {env : Env} {s : State} (hinv : Inv env s)
    (hvalid : s.manifest_valid = false) :
    s.metadata_size ≠ 0 → GetManifestOffset env < s.metadata_size ∧ s.metadata_size < u64 := by
  intro h0
  rcases hinv.1 hvalid with ⟨h1, -⟩ | ⟨h1, h2, -⟩
  · exact absurd h1 h0
  · exact ⟨h1, h2⟩

/-- A metadata pass that goes on leaves a state that satisfies `Inv`, and
either the manifest is valid now or the pass has just learnt the metadata
size. -/
theorem metadataStep_next (env : Env) (s : State) (x : Bytes) (s1 : State) (x1 : Bytes)
    (hvalid : s.manifest_valid = false) (hinv : Inv env s)
    (hparse : ∀ b n m, env.ParseFromArray b n = some m → ManifestWF m)
    (h : metadataStep env s x = LoopStep.next s1 x1) :
    Inv env s1 ∧
    (s1.manifest_valid = true ∨
      (s.metadata_size = 0 ∧ s1.metadata_size ≠ 0 ∧ s1.manifest_valid = false)) := by
  rw [metadataStep_eq, CopyDataToBuffer_room] at h
  exact (metadataBody_next env
    { s with buffer := s.buffer ++ List.take (room s (metadataLimit env s)) x } _ s1 x1 hvalid
    (hinv.metadata_bounds hvalid) hparse h).2

/-- `Write` on an applier that has applied every operation returns
success and leaves the state as it is. -/
theorem Write_done (env : Env) (s : State) (x : Bytes) (hvalid : s.manifest_valid = true)
    (hn : ¬ s.next_operation_num < s.num_total_operations) :
    Write env s x = some ⟨true, ErrorCode.kSuccess, s⟩ := by
  unfold Write metadataLoop
  simp only [hvalid, if_true]
  unfold operationsLoop
  simp [hn]

/-- The metadata loop on a state whose manifest is valid ends at once. -/
theorem metadataLoop_valid (env : Env) (n : Nat) (s : State) (x : Bytes)
    (hvalid : s.manifest_valid = true) :
    metadataLoop env n s x = some (LoopStep.next s x) := by
  unfold metadataLoop
  simp [hvalid]

/-- One pass of the metadata loop. -/
theorem metadataLoop_succ (env : Env) (n : Nat) (s : State) (x : Bytes)
    (hvalid : s.manifest_valid = false) :
    metadataLoop env (n + 1) s x =
      match metadataStep env s x with
      | LoopStep.ret r => some (LoopStep.ret r)
      | LoopStep.next s1 x1 => metadataLoop env n s1 x1 := by
  rw [metadataLoop]
  simp [hvalid]

/-- One pass of the operations loop. -/
theorem operationsLoop_succ (env : Env) (n : Nat) (s : State) (x : Bytes)
    (hn : s.next_operation_num < s.num_total_operations) :
    operationsLoop env (n + 1) s x =
      match operationStep env s x with
      | LoopStep.ret r => some r
      | LoopStep.next s1 x1 => operationsLoop env n s1 x1 := by
  rw [operationsLoop]
  simp [hn]

/-- `Write` with a valid manifest and an operation left makes one
operations pass and goes on as `Write` on the state the pass leaves. -/
theorem Write_ops (env : Env) (s : State) (x : Bytes) (hvalid : s.manifest_valid = true)
    (hinv : Inv env s) (hn : s.next_operation_num < s.num_total_operations) :
    Write env s x =
      match operationStep env s x with
      | LoopStep.ret r => some r
      | LoopStep.next s1 x1 => Write env s1 x1 := by
  have hW : ∀ (t : State) (y : Bytes), t.manifest_valid = true →
      Write env t y = operationsLoop env (t.num_total_operations - t.next_operation_num) t y := by
    intro t y ht
    unfold Write
    rw [metadataLoop_valid env 2 t y ht]
  rw [hW s x hvalid]
  obtain ⟨n, hn2⟩ : ∃ n, s.num_total_operations - s.next_operation_num = n + 1 :=
    ⟨s.num_total_operations - s.next_operation_num - 1, by omega⟩
  rw [hn2, operationsLoop_succ env n s x hn]
  cases hs : operationStep env s x with
  | ret r => rfl
  | next s1 x1 =>
    simp only []
    obtain ⟨g1, g2, g3, -⟩ := operationStep_next env s x s1 x1 hvalid hinv hn hs
    rw [hW s1 x1 g1, g2, g3]
    congr 1
    omega

/-- `Write` before the manifest is valid makes one metadata pass and goes on
as `Write` on the state the pass leaves. -/
theorem Write_meta (env : Env) (s : State) (x : Bytes) (hvalid : s.manifest_valid = false)
    (hinv : Inv env s) (hparse : ∀ b n m, env.ParseFromArray b n = some m → ManifestWF m) :
    Write env s x =
      match metadataStep env s x with
      | LoopStep.ret r => some r
      | LoopStep.next s1 x1 => Write env s1 x1 := by
  have key : ∀ (s1 : State) (x1 : Bytes), Inv env s1 →
      (s1.manifest_valid = true ∨ (s1.metadata_size ≠ 0 ∧ s1.manifest_valid = false)) →
      metadataLoop env 1 s1 x1 = metadataLoop env 2 s1 x1 := by
    intro s1 x1 hi1 hp
    rcases hp with hv1 | ⟨hm1, hv1⟩
    · rw [metadataLoop_valid env 1 s1 x1 hv1, metadataLoop_valid env 2 s1 x1 hv1]
    · rw [metadataLoop_succ env 0 s1 x1 hv1, metadataLoop_succ env 1 s1 x1 hv1]
      cases hs : metadataStep env s1 x1 with
      | ret r => rfl
      | next s2 x2 =>
        simp only []
        rcases (metadataStep_next env s1 x1 s2 x2 hv1 hi1 hparse hs).2 with hv2 | ⟨h0, -, -⟩
        · rw [metadataLoop_valid env 0 s2 x2 hv2, metadataLoop_valid env 1 s2 x2 hv2]
        · exact absurd h0 hm1
  unfold Write
  rw [metadataLoop_succ env 1 s x hvalid]
  cases hs : metadataStep env s x with
  | ret r => rfl
  | next s1 x1 =>
    simp only []
    obtain ⟨hi1, hp⟩ := metadataStep_next env s x s1 x1 hvalid hinv hparse hs
    rw [key s1 x1 hi1 (hp.imp id (fun h => ⟨h.2.1, h.2.2⟩))]

/-! ### Two chunks -/

/-- `Inv` does not look at the bytes of the buffer, only at its length. -/
theorem Inv.append {env : Env} {s : State} (hinv : Inv env s) (a : Bytes)
    (ha : a.length ≤ room s (writeLimit env s)) (hMO : GetManifestOffset env < u64) :
    Inv env { s with buffer := s.buffer ++ a } := by
  unfold writeLimit at ha
  refine ⟨fun hv => ?_, fun hv => ?_⟩
  · have hv' : s.manifest_valid = false := hv
    obtain ⟨hlim, hbuf⟩ := metadataLimit_bound env s hMO hv' hinv
    simp only [hv', Bool.false_eq_true, if_false] at ha
    rw [room_eq s _ hlim hbuf] at ha
    unfold metadataLimit at ha
    rcases hinv.1 hv' with ⟨h1, h2⟩ | ⟨h1, h2, h3⟩
    · left
      simp only [h1, if_true] at ha
      refine ⟨h1, ?_⟩
      show (s.buffer ++ a).length ≤ GetManifestOffset env
      rw [List.length_append]
      omega
    · right
      have : s.metadata_size ≠ 0 := by omega
      simp only [this, if_false] at ha
      refine ⟨h1, h2, ?_⟩
      show (s.buffer ++ a).length ≤ s.metadata_size
      rw [List.length_append]
      omega
  · have hv' : s.manifest_valid = true := hv
    obtain ⟨hwf, hr, ht, hb⟩ := hinv.2 hv'
    refine ⟨hwf, hr, ht, fun hn => ?_⟩
    have hn' : s.next_operation_num < s.num_total_operations := hn
    have hb := hb hn'
    obtain ⟨-, hsum⟩ := hwf _ (currentOp_mem s hr ht hn')
    simp only [hv', if_true] at ha
    rw [room_eq s _ (by omega) hb] at ha
    show (s.buffer ++ a).length ≤ (currentOp s).data_length
    rw [List.length_append]
    omega

/-- Two chunks on a state with a valid manifest and an operation left, given
the claim for the states that a pass on it leads to. -/
theorem Write_append_ops_step (env : Env) (s : State) (hcancel : env.ShouldCancel = none)
    (hMO : GetManifestOffset env < u64)
    (hvalid : s.manifest_valid = true) (hinv : Inv env s)
    (hn : s.next_operation_num < s.num_total_operations)
    (ih : ∀ x s1 x1, operationStep env s x = LoopStep.next s1 x1 →
      ∀ a b, Write env s1 (a ++ b) = WriteThen env (Write env s1 a) b) :
    ∀ a b, Write env s (a ++ b) = WriteThen env (Write env s a) b := by
  intro a b
  by_cases hpart : a.length < room s (currentOp s).data_length
  · have hsa := operationStep_need_more env s a hcancel hvalid hinv hn hpart
    have hinv2 : Inv env { s with buffer := s.buffer ++ a } :=
      hinv.append a (by unfold writeLimit; simpa [hvalid] using le_of_lt hpart) hMO
    rw [Write_ops env s a hvalid hinv hn, hsa, Write_ops env s (a ++ b) hvalid hinv hn,
      ← operationStep_append_part env s a b hcancel hpart]
    show _ = Write env { s with buffer := s.buffer ++ a } b
    rw [Write_ops env { s with buffer := s.buffer ++ a } b hvalid hinv2 hn]
  · have hfull : room s (currentOp s).data_length ≤ a.length := by omega
    rw [Write_ops env s a hvalid hinv hn, Write_ops env s (a ++ b) hvalid hinv hn,
      operationStep_append_full env s a b hfull]
    cases hs : operationStep env s a with
    | ret r =>
      simp only [LoopStep.addRest, WriteThen]
      by_cases hok : r.ok = true
      · simp only [hok, if_true]
        obtain ⟨hfz, hst, -⟩ := operationStep_frozen env s a b r hcancel hfull hs hok
        have hv2 : r.state.manifest_valid = true := by rw [hst]; exact hvalid
        have hn2 : r.state.next_operation_num < r.state.num_total_operations := by
          rw [hst]; exact hn
        have hinv2 : Inv env r.state := by
          rw [hst]
          refine ⟨fun hv => ?_, fun _ => ?_⟩
          · have : s.manifest_valid = false := hv
            rw [hvalid] at this
            exact absurd this (by simp)
          · obtain ⟨hwf, hr, ht, hb⟩ := hinv.2 hvalid
            refine ⟨hwf, hr, ht, fun _ => ?_⟩
            have hb := hb hn
            obtain ⟨-, hsum⟩ := hwf _ (currentOp_mem s hr ht hn)
            show (s.buffer ++ List.take (room s (currentOp s).data_length) a).length ≤
              (currentOp s).data_length
            rw [List.length_append, List.length_take, room_eq s _ (by omega) hb]
            omega
        rw [Write_ops env r.state b hv2 hinv2 hn2, hfz]
      · simp only [hok, if_false]
        simp
    | next s1 x1 =>
      simp only [LoopStep.addRest]
      exact ih a s1 x1 hs x1 b

/-- Two chunks on a state with a valid manifest. -/
theorem Write_append_valid (env : Env) (hcancel : env.ShouldCancel = none)
    (hMO : GetManifestOffset env < u64) (n : Nat) :
    ∀ s : State, s.manifest_valid = true → Inv env s →
      s.num_total_operations - s.next_operation_num = n →
      ∀ a b, Write env s (a ++ b) = WriteThen env (Write env s a) b := by
  induction n with
  | zero =>
    intro s hvalid _ h0 a b
    have hn : ¬ s.next_operation_num < s.num_total_operations := by omega
    rw [Write_done env s _ hvalid hn, Write_done env s _ hvalid hn]
    simp only [WriteThen, if_true]
    rw [Write_done env s _ hvalid hn]
  | succ n ih =>
    intro s hvalid hinv hsn
    have hn : s.next_operation_num < s.num_total_operations := by omega
    apply Write_append_ops_step env s hcancel hMO hvalid hinv hn
    intro x s1 x1 hs
    obtain ⟨g1, g2, g3, g4⟩ := operationStep_next env s x s1 x1 hvalid hinv hn hs
    exact ih s1 g1 g4 (by omega)

/-- A metadata pass whose copy step used up the room does not return
success: with the buffer at the limit the parser has the data it waits
for. -/
theorem metadataStep_ret_ok_full (env : Env) (s : State) (a : Bytes) (r : WriteResult)
    (hMO : GetManifestOffset env < u64)
    (hvalid : s.manifest_valid = false) (hinv : Inv env s)
    (hfull : room s (metadataLimit env s) ≤ a.length)
    (h : metadataStep env s a = LoopStep.ret r) (hok : r.ok = true) : False := by
  obtain ⟨hlim, hbuf⟩ := metadataLimit_bound env s hMO hvalid hinv
  rw [metadataStep_eq, CopyDataToBuffer_room] at h
  have hlt := (metadataBody_ret_ok env
    { s with buffer := s.buffer ++ List.take (room s (metadataLimit env s)) a } _ r
    (hinv.metadata_bounds hvalid) h hok).2
  have hl : metadataLimit env
      { s with buffer := s.buffer ++ List.take (room s (metadataLimit env s)) a } =
      metadataLimit env s := rfl
  rw [hl] at hlt
  have hlen : (s.buffer ++ List.take (room s (metadataLimit env s)) a).length =
      metadataLimit env s := by
    rw [List.length_append, List.length_take, Nat.min_eq_left hfull, room_eq s _ hlim hbuf]
    omega
  have : (s.buffer ++ List.take (room s (metadataLimit env s)) a).length <
      metadataLimit env s := hlt
  omega

/-- Two chunks on a state whose manifest is not valid yet, given the claim
for the states that a pass on it leads to. -/
theorem Write_append_meta_step (env : Env) (s : State) (hMO : GetManifestOffset env < u64)
    (hparse : ∀ b n m, env.ParseFromArray b n = some m → ManifestWF m)
    (hvalid : s.manifest_valid = false) (hinv : Inv env s)
    (ih : ∀ x s1 x1, metadataStep env s x = LoopStep.next s1 x1 →
      ∀ a b, Write env s1 (a ++ b) = WriteThen env (Write env s1 a) b) :
    ∀ a b, Write env s (a ++ b) = WriteThen env (Write env s a) b := by
  intro a b
  by_cases hpart : a.length < room s (metadataLimit env s)
  · have hsa := metadataStep_need_more env s a hMO hvalid hinv hpart
    have hinv2 : Inv env { s with buffer := s.buffer ++ a } :=
      hinv.append a (by unfold writeLimit; simpa [hvalid] using le_of_lt hpart) hMO
    rw [Write_meta env s a hvalid hinv hparse, hsa,
      Write_meta env s (a ++ b) hvalid hinv hparse, ← metadataStep_append_part env s a b hpart]
    show _ = Write env { s with buffer := s.buffer ++ a } b
    rw [Write_meta env { s with buffer := s.buffer ++ a } b hvalid hinv2 hparse]
  · have hfull : room s (metadataLimit env s) ≤ a.length := by omega
    rw [Write_meta env s a hvalid hinv hparse, Write_meta env s (a ++ b) hvalid hinv hparse,
      metadataStep_append_full env s a b hfull]
    cases hs : metadataStep env s a with
    | ret r =>
      simp only [LoopStep.addRest, WriteThen]
      by_cases hok : r.ok = true
      · exact absurd (metadataStep_ret_ok_full env s a r hMO hvalid hinv hfull hs hok) id
      · simp only [hok, if_false]
        simp
    | next s1 x1 =>
      simp only [LoopStep.addRest]
      exact ih a s1 x1 hs x1 b

/-- Two chunks: on a state that satisfies `Inv`, when cancellation is not
requested and every manifest that parses is `ManifestWF`, one `Write` of
`a ++ b` is `Write` of `a` followed, if it returned `true`, by `Write` of
`b`. -/
theorem Write_append (env : Env) (s : State) (hcancel : env.ShouldCancel = none)
    (hMO : GetManifestOffset env < u64)
    (hparse : ∀ b n m, env.ParseFromArray b n = some m → ManifestWF m)
    (hinv : Inv env s) (a b : Bytes) :
    Write env s (a ++ b) = WriteThen env (Write env s a) b := by
  have hV : ∀ t : State, t.manifest_valid = true → Inv env t →
      ∀ a b, Write env t (a ++ b) = WriteThen env (Write env t a) b :=
    fun t hv hi => Write_append_valid env hcancel hMO _ t hv hi rfl
  have hB : ∀ t : State, t.manifest_valid = false → t.metadata_size ≠ 0 → Inv env t →
      ∀ a b, Write env t (a ++ b) = WriteThen env (Write env t a) b := by
    intro t hv hm hi
    apply Write_append_meta_step env t hMO hparse hv hi
    intro x s1 x1 hs
    obtain ⟨hi1, hp⟩ := metadataStep_next env t x s1 x1 hv hi hparse hs
    rcases hp with hv1 | ⟨h0, -, -⟩
    · exact hV s1 hv1 hi1
    · exact absurd h0 hm
  cases hv : s.manifest_valid with
  | true => exact hV s hv hinv a b
  | false =>
    revert a b
    apply Write_append_meta_step env s hMO hparse hv hinv
    intro x s1 x1 hs
    obtain ⟨hi1, hp⟩ := metadataStep_next env s x s1 x1 hv hinv hparse hs
    rcases hp with hv1 | ⟨-, hm1, hv1⟩
    · exact hV s1 hv1 hi1
    · exact hB s1 hv1 hm1 hi1

/-! ### The results of Write -/

/-- `Inv` holds on the state that a copy step leaves. -/
theorem Inv.copy {env : Env} {s : State} (hinv : Inv env s) (x : Bytes)
    (hMO : GetManifestOffset env < u64) :
    Inv env { s with buffer := s.buffer ++ x.take (room s (writeLimit env s)) } :=
  hinv.append _ (by rw [List.length_take]; exact Nat.min_le_left _ _) hMO

/-- An operations pass that returns success leaves the state of its copy
step and the error code `kSuccess`. -/
theorem operationStep_ret_ok (env : Env) (s : State) (x : Bytes) (r : WriteResult)
    (h : operationStep env s x = LoopStep.ret r) (hok : r.ok = true) :
    r.error = ErrorCode.kSuccess ∧
    r.state = { s with buffer := s.buffer ++ x.take (room s (currentOp s).data_length) } := by
  unfold operationStep at h
  cases hc : env.ShouldCancel with
  | some e =>
    simp only [hc, LoopStep.ret.injEq] at h
    rw [← h] at hok
    exact absurd hok (by simp)
  | none =>
    simp only [hc] at h
    rw [CopyDataToBuffer_room] at h
    obtain ⟨hr, -⟩ := operationBody_ret_ok _ _ _ _ _ _ h hok
    subst hr
    exact ⟨rfl, rfl⟩

/-- A metadata pass that returns success leaves the state of its copy step
and the error code `kSuccess`. -/
theorem metadataStep_ret_ok (env : Env) (s : State) (x : Bytes) (r : WriteResult)
    (hvalid : s.manifest_valid = false) (hinv : Inv env s)
    (h : metadataStep env s x = LoopStep.ret r) (hok : r.ok = true) :
    r.error = ErrorCode.kSuccess ∧
    r.state = { s with buffer := s.buffer ++ x.take (room s (metadataLimit env s)) } := by
  rw [metadataStep_eq, CopyDataToBuffer_room] at h
  obtain ⟨hr, -⟩ := metadataBody_ret_ok env
    { s with buffer := s.buffer ++ List.take (room s (metadataLimit env s)) x } _ r
    (hinv.metadata_bounds hvalid) h hok
  subst hr
  exact ⟨rfl, rfl⟩

/-- `Write` returns, and a call that returns `true` leaves the error code
`kSuccess` and a state that satisfies `Inv`: with a valid manifest. -/
theorem Write_result_valid (env : Env) (hMO : GetManifestOffset env < u64) (n : Nat) :
    ∀ (s : State) (x : Bytes), s.manifest_valid = true → Inv env s →
      s.num_total_operations - s.next_operation_num = n →
      ∃ r, Write env s x = some r ∧
        (r.ok = true → r.error = ErrorCode.kSuccess ∧ Inv env r.state) := by
  induction n with
  | zero =>
    intro s x hvalid hinv h0
    have hn : ¬ s.next_operation_num < s.num_total_operations := by omega
    exact ⟨_, Write_done env s x hvalid hn, fun _ => ⟨rfl, hinv⟩⟩
  | succ n ih =>
    intro s x hvalid hinv hsn
    have hn : s.next_operation_num < s.num_total_operations := by omega
    rw [Write_ops env s x hvalid hinv hn]
    cases hs : operationStep env s x with
    | ret r =>
      refine ⟨r, rfl, fun hok => ?_⟩
      obtain ⟨h1, h2⟩ := operationStep_ret_ok env s x r hs hok
      refine ⟨h1, ?_⟩
      rw [h2]
      have := hinv.copy x hMO
      unfold writeLimit at this
      simpa [hvalid] using this
    | next s1 x1 =>
      obtain ⟨g1, g2, g3, g4⟩ := operationStep_next env s x s1 x1 hvalid hinv hn hs
      exact ih s1 x1 g1 g4 (by omega)

/-- `Write` returns, and a call that returns `true` leaves the error code
`kSuccess` and a state that satisfies `Inv`. -/
theorem Write_result (env : Env) (s : State) (x : Bytes) (hMO : GetManifestOffset env < u64)
    (hparse : ∀ b n m, env.ParseFromArray b n = some m → ManifestWF m) (hinv : Inv env s) :
    ∃ r, Write env s x = some r ∧
      (r.ok = true → r.error = ErrorCode.kSuccess ∧ Inv env r.state) := by
  have hV : ∀ (t : State) (y : Bytes), t.manifest_valid = true → Inv env t →
      ∃ r, Write env t y = some r ∧
        (r.ok = true → r.error = ErrorCode.kSuccess ∧ Inv env r.state) :=
    fun t y hv hi => Write_result_valid env hMO _ t y hv hi rfl
  have hstep : ∀ (t : State) (y : Bytes), t.manifest_valid = false → Inv env t →
      (∀ s1 x1, metadataStep env t y = LoopStep.next s1 x1 →
        ∃ r, Write env s1 x1 = some r ∧
          (r.ok = true → r.error = ErrorCode.kSuccess ∧ Inv env r.state)) →
      ∃ r, Write env t y = some r ∧
        (r.ok = true → r.error = ErrorCode.kSuccess ∧ Inv env r.state) := by
    intro t y hv hi ih
    rw [Write_meta env t y hv hi hparse]
    cases hs : metadataStep env t y with
    | ret r =>
      refine ⟨r, rfl, fun hok => ?_⟩
      obtain ⟨h1, h2⟩ := metadataStep_ret_ok env t y r hv hi hs hok
      refine ⟨h1, ?_⟩
      rw [h2]
      have := hi.copy y hMO
      unfold writeLimit at this
      simpa [hv] using this
    | next s1 x1 => exact ih s1 x1 hs
  cases hv : s.manifest_valid with
  | true => exact hV s x hv hinv
  | false =>
    apply hstep s x hv hinv
    intro s1 x1 hs
    obtain ⟨hi1, hp⟩ := metadataStep_next env s x s1 x1 hv hinv hparse hs
    rcases hp with hv1 | ⟨-, hm1, hv1⟩
    · exact hV s1 x1 hv1 hi1
    · apply hstep s1 x1 hv1 hi1
      intro s2 x2 hs2
      obtain ⟨hi2, hp2⟩ := metadataStep_next env s1 x1 s2 x2 hv1 hi1 hparse hs2
      rcases hp2 with hv2 | ⟨h0, -, -⟩
      · exact hV s2 x2 hv2 hi2
      · exact absurd h0 hm1

/-! ### Any number of chunks -/

/-- A fresh applier satisfies `Inv`. -/
theorem Inv.fresh (env : Env) (prefs : Prefs) (plan : InstallPlan) (key : String)
    (fd kernel_fd : Device) : Inv env (State.fresh prefs plan key fd kernel_fd) := by
  refine ⟨fun _ => Or.inl ⟨rfl, Nat.zero_le _⟩, fun h => ?_⟩
  exact absurd h (by simp [State.fresh])

/-- `Write` of no bytes on a fresh applier returns success and leaves the
state as it is. -/
theorem Write_fresh_nil (env : Env) (prefs : Prefs) (plan : InstallPlan) (key : String)
    (fd kernel_fd : Device) (hMO : GetManifestOffset env < u64)
    (hparse : ∀ b n m, env.ParseFromArray b n = some m → ManifestWF m) :
    Write env (State.fresh prefs plan key fd kernel_fd) [] =
      some ⟨true, ErrorCode.kSuccess, State.fresh prefs plan key fd kernel_fd⟩ := by
  have hinv := Inv.fresh env prefs plan key fd kernel_fd
  have hpos : 0 < GetManifestOffset env := by
    unfold GetManifestOffset kDeltaManifestSizeSize
    omega
  rw [Write_meta env _ [] rfl hinv hparse,
    metadataStep_need_more env _ [] hMO rfl hinv (by
      rw [room_eq _ _ (metadataLimit_bound env _ hMO rfl hinv).1
        (metadataLimit_bound env _ hMO rfl hinv).2]
      show 0 < metadataLimit env (State.fresh prefs plan key fd kernel_fd) - 0
      unfold metadataLimit
      simp only [State.fresh, if_true]
      omega)]
  rfl

/-- Chunks on a state that satisfies `Inv`: the calls `Write(c1)`, ...,
`Write(cn)`, `n >= 1`, give the result of one `Write` of the concatenation. -/
theorem WriteChunks_eq (env : Env) (hcancel : env.ShouldCancel = none)
    (hMO : GetManifestOffset env < u64)
    (hparse : ∀ b n m, env.ParseFromArray b n = some m → ManifestWF m)
    (c : Bytes) (cs : List Bytes) :
    ∀ s : State, Inv env s → WriteChunks env s (c :: cs) = Write env s (c :: cs).flatten := by
  induction cs generalizing c with
  | nil =>
    intro s hinv
    obtain ⟨r, hr, hprop⟩ := Write_result env s c hMO hparse hinv
    have hj : [c].flatten = c := by simp
    rw [hj, hr]
    simp only [WriteChunks, hr]
    by_cases hok : r.ok = true
    · obtain ⟨he, -⟩ := hprop hok
      simp only [hok, if_true, Option.some.injEq]
      cases r
      simp only at hok he
      rw [hok, he]
    · simp [hok]
  | cons c2 cs ih =>
    intro s hinv
    obtain ⟨r, hr, hprop⟩ := Write_result env s c hMO hparse hinv
    have hj : (c :: c2 :: cs).flatten = c ++ (c2 :: cs).flatten := by simp
    rw [hj, Write_append env s hcancel hMO hparse hinv, hr]
    simp only [WriteChunks, hr, WriteThen]
    by_cases hok : r.ok = true
    · simp only [hok, if_true]
      have := ih c2 r.state (hprop hok).2
      simp only [WriteChunks] at this
      exact this
    · simp [hok]

/-- C1, amended: when cancellation is not requested and every manifest the
payload can parse to gives each Move no data and each operation a data
range that ends below `2 ^ 64`, then for every split of a payload into
consecutive chunks (empty chunks allowed) the calls `Write(c1)`, ...,
`Write(cn)` on a fresh applier give the result of one `Write` of the whole
payload on a fresh applier with the same plan, store and devices: the same
return value and error code and the same state, with all its fields and
both devices. -/
theorem WriteChunks_eq_Write (env : Env) (prefs : Prefs) (plan : InstallPlan) (key : String)
    (fd kernel_fd : Device) (chunks : List Bytes)
    (hcancel : env.ShouldCancel = none) (hMO : GetManifestOffset env < u64)
    (hparse : ∀ b n m, env.ParseFromArray b n = some m → ManifestWF m) :
    ∃ r, Write env (State.fresh prefs plan key fd kernel_fd) chunks.flatten = some r ∧
      WriteChunks env (State.fresh prefs plan key fd kernel_fd) chunks = some r := by
  have hinv := Inv.fresh env prefs plan key fd kernel_fd
  obtain ⟨r, hr, -⟩ := Write_result env _ chunks.flatten hMO hparse hinv
  refine ⟨r, hr, ?_⟩
  cases chunks with
  | nil =>
    have h0 : ([] : List Bytes).flatten = [] := by simp
    rw [h0, Write_fresh_nil env prefs plan key fd kernel_fd hMO hparse] at hr
    rw [← hr]
    rfl
  | cons c cs => rw [WriteChunks_eq env hcancel hMO hparse c cs _ hinv, hr]

/-- C1, amended, at a concrete input: the payload of `exWFManifest` with
the data bytes `9, 8, 7`, split inside its header, inside the first blob
and with an empty chunk. -/
theorem WriteChunks_eq_Write_witness :
    ∃ r, Write (exEnv exWFManifest) exFresh
        [exHeader.take 7, exHeader.drop 7 ++ [9], [], [8, 7]].flatten = some r ∧
      WriteChunks (exEnv exWFManifest) exFresh
        [exHeader.take 7, exHeader.drop 7 ++ [9], [], [8, 7]] = some r :=
  WriteChunks_eq_Write (exEnv exWFManifest) Prefs.empty exPlan "key" (exDevice 64)
    (exDevice 64) [exHeader.take 7, exHeader.drop 7 ++ [9], [], [8, 7]] rfl (by decide) (by
      intro b n m hm
      have : m = exWFManifest := by
        simp only [exEnv, Option.some.injEq] at hm
        exact hm.symm
      subst this
      intro op hop
      simp only [exWFManifest, exManifest, Manifest.empty, List.mem_append, List.mem_cons,
        List.mem_singleton, List.not_mem_nil, or_false] at hop
      rcases hop with h | h | h <;> subst h <;> refine ⟨by decide, by decide⟩)

/-! ## C3: the hash accumulator invariant -/

/-- `setDevice` keeps hash, buffer and offset. -/
theorem setDevice_consumed (s : State) (k : Bool) (d : Device) :
    (s.setDevice k d).consumed = s.consumed := by
  cases k <;> rfl

/-- `markNonIdempotent` keeps hash, buffer and offset. -/
theorem markNonIdempotent_consumed (s : State) (op : InstallOperation) :
    (markNonIdempotent s op).consumed = s.consumed := by
  unfold markNonIdempotent
  split_ifs <;> rfl

/-- `ExtractSignatureMessage` keeps hash, buffer and offset. -/
theorem ExtractSignatureMessage_consumed (env : Env) (s : State) (op : InstallOperation) :
    (ExtractSignatureMessage env s op).2.consumed = s.consumed := by
  unfold ExtractSignatureMessage
  split_ifs <;> rfl

/-- `bsdiffApply` keeps hash, buffer and offset. -/
theorem bsdiffApply_consumed (env : Env) (s : State) (op : InstallOperation) (k : Bool)
    (patch : Bytes) (i o : String) :
    (bsdiffApply env s op k patch i o).2.consumed = s.consumed := by
  unfold bsdiffApply
  simp only []
  repeat' split
  all_goals simp [setDevice_consumed]

/-- `PerformReplaceOperation` keeps hash, buffer and offset, or discards the
buffer into the hash and advances the offset by its length. -/
theorem PerformReplaceOperation_consumed (env : Env) (s : State) (op : InstallOperation)
    (k : Bool) :
    (PerformReplaceOperation env s op k).2.consumed = s.consumed ∨
    (PerformReplaceOperation env s op k).2.consumed = s.discarded := by
  have he := ExtractSignatureMessage_consumed env s op
  have hd : ∀ t : State, (DiscardBuffer t true).consumed = t.discarded := fun _ => rfl
  have hdd : ∀ t u : State, t.consumed = u.consumed → t.discarded = u.discarded := by
    intro t u h
    simp only [State.consumed, Prod.mk.injEq] at h
    simp only [State.discarded, h.1, h.2.1, h.2.2]
  unfold PerformReplaceOperation
  simp only []
  repeat' split
  all_goals first
    | exact Or.inl rfl
    | exact Or.inl he
    | exact Or.inl (by rw [setDevice_consumed, he])
    | exact Or.inr (by rw [hd]; exact hdd _ _ (by rw [setDevice_consumed, he]))

/-- `PerformMoveOperation` keeps hash, buffer and offset. -/
theorem PerformMoveOperation_consumed (s : State) (op : InstallOperation) (k : Bool) :
    (PerformMoveOperation s op k).2.consumed = s.consumed := by
  unfold PerformMoveOperation
  simp only []
  split
  · rfl
  · rw [setDevice_consumed, markNonIdempotent_consumed]

/-- `PerformBsdiffOperation` keeps hash, buffer and offset, or discards the
buffer into the hash and advances the offset by its length. -/
theorem PerformBsdiffOperation_consumed (env : Env) (s : State) (op : InstallOperation)
    (k : Bool) :
    (PerformBsdiffOperation env s op k).2.consumed = s.consumed ∨
    (PerformBsdiffOperation env s op k).2.consumed = s.discarded := by
  unfold PerformBsdiffOperation
  simp only []
  repeat' split
  all_goals first
    | exact Or.inl rfl
    | exact Or.inr (by rw [bsdiffApply_consumed, markNonIdempotent_consumed]; rfl)

/-- The dispatch keeps hash, buffer and offset, or discards the buffer into
the hash and advances the offset by its length. -/
theorem performOperation_consumed (env : Env) (s : State) (op : InstallOperation) (k : Bool)
    (e : ErrorCode) :
    (performOperation env s op k e).2.consumed = s.consumed ∨
    (performOperation env s op k e).2.consumed = s.discarded := by
  unfold performOperation
  split_ifs
  · exact PerformReplaceOperation_consumed env s op k
  · exact Or.inl (PerformMoveOperation_consumed s op k)
  · exact PerformBsdiffOperation_consumed env s op k
  · exact Or.inl rfl

/-- The body of an operations pass keeps hash, buffer and offset, or
discards the buffer into the hash and advances the offset by its length;
it keeps the metadata size and the validity of the manifest. -/
theorem operationBody_consumed (env : Env) (s : State) (op : InstallOperation) (k : Bool)
    (rest : Bytes) :
    ((operationBody env s op k rest).state.consumed = s.consumed ∨
      (operationBody env s op k rest).state.consumed = s.discarded) ∧
    (operationBody env s op k rest).state.metadata_size = s.metadata_size ∧
    (operationBody env s op k rest).state.manifest_valid = s.manifest_valid := by
  obtain ⟨v, r, hr, heq⟩ := operationBody_eq env s op k rest
  have hc := performOperation_consumed env s op k ErrorCode.kSuccess
  have hs := (performOperation_frame env s op k ErrorCode.kSuccess).1
  rw [← hr] at hc hs
  have e1 : r.2.metadata_size = s.metadata_size := congrArg Static.metadata_size hs
  have e2 : r.2.manifest_valid = s.manifest_valid := congrArg Static.manifest_valid hs
  obtain ⟨c1, c2, c3, c4, -, -⟩ := CheckpointUpdateProgress_frame env
    { r.2 with next_operation_num := r.2.next_operation_num + 1 }
  rw [heq]
  split_ifs
  · exact ⟨Or.inl rfl, rfl, rfl⟩
  · exact ⟨Or.inl rfl, rfl, rfl⟩
  · exact ⟨hc, e1, e2⟩
  · refine ⟨?_, ?_, ?_⟩
    · have : ∀ t : State, t.consumed =
          (t.hash_calculator, t.buffer, t.buffer_offset) := fun _ => rfl
      have hcc : (LoopStep.next
          { (CheckpointUpdateProgress env
              { r.2 with next_operation_num := r.2.next_operation_num + 1 }).2 with
            exit_blocked := false } rest).state.consumed = r.2.consumed := by
        show ((CheckpointUpdateProgress env _).2.hash_calculator,
          (CheckpointUpdateProgress env _).2.buffer,
          (CheckpointUpdateProgress env _).2.buffer_offset) = _
        rw [c4, c2, c3]
        rfl
      rw [hcc]
      exact hc
    · show (CheckpointUpdateProgress env _).2.metadata_size = _
      rw [show (CheckpointUpdateProgress env
        { r.2 with next_operation_num := r.2.next_operation_num + 1 }).2.metadata_size =
          r.2.metadata_size from congrArg Static.metadata_size c1]
      exact e1
    · show (CheckpointUpdateProgress env _).2.manifest_valid = _
      rw [show (CheckpointUpdateProgress env
        { r.2 with next_operation_num := r.2.next_operation_num + 1 }).2.manifest_valid =
          r.2.manifest_valid from congrArg Static.manifest_valid c1]
      exact e2

/-- `HashInv` is kept when hash, buffer and offset stay, or the buffer is
discarded into the hash with the offset advanced, on a payload shorter
than `2 ^ 64` bytes. -/
theorem HashInv.advance {P : Bytes} {s t : State} (h : HashInv P s)
    (hv : s.manifest_valid = true) (hP : P.length < u64)
    (hc : t.consumed = s.consumed ∨ t.consumed = s.discarded)
    (hm : t.metadata_size = s.metadata_size) (hv2 : t.manifest_valid = s.manifest_valid) :
    HashInv P t ∧ t.hash_calculator ++ t.buffer = s.hash_calculator ++ s.buffer := by
  obtain ⟨⟨tl, htl⟩, -, h3⟩ := h
  have h3 := h3 hv
  rcases hc with hc | hc
  · simp only [State.consumed, Prod.mk.injEq] at hc
    obtain ⟨c1, c2, c3⟩ := hc
    refine ⟨⟨⟨tl, by rw [c1, c2]; exact htl⟩, fun hf => ?_, fun _ => ?_⟩, by rw [c1, c2]⟩
    · rw [hv2, hv] at hf
      exact absurd hf (by simp)
    · rw [c1, hm, c3]
      exact h3
  · simp only [State.consumed, State.discarded, Prod.mk.injEq] at hc
    obtain ⟨c1, c2, c3⟩ := hc
    have hlen : s.hash_calculator.length + s.buffer.length ≤ P.length := by
      rw [← htl]
      simp only [List.length_append]
      omega
    refine ⟨⟨⟨tl, by rw [c1, c2, List.append_nil]; exact htl⟩, fun hf => ?_, fun _ => ?_⟩,
      by rw [c1, c2, List.append_nil]⟩
    · rw [hv2, hv] at hf
      exact absurd hf (by simp)
    · rw [c1, hm, c3, List.length_append, Nat.mod_eq_of_lt (by omega)]
      omega

/-- `HashInv` is kept by a copy step that takes its bytes from the part of
the payload behind the bytes consumed. -/
theorem HashInv.after_copy {P : Bytes} {s : State} (h : HashInv P s) (x : Bytes) (n : Nat)
    (hx : ∃ t, s.hash_calculator ++ s.buffer ++ x ++ t = P) :
    HashInv P { s with buffer := s.buffer ++ x.take n } := by
  obtain ⟨tl, htl⟩ := hx
  refine ⟨⟨x.drop n ++ tl, ?_⟩, h.2.1, h.2.2⟩
  show s.hash_calculator ++ (s.buffer ++ List.take n x) ++ (List.drop n x ++ tl) = P
  rw [← htl]
  simp only [List.append_assoc]
  rw [← List.append_assoc (List.take n x), List.take_append_drop]

/-- An operations pass that goes on leaves the validity and the counts as
they were and the operation counter one more. -/
theorem operationStep_next_frame (env : Env) (s : State) (x : Bytes) (s1 : State) (x1 : Bytes)
    (h : operationStep env s x = LoopStep.next s1 x1) :
    s1.manifest_valid = s.manifest_valid ∧
    s1.num_total_operations = s.num_total_operations ∧
    s1.next_operation_num = s.next_operation_num + 1 ∧
    x1 = x.drop (room s (currentOp s).data_length) := by
  unfold operationStep at h
  cases hc : env.ShouldCancel with
  | some e => simp [hc] at h
  | none =>
    simp only [hc] at h
    rw [CopyDataToBuffer_room] at h
    obtain ⟨f0, f1, -⟩ := operationBody_next _ _ _ _ _ _ _ h
    exact ⟨congrArg Static.manifest_valid f1, congrArg Static.num_total_operations f1,
      congrArg Static.next_operation_num f1, f0⟩

/-- `Write` with a valid manifest and an operation left makes one
operations pass and goes on as `Write` on the state the pass leaves. -/
theorem Write_ops_gen (env : Env) (s : State) (x : Bytes) (hvalid : s.manifest_valid = true)
    (hn : s.next_operation_num < s.num_total_operations) :
    Write env s x =
      match operationStep env s x with
      | LoopStep.ret r => some r
      | LoopStep.next s1 x1 => Write env s1 x1 := by
  have hW : ∀ (t : State) (y : Bytes), t.manifest_valid = true →
      Write env t y = operationsLoop env (t.num_total_operations - t.next_operation_num) t y := by
    intro t y ht
    unfold Write
    rw [metadataLoop_valid env 2 t y ht]
  rw [hW s x hvalid]
  obtain ⟨n, hn2⟩ : ∃ n, s.num_total_operations - s.next_operation_num = n + 1 :=
    ⟨s.num_total_operations - s.next_operation_num - 1, by omega⟩
  rw [hn2, operationsLoop_succ env n s x hn]
  cases hs : operationStep env s x with
  | ret r => rfl
  | next s1 x1 =>
    simp only []
    obtain ⟨g1, g2, g3, -⟩ := operationStep_next_frame env s x s1 x1 hs
    rw [hW s1 x1 (by rw [g1, hvalid]), g2, g3]
    congr 1
    omega

/-- An operations pass when cancellation is requested. -/
theorem operationStep_cancel (env : Env) (s : State) (x : Bytes) (e : ErrorCode)
    (hc : env.ShouldCancel = some e) : operationStep env s x = LoopStep.ret ⟨false, e, s⟩ := by
  unfold operationStep
  rw [hc]

/-- An operations pass when cancellation is not requested: the copy step
followed by the body. -/
theorem operationStep_eq_body (env : Env) (s : State) (x : Bytes)
    (hc : env.ShouldCancel = none) :
    operationStep env s x =
      operationBody env
        { s with buffer := s.buffer ++ x.take (room s (currentOp s).data_length) }
        (currentOp s) (decide (s.next_operation_num ≥ s.num_rootfs_operations))
        (x.drop (room s (currentOp s).data_length)) := by
  unfold operationStep
  rw [hc]
  simp only []
  rw [CopyDataToBuffer_room]

/-- The hash accumulator invariant through one `Write` on an applier with a
valid manifest: `Write` returns, the invariant holds on the state it
leaves, and when it returned `true` it has consumed all its input or the
applier is frozen. -/
theorem Write_hash_valid (env : Env) (P : Bytes) (hP : P.length < u64) (n : Nat) :
    ∀ (s : State) (x : Bytes), s.manifest_valid = true →
      s.num_total_operations - s.next_operation_num = n → HashInv P s →
      (∃ t, s.hash_calculator ++ s.buffer ++ x ++ t = P) →
      ∃ r, Write env s x = some r ∧ HashInv P r.state ∧ r.state.manifest_valid = true ∧
        (r.ok = true →
          r.state.hash_calculator ++ r.state.buffer = s.hash_calculator ++ s.buffer ++ x ∨
          Frozen r.state) := by
  induction n with
  | zero =>
    intro s x hvalid h0 hH _
    have hn : ¬ s.next_operation_num < s.num_total_operations := by omega
    exact ⟨_, Write_done env s x hvalid hn, hH, hvalid, fun _ => Or.inr ⟨hvalid, Or.inl hn⟩⟩
  | succ n ih =>
    intro s x hvalid hsn hH hx
    have hn : s.next_operation_num < s.num_total_operations := by omega
    rw [Write_ops_gen env s x hvalid hn]
    cases hc : env.ShouldCancel with
    | some e =>
      rw [operationStep_cancel env s x e hc]
      exact ⟨_, rfl, hH, hvalid, fun h => absurd h (by simp)⟩
    | none =>
      rw [operationStep_eq_body env s x hc]
      generalize hs1 :
        ({ s with buffer := s.buffer ++ x.take (room s (currentOp s).data_length) } : State) = s1
      have hb1 : s1.buffer = s.buffer ++ x.take (room s (currentOp s).data_length) := by
        rw [← hs1]
      have hh1 : s1.hash_calculator = s.hash_calculator := by rw [← hs1]
      have hv1 : s1.manifest_valid = true := by rw [← hs1]; exact hvalid
      have hcur : currentOp s1 = currentOp s := by rw [← hs1]; rfl
      have hH1 : HashInv P s1 := by
        rw [← hs1]
        exact hH.after_copy x _ hx
      obtain ⟨hcons, hms, hmv⟩ := operationBody_consumed env s1 (currentOp s)
        (decide (s.next_operation_num ≥ s.num_rootfs_operations))
        (x.drop (room s (currentOp s).data_length))
      obtain ⟨hH2, hcat⟩ := hH1.advance hv1 hP hcons hms hmv
      cases hB : operationBody env s1 (currentOp s)
          (decide (s.next_operation_num ≥ s.num_rootfs_operations))
          (x.drop (room s (currentOp s).data_length)) with
      | ret r =>
        rw [hB] at hH2 hcat hmv
        simp only [LoopStep.state] at hH2 hcat hmv
        refine ⟨r, rfl, hH2, by rw [hmv, hv1], fun hok => ?_⟩
        obtain ⟨hr, hgate⟩ := operationBody_ret_ok _ _ _ _ _ _ hB hok
        have hrs : r.state = s1 := by rw [hr]
        by_cases hle : x.length ≤ room s (currentOp s).data_length
        · left
          rw [hrs, hh1, hb1, List.take_of_length_le hle, List.append_assoc]
        · right
          rw [hrs]
          refine ⟨hv1, Or.inr ⟨?_, by rw [hcur]; exact hgate⟩⟩
          rw [hcur, ← hs1]
          exact room_filled s _ _ (by rw [List.length_take]; omega)
      | next s2 x2 =>
        rw [hB] at hH2 hcat hmv
        simp only [LoopStep.state] at hH2 hcat hmv
        obtain ⟨hx2, hst, -⟩ := operationBody_next _ _ _ _ _ _ _ hB
        have e1 : s2.num_total_operations = s1.num_total_operations :=
          congrArg Static.num_total_operations hst
        have e2 : s2.next_operation_num = s1.next_operation_num + 1 :=
          congrArg Static.next_operation_num hst
        have e3 : s1.num_total_operations = s.num_total_operations := by rw [← hs1]
        have e4 : s1.next_operation_num = s.next_operation_num := by rw [← hs1]
        obtain ⟨tl, htl⟩ := hx
        have hpre : s2.hash_calculator ++ s2.buffer ++ x2 ++ tl = P := by
          rw [hcat, hh1, hb1, hx2, ← htl]
          simp only [List.append_assoc]
          rw [← List.append_assoc (List.take _ x), List.take_append_drop]
        obtain ⟨r, hr, g1, g2, g3⟩ := ih s2 x2 (by rw [hmv, hv1]) (by omega) hH2 ⟨tl, hpre⟩
        refine ⟨r, hr, g1, g2, fun hok => ?_⟩
        rcases g3 hok with g | g
        · left
          rw [g, hcat, hh1, hb1, hx2]
          simp only [List.append_assoc]
          rw [List.take_append_drop]
        · exact Or.inr g

/-- The fields that the metadata parser leaves as they are. -/
theorem ParseBody_frame (env : Env) (s : State) (m : Nat) (p : Bytes) :
    (ParseBody env s m p).2.2.hash_calculator = s.hash_calculator ∧
    (ParseBody env s m p).2.2.buffer = s.buffer ∧
    (ParseBody env s m p).2.2.buffer_offset = s.buffer_offset ∧
    (ParseBody env s m p).2.2.manifest_valid = s.manifest_valid ∧
    (ParseBody env s m p).2.2.prefs = s.prefs := by
  unfold ParseBody
  simp only []
  repeat' split
  all_goals exact ⟨rfl, rfl, rfl, rfl, rfl⟩

/-- `ParsePayloadMetadata` leaves the hash accumulator, the buffer, the
buffer offset, the validity of the manifest and the store as they are. -/
theorem ParsePayloadMetadata_frame (env : Env) (s : State) (p : Bytes) :
    (ParsePayloadMetadata env s p).2.2.hash_calculator = s.hash_calculator ∧
    (ParsePayloadMetadata env s p).2.2.buffer = s.buffer ∧
    (ParsePayloadMetadata env s p).2.2.buffer_offset = s.buffer_offset ∧
    (ParsePayloadMetadata env s p).2.2.manifest_valid = s.manifest_valid ∧
    (ParsePayloadMetadata env s p).2.2.prefs = s.prefs := by
  unfold ParsePayloadMetadata
  simp only []
  generalize (if s.metadata_size ≠ 0 then
    (s.metadata_size + u64 - GetManifestOffset env % u64) % u64 else 0) = ms0
  by_cases hz : ms0 = 0
  · simp only [hz, if_true]
    cases hh : ParseHeader env s p with
    | inl r =>
      simp only []
      unfold ParseHeader at hh
      simp only [] at hh
      split_ifs at hh
      all_goals
        simp only [Sum.inl.injEq] at hh
        rw [← hh]
        exact ⟨rfl, rfl, rfl, rfl, rfl⟩
    | inr q =>
      obtain ⟨s1, m⟩ := q
      simp only []
      obtain ⟨-, h2, -⟩ := ParseHeader_inr env s s1 p m hh
      obtain ⟨f1, f2, f3, f4, f5⟩ := ParseBody_frame env s1 m p
      rw [f1, f2, f3, f4, f5, h2]
      exact ⟨rfl, rfl, rfl, rfl, rfl⟩
  · simp only [hz, if_false]
    exact ParseBody_frame env s _ p

/-- On a store that holds no resumable progress, `PrimeUpdateState` only
sets the block size and verifies the source partitions. -/
theorem PrimeUpdateState_fresh (env : Env) (s : State) (hf : freshPath s.prefs) :
    PrimeUpdateState env s =
      (VerifySourcePartitions { s with block_size := s.manifest.block_size },
        { s with block_size := s.manifest.block_size }) := by
  unfold PrimeUpdateState
  simp only []
  cases hk : s.prefs.kPrefsUpdateStateNextOperation with
  | none => rfl
  | some n =>
    have := hf n hk
    simp [this]

/-- Storing the metadata size keeps a store free of resumable progress. -/
theorem freshPath_metadataPrepare (s : State) (hf : freshPath s.prefs) :
    freshPath (metadataPrepare s).prefs := by
  unfold metadataPrepare DiscardBuffer Prefs.setManifestMetadataSize
  simp only []
  split_ifs
  · exact hf
  · exact hf

/-- The end of the metadata phase on a fresh update whose buffer holds
exactly the metadata: whatever it returns, the hash accumulator invariant
holds afterwards, and when it goes on the manifest is valid and the
accumulator holds the metadata. -/
theorem metadataFinish_hash (env : Env) (P : Bytes) (s : State) (rest : Bytes)
    (hvalid : s.manifest_valid = false) (hbo : s.buffer_offset = 0)
    (hh : s.hash_calculator = []) (hf : freshPath s.prefs) (hlen : s.buffer.length = s.metadata_size)
    (hpre : ∃ t, s.buffer ++ t = P) :
    match metadataFinish env s rest with
    | LoopStep.ret r => HashInv P r.state ∧ r.ok = false
    | LoopStep.next s1 x1 =>
      x1 = rest ∧ s1.manifest_valid = true ∧ HashInv P s1 ∧
        s1.hash_calculator ++ s1.buffer = s.buffer := by
  obtain ⟨tl, htl⟩ := hpre
  have hprep : HashInv P (metadataPrepare s) := by
    refine ⟨⟨tl, ?_⟩, fun hc => absurd hc (by simp [metadataPrepare, DiscardBuffer]),
      fun _ => ?_⟩
    · show s.hash_calculator ++ s.buffer ++ [] ++ tl = P
      rw [hh, ← htl]
      simp
    · show (s.hash_calculator ++ s.buffer).length = s.metadata_size + s.buffer_offset
      rw [hh, hbo, ← hlen]
      simp
  have hcat : (metadataPrepare s).hash_calculator ++ (metadataPrepare s).buffer = s.buffer := by
    show s.hash_calculator ++ s.buffer ++ [] = s.buffer
    rw [hh]
    simp
  unfold metadataFinish
  simp only []
  rw [PrimeUpdateState_fresh env _ (freshPath_metadataPrepare s hf)]
  simp only []
  split_ifs with h1 h2
  · refine ⟨⟨⟨tl, ?_⟩, fun _ => hh, fun hc => ?_⟩, rfl⟩
    · show s.hash_calculator ++ s.buffer ++ tl = P
      rw [hh, ← htl]
      simp
    · have hc2 : s.manifest_valid = true := hc
      rw [hvalid] at hc2
      exact absurd hc2 (by simp)
  · exact ⟨rfl, rfl, hprep, hcat⟩
  · exact ⟨hprep, rfl⟩

/-- One metadata pass after its copy step, on a fresh update: whatever it
returns, the hash accumulator invariant holds afterwards; a pass that
returns success leaves the state as it is; a pass that goes on keeps the
bytes consumed and leaves the manifest valid or has just learnt the
metadata size. -/
theorem metadataBody_hash (env : Env) (P : Bytes) (s : State) (rest : Bytes)
    (hvalid : s.manifest_valid = false) (hR : RunInv env P s)
    (hfit : ∀ b n m, env.ParseFromArray b n = some m → n ≤ b.length)
    (hMO : GetManifestOffset env < u64) :
    match metadataBody env (decide (s.metadata_size = 0)) s rest with
    | LoopStep.ret r => HashInv P r.state ∧ (r.ok = true → r.state = s)
    | LoopStep.next s1 x1 =>
      x1 = rest ∧ RunInv env P s1 ∧
        s1.hash_calculator ++ s1.buffer = s.hash_calculator ++ s.buffer ∧
        (s1.manifest_valid = true ∨
          (s.metadata_size = 0 ∧ s1.metadata_size ≠ 0 ∧ s1.manifest_valid = false)) := by
  obtain ⟨hH, hrest⟩ := hR
  obtain ⟨hbo, hf, hbnd⟩ := hrest hvalid
  have hh : s.hash_calculator = [] := hH.2.1 hvalid
  obtain ⟨⟨tl, htl⟩, -, -⟩ := hH
  have hB : s.metadata_size ≠ 0 →
      GetManifestOffset env < s.metadata_size ∧ s.metadata_size < u64 := by
    intro h0
    rcases hbnd with ⟨h1, -⟩ | ⟨h1, h2, -⟩
    · exact absurd h1 h0
    · exact ⟨h1, h2⟩
  have hno : ¬ (decide (s.metadata_size = 0) = true ∧ s.metadata_size ≠ 0) := by
    rintro ⟨a, b⟩
    exact b (of_decide_eq_true a)
  unfold metadataBody
  simp only []
  rcases ParsePayloadMetadata_cases env s s.buffer hB with
    ⟨h1, -⟩ | ⟨h0, m, h1, h2, h3, -⟩ | h1 | ⟨mf, n, ms, hp, h1, h5, h6, h7⟩
  · simp only [h1, reduceCtorEq, if_false, if_true, hno]
    exact ⟨⟨⟨tl, htl⟩, fun _ => hh, fun hc => absurd (hvalid ▸ hc) (by simp)⟩, by simp⟩
  · have hne : (GetManifestOffset env + m) % u64 ≠ 0 := by omega
    simp only [h1, reduceCtorEq, if_false, if_true]
    rw [if_pos ⟨decide_eq_true h0, hne⟩]
    refine ⟨rfl, ⟨⟨⟨tl, htl⟩, fun _ => hh, fun hc => absurd (hvalid ▸ hc) (by simp)⟩,
      fun _ => ⟨hbo, hf, Or.inr ⟨?_, Nat.mod_lt _ (by unfold u64; norm_num), ?_⟩⟩⟩, rfl,
      Or.inr ⟨h0, hne, hvalid⟩⟩
    · show GetManifestOffset env < (GetManifestOffset env + m) % u64
      omega
    · show s.buffer.length ≤ (GetManifestOffset env + m) % u64
      omega
  · obtain ⟨f1, f2, -, f4, -⟩ := ParsePayloadMetadata_frame env s s.buffer
    simp only [h1, if_true]
    refine ⟨⟨⟨tl, by rw [f1, f2]; exact htl⟩, fun _ => by rw [f1]; exact hh, fun hc => ?_⟩,
      fun hc => absurd hc (by simp)⟩
    rw [f4, hvalid] at hc
    exact absurd hc (by simp)
  · have hlen : s.buffer.length = ms := by
      by_cases h0 : s.metadata_size = 0
      · obtain ⟨e1, e2, e3⟩ := h7 h0
        have hb : s.buffer.length ≤ GetManifestOffset env := by
          rcases hbnd with ⟨-, h⟩ | ⟨h, -, -⟩
          · exact h
          · omega
        have hn := hfit _ _ _ hp
        rw [List.length_drop] at hn
        have hn0 : n = 0 := by omega
        rw [e1, ← e3, hn0, Nat.add_zero, Nat.mod_eq_of_lt hMO]
        omega
      · have e1 := h6 h0
        rcases hbnd with ⟨h, -⟩ | ⟨-, -, h⟩
        · exact absurd h h0
        · omega
    simp only [h1, reduceCtorEq, if_false]
    have key := metadataFinish_hash env P
      { s with metadata_size := ms, manifest := mf, manifest_parsed := true } rest
      hvalid hbo hh hf hlen ⟨tl, by rw [← htl, hh]; rfl⟩
    revert key
    cases metadataFinish env
      { s with metadata_size := ms, manifest := mf, manifest_parsed := true } rest with
    | ret r =>
      simp only []
      intro key
      exact ⟨key.1, fun hc => absurd (key.2 ▸ hc) (by simp)⟩
    | next s1 x1 =>
      simp only []
      intro key
      obtain ⟨k1, k2, k3, k4⟩ := key
      refine ⟨k1, ⟨k3, fun hc => absurd (k2 ▸ hc) (by simp)⟩, ?_, Or.inl k2⟩
      rw [k4, hh]
      rfl

/-- Before the manifest is valid, the copy step of a metadata pass keeps
`RunInv`. -/
theorem RunInv.copy_step {env : Env} {P : Bytes} {s : State} (hR : RunInv env P s)
    (hvalid : s.manifest_valid = false) (hMO : GetManifestOffset env < u64) (x : Bytes)
    (hx : ∃ t, s.hash_calculator ++ s.buffer ++ x ++ t = P) :
    RunInv env P { s with buffer := s.buffer ++ x.take (room s (metadataLimit env s)) } ∧
    (s.buffer ++ x.take (room s (metadataLimit env s))).length ≤ metadataLimit env s ∧
    room s (metadataLimit env s) = metadataLimit env s - s.buffer.length := by
  obtain ⟨hbo, hf, hbnd⟩ := hR.2 hvalid
  have hlim : metadataLimit env s < u64 ∧ s.buffer.length ≤ metadataLimit env s := by
    unfold metadataLimit
    rcases hbnd with ⟨h1, h2⟩ | ⟨h1, h2, h3⟩
    · simp only [h1, if_true]
      exact ⟨hMO, h2⟩
    · have : s.metadata_size ≠ 0 := by omega
      simp only [this, if_false]
      exact ⟨h2, h3⟩
  have hroom := room_eq s _ hlim.1 hlim.2
  have hlen : (s.buffer ++ x.take (room s (metadataLimit env s))).length ≤
      metadataLimit env s := by
    rw [List.length_append, List.length_take, hroom]
    omega
  refine ⟨⟨hR.1.after_copy x _ hx, fun _ => ⟨hbo, hf, ?_⟩⟩, hlen, hroom⟩
  rcases hbnd with ⟨h1, -⟩ | ⟨h1, h2, -⟩
  · left
    have hl : metadataLimit env s = GetManifestOffset env := by
      unfold metadataLimit
      simp [h1]
    refine ⟨h1, ?_⟩
    show (s.buffer ++ x.take (room s (metadataLimit env s))).length ≤ GetManifestOffset env
    rw [← hl]
    exact hlen
  · right
    have h0 : s.metadata_size ≠ 0 := by omega
    have hl : metadataLimit env s = s.metadata_size := by
      unfold metadataLimit
      simp [h0]
    refine ⟨h1, h2, ?_⟩
    show (s.buffer ++ x.take (room s (metadataLimit env s))).length ≤ s.metadata_size
    rw [← hl]
    exact hlen

/-- One metadata pass on a fresh update: whatever it returns, the hash
accumulator invariant holds afterwards; a pass that returns success has
consumed all its input; a pass that goes on hands on the input it has not
consumed. -/
theorem metadataStep_hash (env : Env) (P : Bytes) (s : State) (x : Bytes)
    (hvalid : s.manifest_valid = false) (hR : RunInv env P s)
    (hfit : ∀ b n m, env.ParseFromArray b n = some m → n ≤ b.length)
    (hMO : GetManifestOffset env < u64)
    (hx : ∃ t, s.hash_calculator ++ s.buffer ++ x ++ t = P) :
    match metadataStep env s x with
    | LoopStep.ret r => HashInv P r.state ∧
      (r.ok = true → RunInv env P r.state ∧
        r.state.hash_calculator ++ r.state.buffer = s.hash_calculator ++ s.buffer ++ x)
    | LoopStep.next s1 x1 =>
      RunInv env P s1 ∧
        s1.hash_calculator ++ s1.buffer ++ x1 = s.hash_calculator ++ s.buffer ++ x ∧
        (s1.manifest_valid = true ∨
          (s.metadata_size = 0 ∧ s1.metadata_size ≠ 0 ∧ s1.manifest_valid = false)) := by
  obtain ⟨hR1, hlen, hroom⟩ := hR.copy_step hvalid hMO x hx
  rw [metadataStep_eq, CopyDataToBuffer_room]
  simp only []
  generalize hs1 :
    ({ s with buffer := s.buffer ++ x.take (room s (metadataLimit env s)) } : State) = s1
      at hR1
  have hb1 : s1.buffer = s.buffer ++ x.take (room s (metadataLimit env s)) := by rw [← hs1]
  have hh1 : s1.hash_calculator = s.hash_calculator := by rw [← hs1]
  have hv1 : s1.manifest_valid = false := by rw [← hs1]; exact hvalid
  have hm1 : s1.metadata_size = s.metadata_size := by rw [← hs1]
  have hl1 : metadataLimit env s1 = metadataLimit env s := by rw [← hs1]; rfl
  have hB : s1.metadata_size ≠ 0 →
      GetManifestOffset env < s1.metadata_size ∧ s1.metadata_size < u64 := by
    intro h0
    rcases (hR1.2 hv1).2.2 with ⟨h1, -⟩ | ⟨h1, h2, -⟩
    · exact absurd h1 h0
    · exact ⟨h1, h2⟩
  have key := metadataBody_hash env P s1 (x.drop (room s (metadataLimit env s))) hv1 hR1 hfit hMO
  rw [← hm1]
  cases hmb : metadataBody env (decide (s1.metadata_size = 0)) s1
      (x.drop (room s (metadataLimit env s))) with
  | ret r =>
    rw [hmb] at key
    simp only [] at key ⊢
    refine ⟨key.1, fun hok => ?_⟩
    have hrs := key.2 hok
    obtain ⟨-, hlt⟩ := metadataBody_ret_ok env s1 _ r hB hmb hok
    rw [hrs]
    refine ⟨hR1, ?_⟩
    rw [hl1, hb1, List.length_append, List.length_take] at hlt
    have hle : x.length ≤ room s (metadataLimit env s) := by omega
    rw [hh1, hb1, List.take_of_length_le hle, List.append_assoc]
  | next s2 x2 =>
    rw [hmb] at key
    simp only [] at key ⊢
    obtain ⟨k1, k2, k3, k4⟩ := key
    refine ⟨k2, ?_, ?_⟩
    · rw [k3, k1, hh1, hb1]
      simp only [List.append_assoc]
      rw [List.take_append_drop]
    · exact k4

/-- `Write` on a fresh update before the manifest is valid makes one
metadata pass and goes on as `Write` on the state the pass leaves. -/
theorem Write_meta_gen (env : Env) (P : Bytes) (s : State) (x : Bytes)
    (hvalid : s.manifest_valid = false) (hR : RunInv env P s)
    (hfit : ∀ b n m, env.ParseFromArray b n = some m → n ≤ b.length)
    (hMO : GetManifestOffset env < u64)
    (hx : ∃ t, s.hash_calculator ++ s.buffer ++ x ++ t = P) :
    Write env s x =
      match metadataStep env s x with
      | LoopStep.ret r => some r
      | LoopStep.next s1 x1 => Write env s1 x1 := by
  have key : ∀ (s1 : State) (x1 : Bytes),
      (s1.manifest_valid = true ∨ (s1.metadata_size ≠ 0 ∧ s1.manifest_valid = false ∧
        RunInv env P s1 ∧ ∃ t, s1.hash_calculator ++ s1.buffer ++ x1 ++ t = P)) →
      metadataLoop env 1 s1 x1 = metadataLoop env 2 s1 x1 := by
    intro s1 x1 hp
    rcases hp with hv1 | ⟨hm1, hv1, hR1, hx1⟩
    · rw [metadataLoop_valid env 1 s1 x1 hv1, metadataLoop_valid env 2 s1 x1 hv1]
    · rw [metadataLoop_succ env 0 s1 x1 hv1, metadataLoop_succ env 1 s1 x1 hv1]
      have hst := metadataStep_hash env P s1 x1 hv1 hR1 hfit hMO hx1
      cases hs : metadataStep env s1 x1 with
      | ret r => rfl
      | next s2 x2 =>
        rw [hs] at hst
        simp only [] at hst ⊢
        rcases hst.2.2 with hv2 | ⟨h0, -, -⟩
        · rw [metadataLoop_valid env 0 s2 x2 hv2, metadataLoop_valid env 1 s2 x2 hv2]
        · exact absurd h0 hm1
  have hst := metadataStep_hash env P s x hvalid hR hfit hMO hx
  unfold Write
  rw [metadataLoop_succ env 1 s x hvalid]
  cases hs : metadataStep env s x with
  | ret r => rfl
  | next s1 x1 =>
    rw [hs] at hst
    simp only [] at hst ⊢
    obtain ⟨k1, k2, k3⟩ := hst
    obtain ⟨tl, htl⟩ := hx
    rw [key s1 x1 (k3.imp id (fun h => ⟨h.2.1, h.2.2, k1, tl, by rw [k2]; exact htl⟩))]

/-- The hash accumulator invariant through one `Write` on a fresh update
whose manifest is valid. -/
theorem Write_hash_ops (env : Env) (P : Bytes) (hP : P.length < u64) (s : State) (x : Bytes)
    (hvalid : s.manifest_valid = true) (hR : RunInv env P s)
    (hx : ∃ t, s.hash_calculator ++ s.buffer ++ x ++ t = P) :
    ∃ r, Write env s x = some r ∧ HashInv P r.state ∧
      (r.ok = true → RunInv env P r.state ∧
        (r.state.hash_calculator ++ r.state.buffer = s.hash_calculator ++ s.buffer ++ x ∨
          Frozen r.state)) := by
  obtain ⟨r, hr, g1, g2, g3⟩ := Write_hash_valid env P hP _ s x hvalid rfl hR.1 hx
  exact ⟨r, hr, g1, fun hok => ⟨⟨g1, fun hc => absurd (g2 ▸ hc) (by simp)⟩, g3 hok⟩⟩

/-- The hash accumulator invariant through one `Write` on a fresh update
that knows the metadata size and has no valid manifest yet. -/
theorem Write_hash_body (env : Env) (P : Bytes) (hP : P.length < u64)
    (hfit : ∀ b n m, env.ParseFromArray b n = some m → n ≤ b.length)
    (hMO : GetManifestOffset env < u64) (s : State) (x : Bytes)
    (hvalid : s.manifest_valid = false) (h0 : s.metadata_size ≠ 0) (hR : RunInv env P s)
    (hx : ∃ t, s.hash_calculator ++ s.buffer ++ x ++ t = P) :
    ∃ r, Write env s x = some r ∧ HashInv P r.state ∧
      (r.ok = true → RunInv env P r.state ∧
        (r.state.hash_calculator ++ r.state.buffer = s.hash_calculator ++ s.buffer ++ x ∨
          Frozen r.state)) := by
  rw [Write_meta_gen env P s x hvalid hR hfit hMO hx]
  have hst := metadataStep_hash env P s x hvalid hR hfit hMO hx
  cases hs : metadataStep env s x with
  | ret r =>
    rw [hs] at hst
    simp only [] at hst ⊢
    exact ⟨r, rfl, hst.1, fun hok => ⟨(hst.2 hok).1, Or.inl (hst.2 hok).2⟩⟩
  | next s1 x1 =>
    rw [hs] at hst
    simp only [] at hst ⊢
    obtain ⟨k1, k2, k3⟩ := hst
    obtain ⟨tl, htl⟩ := hx
    rcases k3 with hv1 | ⟨hc, -, -⟩
    · obtain ⟨r, hr, g1, g2⟩ := Write_hash_ops env P hP s1 x1 hv1 k1
        ⟨tl, by rw [k2]; exact htl⟩
      refine ⟨r, hr, g1, fun hok => ?_⟩
      rw [← k2]
      exact g2 hok
    · exact absurd hc h0

/-- The hash accumulator invariant through one `Write` on a fresh update:
`Write` returns, the invariant holds on the state it leaves, and when it
returned `true` the next `Write` starts from a state of the same kind that
has consumed all the input or is frozen. -/
theorem Write_hash (env : Env) (P : Bytes) (hP : P.length < u64)
    (hfit : ∀ b n m, env.ParseFromArray b n = some m → n ≤ b.length)
    (hMO : GetManifestOffset env < u64) (s : State) (x : Bytes) (hR : RunInv env P s)
    (hx : ∃ t, s.hash_calculator ++ s.buffer ++ x ++ t = P) :
    ∃ r, Write env s x = some r ∧ HashInv P r.state ∧
      (r.ok = true → RunInv env P r.state ∧
        (r.state.hash_calculator ++ r.state.buffer = s.hash_calculator ++ s.buffer ++ x ∨
          Frozen r.state)) := by
  cases hvalid : s.manifest_valid with
  | true => exact Write_hash_ops env P hP s x hvalid hR hx
  | false =>
    rw [Write_meta_gen env P s x hvalid hR hfit hMO hx]
    have hst := metadataStep_hash env P s x hvalid hR hfit hMO hx
    cases hs : metadataStep env s x with
    | ret r =>
      rw [hs] at hst
      simp only [] at hst ⊢
      exact ⟨r, rfl, hst.1, fun hok => ⟨(hst.2 hok).1, Or.inl (hst.2 hok).2⟩⟩
    | next s1 x1 =>
      rw [hs] at hst
      simp only [] at hst ⊢
      obtain ⟨k1, k2, k3⟩ := hst
      obtain ⟨tl, htl⟩ := hx
      have hx1 : ∃ t, s1.hash_calculator ++ s1.buffer ++ x1 ++ t = P :=
        ⟨tl, by rw [k2]; exact htl⟩
      rcases k3 with hv1 | ⟨-, hm1, hv1⟩
      · obtain ⟨r, hr, g1, g2⟩ := Write_hash_ops env P hP s1 x1 hv1 k1 hx1
        refine ⟨r, hr, g1, fun hok => ?_⟩
        rw [← k2]
        exact g2 hok
      · obtain ⟨r, hr, g1, g2⟩ := Write_hash_body env P hP hfit hMO s1 x1 hv1 hm1 k1 hx1
        refine ⟨r, hr, g1, fun hok => ?_⟩
        rw [← k2]
        exact g2 hok

/-- A fresh applier on a store without resumable progress satisfies
`RunInv` for every payload. -/
theorem RunInv.of_fresh (env : Env) (P : Bytes) (prefs : Prefs) (plan : InstallPlan)
    (key : String) (fd kernel_fd : Device) (hfresh : freshPath prefs) :
    RunInv env P (State.fresh prefs plan key fd kernel_fd) :=
  ⟨⟨⟨P, rfl⟩, fun _ => rfl, fun hc => absurd hc (by simp [State.fresh])⟩,
    fun _ => ⟨rfl, hfresh, Or.inl ⟨rfl, Nat.zero_le _⟩⟩⟩

/-- `ResetUpdateProgress` keeps the store writable or not. -/
theorem ResetUpdateProgress_writable (p : Prefs) (q : Bool) :
    (ResetUpdateProgress p q).2.writable = p.writable := by
  unfold ResetUpdateProgress Prefs.setNextOperation Prefs.setUpdateCheckResponseHash
    Prefs.setNextDataOffset Prefs.setNextDataLength Prefs.setSHA256Context
    Prefs.setSignedSHA256Context Prefs.setSignatureBlob Prefs.setManifestMetadataSize
    Prefs.setResumedUpdateFailures
  cases hw : p.writable <;> cases q <;> simp [hw]

/-- `ExtractSignatureMessage` leaves the core as it is. -/
theorem ExtractSignatureMessage_core (env : Env) (s : State) (op : InstallOperation) :
    (ExtractSignatureMessage env s op).2.core = s.core := by
  unfold ExtractSignatureMessage Prefs.setSignatureBlob Prefs.setSignedSHA256Context
  simp only []
  cases hw : s.prefs.writable <;> split_ifs <;> simp [State.core, hw]

/-- The core does not see the values in the store, the offset of the last
checkpoint and the exit block. -/
theorem core_with (s : State) (p : Prefs) (l : Nat) (e : Bool)
    (hp : p.writable = s.prefs.writable) :
    ({ s with prefs := p, last_updated_buffer_offset := l, exit_blocked := e } : State).core =
      s.core := by
  unfold State.core
  simp only [hp]

/-- `markNonIdempotent` leaves the core as it is. -/
theorem markNonIdempotent_core (s : State) (op : InstallOperation) :
    (markNonIdempotent s op).core = s.core := by
  unfold markNonIdempotent
  split_ifs
  · rfl
  · exact core_with s _ s.last_updated_buffer_offset true (ResetUpdateProgress_writable _ _)

/-- `DiscardBuffer` acts on the core. -/
theorem DiscardBuffer_core (s : State) (b : Bool) :
    (DiscardBuffer s b).core = DiscardBuffer s.core b := rfl

/-- `setDevice` acts on the core. -/
theorem setDevice_core (s : State) (k : Bool) (d : Device) :
    (s.setDevice k d).core = s.core.setDevice k d := by
  cases k <;> rfl

/-- The devices are part of the core. -/
theorem device_core (s : State) (k : Bool) : s.core.device k = s.device k := by
  cases k <;> rfl

/-- The setters keep the store writable or not. -/
theorem Prefs.set_writable (p : Prefs) (v : Int) (b : Bytes) :
    (p.setNextOperation v).2.writable = p.writable ∧
    (p.setNextDataOffset v).2.writable = p.writable ∧
    (p.setNextDataLength v).2.writable = p.writable ∧
    (p.setSHA256Context b).2.writable = p.writable := by
  unfold Prefs.setNextOperation Prefs.setNextDataOffset Prefs.setNextDataLength
    Prefs.setSHA256Context
  cases hw : p.writable <;> simp [hw]

/-- `CheckpointUpdateProgress` changes the store, the offset of the last
checkpoint and the exit block only. -/
theorem CheckpointUpdateProgress_shape (env : Env) (s : State) :
    ∃ p l, (CheckpointUpdateProgress env s).2 =
        { s with prefs := p, last_updated_buffer_offset := l, exit_blocked := true } ∧
      p.writable = s.prefs.writable := by
  have hr := ResetUpdateProgress_writable s.prefs true
  have w1 := fun (p : Prefs) (v : Int) => (Prefs.set_writable p v []).1
  have w2 := fun (p : Prefs) (v : Int) => (Prefs.set_writable p v []).2.1
  have w3 := fun (p : Prefs) (v : Int) => (Prefs.set_writable p v []).2.2.1
  have w4 := fun (p : Prefs) (b : Bytes) => (Prefs.set_writable p 0 b).2.2.2
  unfold CheckpointUpdateProgress
  simp only []
  split_ifs
  all_goals exact ⟨_, _, rfl, by simp only [w1, w2, w3, w4, hr]⟩

/-- `CheckpointUpdateProgress` leaves the core as it is. -/
theorem CheckpointUpdateProgress_core (env : Env) (s : State) :
    (CheckpointUpdateProgress env s).2.core = s.core := by
  obtain ⟨p, l, h, hp⟩ := CheckpointUpdateProgress_shape env s
  rw [h]
  exact core_with s p l true hp

/-- The write of a Replace on two states with the same core. -/
theorem replaceWrite_core (a b : State) (k : Bool) (r : Bool × Device)
    (h : a.core = b.core) :
    (if ¬ r.1 then (false, a.setDevice k r.2) else (true, DiscardBuffer (a.setDevice k r.2) true)).1
      = (if ¬ r.1 then (false, b.setDevice k r.2)
          else (true, DiscardBuffer (b.setDevice k r.2) true)).1 ∧
    (if ¬ r.1 then (false, a.setDevice k r.2)
      else (true, DiscardBuffer (a.setDevice k r.2) true)).2.core
      = (if ¬ r.1 then (false, b.setDevice k r.2)
          else (true, DiscardBuffer (b.setDevice k r.2) true)).2.core := by
  split_ifs
  · refine ⟨rfl, ?_⟩
    show (DiscardBuffer (a.setDevice k r.2) true).core = (DiscardBuffer (b.setDevice k r.2) true).core
    rw [DiscardBuffer_core, DiscardBuffer_core, setDevice_core, setDevice_core, h]
  · refine ⟨rfl, ?_⟩
    show (a.setDevice k r.2).core = (b.setDevice k r.2).core
    rw [setDevice_core, setDevice_core, h]

/-- `PerformReplaceOperation` on two states with the same core: the same
result, and states with the same core. -/
theorem PerformReplaceOperation_core (env : Env) (a b : State) (op : InstallOperation)
    (k : Bool) (h : a.core = b.core) :
    (PerformReplaceOperation env a op k).1 = (PerformReplaceOperation env b op k).1 ∧
    (PerformReplaceOperation env a op k).2.core =
      (PerformReplaceOperation env b op k).2.core := by
  have hbo : a.buffer_offset = b.buffer_offset := by
    have := congrArg State.buffer_offset h
    exact this
  have hbuf : a.buffer = b.buffer := by
    have := congrArg State.buffer h
    exact this
  have hbs : a.block_size = b.block_size := by
    have := congrArg State.block_size h
    exact this
  have ea := ExtractSignatureMessage_core env a op
  have eb := ExtractSignatureMessage_core env b op
  have hab : (ExtractSignatureMessage env a op).2.core =
      (ExtractSignatureMessage env b op).2.core := by rw [ea, eb, h]
  obtain ⟨fa1, -, -, fa4, -, -⟩ := ExtractSignatureMessage_frame env a op
  obtain ⟨fb1, -, -, fb4, -, -⟩ := ExtractSignatureMessage_frame env b op
  have hdev : (ExtractSignatureMessage env a op).2.device k =
      (ExtractSignatureMessage env b op).2.device k := by
    rw [← device_core, ← device_core (ExtractSignatureMessage env b op).2, hab]
  unfold PerformReplaceOperation
  simp only []
  rw [fa1, fb1, fa4, fb4, hdev, hbo, hbuf, hbs]
  generalize (ExtractSignatureMessage env a op).2 = a1 at hab ⊢
  generalize (ExtractSignatureMessage env b op).2 = b1 at hab ⊢
  by_cases c1 : b.buffer_offset = op.data_offset
  · by_cases c2 : b.buffer.length ≥ op.data_length
    · simp only [c1, c2, not_true_eq_false, if_false]
      by_cases t1 : op.type = OpType.REPLACE
      · simp only [t1, if_true]
        exact replaceWrite_core a1 b1 k _ hab
      · by_cases t2 : op.type = OpType.REPLACE_BZ
        · simp only [t1, t2, if_true, if_false]
          cases hz : env.bunzip (List.take op.data_length b.buffer) with
          | none => exact ⟨rfl, hab⟩
          | some data => exact replaceWrite_core a1 b1 k _ hab
        · simp only [t1, t2, if_false]
          exact ⟨by simp, hab⟩
    · simp only [c1, c2, not_true_eq_false, not_false_eq_true, if_false, if_true]
      exact ⟨by simp, h⟩
  · simp only [c1, not_false_eq_true, if_true]
    exact ⟨by simp, h⟩

/-- `setDevice` keeps the block size. -/
theorem setDevice_block_size (s : State) (k : Bool) (d : Device) :
    (s.setDevice k d).block_size = s.block_size := by
  cases k <;> rfl

/-- States with the same core have the same devices. -/
theorem device_of_core {a b : State} (h : a.core = b.core) (k : Bool) :
    a.device k = b.device k := by
  rw [← device_core a, ← device_core b, h]

/-- States with the same core have the same block size. -/
theorem block_size_of_core {a b : State} (h : a.core = b.core) :
    a.block_size = b.block_size := by
  have := congrArg State.block_size h
  exact this

/-- `PerformMoveOperation` on two states with the same core: the same
result, and states with the same core. -/
theorem PerformMoveOperation_core (a b : State) (op : InstallOperation) (k : Bool)
    (h : a.core = b.core) :
    (PerformMoveOperation a op k).1 = (PerformMoveOperation b op k).1 ∧
    (PerformMoveOperation a op k).2.core = (PerformMoveOperation b op k).2.core := by
  have hm : (markNonIdempotent a op).core = (markNonIdempotent b op).core := by
    rw [markNonIdempotent_core, markNonIdempotent_core, h]
  unfold PerformMoveOperation
  simp only []
  rw [device_of_core h k, block_size_of_core h, device_of_core hm k, block_size_of_core hm]
  cases moveRead (b.device k) b.block_size op.src_extents with
  | none => exact ⟨rfl, h⟩
  | some read =>
    refine ⟨rfl, ?_⟩
    simp only []
    rw [setDevice_core, setDevice_core, hm]

/-- The patch step of a BinaryDiff on two states with the same core. -/
theorem bsdiffApply_core (env : Env) (a b : State) (op : InstallOperation) (k : Bool)
    (patch : Bytes) (i o : String) (h : a.core = b.core) :
    (bsdiffApply env a op k patch i o).1 = (bsdiffApply env b op k patch i o).1 ∧
    (bsdiffApply env a op k patch i o).2.core = (bsdiffApply env b op k patch i o).2.core := by
  unfold bsdiffApply
  rw [device_of_core h k]
  cases env.bspatch (b.device k) patch i o with
  | none => exact ⟨rfl, h⟩
  | some q =>
    obtain ⟨rc, d⟩ := q
    have hs : (a.setDevice k d).core = (b.setDevice k d).core := by
      rw [setDevice_core, setDevice_core, h]
    simp only [State.device_setDevice, setDevice_block_size, block_size_of_core h]
    split_ifs
    all_goals first
      | exact ⟨rfl, hs⟩
      | refine ⟨rfl, ?_⟩
        simp only []
        rw [setDevice_core (a.setDevice k d), setDevice_core (b.setDevice k d), hs]

/-- `PerformBsdiffOperation` on two states with the same core: the same
result, and states with the same core. -/
theorem PerformBsdiffOperation_core (env : Env) (a b : State) (op : InstallOperation)
    (k : Bool) (h : a.core = b.core) :
    (PerformBsdiffOperation env a op k).1 = (PerformBsdiffOperation env b op k).1 ∧
    (PerformBsdiffOperation env a op k).2.core =
      (PerformBsdiffOperation env b op k).2.core := by
  have hbo : a.buffer_offset = b.buffer_offset := by
    have := congrArg State.buffer_offset h
    exact this
  have hbuf : a.buffer = b.buffer := by
    have := congrArg State.buffer h
    exact this
  have hm : (markNonIdempotent (DiscardBuffer a true) op).core =
      (markNonIdempotent (DiscardBuffer b true) op).core := by
    rw [markNonIdempotent_core, markNonIdempotent_core, DiscardBuffer_core, DiscardBuffer_core, h]
  unfold PerformBsdiffOperation
  simp only []
  rw [hbo, hbuf, block_size_of_core h]
  by_cases c1 : b.buffer_offset = op.data_offset
  · by_cases c2 : b.buffer.length ≥ op.data_length
    · simp only [c1, c2, not_true_eq_false, if_false]
      cases ExtentsToBsdiffPositionsString op.src_extents b.block_size op.src_length with
      | none => exact ⟨rfl, h⟩
      | some i =>
        cases ExtentsToBsdiffPositionsString op.dst_extents b.block_size op.dst_length with
        | none => exact ⟨rfl, h⟩
        | some o =>
          simp only []
          by_cases c3 : env.tempFileOk = true
          · simp only [c3, not_true_eq_false, if_false]
            exact bsdiffApply_core env _ _ op k _ i o hm
          · simp only [c3, not_false_eq_true, if_true]
            exact ⟨by simp, h⟩
    · simp only [c1, c2, not_true_eq_false, not_false_eq_true, if_false, if_true]
      exact ⟨by simp, h⟩
  · simp only [c1, not_false_eq_true, if_true]
    exact ⟨by simp, h⟩

/-- The dispatch on the operation type on two states with the same core:
the same result and error, and states with the same core. -/
theorem performOperation_core (env : Env) (a b : State) (op : InstallOperation) (k : Bool)
    (e : ErrorCode) (h : a.core = b.core) :
    (performOperation env a op k e).1 = (performOperation env b op k e).1 ∧
    (performOperation env a op k e).2.core = (performOperation env b op k e).2.core := by
  unfold performOperation
  simp only []
  split_ifs
  · rw [(PerformReplaceOperation_core env a b op k h).1]
    exact ⟨rfl, (PerformReplaceOperation_core env a b op k h).2⟩
  · rw [(PerformMoveOperation_core a b op k h).1]
    exact ⟨rfl, (PerformMoveOperation_core a b op k h).2⟩
  · rw [(PerformBsdiffOperation_core env a b op k h).1]
    exact ⟨rfl, (PerformBsdiffOperation_core env a b op k h).2⟩
  · exact ⟨rfl, h⟩

/-- Counting an operation on two states with the same core. -/
theorem core_next {env : Env} {a b : State} (h : a.core = b.core) :
    (CheckpointUpdateProgress env
      { a with next_operation_num := a.next_operation_num + 1 }).2.core =
    (CheckpointUpdateProgress env
      { b with next_operation_num := b.next_operation_num + 1 }).2.core := by
  rw [CheckpointUpdateProgress_core, CheckpointUpdateProgress_core]
  show ({ a.core with next_operation_num := a.core.next_operation_num + 1 } : State) =
    { b.core with next_operation_num := b.core.next_operation_num + 1 }
  rw [h]

/-- The body of an operations pass on two states with the same core: the
same result, on states with the same core. -/
theorem operationBody_core (env : Env) (a b : State) (op : InstallOperation) (k : Bool)
    (rest : Bytes) (h : a.core = b.core) :
    (operationBody env a op k rest).core = (operationBody env b op k rest).core := by
  have hc : CanPerformInstallOperation a op = CanPerformInstallOperation b op := by
    show CanPerformInstallOperation a.core op = CanPerformInstallOperation b.core op
    rw [h]
  have hv : ValidateOperationHash env a op = ValidateOperationHash env b op := by
    show ValidateOperationHash env a.core op = ValidateOperationHash env b.core op
    rw [h]
  have hp : a.install_plan = b.install_plan := by
    have := congrArg State.install_plan h
    exact this
  obtain ⟨p1, p2⟩ := performOperation_core env a b op k ErrorCode.kSuccess h
  unfold operationBody
  simp only []
  rw [hc, hv, hp, p1]
  generalize performOperation env a op k ErrorCode.kSuccess = ra at p2 ⊢
  generalize performOperation env b op k ErrorCode.kSuccess = rb at p2 ⊢
  split_ifs
  all_goals first
    | show LoopStep.ret ⟨_, _, a.core⟩ = LoopStep.ret ⟨_, _, b.core⟩
      rw [h]
    | show LoopStep.next (CheckpointUpdateProgress env
          { ra.2 with next_operation_num := ra.2.next_operation_num + 1 }).2.core rest =
        LoopStep.next (CheckpointUpdateProgress env
          { rb.2 with next_operation_num := rb.2.next_operation_num + 1 }).2.core rest
      rw [core_next p2]
    | show LoopStep.ret ⟨_, _, ra.2.core⟩ = LoopStep.ret ⟨_, _, rb.2.core⟩
      rw [p2]

/-- An operations pass on two states with the same core: the same result,
on states with the same core. -/
theorem operationStep_core (env : Env) (a b : State) (x : Bytes) (h : a.core = b.core) :
    (operationStep env a x).core = (operationStep env b x).core := by
  have hcur : currentOp a = currentOp b := by
    show currentOp a.core = currentOp b.core
    rw [h]
  have hroom : ∀ n, room a n = room b n := by
    intro n
    show room a.core n = room b.core n
    rw [h]
  have hk : decide (a.next_operation_num ≥ a.num_rootfs_operations) =
      decide (b.next_operation_num ≥ b.num_rootfs_operations) := by
    show decide (a.core.next_operation_num ≥ a.core.num_rootfs_operations) =
      decide (b.core.next_operation_num ≥ b.core.num_rootfs_operations)
    rw [h]
  have hbuf : ∀ y, ({ a with buffer := a.buffer ++ y } : State).core =
      ({ b with buffer := b.buffer ++ y } : State).core := by
    intro y
    show ({ a.core with buffer := a.core.buffer ++ y } : State) =
      { b.core with buffer := b.core.buffer ++ y }
    rw [h]
  cases hc : env.ShouldCancel with
  | some e =>
    rw [operationStep_cancel env a x e hc, operationStep_cancel env b x e hc]
    show LoopStep.ret ⟨false, e, a.core⟩ = LoopStep.ret ⟨false, e, b.core⟩
    rw [h]
  | none =>
    rw [operationStep_eq_body env a x hc, operationStep_eq_body env b x hc, hcur, hroom, hk]
    exact operationBody_core env _ _ _ _ _ (hbuf _)

/-- `Write` on two states with a valid manifest and the same core: the
same result, on states with the same core. -/
theorem Write_core_valid (env : Env) (n : Nat) :
    ∀ (a b : State) (x : Bytes), a.core = b.core → a.manifest_valid = true →
      a.num_total_operations - a.next_operation_num = n →
      (Write env a x).map WriteResult.core = (Write env b x).map WriteResult.core := by
  induction n with
  | zero =>
    intro a b x h hv hn
    have hvb : b.manifest_valid = true := by
      have := congrArg State.manifest_valid h
      exact this.symm.trans hv
    have ht : a.num_total_operations = b.num_total_operations := by
      have := congrArg State.num_total_operations h
      exact this
    have hx : a.next_operation_num = b.next_operation_num := by
      have := congrArg State.next_operation_num h
      exact this
    rw [Write_done env a x hv (by omega), Write_done env b x hvb (by omega)]
    show some (WriteResult.mk true ErrorCode.kSuccess a.core) =
      some (WriteResult.mk true ErrorCode.kSuccess b.core)
    rw [h]
  | succ n ih =>
    intro a b x h hv hn
    have hvb : b.manifest_valid = true := by
      have := congrArg State.manifest_valid h
      exact this.symm.trans hv
    have ht : a.num_total_operations = b.num_total_operations := by
      have := congrArg State.num_total_operations h
      exact this
    have hx : a.next_operation_num = b.next_operation_num := by
      have := congrArg State.next_operation_num h
      exact this
    rw [Write_ops_gen env a x hv (by omega), Write_ops_gen env b x hvb (by omega)]
    have hs := operationStep_core env a b x h
    cases ha : operationStep env a x with
    | ret ra =>
      cases hb : operationStep env b x with
      | ret rb =>
        rw [ha, hb] at hs
        simp only [LoopStep.core, LoopStep.ret.injEq, WriteResult.mk.injEq] at hs
        obtain ⟨h1, h2, h3⟩ := hs
        show some (WriteResult.mk ra.ok ra.error ra.state.core) =
          some (WriteResult.mk rb.ok rb.error rb.state.core)
        rw [h1, h2, h3]
      | next sb xb =>
        rw [ha, hb] at hs
        simp [LoopStep.core] at hs
    | next sa xa =>
      cases hb : operationStep env b x with
      | ret rb =>
        rw [ha, hb] at hs
        simp [LoopStep.core] at hs
      | next sb xb =>
        rw [ha, hb] at hs
        simp only [LoopStep.core, LoopStep.next.injEq] at hs
        obtain ⟨h1, h2⟩ := hs
        obtain ⟨f1, f2, f3, -⟩ := operationStep_next_frame env a x sa xa ha
        simp only []
        rw [h2]
        exact ih sa sb xb h1 (by rw [f1, hv]) (by omega)

/-- `Write` on two states with a valid manifest and the same core gives
the same return value and error code and, in the state it leaves, the same
operation counter, buffer offset, hash accumulator and devices. -/
theorem Write_of_core (env : Env) (a b : State) (x : Bytes) (h : a.core = b.core)
    (hv : a.manifest_valid = true) (ra : WriteResult) (ha : Write env a x = some ra) :
    ∃ rb, Write env b x = some rb ∧ rb.ok = ra.ok ∧ rb.error = ra.error ∧
      rb.state.next_operation_num = ra.state.next_operation_num ∧
      rb.state.buffer_offset = ra.state.buffer_offset ∧
      rb.state.hash_calculator = ra.state.hash_calculator ∧
      rb.state.fd = ra.state.fd ∧ rb.state.kernel_fd = ra.state.kernel_fd := by
  have key := Write_core_valid env _ a b x h hv rfl
  rw [ha] at key
  cases hb : Write env b x with
  | none =>
    rw [hb] at key
    simp at key
  | some rb =>
    rw [hb] at key
    simp only [Option.map_some', Option.some.injEq, WriteResult.core,
      WriteResult.mk.injEq] at key
    obtain ⟨k1, k2, k3⟩ := key
    refine ⟨rb, rfl, k1.symm, k2.symm, ?_, ?_, ?_, ?_, ?_⟩
    · have := congrArg State.next_operation_num k3
      exact this.symm
    · have := congrArg State.buffer_offset k3
      exact this.symm
    · have := congrArg State.hash_calculator k3
      exact this.symm
    · have := congrArg State.fd k3
      exact this.symm
    · have := congrArg State.kernel_fd k3
      exact this.symm

/-! ### What a checkpoint stores -/

/-- The quick reset only marks the next operation invalid. -/
theorem ResetUpdateProgress_quick (p : Prefs) :
    (ResetUpdateProgress p true).2 = (p.setNextOperation kUpdateStateOperationInvalid).2 := by
  unfold ResetUpdateProgress
  simp only []
  split_ifs <;> first | rfl | simp_all

/-- `setDevice` keeps the stored progress. -/
theorem setDevice_kept (s : State) (k : Bool) (d : Device) :
    (s.setDevice k d).kept = s.kept := by
  cases k <;> rfl

/-- `markNonIdempotent` keeps the stored progress but for the next
operation. -/
theorem markNonIdempotent_kept (s : State) (op : InstallOperation) :
    (markNonIdempotent s op).kept = s.kept := by
  unfold markNonIdempotent
  rw [ResetUpdateProgress_quick]
  unfold Prefs.setNextOperation
  cases hw : s.prefs.writable <;> split_ifs <;> simp [State.kept, hw]

/-- `ExtractSignatureMessage` keeps the stored progress. -/
theorem ExtractSignatureMessage_kept (env : Env) (s : State) (op : InstallOperation) :
    (ExtractSignatureMessage env s op).2.kept = s.kept := by
  unfold ExtractSignatureMessage Prefs.setSignatureBlob Prefs.setSignedSHA256Context
  cases hw : s.prefs.writable <;> split_ifs <;> simp [State.kept, hw]

/-- `bsdiffApply` keeps the stored progress. -/
theorem bsdiffApply_kept (env : Env) (s : State) (op : InstallOperation) (k : Bool)
    (patch : Bytes) (i o : String) :
    (bsdiffApply env s op k patch i o).2.kept = s.kept := by
  unfold bsdiffApply
  simp only []
  repeat' split
  all_goals simp [setDevice_kept]

/-- `PerformReplaceOperation` keeps the stored progress. -/
theorem PerformReplaceOperation_kept (env : Env) (s : State) (op : InstallOperation)
    (k : Bool) : (PerformReplaceOperation env s op k).2.kept = s.kept := by
  have he := ExtractSignatureMessage_kept env s op
  have hd : ∀ t : State, (DiscardBuffer t true).kept = t.kept := fun _ => rfl
  unfold PerformReplaceOperation
  simp only []
  repeat' split
  all_goals first
    | rfl
    | exact he
    | rw [setDevice_kept, he]
    | rw [hd, setDevice_kept, he]

/-- `PerformMoveOperation` keeps the stored progress. -/
theorem PerformMoveOperation_kept (s : State) (op : InstallOperation) (k : Bool) :
    (PerformMoveOperation s op k).2.kept = s.kept := by
  unfold PerformMoveOperation
  simp only []
  split
  · rfl
  · rw [setDevice_kept, markNonIdempotent_kept]

/-- `PerformBsdiffOperation` keeps the stored progress. -/
theorem PerformBsdiffOperation_kept (env : Env) (s : State) (op : InstallOperation)
    (k : Bool) : (PerformBsdiffOperation env s op k).2.kept = s.kept := by
  unfold PerformBsdiffOperation
  simp only []
  repeat' split
  all_goals first
    | rfl
    | rw [bsdiffApply_kept, markNonIdempotent_kept]
      rfl

/-- The dispatch keeps the stored progress. -/
theorem performOperation_kept (env : Env) (s : State) (op : InstallOperation) (k : Bool)
    (e : ErrorCode) : (performOperation env s op k e).2.kept = s.kept := by
  unfold performOperation
  split_ifs
  · exact PerformReplaceOperation_kept env s op k
  · exact PerformMoveOperation_kept s op k
  · exact PerformBsdiffOperation_kept env s op k
  · rfl

/-- What `CheckpointUpdateProgress` stores in a writable store: the next
operation always; the next data offset and the hash context when the
buffer offset moved since the last checkpoint, and else they stay. -/
theorem CheckpointUpdateProgress_stores (env : Env) (t : State)
    (hw : t.prefs.writable = true) :
    (CheckpointUpdateProgress env t).2.prefs.writable = true ∧
    (CheckpointUpdateProgress env t).2.prefs.kPrefsUpdateStateNextOperation =
      some (toInt64 t.next_operation_num) ∧
    (CheckpointUpdateProgress env t).2.prefs.kPrefsManifestMetadataSize =
      t.prefs.kPrefsManifestMetadataSize ∧
    (CheckpointUpdateProgress env t).2.last_updated_buffer_offset = t.buffer_offset ∧
    (t.last_updated_buffer_offset ≠ t.buffer_offset →
      (CheckpointUpdateProgress env t).2.prefs.kPrefsUpdateStateNextDataOffset =
        some (toInt64 t.buffer_offset) ∧
      (CheckpointUpdateProgress env t).2.prefs.kPrefsUpdateStateSHA256Context =
        some (env.GetContext t.hash_calculator)) ∧
    (t.last_updated_buffer_offset = t.buffer_offset →
      (CheckpointUpdateProgress env t).2.prefs.kPrefsUpdateStateNextDataOffset =
        t.prefs.kPrefsUpdateStateNextDataOffset ∧
      (CheckpointUpdateProgress env t).2.prefs.kPrefsUpdateStateSHA256Context =
        t.prefs.kPrefsUpdateStateSHA256Context) := by
  unfold CheckpointUpdateProgress
  simp only [ResetUpdateProgress_quick]
  unfold Prefs.setSHA256Context Prefs.setNextDataOffset Prefs.setNextDataLength
    Prefs.setNextOperation
  by_cases hl : t.last_updated_buffer_offset = t.buffer_offset <;> simp [hl, hw]

/-- The checkpoint at the end of an operations pass persists the progress:
after a pass that goes on, on a writable store that holds the metadata
size, the store holds the next operation, the buffer offset and the hash
context of the state the pass leaves. -/
theorem operationBody_persists (env : Env) (P : Bytes) (s : State) (op : InstallOperation)
    (k : Bool) (rest : Bytes) (s1 : State) (x1 : Bytes)
    (h : operationBody env s op k rest = LoopStep.next s1 x1)
    (hw : s.prefs.writable = true)
    (hms : s.prefs.kPrefsManifestMetadataSize = some (toInt64 s.metadata_size))
    (hv : s.manifest_valid = true) (hP : P.length < 2 ^ 63) (hH : HashInv P s)
    (hsync : Synced env s ∨ s.last_updated_buffer_offset = u64 - 1) :
    Persisted env s1 := by
  have hu : u64 = 18446744073709551616 := by unfold u64; norm_num
  have hP2 : P.length < 9223372036854775808 := by
    have : (2 : Nat) ^ 63 = 9223372036854775808 := by norm_num
    omega
  obtain ⟨v, r, hr, heq⟩ := operationBody_eq env s op k rest
  rw [heq] at h
  split_ifs at h with h1 h2 h3
  simp only [LoopStep.next.injEq] at h
  obtain ⟨hs, -⟩ := h
  have hk := performOperation_kept env s op k ErrorCode.kSuccess
  rw [← hr] at hk
  simp only [State.kept, Prod.mk.injEq] at hk
  obtain ⟨k1, k2, k3, k4, k5⟩ := hk
  have hc := performOperation_consumed env s op k ErrorCode.kSuccess
  rw [← hr] at hc
  have hst := (performOperation_frame env s op k ErrorCode.kSuccess).1
  rw [← hr] at hst
  have e1 : r.2.metadata_size = s.metadata_size := congrArg Static.metadata_size hst
  have e2 : r.2.manifest_valid = s.manifest_valid := congrArg Static.manifest_valid hst
  obtain ⟨hH2, -⟩ := hH.advance hv (by omega) hc e1 e2
  obtain ⟨⟨tl, htl⟩, -, hlen⟩ := hH2
  have hlen := hlen (by rw [e2, hv])
  have hbo : r.2.buffer_offset ≤ P.length := by
    have := congrArg List.length htl
    simp only [List.length_append] at this
    omega
  obtain ⟨⟨tl0, htl0⟩, -, hlen0⟩ := hH
  have hlen0 := hlen0 hv
  have hb0 : s.buffer_offset + s.buffer.length ≤ P.length := by
    have := congrArg List.length htl0
    simp only [List.length_append] at this
    omega
  obtain ⟨c1, c2, c3, c4, c5, c6⟩ := CheckpointUpdateProgress_stores env
    { r.2 with next_operation_num := r.2.next_operation_num + 1 } (by rw [← hw, ← k1])
  obtain ⟨f1, -, f3, f4, -, -⟩ := CheckpointUpdateProgress_frame env
    { r.2 with next_operation_num := r.2.next_operation_num + 1 }
  have g1 : s1.prefs = (CheckpointUpdateProgress env
      { r.2 with next_operation_num := r.2.next_operation_num + 1 }).2.prefs := by rw [← hs]
  have g2 : s1.metadata_size = s.metadata_size := by
    rw [← hs, ← e1]
    exact congrArg Static.metadata_size f1
  have g3 : s1.next_operation_num = r.2.next_operation_num + 1 := by
    rw [← hs]
    exact congrArg Static.next_operation_num f1
  have g4 : s1.buffer_offset = r.2.buffer_offset := by
    rw [← hs]
    exact f3
  have g5 : s1.hash_calculator = r.2.hash_calculator := by
    rw [← hs]
    exact f4
  have g6 : s1.last_updated_buffer_offset = r.2.buffer_offset := by
    rw [← hs]
    exact c4
  refine ⟨by rw [g1]; exact c1, ?_, ?_, ?_, ?_, ?_⟩
  · rw [g1, c3, g2]
    show r.2.prefs.kPrefsManifestMetadataSize = _
    rw [k4]
    exact hms
  · rw [g1, c2, g3]
  · rw [g6, g4]
  · rw [g1, g4]
    by_cases hl : r.2.last_updated_buffer_offset = r.2.buffer_offset
    · rw [(c6 hl).1]
      show r.2.prefs.kPrefsUpdateStateNextDataOffset = _
      rw [k2]
      rcases hsync with ⟨y1, y2, y3⟩ | y
      · rw [y2, ← y1, ← k5, hl]
      · rw [k5, y] at hl
        omega
    · exact (c5 hl).1
  · rw [g1, g5]
    by_cases hl : r.2.last_updated_buffer_offset = r.2.buffer_offset
    · rw [(c6 hl).2]
      show r.2.prefs.kPrefsUpdateStateSHA256Context = _
      rw [k3]
      rcases hsync with ⟨y1, y2, y3⟩ | y
      · rw [y3]
        rcases hc with hc | hc
        · simp only [State.consumed, Prod.mk.injEq] at hc
          rw [hc.1]
        · simp only [State.consumed, State.discarded, Prod.mk.injEq] at hc
          obtain ⟨d1, -, d3⟩ := hc
          rw [k5, y1, d3] at hl
          have hz : s.buffer.length = 0 := by
            rw [Nat.mod_eq_of_lt (by omega)] at hl
            omega
          rw [d1, List.length_eq_zero.mp hz, List.append_nil]
      · rw [k5, y] at hl
        omega
    · exact (c5 hl).2

/-- One pass of an uninterrupted run that completes its operation: the
state it leaves is again between two passes, with its progress in the
store. -/
theorem operationStep_ready (env : Env) (P : Bytes) (s : State) (x : Bytes) (s1 : State)
    (x1 : Bytes) (hP : P.length < 2 ^ 63) (hR : Ready env P s x)
    (hn : s.next_operation_num < s.num_total_operations)
    (h : operationStep env s x = LoopStep.next s1 x1) :
    Ready env P s1 x1 ∧ Persisted env s1 ∧
      s1.static = { s.static with next_operation_num := s.next_operation_num + 1 } := by
  obtain ⟨hv, hH, hb, hx, hw, hms, hmf, hr, ht, hsync⟩ := hR
  have hu : P.length < u64 := by
    have : (2 : Nat) ^ 63 < u64 := by unfold u64; norm_num
    omega
  cases hc : env.ShouldCancel with
  | some e =>
    rw [operationStep_cancel env s x e hc] at h
    exact absurd h (by simp)
  | none =>
    rw [operationStep_eq_body env s x hc] at h
    generalize hsc :
      ({ s with buffer := s.buffer ++ x.take (room s (currentOp s).data_length) } : State) = sc
        at h
    have hbc : sc.buffer = x.take (room s (currentOp s).data_length) := by
      rw [← hsc]
      show s.buffer ++ _ = _
      rw [hb, List.nil_append]
    have hhc : sc.hash_calculator = s.hash_calculator := by rw [← hsc]
    have hvc : sc.manifest_valid = true := by rw [← hsc]; exact hv
    have hHc : HashInv P sc := by
      rw [← hsc]
      exact hH.after_copy x _ ⟨[], by rw [hb]; simpa using hx⟩
    obtain ⟨n1, n2, n3⟩ := operationBody_next _ _ _ _ _ _ _ h
    have hst : s1.static = { s.static with next_operation_num := s.next_operation_num + 1 } := by
      rw [n2, ← hsc]
      rfl
    have hper := operationBody_persists env P sc _ _ _ s1 x1 h (by rw [← hsc]; exact hw)
      (by rw [← hsc]; exact hms) hvc hP hHc (by rw [← hsc]; exact hsync)
    obtain ⟨hcons, hmsz, hmv⟩ := operationBody_consumed env sc (currentOp s)
      (decide (s.next_operation_num ≥ s.num_rootfs_operations))
      (x.drop (room s (currentOp s).data_length))
    rw [h] at hcons hmsz hmv
    simp only [LoopStep.state] at hcons hmsz hmv
    obtain ⟨hH1, hcat⟩ := hHc.advance hvc hu hcons hmsz hmv
    have hb1 : s1.buffer = [] := by
      rcases n3 with ⟨m1, m2⟩ | m
      · have hz := hmf _ (currentOp_mem s hr ht hn) m1
        rw [m2, hbc, hz]
        have : room s 0 = 0 := by
          unfold room
          rw [hb]
          unfold u64
          norm_num
        rw [this, List.take_zero]
      · exact m
    have e1 : s1.manifest = s.manifest := congrArg Static.manifest hst
    have e2 : s1.num_rootfs_operations = s.num_rootfs_operations :=
      congrArg Static.num_rootfs_operations hst
    have e3 : s1.num_total_operations = s.num_total_operations :=
      congrArg Static.num_total_operations hst
    refine ⟨⟨by rw [hmv, hvc], hH1, hb1, ?_, hper.1, hper.2.1, by rw [e1]; exact hmf,
      by rw [e1, e2]; exact hr, by rw [e1, e2, e3]; exact ht, Or.inl hper.2.2.2⟩, hper, hst⟩
    rw [hb1, List.append_nil, hhc, hbc] at hcat
    rw [hcat, n1, List.append_assoc, List.take_append_drop]
    exact hx

/-- The first `k` passes of an uninterrupted run, each completing its
operation: the state they leave is between two passes, its progress is in
the store once a pass was made, and `Write` from it is what `Write` was
before the passes. -/
theorem opsRun_ready (env : Env) (P : Bytes) (hP : P.length < 2 ^ 63) (k : Nat) :
    ∀ (s : State) (x : Bytes) (sk : State) (xk : Bytes), Ready env P s x →
      opsRun env k s x = some (sk, xk) →
      Ready env P sk xk ∧ (0 < k → Persisted env sk) ∧
        sk.static = { s.static with next_operation_num := s.next_operation_num + k } ∧
        Write env s x = Write env sk xk := by
  induction k with
  | zero =>
    intro s x sk xk hR h
    simp only [opsRun, Option.some.injEq, Prod.mk.injEq] at h
    obtain ⟨h1, h2⟩ := h
    subst h1 h2
    exact ⟨hR, fun hc => absurd hc (by simp), rfl, rfl⟩
  | succ k ih =>
    intro s x sk xk hR h
    rw [opsRun] at h
    by_cases hn : s.next_operation_num < s.num_total_operations
    · simp only [hn, if_true] at h
      cases hs : operationStep env s x with
      | ret r =>
        rw [hs] at h
        simp at h
      | next s1 x1 =>
        rw [hs] at h
        simp only [] at h
        obtain ⟨hR1, hper1, hst1⟩ := operationStep_ready env P s x s1 x1 hP hR hn hs
        obtain ⟨g1, g2, g3, g4⟩ := ih s1 x1 sk xk hR1 h
        have e : s1.next_operation_num = s.next_operation_num + 1 :=
          congrArg Static.next_operation_num hst1
        refine ⟨g1, fun _ => ?_, ?_, ?_⟩
        · cases k with
          | zero =>
            simp only [opsRun, Option.some.injEq, Prod.mk.injEq] at h
            rw [← h.1]
            exact hper1
          | succ j => exact g2 (by omega)
        · rw [g3, hst1, e]
          have : s.next_operation_num + 1 + k = s.next_operation_num + (k + 1) := by omega
          rw [this]
        · rw [Write_ops_gen env s x hR.1 hn, hs]
          exact g4
    · simp only [hn, if_false] at h
      exact absurd h (by simp)

/-! ### The metadata phase does not depend on the store and the devices -/

/-- The part of `ParsePayloadMetadata` after the header branch, on another
store and other devices. -/
theorem ParseBody_reseat (env : Env) (a : State) (p : Prefs) (d1 d2 : Device) (m : Nat)
    (B : Bytes) :
    ParseBody env (a.reseat p d1 d2) m B =
      ((ParseBody env a m B).1, (ParseBody env a m B).2.1,
        (ParseBody env a m B).2.2.reseat p d1 d2) := by
  have hv : ∀ n, ValidateMetadataSignature env (a.reseat p d1 d2) B n =
      ValidateMetadataSignature env a B n := fun _ => rfl
  have h1 : (a.reseat p d1 d2).metadata_size = a.metadata_size := rfl
  have h2 : (a.reseat p d1 d2).install_plan = a.install_plan := rfl
  unfold ParseBody
  simp only []
  rw [hv, h1, h2]
  split_ifs
  · rfl
  · rfl
  · cases env.ParseFromArray (List.drop (GetManifestOffset env) B) m <;> rfl

/-- The header branch of `ParsePayloadMetadata`, on another store and other
devices. -/
theorem ParseHeader_reseat (env : Env) (a : State) (p : Prefs) (d1 d2 : Device) (B : Bytes) :
    ParseHeader env (a.reseat p d1 d2) B =
      match ParseHeader env a B with
      | Sum.inl r => Sum.inl (r.1, r.2.1, r.2.2.reseat p d1 d2)
      | Sum.inr q => Sum.inr (q.1.reseat p d1 d2, q.2) := by
  have h2 : (a.reseat p d1 d2).install_plan = a.install_plan := rfl
  unfold ParseHeader
  simp only []
  split_ifs <;> first
    | rfl
    | (rename_i hA hB; exact absurd hA hB)
    | (rename_i hA hB; exact absurd hB hA)

/-- `ParsePayloadMetadata` on another store and other devices: the same
result and error, and the same state on that store and those devices. -/
theorem ParsePayloadMetadata_reseat (env : Env) (a : State) (p : Prefs) (d1 d2 : Device)
    (B : Bytes) :
    ParsePayloadMetadata env (a.reseat p d1 d2) B =
      ((ParsePayloadMetadata env a B).1, (ParsePayloadMetadata env a B).2.1,
        (ParsePayloadMetadata env a B).2.2.reseat p d1 d2) := by
  have h1 : (a.reseat p d1 d2).metadata_size = a.metadata_size := rfl
  unfold ParsePayloadMetadata
  simp only []
  rw [h1]
  generalize (if a.metadata_size ≠ 0 then
    (a.metadata_size + u64 - GetManifestOffset env % u64) % u64 else 0) = ms0
  by_cases hz : ms0 = 0
  · simp only [hz, if_true]
    rw [ParseHeader_reseat]
    cases ParseHeader env a B with
    | inl r => rfl
    | inr q =>
      obtain ⟨s1, m⟩ := q
      simp only []
      rw [ParseBody_reseat]
  · simp only [hz, if_false]
    rw [ParseBody_reseat]

/-- A metadata pass that goes on after `metadataFinish` leaves a valid
manifest. -/
theorem metadataFinish_next_valid (env : Env) (t : State) (y : Bytes) (s : State) (b : Bytes)
    (h : metadataFinish env t y = LoopStep.next s b) : s.manifest_valid = true := by
  unfold metadataFinish at h
  simp only [] at h
  split_ifs at h
  simp only [LoopStep.next.injEq] at h
  rw [← h.1]
  show (PrimeUpdateState env (metadataPrepare t)).2.manifest_valid = true
  rw [(PrimeUpdateState_frame env (metadataPrepare t)).2.1]
  rfl

/-- The metadata loop after `metadataFinish`: it ends with what
`metadataFinish` returned. -/
theorem metadataLoop_finish (env : Env) (n : Nat) (t : State) (y : Bytes) :
    (match metadataFinish env t y with
      | LoopStep.ret r => some (LoopStep.ret r)
      | LoopStep.next s b => metadataLoop env n s b) = some (metadataFinish env t y) := by
  cases h : metadataFinish env t y with
  | ret r => rfl
  | next s b =>
    simp only []
    exact metadataLoop_valid env n s b (metadataFinish_next_valid env t y s b h)

/-- A pass of the metadata loop, as the copy step followed by the body. -/
theorem metadataLoop_pass (env : Env) (n : Nat) (a : State) (x : Bytes)
    (hv : a.manifest_valid = false) :
    metadataLoop env (n + 1) a x =
      match metadataBody env (decide (a.metadata_size = 0))
          { a with buffer := a.buffer ++ x.take (room a (metadataLimit env a)) }
          (x.drop (room a (metadataLimit env a))) with
      | LoopStep.ret r => some (LoopStep.ret r)
      | LoopStep.next s1 x1 => metadataLoop env n s1 x1 := by
  rw [metadataLoop_succ env n a x hv, metadataStep_eq, CopyDataToBuffer_room]

/-- A pass of the metadata loop in which the parser asks for more data,
after the header gave the metadata size: the loop goes on. -/
theorem metadataLoop_pass_continue (env : Env) (n : Nat) (a : State) (x : Bytes) (e : ErrorCode)
    (t : State) (R : Nat) (hR : room a (metadataLimit env a) = R)
    (hv : a.manifest_valid = false) (h0 : a.metadata_size = 0)
    (hp : ParsePayloadMetadata env
        { a with buffer := a.buffer ++ x.take R }
        (a.buffer ++ x.take R) =
      (MetadataParseResult.kMetadataParseInsufficientData, e, t))
    (ht : t.metadata_size ≠ 0) :
    metadataLoop env (n + 1) a x =
      metadataLoop env n t (x.drop R) := by
  subst hR
  rw [metadataLoop_pass env n a x hv]
  unfold metadataBody
  simp only [hp, reduceCtorEq, if_false, if_true]
  rw [if_pos ⟨decide_eq_true h0, ht⟩]

/-- A pass of the metadata loop in which the parser succeeds: the loop ends
with what `metadataFinish` returns. -/
theorem metadataLoop_pass_finish (env : Env) (n : Nat) (a : State) (x : Bytes) (e : ErrorCode)
    (t : State) (R : Nat) (hR : room a (metadataLimit env a) = R)
    (hv : a.manifest_valid = false)
    (hp : ParsePayloadMetadata env
        { a with buffer := a.buffer ++ x.take R }
        (a.buffer ++ x.take R) =
      (MetadataParseResult.kMetadataParseSuccess, e, t)) :
    metadataLoop env (n + 1) a x =
      some (metadataFinish env t (x.drop R)) := by
  subst hR
  rw [metadataLoop_pass env n a x hv]
  unfold metadataBody
  simp only [hp, reduceCtorEq, if_false]
  exact metadataLoop_finish env n t _

/-- A pass of the metadata loop in which the parser fails, or asks for
more data without the loop going on, returns. -/
theorem metadataLoop_pass_ret (env : Env) (n : Nat) (a : State) (x : Bytes)
    (R : Nat) (hR : room a (metadataLimit env a) = R) (hv : a.manifest_valid = false)
    (hp : (ParsePayloadMetadata env { a with buffer := a.buffer ++ x.take R }
        (a.buffer ++ x.take R)).1 = MetadataParseResult.kMetadataParseError ∨
      ((ParsePayloadMetadata env { a with buffer := a.buffer ++ x.take R }
        (a.buffer ++ x.take R)).1 = MetadataParseResult.kMetadataParseInsufficientData ∧
        ¬ (a.metadata_size = 0 ∧ (ParsePayloadMetadata env
          { a with buffer := a.buffer ++ x.take R }
          (a.buffer ++ x.take R)).2.2.metadata_size ≠ 0))) :
    ∃ r, metadataLoop env (n + 1) a x = some (LoopStep.ret r) := by
  subst hR
  rw [metadataLoop_pass env n a x hv]
  unfold metadataBody
  simp only []
  generalize ParsePayloadMetadata env
    { a with buffer := a.buffer ++ x.take (room a (metadataLimit env a)) }
    (a.buffer ++ x.take (room a (metadataLimit env a))) = q at hp
  obtain ⟨tag, e, t⟩ := q
  simp only [] at hp
  rcases hp with hp | ⟨hp, hc⟩
  · subst hp
    exact ⟨_, rfl⟩
  · subst hp
    simp only [reduceCtorEq, if_false, if_true]
    rw [if_neg (fun hh => hc ⟨of_decide_eq_true hh.1, hh.2⟩)]
    exact ⟨_, rfl⟩

/-- The room of the first metadata pass of a fresh applier is the header
size. -/
theorem room_fresh (env : Env) (p : Prefs) (plan : InstallPlan) (key : String)
    (d1 d2 : Device) (hMO : GetManifestOffset env < u64) :
    room (State.fresh p plan key d1 d2) (metadataLimit env (State.fresh p plan key d1 d2)) =
      GetManifestOffset env := by
  have hl : metadataLimit env (State.fresh p plan key d1 d2) = GetManifestOffset env := by
    unfold metadataLimit
    simp [State.fresh]
  rw [hl, room_eq _ _ hMO (Nat.zero_le _)]
  rfl

/-- The metadata loop of a fresh applier whose first pass parses the
manifest, on any store and devices: it ends with `metadataFinish` on the
header bytes. -/
theorem metadataLoop_fresh_one (env : Env) (prefs : Prefs) (plan : InstallPlan) (key : String)
    (fd kernel_fd : Device) (P : Bytes) (e : ErrorCode) (mf : Manifest)
    (hMO : GetManifestOffset env < u64) (hlen : GetManifestOffset env ≤ P.length)
    (hp : ParsePayloadMetadata env
        { State.fresh prefs plan key fd kernel_fd with
          buffer := P.take (GetManifestOffset env) } (P.take (GetManifestOffset env)) =
      (MetadataParseResult.kMetadataParseSuccess, e,
        { State.fresh prefs plan key fd kernel_fd with
          buffer := P.take (GetManifestOffset env), metadata_size := GetManifestOffset env,
          manifest := mf, manifest_parsed := true }))
    (p : Prefs) (d1 d2 : Device) (y : Bytes) :
    metadataLoop env 2 (State.fresh p plan key d1 d2) (P.take (GetManifestOffset env) ++ y) =
      some (metadataFinish env
        { State.fresh p plan key d1 d2 with
          buffer := P.take (GetManifestOffset env), metadata_size := GetManifestOffset env,
          manifest := mf, manifest_parsed := true } y) := by
  have hl : (P.take (GetManifestOffset env)).length = GetManifestOffset env := by
    rw [List.length_take]
    omega
  have e1 : (P.take (GetManifestOffset env) ++ y).take (GetManifestOffset env) =
      P.take (GetManifestOffset env) := by
    rw [List.take_append_of_le_length (by omega), List.take_of_length_le (by omega)]
  have e2 : (P.take (GetManifestOffset env) ++ y).drop (GetManifestOffset env) = y := by
    rw [List.drop_append_of_le_length (by omega), List.drop_of_length_le (by omega),
      List.nil_append]
  have hp2 := ParsePayloadMetadata_reseat env
    { State.fresh prefs plan key fd kernel_fd with buffer := P.take (GetManifestOffset env) }
    p d1 d2 (P.take (GetManifestOffset env))
  rw [hp] at hp2
  have key2 := metadataLoop_pass_finish env 1 (State.fresh p plan key d1 d2)
    (P.take (GetManifestOffset env) ++ y) e
    { State.fresh p plan key d1 d2 with
      buffer := P.take (GetManifestOffset env), metadata_size := GetManifestOffset env,
      manifest := mf, manifest_parsed := true }
    (GetManifestOffset env) (room_fresh env p plan key d1 d2 hMO) rfl (by
      rw [e1]
      exact hp2)
  rw [e2] at key2
  exact key2

/-- The metadata loop of a fresh applier whose first pass reads the header
and whose second pass parses the manifest, on any store and devices: it
ends with `metadataFinish` on the metadata bytes. -/
theorem metadataLoop_fresh_two (env : Env) (prefs : Prefs) (plan : InstallPlan) (key : String)
    (fd kernel_fd : Device) (P : Bytes) (e1 e2 : ErrorCode) (mf : Manifest) (M : Nat)
    (hMO : GetManifestOffset env < M) (hM : M < u64) (hlen : M ≤ P.length)
    (hpK : ParsePayloadMetadata env
        { State.fresh prefs plan key fd kernel_fd with
          buffer := P.take (GetManifestOffset env) } (P.take (GetManifestOffset env)) =
      (MetadataParseResult.kMetadataParseInsufficientData, e1,
        { State.fresh prefs plan key fd kernel_fd with
          buffer := P.take (GetManifestOffset env), metadata_size := M }))
    (hpS : ParsePayloadMetadata env
        { State.fresh prefs plan key fd kernel_fd with buffer := P.take M, metadata_size := M }
        (P.take M) =
      (MetadataParseResult.kMetadataParseSuccess, e2,
        { State.fresh prefs plan key fd kernel_fd with
          buffer := P.take M, metadata_size := M, manifest := mf, manifest_parsed := true }))
    (p : Prefs) (d1 d2 : Device) (y : Bytes) :
    metadataLoop env 2 (State.fresh p plan key d1 d2) (P.take M ++ y) =
      some (metadataFinish env
        { State.fresh p plan key d1 d2 with
          buffer := P.take M, metadata_size := M, manifest := mf, manifest_parsed := true }
        y) := by
  have hlM : (P.take M).length = M := by
    rw [List.length_take]
    omega
  have hl : (P.take (GetManifestOffset env)).length = GetManifestOffset env := by
    rw [List.length_take]
    omega
  have l1 : (P.take M ++ y).take (GetManifestOffset env) = P.take (GetManifestOffset env) := by
    rw [List.take_append_of_le_length (by omega), List.take_take,
      Nat.min_eq_left (le_of_lt hMO)]
  have l2 : (P.take M ++ y).drop (GetManifestOffset env) =
      (P.take M).drop (GetManifestOffset env) ++ y := by
    rw [List.drop_append_of_le_length (by omega)]
  have l3 : ((P.take M).drop (GetManifestOffset env) ++ y).take (M - GetManifestOffset env) =
      (P.take M).drop (GetManifestOffset env) := by
    rw [List.take_append_of_le_length (by rw [List.length_drop]; omega),
      List.take_of_length_le (by rw [List.length_drop]; omega)]
  have l4 : P.take (GetManifestOffset env) ++ (P.take M).drop (GetManifestOffset env) =
      P.take M := by
    have : P.take (GetManifestOffset env) = (P.take M).take (GetManifestOffset env) := by
      rw [List.take_take, Nat.min_eq_left (le_of_lt hMO)]
    rw [this, List.take_append_drop]
  have l5 : ((P.take M).drop (GetManifestOffset env) ++ y).drop (M - GetManifestOffset env) =
      y := by
    rw [List.drop_append_of_le_length (by rw [List.length_drop]; omega),
      List.drop_of_length_le (by rw [List.length_drop]; omega), List.nil_append]
  have hpK2 := ParsePayloadMetadata_reseat env
    { State.fresh prefs plan key fd kernel_fd with buffer := P.take (GetManifestOffset env) }
    p d1 d2 (P.take (GetManifestOffset env))
  rw [hpK] at hpK2
  have hpS2 := ParsePayloadMetadata_reseat env
    { State.fresh prefs plan key fd kernel_fd with buffer := P.take M, metadata_size := M }
    p d1 d2 (P.take M)
  rw [hpS] at hpS2
  have hM0 : M ≠ 0 := by omega
  have pass1 := metadataLoop_pass_continue env 1 (State.fresh p plan key d1 d2)
    (P.take M ++ y) e1
    { State.fresh p plan key d1 d2 with
      buffer := P.take (GetManifestOffset env), metadata_size := M }
    (GetManifestOffset env) (room_fresh env p plan key d1 d2 (by omega)) rfl rfl (by
      rw [l1]
      exact hpK2) hM0
  rw [pass1, l2]
  have hroom : room ({ State.fresh p plan key d1 d2 with
      buffer := P.take (GetManifestOffset env), metadata_size := M } : State)
      (metadataLimit env { State.fresh p plan key d1 d2 with
        buffer := P.take (GetManifestOffset env), metadata_size := M }) =
      M - GetManifestOffset env := by
    have hlim : metadataLimit env ({ State.fresh p plan key d1 d2 with
        buffer := P.take (GetManifestOffset env), metadata_size := M } : State) = M := by
      unfold metadataLimit
      simp [hM0]
    rw [hlim, room_eq _ _ hM (by show (P.take (GetManifestOffset env)).length ≤ M; omega)]
    show M - (P.take (GetManifestOffset env)).length = _
    rw [hl]
  have pass2 := metadataLoop_pass_finish env 0
    ({ State.fresh p plan key d1 d2 with
      buffer := P.take (GetManifestOffset env), metadata_size := M } : State)
    ((P.take M).drop (GetManifestOffset env) ++ y) e2
    { State.fresh p plan key d1 d2 with
      buffer := P.take M, metadata_size := M, manifest := mf, manifest_parsed := true }
    (M - GetManifestOffset env) hroom rfl (by
      rw [l3]
      show ParsePayloadMetadata env
        { State.fresh p plan key d1 d2 with
          buffer := P.take (GetManifestOffset env) ++ (P.take M).drop (GetManifestOffset env),
          metadata_size := M }
        (P.take (GetManifestOffset env) ++ (P.take M).drop (GetManifestOffset env)) = _
      rw [l4]
      exact hpS2)
  rw [l5] at pass2
  exact pass2

/-- The metadata loop of a fresh applier that ends with a valid manifest
has parsed the first `n` bytes of its input as the metadata, with a
manifest that the parser returned; on any store
and devices, the loop on these bytes and any further input ends with
`metadataFinish` on the same parsed state. -/
theorem metadataLoop_fresh (env : Env) (prefs : Prefs) (plan : InstallPlan) (key : String)
    (fd kernel_fd : Device) (P : Bytes) (s0 : State) (x0 : Bytes)
    (hMO : GetManifestOffset env < u64)
    (hfit : ∀ b n m, env.ParseFromArray b n = some m → n ≤ b.length)
    (h : metadataLoop env 2 (State.fresh prefs plan key fd kernel_fd) P =
      some (LoopStep.next s0 x0)) :
    ∃ n mf, (∃ b m, env.ParseFromArray b m = some mf) ∧
      GetManifestOffset env ≤ n ∧ n ≤ P.length ∧ n < u64 ∧
      ∀ (p : Prefs) (d1 d2 : Device) (y : Bytes),
        metadataLoop env 2 (State.fresh p plan key d1 d2) (P.take n ++ y) =
          some (metadataFinish env
            { State.fresh p plan key d1 d2 with
              buffer := P.take n, metadata_size := n, manifest := mf, manifest_parsed := true }
            y) := by
  have hR := room_fresh env prefs plan key fd kernel_fd hMO
  rcases ParsePayloadMetadata_cases env
      { State.fresh prefs plan key fd kernel_fd with buffer := P.take (GetManifestOffset env) }
      (P.take (GetManifestOffset env)) (fun h0 => absurd rfl h0) with
    ⟨h1, -⟩ | ⟨-, m, h1, h2, h3, -⟩ | h1 | ⟨mf, n, ms, hp, h1, h5, -, h7⟩
  · exfalso
    obtain ⟨r, hr⟩ := metadataLoop_pass_ret env 1 (State.fresh prefs plan key fd kernel_fd) P
      (GetManifestOffset env) hR rfl
      (Or.inr ⟨congrArg Prod.fst h1,
        fun hh => hh.2 (congrArg (fun q => q.2.2.metadata_size) h1)⟩)
    rw [hr] at h
    simp at h
  · have hlenMO : GetManifestOffset env ≤ P.length := by
      rw [List.length_take] at h2
      omega
    have hl : (P.take (GetManifestOffset env)).length = GetManifestOffset env := by
      rw [List.length_take]
      omega
    have hM1 : GetManifestOffset env < (GetManifestOffset env + m) % u64 := by omega
    have hM2 : (GetManifestOffset env + m) % u64 < u64 :=
      Nat.mod_lt _ (by unfold u64; norm_num)
    have hM0 : (GetManifestOffset env + m) % u64 ≠ 0 := by omega
    generalize hMdef : (GetManifestOffset env + m) % u64 = M at h1 hM1 hM2 hM0
    have pass1 := metadataLoop_pass_continue env 1 (State.fresh prefs plan key fd kernel_fd) P
      ErrorCode.kSuccess
      { State.fresh prefs plan key fd kernel_fd with
        buffer := P.take (GetManifestOffset env), metadata_size := M }
      (GetManifestOffset env) hR rfl rfl h1 hM0
    rw [pass1] at h
    have hroom : room ({ State.fresh prefs plan key fd kernel_fd with
        buffer := P.take (GetManifestOffset env), metadata_size := M } : State)
        (metadataLimit env { State.fresh prefs plan key fd kernel_fd with
          buffer := P.take (GetManifestOffset env), metadata_size := M }) =
        M - GetManifestOffset env := by
      have hlim : metadataLimit env ({ State.fresh prefs plan key fd kernel_fd with
          buffer := P.take (GetManifestOffset env), metadata_size := M } : State) = M := by
        unfold metadataLimit
        simp [hM0]
      rw [hlim, room_eq _ _ hM2 (by show (P.take (GetManifestOffset env)).length ≤ M; omega)]
      show M - (P.take (GetManifestOffset env)).length = _
      rw [hl]
    rcases ParsePayloadMetadata_cases env
        { State.fresh prefs plan key fd kernel_fd with
          buffer := P.take (GetManifestOffset env) ++
            (P.drop (GetManifestOffset env)).take (M - GetManifestOffset env),
          metadata_size := M }
        (P.take (GetManifestOffset env) ++
          (P.drop (GetManifestOffset env)).take (M - GetManifestOffset env))
        (fun _ => ⟨hM1, hM2⟩) with
      ⟨g1, -⟩ | ⟨g0, -⟩ | g1 | ⟨mf, n, ms, hp, g1, g5, g6, -⟩
    · exfalso
      obtain ⟨r, hr⟩ := metadataLoop_pass_ret env 0
        ({ State.fresh prefs plan key fd kernel_fd with
          buffer := P.take (GetManifestOffset env), metadata_size := M } : State)
        (P.drop (GetManifestOffset env)) (M - GetManifestOffset env) hroom rfl
        (Or.inr ⟨congrArg Prod.fst g1, fun hh => hM0 hh.1⟩)
      rw [hr] at h
      simp at h
    · exact absurd g0 hM0
    · exfalso
      obtain ⟨r, hr⟩ := metadataLoop_pass_ret env 0
        ({ State.fresh prefs plan key fd kernel_fd with
          buffer := P.take (GetManifestOffset env), metadata_size := M } : State)
        (P.drop (GetManifestOffset env)) (M - GetManifestOffset env) hroom rfl (Or.inl g1)
      rw [hr] at h
      simp at h
    · have hms : ms = M := g6 hM0
      subst hms
      have hlenM : ms ≤ P.length := by
        rw [List.length_append, List.length_take, List.length_take, List.length_drop] at g5
        omega
      have l6 : P.take (GetManifestOffset env) ++
          (P.drop (GetManifestOffset env)).take (ms - GetManifestOffset env) = P.take ms := by
        rw [← List.take_add, Nat.add_sub_cancel' (le_of_lt hM1)]
      rw [l6] at g1
      exact ⟨ms, mf, ⟨_, _, hp⟩, le_of_lt hM1, hlenM, hM2, fun p d1 d2 y =>
        metadataLoop_fresh_two env prefs plan key fd kernel_fd P _ _ mf ms hM1 hM2 hlenM h1 g1
          p d1 d2 y⟩
  · exfalso
    obtain ⟨r, hr⟩ := metadataLoop_pass_ret env 1 (State.fresh prefs plan key fd kernel_fd) P
      (GetManifestOffset env) hR rfl (Or.inl h1)
    rw [hr] at h
    simp at h
  · obtain ⟨e1, e2, e3⟩ := h7 rfl
    have hlenMO : GetManifestOffset env ≤ P.length := by
      rw [List.length_take] at e2
      omega
    have hn := hfit _ _ _ hp
    rw [List.length_drop, List.length_take] at hn
    have hn0 : n = 0 := by omega
    have hms : ms = GetManifestOffset env := by
      rw [e1, ← e3, hn0, Nat.add_zero, Nat.mod_eq_of_lt hMO]
    subst hms
    exact ⟨GetManifestOffset env, mf, ⟨_, _, hp⟩, le_refl _, hlenMO, hMO, fun p d1 d2 y =>
      metadataLoop_fresh_one env prefs plan key fd kernel_fd P _ mf hMO hlenMO h1 p d1 d2 y⟩

/-- The conversions between `uint64_t` and `int64_t` below `2 ^ 63`. -/
theorem toInt64_small (n : Nat) (h : n < 2 ^ 63) :
    toInt64 n = (n : Int) ∧ ofInt64 (toInt64 n) = n := by
  have h63 : (2 : Nat) ^ 63 = 9223372036854775808 := by norm_num
  have hu : u64 = 18446744073709551616 := by unfold u64; norm_num
  have hmod : n % u64 = n := Nat.mod_eq_of_lt (by omega)
  have e : toInt64 n = (n : Int) := by
    unfold toInt64
    rw [hmod, if_pos h]
  refine ⟨e, ?_⟩
  rw [e]
  unfold ofInt64
  have : ((n : Int) % (2 : Int) ^ 64) = (n : Int) := by
    apply Int.emod_eq_of_lt
    · omega
    · norm_num
      omega
  rw [this]
  exact Int.toNat_natCast n

/-- The header is not empty. -/
theorem GetManifestOffset_pos (env : Env) : 0 < GetManifestOffset env := by
  unfold GetManifestOffset kDeltaManifestSizeSize
  omega

/-- Two states with the same static fields, buffer, buffer offset, hash
accumulator and devices, on stores that are both writable or both not,
have the same core. -/
theorem core_ext (a b : State) (h1 : a.static = b.static) (h2 : a.buffer = b.buffer)
    (h3 : a.buffer_offset = b.buffer_offset) (h4 : a.hash_calculator = b.hash_calculator)
    (h5 : a.fd = b.fd) (h6 : a.kernel_fd = b.kernel_fd)
    (h7 : a.prefs.writable = b.prefs.writable) : a.core = b.core := by
  cases a
  cases b
  simp only [State.static, Static.mk.injEq] at h1
  simp only [] at h2 h3 h4 h5 h6 h7
  simp only [State.core, State.mk.injEq, Prefs.mk.injEq]
  simp [h1, h2, h3, h4, h5, h6, h7]

/-- `metadataFinish` on a store without resumable progress, when it goes
on: the manifest and the source partitions were accepted and the operations
loop starts from `startState`. -/
theorem metadataFinish_fresh (env : Env) (t : State) (y : Bytes) (s : State) (b : Bytes)
    (hf : freshPath t.prefs) (h : metadataFinish env t y = LoopStep.next s b) :
    ValidateManifest t = ErrorCode.kSuccess ∧
    VerifySourcePartitions
      { metadataPrepare t with block_size := (metadataPrepare t).manifest.block_size } = true ∧
    s = startState t ∧ b = y := by
  unfold metadataFinish at h
  simp only [] at h
  rw [PrimeUpdateState_fresh env _ (freshPath_metadataPrepare t hf)] at h
  simp only [] at h
  split_ifs at h with h1 h2
  simp only [LoopStep.next.injEq] at h
  refine ⟨by simpa using h1, by simpa using h2, h.1.symm, h.2.symm⟩

/-- `metadataFinish` on a store without resumable progress goes on when the
manifest and the source partitions are accepted. -/
theorem metadataFinish_fresh_next (env : Env) (t : State) (y : Bytes)
    (hf : freshPath t.prefs) (h1 : ValidateManifest t = ErrorCode.kSuccess)
    (h2 : VerifySourcePartitions
      { metadataPrepare t with block_size := (metadataPrepare t).manifest.block_size } = true) :
    metadataFinish env t y = LoopStep.next (startState t) y := by
  unfold metadataFinish
  simp only []
  rw [PrimeUpdateState_fresh env _ (freshPath_metadataPrepare t hf)]
  simp only [h1, h2, ne_eq, not_true_eq_false, if_false]
  rfl

/-- `PrimeUpdateState` on a store that holds progress: it succeeds and
restores the operation counter, the buffer offset, the hash accumulator
and the metadata size from the store. -/
theorem PrimeUpdateState_resume (env : Env) (s : State) (a o z : Int) (c h : Bytes)
    (h1 : s.prefs.kPrefsUpdateStateNextOperation = some a) (ha : 0 < a)
    (h2 : s.prefs.kPrefsUpdateStateNextDataOffset = some o) (ho : 0 ≤ o)
    (h3 : s.prefs.kPrefsUpdateStateSHA256Context = some c) (h4 : env.SetContext c = some h)
    (h5 : s.prefs.kPrefsManifestMetadataSize = some z) (hz : 0 < z) :
    (PrimeUpdateState env s).1 = true ∧
    ∃ p sc sd, (PrimeUpdateState env s).2 =
        { s with
          block_size := s.manifest.block_size, next_operation_num := ofInt64 a,
          buffer_offset := ofInt64 o, signed_hash_context := sc,
          signatures_message_data := sd, hash_calculator := h,
          metadata_size := ofInt64 z, prefs := p } ∧
      p.writable = s.prefs.writable := by
  have hna : ¬ (a = kUpdateStateOperationInvalid ∨ a ≤ 0) := by
    unfold kUpdateStateOperationInvalid
    omega
  unfold PrimeUpdateState
  simp only [h1, h2, h3, h4, h5, hna, if_false, ge_iff_le, ho, not_true_eq_false, gt_iff_lt, hz]
  refine ⟨trivial, _, _, _, rfl, ?_⟩
  unfold Prefs.setResumedUpdateFailures
  split_ifs <;> rfl

/-- `metadataFinish` on a writable store that holds progress: it goes on
with the operation counter, the buffer offset, the hash accumulator and the
metadata size restored from the store. -/
theorem metadataFinish_resume (env : Env) (t : State) (y : Bytes) (a o : Int) (c h : Bytes)
    (hVM : ValidateManifest t = ErrorCode.kSuccess) (hw : t.prefs.writable = true)
    (h1 : t.prefs.kPrefsUpdateStateNextOperation = some a) (ha : 0 < a)
    (h2 : t.prefs.kPrefsUpdateStateNextDataOffset = some o) (ho : 0 ≤ o)
    (h3 : t.prefs.kPrefsUpdateStateSHA256Context = some c) (h4 : env.SetContext c = some h)
    (hz : 0 < toInt64 t.metadata_size) :
    ∃ v, metadataFinish env t y = LoopStep.next v y ∧
      v.static = { (startState t).static with
        next_operation_num := ofInt64 a,
        metadata_size := ofInt64 (toInt64 t.metadata_size) } ∧
      v.buffer = [] ∧ v.buffer_offset = ofInt64 o ∧ v.hash_calculator = h ∧
      v.fd = t.fd ∧ v.kernel_fd = t.kernel_fd ∧ v.prefs.writable = true := by
  have hq1 : (metadataPrepare t).prefs.kPrefsUpdateStateNextOperation = some a := by
    simp [metadataPrepare, DiscardBuffer, Prefs.setManifestMetadataSize, hw, h1]
  have hq2 : (metadataPrepare t).prefs.kPrefsUpdateStateNextDataOffset = some o := by
    simp [metadataPrepare, DiscardBuffer, Prefs.setManifestMetadataSize, hw, h2]
  have hq3 : (metadataPrepare t).prefs.kPrefsUpdateStateSHA256Context = some c := by
    simp [metadataPrepare, DiscardBuffer, Prefs.setManifestMetadataSize, hw, h3]
  have hq5 : (metadataPrepare t).prefs.kPrefsManifestMetadataSize =
      some (toInt64 t.metadata_size) := by
    simp [metadataPrepare, DiscardBuffer, Prefs.setManifestMetadataSize, hw]
  have hqw : (metadataPrepare t).prefs.writable = true := by
    simp [metadataPrepare, DiscardBuffer, Prefs.setManifestMetadataSize, hw]
  obtain ⟨r1, p, sc, sd, r2, r3⟩ := PrimeUpdateState_resume env (metadataPrepare t) a o
    (toInt64 t.metadata_size) c h hq1 ha hq2 ho hq3 h4 hq5 hz
  unfold metadataFinish
  simp only [hVM, ne_eq, not_true_eq_false, if_false, r1]
  rw [r2]
  exact ⟨_, rfl, rfl, rfl, rfl, rfl, rfl, rfl, by rw [← hqw, ← r3]⟩

/-! ### Resuming after operation `k` -/

/-- C2, counterexample: with the manifest `exChunkManifest`, whose Move
declares two data bytes, an applier interrupted after the Move and resumed
finishes with buffer offset 1, and the uninterrupted run with buffer
offset 3. -/
theorem resume_not_equivalent :
    ((InterruptedAfter (exEnv exChunkManifest) exFresh (exHeader ++ [9, 8, 7]) 1).bind
      (fun sk => Write (exEnv exChunkManifest) (ResumedApplier sk)
        (ResumeFeed sk (exHeader ++ [9, 8, 7])))).map
        (fun r => (r.ok, r.state.next_operation_num, r.state.buffer_offset)) =
      some (true, 2, 1) ∧
    (Write (exEnv exChunkManifest) exFresh (exHeader ++ [9, 8, 7])).map
        (fun r => (r.ok, r.state.next_operation_num, r.state.buffer_offset)) =
      some (true, 2, 3) := by
  decide!

/-- The metadata phase of an uninterrupted run on a fresh applier with a
writable store without resumable progress, when it ends with a valid
manifest: the operations loop starts from `startState` on the parsed
metadata, between two passes, and on any store and devices the metadata
loop on the same metadata ends with `metadataFinish` on the same parsed
state. -/
theorem run_start (env : Env) (prefs : Prefs) (plan : InstallPlan) (key : String)
    (fd kernel_fd : Device) (P : Bytes) (s0 : State) (x0 : Bytes)
    (hfresh : freshPath prefs) (hw : prefs.writable = true)
    (hMO : GetManifestOffset env < u64)
    (hfit : ∀ b n m, env.ParseFromArray b n = some m → n ≤ b.length)
    (hmove : ∀ b n m, env.ParseFromArray b n = some m → MoveFree m)
    (hm : metadataLoop env 2 (State.fresh prefs plan key fd kernel_fd) P =
      some (LoopStep.next s0 x0)) :
    ∃ n mf, GetManifestOffset env ≤ n ∧ n ≤ P.length ∧
      s0 = startState { State.fresh prefs plan key fd kernel_fd with
        buffer := P.take n, metadata_size := n, manifest := mf, manifest_parsed := true } ∧
      x0 = P.drop n ∧ Ready env P s0 x0 ∧
      ValidateManifest { State.fresh prefs plan key fd kernel_fd with
        buffer := P.take n, metadata_size := n, manifest := mf, manifest_parsed := true } =
        ErrorCode.kSuccess ∧
      VerifySourcePartitions (startState { State.fresh prefs plan key fd kernel_fd with
        buffer := P.take n, metadata_size := n, manifest := mf, manifest_parsed := true }) =
        true ∧
      ∀ (p : Prefs) (d1 d2 : Device) (y : Bytes),
        metadataLoop env 2 (State.fresh p plan key d1 d2) (P.take n ++ y) =
          some (metadataFinish env
            { State.fresh p plan key d1 d2 with
              buffer := P.take n, metadata_size := n, manifest := mf, manifest_parsed := true }
            y) := by
  obtain ⟨n, mf, ⟨b, m, hpf⟩, hn1, hn2, -, hrep⟩ :=
    metadataLoop_fresh env prefs plan key fd kernel_fd P s0 x0 hMO hfit hm
  have h0 := hrep prefs fd kernel_fd (P.drop n)
  rw [List.take_append_drop, hm] at h0
  have h0' := (Option.some.inj h0).symm
  obtain ⟨v1, v2, v3, v4⟩ := metadataFinish_fresh env _ _ s0 x0 hfresh h0'
  refine ⟨n, mf, hn1, hn2, v3, v4, ?_, v1, v2, hrep⟩
  rw [v3, v4]
  refine ⟨rfl, ⟨⟨P.drop n, ?_⟩, fun hc => absurd (show true = false from hc) (by simp), fun _ => ?_⟩,
    rfl, ?_, ?_, ?_, hmove _ _ _ hpf, rfl, rfl, Or.inr rfl⟩
  · show ([] ++ P.take n) ++ [] ++ P.drop n = P
    simp
  · show ([] ++ P.take n).length = n + 0
    simp
    omega
  · show ([] ++ P.take n) ++ P.drop n = P
    simp
  · show (prefs.setManifestMetadataSize (toInt64 n)).2.writable = true
    simp [Prefs.setManifestMetadataSize, hw]
  · show (prefs.setManifestMetadataSize (toInt64 n)).2.kPrefsManifestMetadataSize =
      some (toInt64 n)
    simp [Prefs.setManifestMetadataSize, hw]

/-- `Write` after its metadata loop ended with a valid manifest is `Write`
on the state and the input that the loop left. -/
theorem Write_after_metadata (env : Env) (f : State) (x : Bytes) (s0 : State) (x0 : Bytes)
    (hm : metadataLoop env 2 f x = some (LoopStep.next s0 x0))
    (hv : s0.manifest_valid = true) : Write env f x = Write env s0 x0 := by
  unfold Write
  rw [hm, metadataLoop_valid env 2 s0 x0 hv]

/-- A store without resumable progress resumes from data offset 0. -/
theorem ResumeOffset_fresh (p : Prefs) (hf : freshPath p) : ResumeOffset p = 0 := by
  unfold ResumeOffset
  cases h : p.kPrefsUpdateStateNextOperation with
  | none => rfl
  | some a =>
    simp only []
    rw [if_pos (hf a h)]

/-- Storing the metadata size keeps the store writable or not. -/
theorem Prefs.setManifestMetadataSize_writable (p : Prefs) (v : Int) :
    (p.setManifestMetadataSize v).2.writable = p.writable := by
  unfold Prefs.setManifestMetadataSize
  split_ifs <;> rfl

/-- The resumed applier of a state interrupted before the first operation
completed: its metadata loop ends in a state with the core of the
interrupted state, with the same input left. -/
theorem resume_start_zero (env : Env) (prefs p : Prefs) (plan : InstallPlan) (key : String)
    (fd kernel_fd : Device) (P : Bytes) (n : Nat) (mf : Manifest)
    (hf : freshPath p) (hp : p.writable = prefs.writable)
    (hVM : ValidateManifest { State.fresh prefs plan key fd kernel_fd with
        buffer := P.take n, metadata_size := n, manifest := mf, manifest_parsed := true } =
      ErrorCode.kSuccess)
    (hVSP : VerifySourcePartitions (startState { State.fresh prefs plan key fd kernel_fd with
        buffer := P.take n, metadata_size := n, manifest := mf, manifest_parsed := true }) =
      true)
    (hrep : ∀ (p : Prefs) (d1 d2 : Device) (y : Bytes),
      metadataLoop env 2 (State.fresh p plan key d1 d2) (P.take n ++ y) =
        some (metadataFinish env
          { State.fresh p plan key d1 d2 with
            buffer := P.take n, metadata_size := n, manifest := mf, manifest_parsed := true }
          y)) (y : Bytes) :
    ∃ v, metadataLoop env 2 (State.fresh p plan key fd kernel_fd) (P.take n ++ y) =
        some (LoopStep.next v y) ∧ v.manifest_valid = true ∧
      (startState { State.fresh prefs plan key fd kernel_fd with
        buffer := P.take n, metadata_size := n, manifest := mf,
        manifest_parsed := true }).core = v.core := by
  refine ⟨startState { State.fresh p plan key fd kernel_fd with
    buffer := P.take n, metadata_size := n, manifest := mf, manifest_parsed := true }, ?_, rfl, ?_⟩
  · rw [hrep p fd kernel_fd y]
    exact congrArg some (metadataFinish_fresh_next env _ y hf hVM hVSP)
  · apply core_ext
    · rfl
    · rfl
    · rfl
    · rfl
    · rfl
    · rfl
    · show (prefs.setManifestMetadataSize _).2.writable =
        (p.setManifestMetadataSize _).2.writable
      rw [Prefs.setManifestMetadataSize_writable, Prefs.setManifestMetadataSize_writable, hp]

/-- The resumed applier of a state interrupted after operation `k ≥ 1`
completed: its metadata loop ends in a state with the core of the
interrupted state, with the same input left. -/
theorem resume_start_pos (env : Env) (prefs : Prefs) (plan : InstallPlan) (key : String)
    (fd kernel_fd : Device) (P : Bytes) (n : Nat) (mf : Manifest) (sk : State) (xk : Bytes)
    (k : Nat) (hctx : ∀ h, env.SetContext (env.GetContext h) = some h)
    (hP : P.length < 2 ^ 63) (hn0 : 0 < n) (hn2 : n ≤ P.length)
    (hVM : ValidateManifest { State.fresh prefs plan key fd kernel_fd with
        buffer := P.take n, metadata_size := n, manifest := mf, manifest_parsed := true } =
      ErrorCode.kSuccess)
    (hrep : ∀ (p : Prefs) (d1 d2 : Device) (y : Bytes),
      metadataLoop env 2 (State.fresh p plan key d1 d2) (P.take n ++ y) =
        some (metadataFinish env
          { State.fresh p plan key d1 d2 with
            buffer := P.take n, metadata_size := n, manifest := mf, manifest_parsed := true }
          y))
    (hR : Ready env P sk xk) (hPer : Persisted env sk)
    (hst : sk.static = { (startState { State.fresh prefs plan key fd kernel_fd with
        buffer := P.take n, metadata_size := n, manifest := mf,
        manifest_parsed := true }).static with next_operation_num := k })
    (hk0 : 0 < k) (hk : k < 2 ^ 63) :
    ∃ v, metadataLoop env 2 (State.fresh sk.prefs plan key sk.fd sk.kernel_fd)
        (P.take n ++ P.drop (n + ResumeOffset sk.prefs)) = some (LoopStep.next v xk) ∧
      v.manifest_valid = true ∧ sk.core = v.core := by
  have h63 : (2 : Nat) ^ 63 = 9223372036854775808 := by norm_num
  obtain ⟨hv, hH, hb, hx, hw, -, -, -, -, -⟩ := hR
  obtain ⟨-, -, hno, -, hsy2, hsy3⟩ := hPer
  have e_next : sk.next_operation_num = k := congrArg Static.next_operation_num hst
  have e_ms : sk.metadata_size = n := congrArg Static.metadata_size hst
  obtain ⟨⟨tl, htl⟩, -, hlen⟩ := hH
  have hlen := hlen hv
  have hbo : sk.buffer_offset < 2 ^ 63 := by
    have := congrArg List.length htl
    simp only [List.length_append] at this
    omega
  obtain ⟨t1, t2⟩ := toInt64_small sk.next_operation_num (by omega)
  obtain ⟨b1, b2⟩ := toInt64_small sk.buffer_offset hbo
  obtain ⟨m1, m2⟩ := toInt64_small n (by omega)
  have hoff : ResumeOffset sk.prefs = sk.buffer_offset := by
    unfold ResumeOffset
    rw [hno]
    simp only []
    rw [if_neg (by rw [t1]; omega), hsy2]
    exact b2
  have hxk : P.drop (n + sk.buffer_offset) = xk := by
    rw [← hx, ← e_ms, ← hlen]
    exact List.drop_left _ _
  rw [hoff, hxk, hrep sk.prefs sk.fd sk.kernel_fd xk]
  obtain ⟨v, hvf, g1, g2, g3, g4, g5, g6, g7⟩ := metadataFinish_resume env
    { State.fresh sk.prefs plan key sk.fd sk.kernel_fd with
      buffer := P.take n, metadata_size := n, manifest := mf, manifest_parsed := true }
    xk (toInt64 sk.next_operation_num) (toInt64 sk.buffer_offset)
    (env.GetContext sk.hash_calculator) sk.hash_calculator hVM hw hno (by rw [t1]; omega) hsy2
    (by rw [b1]; omega) hsy3 (hctx _) (by show 0 < toInt64 n; rw [m1]; omega)
  refine ⟨v, congrArg some hvf, congrArg Static.manifest_valid g1, ?_⟩
  apply core_ext
  · rw [hst, g1, t2, e_next]
    simp only [m2]
    rfl
  · exact hb.trans g2.symm
  · exact b2.symm.trans g3.symm
  · exact g4.symm
  · exact g5.symm
  · exact g6.symm
  · exact hw.trans g7.symm

/-- C2 (resume equivalence, amended): on a payload whose manifest gives
every Move operation data length 0, let `Write(P)` on a fresh applier, with
a writable store that holds no resumable progress, be interrupted right
after operation `k` completed and its checkpoint was written, for any `k`
for which that happens. Then the uninterrupted `Write(P)` returns, and a new
applier created on the store and the devices the interrupted one left,
fed the metadata followed by the payload from the persisted next data
offset on, returns with the same return value and error code and the same
operation counter, buffer offset, hash accumulator and device contents.
The hash context is taken to restore what was saved, the parser to accept
a manifest only when the array holds the size it is asked to parse, and
the payload length and `k` to be below `2 ^ 63`. -/
theorem resume_equivalence (env : Env) (prefs : Prefs) (plan : InstallPlan) (key : String)
    (fd kernel_fd : Device) (P : Bytes) (k : Nat) (sk : State)
    (hfresh : freshPath prefs) (hw : prefs.writable = true)
    (hMO : GetManifestOffset env < u64)
    (hfit : ∀ b n m, env.ParseFromArray b n = some m → n ≤ b.length)
    (hmove : ∀ b n m, env.ParseFromArray b n = some m → MoveFree m)
    (hctx : ∀ h, env.SetContext (env.GetContext h) = some h)
    (hP : P.length < 2 ^ 63) (hk : k < 2 ^ 63)
    (hint : InterruptedAfter env (State.fresh prefs plan key fd kernel_fd) P k = some sk) :
    ∃ r r', Write env (State.fresh prefs plan key fd kernel_fd) P = some r ∧
      Write env (ResumedApplier sk) (ResumeFeed sk P) = some r' ∧
      r'.ok = r.ok ∧ r'.error = r.error ∧
      r'.state.next_operation_num = r.state.next_operation_num ∧
      r'.state.buffer_offset = r.state.buffer_offset ∧
      r'.state.hash_calculator = r.state.hash_calculator ∧
      r'.state.fd = r.state.fd ∧ r'.state.kernel_fd = r.state.kernel_fd := by
  have hPu : P.length < u64 := by
    have : (2 : Nat) ^ 63 < u64 := by unfold u64; norm_num
    omega
  unfold InterruptedAfter at hint
  cases hm : metadataLoop env 2 (State.fresh prefs plan key fd kernel_fd) P with
  | none =>
    rw [hm] at hint
    simp at hint
  | some ls =>
    cases ls with
    | ret r0 =>
      rw [hm] at hint
      simp at hint
    | next s0 x0 =>
      rw [hm] at hint
      simp only [Option.map_eq_some'] at hint
      obtain ⟨⟨sk1, xk⟩, hops, hsk⟩ := hint
      simp only [] at hsk
      subst hsk
      obtain ⟨n, mf, hn1, hn2, hs0, hx0, hR0, hVM, hVSP, hrep⟩ :=
        run_start env prefs plan key fd kernel_fd P s0 x0 hfresh hw hMO hfit hmove hm
      obtain ⟨hRk, hPk, hstk, hWk⟩ := opsRun_ready env P hP k s0 x0 sk1 xk hR0 hops
      have hW0 := Write_after_metadata env _ P s0 x0 hm hR0.1
      obtain ⟨r, hr, -, -⟩ := Write_hash env P hPu hfit hMO
        (State.fresh prefs plan key fd kernel_fd) P
        (RunInv.of_fresh env P prefs plan key fd kernel_fd hfresh) ⟨[], by simp [State.fresh]⟩
      have hrk : Write env sk1 xk = some r := by
        rw [← hWk, ← hW0]
        exact hr
      have e_plan : sk1.install_plan = plan := by
        have := congrArg Static.install_plan hstk
        rw [hs0] at this
        exact this
      have e_key : sk1.public_key_path = key := by
        have := congrArg Static.public_key_path hstk
        rw [hs0] at this
        exact this
      have e_ms : sk1.metadata_size = n := by
        have := congrArg Static.metadata_size hstk
        rw [hs0] at this
        exact this
      have key2 : ∃ v, metadataLoop env 2 (ResumedApplier sk1) (ResumeFeed sk1 P) =
          some (LoopStep.next v xk) ∧ v.manifest_valid = true ∧ sk1.core = v.core := by
        unfold ResumedApplier ResumeFeed
        rw [e_plan, e_key, e_ms]
        rcases Nat.eq_zero_or_pos k with hk0 | hk0
        · subst hk0
          simp only [opsRun, Option.some.injEq, Prod.mk.injEq] at hops
          obtain ⟨o1, o2⟩ := hops
          subst o1 o2
          have hf0 : freshPath s0.prefs := by
            rw [hs0]
            exact freshPath_metadataPrepare _ hfresh
          have hfd : s0.fd = fd := by rw [hs0]; rfl
          have hkfd : s0.kernel_fd = kernel_fd := by rw [hs0]; rfl
          rw [ResumeOffset_fresh _ hf0, Nat.add_zero, ← hx0, hfd, hkfd]
          obtain ⟨v, g1, g2, g3⟩ := resume_start_zero env prefs s0.prefs plan key fd kernel_fd
            P n mf hf0 (hRk.2.2.2.2.1.trans hw.symm) hVM hVSP hrep x0
          exact ⟨v, g1, g2, by rw [← g3, ← hs0]⟩
        · have hst2 : sk1.static = { (startState { State.fresh prefs plan key fd kernel_fd with
              buffer := P.take n, metadata_size := n, manifest := mf,
              manifest_parsed := true }).static with next_operation_num := k } := by
            rw [hstk, hs0]
            show _ = { (startState _).static with next_operation_num := k }
            have : (startState { State.fresh prefs plan key fd kernel_fd with
              buffer := P.take n, metadata_size := n, manifest := mf,
              manifest_parsed := true }).next_operation_num + k = k := Nat.zero_add k
            rw [this]
          exact resume_start_pos env prefs plan key fd kernel_fd P n mf sk1 xk k hctx hP
            (by have := GetManifestOffset_pos env; omega) hn2 hVM hrep hRk (hPk hk0) hst2
            hk0 hk
      obtain ⟨v, hv1, hv2, hv3⟩ := key2
      obtain ⟨rb, q1, q2, q3, q4, q5, q6, q7, q8⟩ :=
        Write_of_core env sk1 v xk hv3 hRk.1 r hrk
      exact ⟨r, rb, hr, by rw [Write_after_metadata env _ _ v xk hv1 hv2]; exact q1,
        q2, q3, q4, q5, q6, q7, q8⟩

/-- Resume equivalence on the example payload, interrupted after the second
of the three operations of `exWFManifest`. -/
theorem resume_equivalence_witness :
    ∃ r r', Write (exFitEnv exWFManifest)
        (State.fresh Prefs.empty exPlan "key" (exDevice 64) (exDevice 64))
        (exHeader ++ [9, 8, 7]) = some r ∧
      Write (exFitEnv exWFManifest) (ResumedApplier exInterrupted)
        (ResumeFeed exInterrupted (exHeader ++ [9, 8, 7])) = some r' ∧
      r'.ok = r.ok ∧ r'.error = r.error ∧
      r'.state.next_operation_num = r.state.next_operation_num ∧
      r'.state.buffer_offset = r.state.buffer_offset ∧
      r'.state.hash_calculator = r.state.hash_calculator ∧
      r'.state.fd = r.state.fd ∧ r'.state.kernel_fd = r.state.kernel_fd :=
  resume_equivalence (exFitEnv exWFManifest) Prefs.empty exPlan "key" (exDevice 64)
    (exDevice 64) (exHeader ++ [9, 8, 7]) 2 exInterrupted
    (by intro n h; simp [Prefs.empty] at h) rfl (by decide)
    (by
      intro b n m h
      by_contra hc
      simp [exFitEnv, hc] at h)
    (by
      intro b n m hm
      have : m = exWFManifest := by
        simp only [exFitEnv] at hm
        split_ifs at hm
        simp only [Option.some.injEq] at hm
        exact hm.symm
      subst this
      intro op hop
      simp only [exWFManifest, exManifest, Manifest.empty, List.mem_append, List.mem_cons,
        List.mem_singleton, List.not_mem_nil, or_false] at hop
      rcases hop with h | h | h <;> subst h <;> decide)
    (fun _ => rfl) (by decide) (by decide)
    (by
      have h : (InterruptedAfter (exFitEnv exWFManifest) exFresh
          (exHeader ++ [9, 8, 7]) 2).isSome = true := by decide!
      unfold exInterrupted
      cases hh : InterruptedAfter (exFitEnv exWFManifest) exFresh (exHeader ++ [9, 8, 7]) 2 with
      | none =>
        rw [hh] at h
        simp at h
      | some s => exact hh)

/-! ## C11: the per-operation hash policy -/

/-- `ValidateOperationHash` on an operation that carries a hash differing
from the hash of its buffered data. -/
theorem ValidateOperationHash_mismatch (env : Env) (s : State) (op : InstallOperation)
    (h : Bytes) (hhash : op.data_sha256_hash.length ≠ 0)
    (hraw : env.raw_hash (s.buffer.take op.data_length) = some h)
    (hne : h ≠ op.data_sha256_hash) :
    ValidateOperationHash env s op = ErrorCode.kDownloadOperationHashMismatch := by
  unfold ValidateOperationHash
  simp only [hhash, if_false, hraw, hne, ne_eq, not_false_eq_true, if_true]

/-- C11 (per-operation hash policy): in a pass of the operations loop of
`Write` whose data gate is open, on an install plan that carries a metadata
signature, for an operation that carries a non-empty data hash differing
from the hash of the first `data_length` buffered bytes: with
`hash_checks_mandatory`, `Write` returns `false` with
`kDownloadOperationHashMismatch` on the state the copy step left, so the
operation is not executed and the operation counter is not advanced;
without it, the mismatch is the one code passed to `SendUmaStat` and the
operation is executed with the error cleared: when it fails `Write` returns
its error, and when it succeeds the operation is counted, the checkpoint is
written and `Write` goes on. -/
theorem Write_operation_hash_policy (env : Env) (s : State) (x : Bytes) (h : Bytes)
    (s1 : State) (r : (Bool × ErrorCode) × State)
    (hv : s.manifest_valid = true) (hn : s.next_operation_num < s.num_total_operations)
    (hc : env.ShouldCancel = none)
    (hs1 : s1 = { s with buffer := s.buffer ++ x.take (room s (currentOp s).data_length) })
    (hr : r = performOperation env s1 (currentOp s)
      (decide (s.next_operation_num ≥ s.num_rootfs_operations)) ErrorCode.kSuccess)
    (hgate : CanPerformInstallOperation s1 (currentOp s) = true)
    (hsig : s.install_plan.metadata_signature.isEmpty = false)
    (hhash : (currentOp s).data_sha256_hash.length ≠ 0)
    (hraw : env.raw_hash (s1.buffer.take (currentOp s).data_length) = some h)
    (hne : h ≠ (currentOp s).data_sha256_hash) :
    (s.install_plan.hash_checks_mandatory = true →
      Write env s x = some ⟨false, ErrorCode.kDownloadOperationHashMismatch, s1⟩) ∧
    (s.install_plan.hash_checks_mandatory = false →
      operationUma env s1 (currentOp s) = [ErrorCode.kDownloadOperationHashMismatch] ∧
      (r.1.1 = false →
        Write env s x = some ⟨false, r.1.2, { r.2 with exit_blocked := false }⟩) ∧
      (r.1.1 = true →
        Write env s x = Write env
          { (CheckpointUpdateProgress env
              { r.2 with next_operation_num := r.2.next_operation_num + 1 }).2 with
            exit_blocked := false }
          (x.drop (room s (currentOp s).data_length)))) := by
  have hval := ValidateOperationHash_mismatch env s1 (currentOp s) h hhash hraw hne
  have hplan : s1.install_plan = s.install_plan := by rw [hs1]
  have hsig1 : s1.install_plan.metadata_signature.isEmpty = false := by rw [hplan]; exact hsig
  have hstep : operationStep env s x = operationBody env s1 (currentOp s)
      (decide (s.next_operation_num ≥ s.num_rootfs_operations))
      (x.drop (room s (currentOp s).data_length)) := by
    rw [operationStep_eq_body env s x hc, hs1]
  rw [Write_ops_gen env s x hv hn, hstep]
  unfold operationBody
  simp only [hgate, not_true_eq_false, if_false, hsig1, hsig, Bool.false_eq_true,
    not_false_eq_true, if_true, hval, ne_eq, reduceCtorEq, true_and, hplan, ← hr]
  refine ⟨fun hm => ?_, fun hm => ⟨?_, fun hf => ?_, fun ht => ?_⟩⟩
  · simp only [hm, if_true]
  · unfold operationUma ValidateOperationHashUma
    simp only [hsig1, hsig, Bool.false_eq_true, not_false_eq_true, if_true, hval, hhash,
      if_false, hplan, hm, ne_eq, reduceCtorEq, List.nil_append]
  · simp only [hm, Bool.false_eq_true, if_false, hf, not_false_eq_true, if_true]
  · simp only [hm, Bool.false_eq_true, if_false, ht, not_true_eq_false]

/-- The C11 policy on an applier with mandatory hash checks that has been
fed a byte whose hash differs from the one its Replace carries. -/
theorem Write_operation_hash_policy_witness :
    Write (exEnv exHashState.manifest) exHashState [9] =
      some ⟨false, ErrorCode.kDownloadOperationHashMismatch, { exHashState with buffer := [9] }⟩ :=
  (Write_operation_hash_policy (exEnv exHashState.manifest) exHashState [9] [9]
    { exHashState with buffer := [9] }
    (performOperation (exEnv exHashState.manifest) { exHashState with buffer := [9] } (currentOp exHashState)
      (decide (exHashState.next_operation_num ≥ exHashState.num_rootfs_operations))
      ErrorCode.kSuccess)
    (by decide) (by decide) (by decide) rfl rfl (by decide) (by decide) (by decide)
    (by decide) (by decide)).1 (by decide)

/-! ## C12: header validation -/

/-- The big-endian value of eight bytes that follow a prefix of the length
of the offset. -/
theorem be64_eight (pre rest : Bytes) (b0 b1 b2 b3 b4 b5 b6 b7 : Nat) :
    be64 (pre ++ [b0, b1, b2, b3, b4, b5, b6, b7] ++ rest) pre.length =
      b0 % 256 * 256 ^ 7 + b1 % 256 * 256 ^ 6 + b2 % 256 * 256 ^ 5 + b3 % 256 * 256 ^ 4 +
      b4 % 256 * 256 ^ 3 + b5 % 256 * 256 ^ 2 + b6 % 256 * 256 + b7 % 256 := by
  unfold be64
  rw [List.append_assoc, List.drop_left]
  simp only [List.cons_append, List.nil_append, List.take_succ_cons, List.take_zero,
    List.foldl_cons, List.foldl_nil]
  ring

/-- C12 (header validation): while the metadata size is unknown,
`ParsePayloadMetadata` on a buffer shorter than the header (the magic, 8
bytes of version and 8 bytes of manifest length) returns
`kMetadataParseInsufficientData` with `kSuccess` and leaves the state as it
was, whatever the bytes are; on every buffer of at least header size it
returns `kMetadataParseError` with `kDownloadInvalidMetadataMagicString`
when the leading bytes differ from the magic, and otherwise with
`kUnsupportedMajorPayloadVersion` when the 8 bytes after the magic, read as
a big-endian unsigned integer, differ from the supported major version 1. -/
theorem ParsePayloadMetadata_header_validation (env : Env) (s : State) (p : Bytes)
    (h0 : s.metadata_size = 0) :
    GetManifestOffset env = env.kDeltaMagic.length + 8 + 8 ∧
    kSupportedMajorPayloadVersion = 1 ∧
    (p.length < env.kDeltaMagic.length + 8 + 8 →
      ParsePayloadMetadata env s p =
        (MetadataParseResult.kMetadataParseInsufficientData, ErrorCode.kSuccess, s)) ∧
    (env.kDeltaMagic.length + 8 + 8 ≤ p.length →
      (p.take env.kDeltaMagic.length ≠ env.kDeltaMagic →
        ParsePayloadMetadata env s p =
          (MetadataParseResult.kMetadataParseError,
            ErrorCode.kDownloadInvalidMetadataMagicString, s)) ∧
      (p.take env.kDeltaMagic.length = env.kDeltaMagic →
        be64 p env.kDeltaMagic.length ≠ 1 →
        ParsePayloadMetadata env s p =
          (MetadataParseResult.kMetadataParseError,
            ErrorCode.kUnsupportedMajorPayloadVersion, s))) := by
  have hMO : GetManifestOffset env = env.kDeltaMagic.length + 8 + 8 := rfl
  refine ⟨hMO, rfl, fun hlt => ?_, fun hge => ⟨fun hmagic => ?_, fun hmagic hver => ?_⟩⟩
  · rw [ParsePayloadMetadata_header env s p h0]
    unfold ParseHeader
    simp only [hMO, hlt, if_true]
  · rw [ParsePayloadMetadata_header env s p h0]
    unfold ParseHeader
    simp only [hMO, Nat.not_lt.mpr hge, if_false, hmagic, ne_eq, not_false_eq_true, if_true]
  · rw [ParsePayloadMetadata_header env s p h0]
    unfold ParseHeader
    have hv : be64 p (GetVersionOffset env) ≠ kSupportedMajorPayloadVersion := hver
    simp only [hMO, Nat.not_lt.mpr hge, if_false, hmagic, ne_eq, not_true_eq_false, hv,
      not_false_eq_true, if_true]

/-- The C12 validation on a fresh applier: a header with the right magic and
major version 2 is refused. -/
theorem ParsePayloadMetadata_header_validation_witness :
    ParsePayloadMetadata (exEnv exFresh.manifest) exFresh
        ([67, 114, 65, 85] ++ [0, 0, 0, 0, 0, 0, 0, 2] ++ [0, 0, 0, 0, 0, 0, 0, 0]) =
      (MetadataParseResult.kMetadataParseError, ErrorCode.kUnsupportedMajorPayloadVersion,
        exFresh) :=
  ((ParsePayloadMetadata_header_validation (exEnv exFresh.manifest) exFresh
    ([67, 114, 65, 85] ++ [0, 0, 0, 0, 0, 0, 0, 2] ++ [0, 0, 0, 0, 0, 0, 0, 0])
    rfl).2.2.2 (by decide)).2 (by decide) (by decide)

/-! ## C13: the metadata size -/

/-- The metadata size when the sum does not wrap: on a valid header whose
manifest length `L` keeps `header_size + L` below `2 ^ 64` and passes the
size check of the install plan, `ParsePayloadMetadata` sets `metadata_size_`
to `header_size + L` and asks for more data, without decoding the manifest,
while fewer than that many bytes are buffered. -/
theorem ParsePayloadMetadata_size_no_wrap (env : Env) (s : State) (p : Bytes)
    (h0 : s.metadata_size = 0) (hlen : GetManifestOffset env ≤ p.length)
    (hmagic : p.take env.kDeltaMagic.length = env.kDeltaMagic)
    (hver : be64 p (GetVersionOffset env) = kSupportedMajorPayloadVersion)
    (hfit : GetManifestOffset env + be64 p (GetManifestSizeOffset env) < u64)
    (hplan : ¬ (s.install_plan.hash_checks_mandatory = true ∧
      s.install_plan.metadata_size ≠
        GetManifestOffset env + be64 p (GetManifestSizeOffset env)))
    (hshort : p.length < GetManifestOffset env + be64 p (GetManifestSizeOffset env)) :
    ParsePayloadMetadata env s p =
      (MetadataParseResult.kMetadataParseInsufficientData, ErrorCode.kSuccess,
        { s with metadata_size :=
          GetManifestOffset env + be64 p (GetManifestSizeOffset env) }) := by
  rw [ParsePayloadMetadata_header env s p h0]
  have hmod : (GetManifestOffset env + be64 p (GetManifestSizeOffset env)) % u64 =
      GetManifestOffset env + be64 p (GetManifestSizeOffset env) := Nat.mod_eq_of_lt hfit
  unfold ParseHeader
  simp only [Nat.not_lt.mpr hlen, if_false, hmagic, ne_eq, not_true_eq_false, hver, hmod,
    hplan]
  unfold ParseBody
  simp only [hshort, if_true]

/-- C13 (metadata size): on the valid header that announces a manifest of
`L = 2 ^ 64 - 1` bytes, `ParsePayloadMetadata` on a fresh applier sets
`metadata_size_` to 19 (the sum `20 + L` taken modulo `2 ^ 64`), not to
`20 + L`, and with only the 20 bytes of the header buffered it does not ask
for more data: it goes on to decode the manifest and returns success. -/
theorem ParsePayloadMetadata_size_wraps :
    be64 exWrapHeader (GetManifestSizeOffset (exEnv exFresh.manifest)) = 2 ^ 64 - 1 ∧
    exWrapHeader.length = 20 ∧
    GetManifestOffset (exEnv exFresh.manifest) = 20 ∧
    (ParsePayloadMetadata (exEnv exFresh.manifest) exFresh exWrapHeader).1 =
      MetadataParseResult.kMetadataParseSuccess ∧
    (ParsePayloadMetadata (exEnv exFresh.manifest) exFresh exWrapHeader).2.1 =
      ErrorCode.kSuccess ∧
    (ParsePayloadMetadata (exEnv exFresh.manifest) exFresh exWrapHeader).2.2.metadata_size =
      19 ∧
    (ParsePayloadMetadata (exEnv exFresh.manifest) exFresh exWrapHeader).2.2.manifest_parsed =
      true := by
  refine ⟨by decide, by decide, by decide, by decide, by decide, by decide, by decide⟩

/-! ## C14: the metadata-size mismatch policy -/

/-- C14 (metadata-size mismatch policy): on a valid header, while the
metadata size is unknown, when the metadata size of the install plan differs
from the size computed from the header: with `hash_checks_mandatory`,
`ParsePayloadMetadata` returns `kMetadataParseError` with
`kDownloadInvalidMetadataSize` on every buffer that holds the header, whether
or not a manifest byte has arrived; without it, no error is returned for the
mismatch: while the buffer is shorter than the size computed from the header
more data is asked for, and once it is not, `kDownloadInvalidMetadataSize`
is the first code passed to `SendUmaStat` and the function goes on as its
part after the header branch does with the size taken from the payload. -/
theorem ParsePayloadMetadata_size_mismatch_policy (env : Env) (s s1 : State) (p : Bytes)
    (h0 : s.metadata_size = 0) (hlen : GetManifestOffset env ≤ p.length)
    (hmagic : p.take env.kDeltaMagic.length = env.kDeltaMagic)
    (hver : be64 p (GetVersionOffset env) = kSupportedMajorPayloadVersion)
    (hs1 : s1 = { s with metadata_size :=
      (GetManifestOffset env + be64 p (GetManifestSizeOffset env)) % u64 })
    (hne : s.install_plan.metadata_size ≠ s1.metadata_size) :
    (s.install_plan.hash_checks_mandatory = true →
      ParsePayloadMetadata env s p =
        (MetadataParseResult.kMetadataParseError, ErrorCode.kDownloadInvalidMetadataSize, s1) ∧
      ParsePayloadMetadataUma env s p = []) ∧
    (s.install_plan.hash_checks_mandatory = false →
      ParsePayloadMetadata env s p =
        ParseBody env s1 (be64 p (GetManifestSizeOffset env)) p ∧
      (p.length < s1.metadata_size →
        ParsePayloadMetadata env s p =
          (MetadataParseResult.kMetadataParseInsufficientData, ErrorCode.kSuccess, s1) ∧
        ParsePayloadMetadataUma env s p = []) ∧
      (s1.metadata_size ≤ p.length →
        ∃ rest, ParsePayloadMetadataUma env s p =
          ErrorCode.kDownloadInvalidMetadataSize :: rest)) := by
  have hne1 : s.install_plan.metadata_size ≠
      (GetManifestOffset env + be64 p (GetManifestSizeOffset env)) % u64 := by
    rw [hs1] at hne; exact hne
  have hplan : s1.install_plan = s.install_plan := by rw [hs1]
  have hhead : s.install_plan.hash_checks_mandatory = true →
      ParseHeader env s p = Sum.inl (MetadataParseResult.kMetadataParseError,
        ErrorCode.kDownloadInvalidMetadataSize, s1) := by
    intro hm
    unfold ParseHeader
    simp only [Nat.not_lt.mpr hlen, if_false, hmagic, ne_eq, not_true_eq_false, hver, hm,
      hne1, not_false_eq_true, and_self, if_true, hs1]
  have hhead2 : s.install_plan.hash_checks_mandatory = false →
      ParseHeader env s p = Sum.inr (s1, be64 p (GetManifestSizeOffset env)) := by
    intro hm
    unfold ParseHeader
    simp only [Nat.not_lt.mpr hlen, if_false, hmagic, ne_eq, not_true_eq_false, hver, hm,
      Bool.false_eq_true, false_and, hs1]
  have huma : ParsePayloadMetadataUma env s p =
      match ParseHeader env s p with
      | Sum.inl _ => []
      | Sum.inr (s, _) => ParseBodyUma env s p := by
    unfold ParsePayloadMetadataUma
    simp [h0]
  refine ⟨fun hm => ⟨?_, ?_⟩, fun hm => ⟨?_, fun hshort => ⟨?_, ?_⟩, fun hfull => ?_⟩⟩
  · rw [ParsePayloadMetadata_header env s p h0, hhead hm]
  · rw [huma, hhead hm]
  · rw [ParsePayloadMetadata_header env s p h0, hhead2 hm]
  · rw [ParsePayloadMetadata_header env s p h0, hhead2 hm]
    unfold ParseBody
    simp only [hshort, if_true]
  · rw [huma, hhead2 hm]
    unfold ParseBodyUma
    simp only [hshort, if_true]
  · rw [huma, hhead2 hm]
    unfold ParseBodyUma
    simp only [Nat.not_lt.mpr hfull, if_false, hplan, hne, List.cons_append, List.nil_append]
    exact ⟨_, rfl⟩

/-- The C14 policy on a fresh applier with mandatory hash checks whose
install plan carries no metadata size: the bare header is refused. -/
theorem ParsePayloadMetadata_size_mismatch_policy_witness :
    ParsePayloadMetadata (exEnv exFresh.manifest) exMandatory exHeader =
      (MetadataParseResult.kMetadataParseError, ErrorCode.kDownloadInvalidMetadataSize,
        { exMandatory with metadata_size := 20 }) ∧
    ParsePayloadMetadataUma (exEnv exFresh.manifest) exMandatory exHeader = [] :=
  (ParsePayloadMetadata_size_mismatch_policy (exEnv exFresh.manifest) exMandatory
    { exMandatory with metadata_size := 20 } exHeader rfl (by decide) (by decide) (by decide)
    rfl (by decide)).1 (by decide)

/-! ## C15: the metadata signature policy -/

/-- The failures of `ValidateMetadataSignature`: a missing signature under
mandatory hash checks, a signature that cannot be decoded, and a digest that
differs from the hash recovered from the signature. -/
theorem ValidateMetadataSignature_failures (env : Env) (s : State) (p : Bytes) (n : Nat) :
    (s.install_plan.metadata_signature.isEmpty = true →
      s.install_plan.hash_checks_mandatory = true →
      ValidateMetadataSignature env s p n = ErrorCode.kDownloadMetadataSignatureMissingError) ∧
    (s.install_plan.metadata_signature.isEmpty = false →
      env.Base64Decode s.install_plan.metadata_signature = none →
      ValidateMetadataSignature env s p n = ErrorCode.kDownloadMetadataSignatureError) ∧
    (∀ sig expected raw, s.install_plan.metadata_signature.isEmpty = false →
      env.Base64Decode s.install_plan.metadata_signature = some sig →
      env.GetRawHashFromSignature sig (path_to_public_key env s) = some expected →
      env.raw_hash (p.take n) = some raw →
      (env.PadRSA2048SHA256Hash raw).isEmpty = false →
      env.PadRSA2048SHA256Hash raw ≠ expected →
      ValidateMetadataSignature env s p n = ErrorCode.kDownloadMetadataSignatureMismatch) := by
  refine ⟨fun h1 h2 => ?_, fun h1 h2 => ?_, fun sig expected raw h1 h2 h3 h4 h5 h6 => ?_⟩
  · unfold ValidateMetadataSignature
    simp only [h1, if_true, h2]
  · unfold ValidateMetadataSignature
    simp only [h1, Bool.false_eq_true, if_false, h2]
  · unfold ValidateMetadataSignature
    simp only [h1, Bool.false_eq_true, if_false, h2, h3, h4, h5, ne_eq, h6, not_false_eq_true,
      if_true]

/-- C15 (metadata signature policy): when `ParsePayloadMetadata` has the
whole metadata buffered (the header branch, taken while the metadata size is
unknown, hands on the state `s1` and the manifest size `m`; or the size is
known already) and `ValidateMetadataSignature` reports the failure `e`: with
`hash_checks_mandatory` it returns `kMetadataParseError` with `e`, and the
manifest is not decoded (`manifest_parsed_` and the manifest stay as they
were); without it `e` is the last code passed to `SendUmaStat` and the
manifest is decoded with the error cleared: the result is success with
`kSuccess` when the decoder accepts the manifest bytes, and otherwise
`kDownloadManifestParseError`. -/
theorem ParsePayloadMetadata_signature_policy (env : Env) (s s1 : State) (p : Bytes)
    (m : Nat) (e : ErrorCode)
    (hreach : (s.metadata_size = 0 ∧ ParseHeader env s p = Sum.inr (s1, m)) ∨
      (GetManifestOffset env < s.metadata_size ∧ s.metadata_size < u64 ∧ s1 = s ∧
        m = s.metadata_size - GetManifestOffset env))
    (hfull : s1.metadata_size ≤ p.length)
    (he : ValidateMetadataSignature env s1 p s1.metadata_size = e)
    (hfail : e ≠ ErrorCode.kSuccess) :
    (s.install_plan.hash_checks_mandatory = true →
      ParsePayloadMetadata env s p = (MetadataParseResult.kMetadataParseError, e, s1) ∧
      s1.manifest_parsed = s.manifest_parsed ∧ s1.manifest = s.manifest) ∧
    (s.install_plan.hash_checks_mandatory = false →
      (∃ pre, ParsePayloadMetadataUma env s p = pre ++ [e]) ∧
      ParsePayloadMetadata env s p =
        match env.ParseFromArray (p.drop (GetManifestOffset env)) m with
        | none =>
          (MetadataParseResult.kMetadataParseError, ErrorCode.kDownloadManifestParseError, s1)
        | some mf =>
          (MetadataParseResult.kMetadataParseSuccess, ErrorCode.kSuccess,
            { s1 with manifest := mf, manifest_parsed := true })) := by
  have hbody : ParsePayloadMetadata env s p = ParseBody env s1 m p := by
    rcases hreach with ⟨h0, hh⟩ | ⟨h1, h2, h3, h4⟩
    · rw [ParsePayloadMetadata_header env s p h0, hh]
    · rw [ParsePayloadMetadata_body env s p h1 h2, h3, h4]
  have huma : ParsePayloadMetadataUma env s p = ParseBodyUma env s1 p := by
    rcases hreach with ⟨h0, hh⟩ | ⟨h1, h2, h3, h4⟩
    · unfold ParsePayloadMetadataUma
      simp [h0, hh]
    · have hne0 : s.metadata_size ≠ 0 := by omega
      have hmsz : (s.metadata_size + u64 - GetManifestOffset env % u64) % u64 =
          s.metadata_size - GetManifestOffset env := by
        unfold u64 at h2 ⊢
        norm_num at h2 ⊢
        omega
      have hpos : s.metadata_size - GetManifestOffset env ≠ 0 := by omega
      unfold ParsePayloadMetadataUma
      simp only [hne0, ne_eq, not_false_eq_true, if_true, hmsz, hpos, if_false, h3]
  have hkeep : s1.install_plan = s.install_plan ∧ s1.manifest_parsed = s.manifest_parsed ∧
      s1.manifest = s.manifest := by
    rcases hreach with ⟨_, hh⟩ | ⟨_, _, h3, _⟩
    · obtain ⟨_, hs, _⟩ := ParseHeader_inr env s s1 p m hh
      rw [hs]
      exact ⟨rfl, rfl, rfl⟩
    · rw [h3]
      exact ⟨rfl, rfl, rfl⟩
  have hmand : s1.install_plan.hash_checks_mandatory = s.install_plan.hash_checks_mandatory := by
    rw [hkeep.1]
  refine ⟨fun hm => ⟨?_, hkeep.2⟩, fun hm => ⟨?_, ?_⟩⟩
  · rw [hbody]
    unfold ParseBody
    simp only [Nat.not_lt.mpr hfull, if_false, he, ne_eq, hfail, not_false_eq_true, hmand, hm,
      and_self, if_true]
  · rw [huma]
    unfold ParseBodyUma
    simp only [Nat.not_lt.mpr hfull, if_false, he, ne_eq, hfail, not_false_eq_true, if_true,
      hmand, hm, Bool.false_eq_true]
    exact ⟨_, rfl⟩
  · rw [hbody]
    unfold ParseBody
    simp only [Nat.not_lt.mpr hfull, if_false, he, ne_eq, hfail, not_false_eq_true, hmand, hm,
      Bool.false_eq_true, and_false]

/-- The C15 policy on a fresh applier with mandatory hash checks, whose
install plan announces the 20 bytes of metadata and carries no signature:
the missing signature is fatal and the manifest is not decoded. -/
theorem ParsePayloadMetadata_signature_policy_witness :
    ParsePayloadMetadata (exEnv exFresh.manifest)
        { exMandatory with install_plan := { exMandatory.install_plan with metadata_size := 20 } }
        exHeader =
      (MetadataParseResult.kMetadataParseError,
        ErrorCode.kDownloadMetadataSignatureMissingError,
        { exMandatory with
          install_plan := { exMandatory.install_plan with metadata_size := 20 },
          metadata_size := 20 }) :=
  ((ParsePayloadMetadata_signature_policy (exEnv exFresh.manifest)
    { exMandatory with install_plan := { exMandatory.install_plan with metadata_size := 20 } }
    { exMandatory with
      install_plan := { exMandatory.install_plan with metadata_size := 20 },
      metadata_size := 20 }
    exHeader 0 ErrorCode.kDownloadMetadataSignatureMissingError
    (Or.inl ⟨rfl, rfl⟩) (by decide) (by decide) (by decide)).1 (by decide)).1

/-! ## C16: the signed byte range -/

/-- The digest is not taken over the manifest bytes alone: for the payload of
a 20-byte header and the manifest byte 7, a signature that carries the hash
of the manifest bytes `[20, 21)` is refused as a mismatch, by
`ValidateMetadataSignature` as `ParsePayloadMetadata` calls it and by
`ParsePayloadMetadata`, and a signature that carries the hash of the bytes
`[0, 21)` is accepted. -/
theorem ValidateMetadataSignature_not_manifest_only :
    (exEnv exFresh.manifest).raw_hash ((exSignedPayload.drop 20).take (21 - 20)) = some [7] ∧
    (exEnv exFresh.manifest).GetRawHashFromSignature [7]
      (path_to_public_key (exEnv exFresh.manifest) (exSigned [7])) = some [7] ∧
    ValidateMetadataSignature (exEnv exFresh.manifest) (exSigned [7]) exSignedPayload 21 =
      ErrorCode.kDownloadMetadataSignatureMismatch ∧
    (ParsePayloadMetadata (exEnv exFresh.manifest) (exSigned [7]) exSignedPayload).1 =
      MetadataParseResult.kMetadataParseError ∧
    (ParsePayloadMetadata (exEnv exFresh.manifest) (exSigned [7]) exSignedPayload).2.1 =
      ErrorCode.kDownloadMetadataSignatureMismatch ∧
    ValidateMetadataSignature (exEnv exFresh.manifest) (exSigned exSignedPayload)
      exSignedPayload 21 = ErrorCode.kSuccess ∧
    (ParsePayloadMetadata (exEnv exFresh.manifest) (exSigned exSignedPayload)
      exSignedPayload).1 = MetadataParseResult.kMetadataParseSuccess := by
  refine ⟨by decide, by decide, by decide, by decide, by decide, by decide, by decide⟩

/-- What `ValidateMetadataSignature` returns once the signature has given the
expected hash: it depends on the digest of the first `n` bytes only. -/
theorem ValidateMetadataSignature_digest (env : Env) (s : State) (p : Bytes) (n : Nat)
    (sig expected : Bytes)
    (hsig : s.install_plan.metadata_signature.isEmpty = false)
    (hdec : env.Base64Decode s.install_plan.metadata_signature = some sig)
    (hexp : env.GetRawHashFromSignature sig (path_to_public_key env s) = some expected) :
    ValidateMetadataSignature env s p n =
      match env.raw_hash (p.take n) with
      | none => ErrorCode.kDownloadMetadataSignatureVerificationError
      | some raw =>
        if (env.PadRSA2048SHA256Hash raw).isEmpty then
          ErrorCode.kDownloadMetadataSignatureVerificationError
        else if env.PadRSA2048SHA256Hash raw ≠ expected then
          ErrorCode.kDownloadMetadataSignatureMismatch
        else ErrorCode.kSuccess := by
  unfold ValidateMetadataSignature
  simp only [hsig, Bool.false_eq_true, if_false, hdec, hexp]

/-- C16 (signed byte range, amended): once the metadata signature has given
the expected hash, `ValidateMetadataSignature` on the bytes `p` and the size
`n` compares that hash with the padded digest of the first `n` bytes of `p`:
it returns `kSuccess` exactly when that digest is computed, is not empty
after padding and equals the expected hash, `kDownloadMetadataSignatureMismatch`
exactly when it differs, and its result is the same for every `q` with the
same first `n` bytes.  `ParsePayloadMetadata` calls it on the payload from
its first byte with `metadata_size_`, so the digest is over the payload bytes
`[0, metadata_size)`, the header included: with mandatory hash checks and
the whole metadata buffered, it returns the mismatch exactly when the padded
digest of those bytes differs from the expected hash. -/
theorem ValidateMetadataSignature_signed_range (env : Env) (s : State) (p : Bytes) (n : Nat)
    (sig expected : Bytes)
    (hsig : s.install_plan.metadata_signature.isEmpty = false)
    (hdec : env.Base64Decode s.install_plan.metadata_signature = some sig)
    (hexp : env.GetRawHashFromSignature sig (path_to_public_key env s) = some expected) :
    (ValidateMetadataSignature env s p n = ErrorCode.kSuccess ↔
      ∃ raw, env.raw_hash (p.take n) = some raw ∧
        (env.PadRSA2048SHA256Hash raw).isEmpty = false ∧
        env.PadRSA2048SHA256Hash raw = expected) ∧
    (ValidateMetadataSignature env s p n = ErrorCode.kDownloadMetadataSignatureMismatch ↔
      ∃ raw, env.raw_hash (p.take n) = some raw ∧
        (env.PadRSA2048SHA256Hash raw).isEmpty = false ∧
        env.PadRSA2048SHA256Hash raw ≠ expected) ∧
    (∀ q : Bytes, q.take n = p.take n →
      ValidateMetadataSignature env s q n = ValidateMetadataSignature env s p n) ∧
    (GetManifestOffset env < s.metadata_size → s.metadata_size < u64 →
      s.metadata_size ≤ p.length → s.install_plan.hash_checks_mandatory = true →
      ((ParsePayloadMetadata env s p).2.1 = ErrorCode.kDownloadMetadataSignatureMismatch ↔
        ∃ raw, env.raw_hash (p.take s.metadata_size) = some raw ∧
          (env.PadRSA2048SHA256Hash raw).isEmpty = false ∧
          env.PadRSA2048SHA256Hash raw ≠ expected)) := by
  have hmis : ∀ k : Nat,
      (ValidateMetadataSignature env s p k = ErrorCode.kDownloadMetadataSignatureMismatch ↔
        ∃ raw, env.raw_hash (p.take k) = some raw ∧
          (env.PadRSA2048SHA256Hash raw).isEmpty = false ∧
          env.PadRSA2048SHA256Hash raw ≠ expected) := by
    intro k
    rw [ValidateMetadataSignature_digest env s p k sig expected hsig hdec hexp]
    cases hr : env.raw_hash (p.take k) with
    | none => simp
    | some raw =>
      simp only [Option.some.injEq, exists_eq_left']
      by_cases h1 : (env.PadRSA2048SHA256Hash raw).isEmpty = true
      · simp [h1]
      · by_cases h2 : env.PadRSA2048SHA256Hash raw = expected
        · subst h2
          simp [h1]
        · simp [h1, h2]
  refine ⟨?_, hmis n, fun q hq => ?_, fun hMO hlt hfull hm => ?_⟩
  · rw [ValidateMetadataSignature_digest env s p n sig expected hsig hdec hexp]
    cases hr : env.raw_hash (p.take n) with
    | none => simp
    | some raw =>
      simp only [Option.some.injEq, exists_eq_left']
      by_cases h1 : (env.PadRSA2048SHA256Hash raw).isEmpty = true
      · simp [h1]
      · by_cases h2 : env.PadRSA2048SHA256Hash raw = expected
        · subst h2
          simp [h1]
        · simp [h1, h2]
  · rw [ValidateMetadataSignature_digest env s q n sig expected hsig hdec hexp,
      ValidateMetadataSignature_digest env s p n sig expected hsig hdec hexp, hq]
  · rw [← hmis s.metadata_size, ParsePayloadMetadata_body env s p hMO hlt]
    unfold ParseBody
    simp only [Nat.not_lt.mpr hfull, if_false, hm, and_true]
    by_cases hv : ValidateMetadataSignature env s p s.metadata_size = ErrorCode.kSuccess
    · simp only [hv, ne_eq, not_true_eq_false, if_false, reduceCtorEq, iff_false]
      cases env.ParseFromArray (p.drop (GetManifestOffset env))
        (s.metadata_size - GetManifestOffset env) <;> simp
    · simp only [ne_eq, hv, not_false_eq_true, if_true]

/-- The C16 range on the payload of a 20-byte header and one manifest byte,
with the signature that carries the hash of the manifest byte alone: the
mismatch is reported, because the digest of the bytes `[0, 21)` differs. -/
theorem ValidateMetadataSignature_signed_range_witness :
    ValidateMetadataSignature (exEnv exFresh.manifest) (exSigned [7]) exSignedPayload 21 =
      ErrorCode.kDownloadMetadataSignatureMismatch :=
  (ValidateMetadataSignature_signed_range (exEnv exFresh.manifest) (exSigned [7])
    exSignedPayload 21 [7] [7] (by decide) (by decide) (by decide)).2.1.mpr
    ⟨exSignedPayload, by decide, by decide, by decide⟩

/-! ## C17: manifest validation -/

/-- When `ValidateManifest` succeeds, and which error it returns. -/
theorem ValidateManifest_iff (s : State) :
    (ValidateManifest s = ErrorCode.kSuccess ↔
      (s.install_plan.is_full_update = true ∧ s.manifest.old_kernel_info = none ∧
        s.manifest.old_rootfs_info = none ∧ s.manifest.minor_version = 0) ∨
      (s.install_plan.is_full_update = false ∧ s.manifest.minor_version = 1)) ∧
    (s.install_plan.is_full_update = true →
      s.manifest.old_kernel_info.isSome = true ∨ s.manifest.old_rootfs_info.isSome = true →
      ValidateManifest s = ErrorCode.kPayloadMismatchedType) ∧
    (ValidateManifest s ≠ ErrorCode.kSuccess →
      ¬ (s.install_plan.is_full_update = true ∧
        (s.manifest.old_kernel_info.isSome = true ∨ s.manifest.old_rootfs_info.isSome = true)) →
      ValidateManifest s = ErrorCode.kUnsupportedMinorPayloadVersion) := by
  unfold ValidateManifest kFullPayloadMinorVersion kSupportedMinorPayloadVersion
  cases hf : s.install_plan.is_full_update <;>
    cases hk : s.manifest.old_kernel_info <;>
    cases hr : s.manifest.old_rootfs_info <;>
    by_cases h0 : s.manifest.minor_version = 0 <;>
    by_cases h1 : s.manifest.minor_version = 1 <;>
    simp [h0, h1]

/-- C17 (manifest validation): `ValidateManifest` returns success exactly
when the update is full, the manifest declares neither `old_kernel_info` nor
`old_rootfs_info` and its minor version is 0, or the update is not full and
the minor version is 1; it returns `kPayloadMismatchedType` when a full
update declares an old-partition info and `kUnsupportedMinorPayloadVersion`
in the other failing cases.  When the metadata loop of `Write`, entered with
the manifest not valid, gets the parsed state `t` from
`ParsePayloadMetadata`, in its first pass or, after the header gave the
metadata size, in its second, and `ValidateManifest` fails on `t`, `Write`
returns `false` with that error, on `t`, whose `manifest_valid_` is still
false. -/
theorem Write_manifest_validation (env : Env) (a : State) (x : Bytes) (e : ErrorCode)
    (t : State) (hv : a.manifest_valid = false)
    (hpass :
      ParsePayloadMetadata env
          { a with buffer := a.buffer ++ x.take (room a (metadataLimit env a)) }
          (a.buffer ++ x.take (room a (metadataLimit env a))) =
        (MetadataParseResult.kMetadataParseSuccess, e, t) ∨
      (a.metadata_size = 0 ∧ ∃ e1 t1,
        ParsePayloadMetadata env
            { a with buffer := a.buffer ++ x.take (room a (metadataLimit env a)) }
            (a.buffer ++ x.take (room a (metadataLimit env a))) =
          (MetadataParseResult.kMetadataParseInsufficientData, e1, t1) ∧
        t1.metadata_size ≠ 0 ∧
        ParsePayloadMetadata env
            { t1 with buffer := t1.buffer ++
              (x.drop (room a (metadataLimit env a))).take (room t1 (metadataLimit env t1)) }
            (t1.buffer ++
              (x.drop (room a (metadataLimit env a))).take (room t1 (metadataLimit env t1))) =
          (MetadataParseResult.kMetadataParseSuccess, e, t))) :
    (∀ s : State, ValidateManifest s = ErrorCode.kSuccess ↔
      (s.install_plan.is_full_update = true ∧ s.manifest.old_kernel_info = none ∧
        s.manifest.old_rootfs_info = none ∧ s.manifest.minor_version = 0) ∨
      (s.install_plan.is_full_update = false ∧ s.manifest.minor_version = 1)) ∧
    (∀ s : State, s.install_plan.is_full_update = true →
      s.manifest.old_kernel_info.isSome = true ∨ s.manifest.old_rootfs_info.isSome = true →
      ValidateManifest s = ErrorCode.kPayloadMismatchedType) ∧
    (∀ s : State, ValidateManifest s ≠ ErrorCode.kSuccess →
      ¬ (s.install_plan.is_full_update = true ∧
        (s.manifest.old_kernel_info.isSome = true ∨ s.manifest.old_rootfs_info.isSome = true)) →
      ValidateManifest s = ErrorCode.kUnsupportedMinorPayloadVersion) ∧
    (ValidateManifest t ≠ ErrorCode.kSuccess →
      Write env a x = some ⟨false, ValidateManifest t, t⟩ ∧ t.manifest_valid = false) := by
  refine ⟨fun s => (ValidateManifest_iff s).1, fun s => (ValidateManifest_iff s).2.1,
    fun s => (ValidateManifest_iff s).2.2, fun hfail => ?_⟩
  have hfin : ∀ y, metadataFinish env t y = LoopStep.ret ⟨false, ValidateManifest t, t⟩ := by
    intro y
    unfold metadataFinish
    simp only [ne_eq, hfail, not_false_eq_true, if_true]
  rcases hpass with hp | ⟨h0, e1, t1, hp1, ht1, hp2⟩
  · constructor
    · unfold Write
      rw [metadataLoop_pass_finish env 1 a x e t _ rfl hv hp, hfin]
    · have hfr := (ParsePayloadMetadata_frame env
        { a with buffer := a.buffer ++ x.take (room a (metadataLimit env a)) }
        (a.buffer ++ x.take (room a (metadataLimit env a)))).2.2.2.1
      rw [hp] at hfr
      exact hfr.trans hv
  · have hv1 : t1.manifest_valid = false := by
      have hfr := (ParsePayloadMetadata_frame env
        { a with buffer := a.buffer ++ x.take (room a (metadataLimit env a)) }
        (a.buffer ++ x.take (room a (metadataLimit env a)))).2.2.2.1
      rw [hp1] at hfr
      exact hfr.trans hv
    constructor
    · unfold Write
      rw [metadataLoop_pass_continue env 1 a x e1 t1 _ rfl hv h0 hp1 ht1,
        metadataLoop_pass_finish env 0 t1 _ e t _ rfl hv1 hp2, hfin]
    · have hfr := (ParsePayloadMetadata_frame env
        { t1 with buffer := t1.buffer ++
          (x.drop (room a (metadataLimit env a))).take (room t1 (metadataLimit env t1)) }
        (t1.buffer ++
          (x.drop (room a (metadataLimit env a))).take (room t1 (metadataLimit env t1)))).2.2.2.1
      rw [hp2] at hfr
      exact hfr.trans hv1

/-- The C17 validation on a fresh applier for a delta update that is fed the
header of a payload whose manifest has minor version 0: `Write` fails with
`kUnsupportedMinorPayloadVersion`. -/
theorem Write_manifest_validation_witness :
    ValidateManifest
      { exFresh with buffer := exHeader, metadata_size := 20, manifest_parsed := true } =
      ErrorCode.kUnsupportedMinorPayloadVersion ∧
    Write (exEnv exFresh.manifest) exFresh exHeader =
      some ⟨false,
        ValidateManifest
          { exFresh with buffer := exHeader, metadata_size := 20, manifest_parsed := true },
        { exFresh with buffer := exHeader, metadata_size := 20, manifest_parsed := true }⟩ :=
  ⟨by decide,
    ((Write_manifest_validation (exEnv exFresh.manifest) exFresh exHeader ErrorCode.kSuccess
      { exFresh with buffer := exHeader, metadata_size := 20, manifest_parsed := true }
      rfl (Or.inl rfl)).2.2.2 (by decide)).1⟩

/-! ## C18: signature extraction -/

/-- The operation at the declared signature offset is written to the device
like any other Replace, and its bytes become the signature blob only when
the declared signature size is its data length: on an applier whose one
operation is a Replace of four bytes at the declared signature offset 0 into
block 0, `Write` of the bytes 9, 9, 9, 9 succeeds, counts the operation,
takes the bytes as the signature blob and has changed the byte at offset 1
of the rootfs device from 1 to 9; when the manifest declares no signature
size, the blob stays empty.  Nor does the buffer offset always advance by
the data length: on the payload of `exSignatureOverfullManifest`, whose Move
declares five data bytes, the Replace of four bytes at the declared signature
offset finds five bytes buffered, takes the first four as the signature blob,
drops all five and leaves the buffer offset at 5. -/
theorem Write_signature_operation_writes :
    (currentOp (exSignatureState (some 4))).data_offset = 0 ∧
    (exSignatureState (some 4)).manifest.signatures_offset = some 0 ∧
    (exSignatureState (some 4)).fd.data 1 = 1 ∧
    (Write (exEnv exFresh.manifest) (exSignatureState (some 4)) [9, 9, 9, 9]).map
      (fun r => (r.ok, r.state.next_operation_num, r.state.signatures_message_data,
        r.state.fd.data 1)) = some (true, 1, [9, 9, 9, 9], 9) ∧
    (Write (exEnv exFresh.manifest) (exSignatureState none) [9, 9, 9, 9]).map
      (fun r => (r.ok, r.state.next_operation_num, r.state.signatures_message_data,
        r.state.fd.data 1)) = some (true, 1, [], 9) ∧
    (Write (exEnv exSignatureOverfullManifest) exFresh (exHeader ++ [9, 9, 9, 9, 7])).map
      (fun r => (r.ok, r.state.next_operation_num, r.state.signatures_message_data,
        r.state.buffer_offset, r.state.buffer)) = some (true, 2, [9, 9, 9, 9], 5, []) := by
  refine ⟨by decide, by decide, by decide, by decide, by decide, by decide!⟩

/-- Writing to sparse-hole extents only leaves the device as it is. -/
theorem writeExtents_sparse (B : Nat) (es : List Extent)
    (hs : ∀ e ∈ es, e.start_block = kSparseHole) (d : Device) (data : Bytes) :
    (writeExtents d B es data).2 = d := by
  induction es generalizing data with
  | nil => rfl
  | cons e es ih =>
    unfold writeExtents
    by_cases hd : data.isEmpty = true
    · simp only [hd, if_true]
    · simp only [hd, Bool.false_eq_true, if_false, hs e (List.mem_cons_self _ _), if_true]
      exact ih (fun e1 h1 => hs e1 (List.mem_cons_of_mem _ h1)) _

/-- `ExtractSignatureMessage` on the Replace at the declared signature
offset whose data length is the declared signature size, before any blob
was extracted. -/
theorem ExtractSignatureMessage_extracts (env : Env) (s : State) (op : InstallOperation)
    (htype : op.type = OpType.REPLACE)
    (hoff : s.manifest.signatures_offset = some op.data_offset)
    (hsize : s.manifest.signatures_size = some op.data_length)
    (hnone : s.signatures_message_data = [])
    (hbo : s.buffer_offset = op.data_offset) (hlen : op.data_length ≤ s.buffer.length) :
    ∃ p, ExtractSignatureMessage env s op =
      (true, { s with
        signatures_message_data := s.buffer.take op.data_length, prefs := p,
        signed_hash_context := env.GetContext s.hash_calculator }) := by
  unfold ExtractSignatureMessage
  simp only [htype, hoff, hsize, hnone, hbo, hlen, ne_eq, not_true_eq_false, Option.isNone_some,
    Bool.false_eq_true, Option.getD_some, or_self, if_false, Option.isSome_some, and_self,
    List.isEmpty_nil, ge_iff_le]
  exact ⟨_, rfl⟩

/-- `PerformReplaceOperation` on the Replace at the declared signature
offset, when the write to its destination extents succeeds. -/
theorem PerformReplaceOperation_extracts (env : Env) (s : State) (op : InstallOperation)
    (k : Bool) (W : Bool × Device)
    (htype : op.type = OpType.REPLACE)
    (hoff : s.manifest.signatures_offset = some op.data_offset)
    (hsize : s.manifest.signatures_size = some op.data_length)
    (hnone : s.signatures_message_data = [])
    (hbo : s.buffer_offset = op.data_offset) (hlen : op.data_length ≤ s.buffer.length)
    (hW : W = writeExtents (s.device k) s.block_size op.dst_extents
      (s.buffer.take op.data_length ++
        zeroPad s.block_size (s.buffer.take op.data_length).length))
    (hok : W.1 = true) :
    ∃ p, PerformReplaceOperation env s op k =
      (true, DiscardBuffer
        (({ s with
          signatures_message_data := s.buffer.take op.data_length, prefs := p,
          signed_hash_context := env.GetContext s.hash_calculator }).setDevice k W.2) true) := by
  obtain ⟨p, hE⟩ := ExtractSignatureMessage_extracts env s op htype hoff hsize hnone hbo hlen
  refine ⟨p, ?_⟩
  have hdev : ({ s with
      signatures_message_data := s.buffer.take op.data_length, prefs := p,
      signed_hash_context := env.GetContext s.hash_calculator } : State).device k =
      s.device k := by
    cases k <;> rfl
  unfold PerformReplaceOperation
  rw [if_neg (by simp [hbo]), if_neg (by simp [hlen])]
  simp only [hE, htype, if_true]
  rw [hdev, ← hW]
  simp only [hok, not_true_eq_false, if_false]

/-- C18 (signature extraction, amended): in a pass of the operations loop
of `Write` for a `REPLACE` operation whose data offset is the signature
offset that the manifest declares, when the manifest declares a signature
size equal to the data length of the operation, no signature blob has been
extracted yet, and the operation is applied with success (the buffer offset
is the data offset, the buffer holds at least `data_length` bytes after the
copy step and passes the gate `CanPerformInstallOperation`, the hash check
lets the operation through and the write to the destination extents
succeeds): the first `signatures_size` bytes of the buffer become the
signature blob; the signed hash context is the context of the hash
accumulator over the bytes consumed before the blob, and the buffer is fed
to the accumulator only afterwards; the operation writes the blob,
zero-padded to whole blocks, to its destination extents like any other
Replace, so the target device is left as it is only where those extents are
sparse holes; and the operation is counted: `next_operation_num_` advances
by one, the whole buffer is dropped and the buffer offset advances by the
length of the buffer, modulo `2 ^ 64`.  When the buffer held exactly the
data of the operation and `data_offset + data_length < 2 ^ 64`, the buffer
offset advances by the data length and the blob is the whole buffer. -/
theorem Write_signature_extraction (env : Env) (s s1 : State) (x : Bytes)
    (W : Bool × Device)
    (hv : s.manifest_valid = true) (hn : s.next_operation_num < s.num_total_operations)
    (hc : env.ShouldCancel = none)
    (hs1 : s1 = { s with buffer := s.buffer ++ x.take (room s (currentOp s).data_length) })
    (htype : (currentOp s).type = OpType.REPLACE)
    (hoff : s.manifest.signatures_offset = some (currentOp s).data_offset)
    (hsize : s.manifest.signatures_size = some (currentOp s).data_length)
    (hnone : s.signatures_message_data = [])
    (hbo : s.buffer_offset = (currentOp s).data_offset)
    (hgate : CanPerformInstallOperation s1 (currentOp s) = true)
    (hge : (currentOp s).data_length ≤ s1.buffer.length)
    (hchk : s.install_plan.metadata_signature.isEmpty = true ∨
      ValidateOperationHash env s1 (currentOp s) = ErrorCode.kSuccess ∨
      s.install_plan.hash_checks_mandatory = false)
    (hW : W = writeExtents
      (s.device (decide (s.next_operation_num ≥ s.num_rootfs_operations))) s.block_size
      (currentOp s).dst_extents
      (s1.buffer.take (currentOp s).data_length ++
        zeroPad s.block_size (s1.buffer.take (currentOp s).data_length).length))
    (hok : W.1 = true) :
    ∃ s2 : State,
      Write env s x = Write env s2 (x.drop (room s (currentOp s).data_length)) ∧
      s2.signatures_message_data = s1.buffer.take (s.manifest.signatures_size.getD 0) ∧
      s2.signed_hash_context = env.GetContext s.hash_calculator ∧
      s2.hash_calculator = s.hash_calculator ++ s1.buffer ∧
      s2.next_operation_num = s.next_operation_num + 1 ∧
      s2.buffer_offset = (s.buffer_offset + s1.buffer.length) % u64 ∧
      (s1.buffer.length = (currentOp s).data_length →
        (currentOp s).data_offset + (currentOp s).data_length < u64 →
        s2.buffer_offset = s.buffer_offset + (currentOp s).data_length ∧
        s2.signatures_message_data = s1.buffer) ∧
      s2.buffer = [] ∧
      s2.device (decide (s.next_operation_num ≥ s.num_rootfs_operations)) = W.2 ∧
      s2.device (!decide (s.next_operation_num ≥ s.num_rootfs_operations)) =
        s.device (!decide (s.next_operation_num ≥ s.num_rootfs_operations)) ∧
      ((∀ e ∈ (currentOp s).dst_extents, e.start_block = kSparseHole) →
        s2.device (decide (s.next_operation_num ≥ s.num_rootfs_operations)) =
          s.device (decide (s.next_operation_num ≥ s.num_rootfs_operations))) := by
  generalize hk : decide (s.next_operation_num ≥ s.num_rootfs_operations) = k at hW ⊢
  generalize hop : currentOp s = op at *
  have e_man : s1.manifest = s.manifest := by rw [hs1]
  have e_sig : s1.signatures_message_data = s.signatures_message_data := by rw [hs1]
  have e_bo : s1.buffer_offset = s.buffer_offset := by rw [hs1]
  have e_bs : s1.block_size = s.block_size := by rw [hs1]
  have e_hc : s1.hash_calculator = s.hash_calculator := by rw [hs1]
  have e_plan : s1.install_plan = s.install_plan := by rw [hs1]
  have e_next : s1.next_operation_num = s.next_operation_num := by rw [hs1]
  have e_dev : ∀ b, s1.device b = s.device b := by
    intro b
    rw [hs1]
    cases b <;> rfl
  obtain ⟨p, hP⟩ := PerformReplaceOperation_extracts env s1 op k W htype
    (by rw [e_man]; exact hoff) (by rw [e_man]; exact hsize) (by rw [e_sig]; exact hnone)
    (by rw [e_bo]; exact hbo) hge
    (by rw [e_dev, e_bs]; exact hW) hok
  have hperf : performOperation env s1 op k ErrorCode.kSuccess =
      ((true, ErrorCode.kSuccess), (PerformReplaceOperation env s1 op k).2) := by
    unfold performOperation HandleOpResult
    simp only [htype, true_or, if_true, hP]
  have hpass : ¬ ((if ¬ s1.install_plan.metadata_signature.isEmpty = true then
      ValidateOperationHash env s1 op else ErrorCode.kSuccess) ≠ ErrorCode.kSuccess ∧
      s1.install_plan.hash_checks_mandatory = true) := by
    rw [e_plan]
    rcases hchk with h | h | h
    · simp [h]
    · simp [h]
    · simp [h]
  have hb : operationBody env s1 op k (x.drop (room s op.data_length)) =
      LoopStep.next
        { (CheckpointUpdateProgress env
            { (PerformReplaceOperation env s1 op k).2 with
              next_operation_num :=
                (PerformReplaceOperation env s1 op k).2.next_operation_num + 1 }).2 with
          exit_blocked := false }
        (x.drop (room s op.data_length)) := by
    unfold operationBody
    simp only [hgate, not_true_eq_false, if_false, hperf]
    rw [if_neg hpass]
  rw [Write_ops_gen env s x hv hn, operationStep_eq_body env s x hc, hop, hk, ← hs1, hb]
  obtain ⟨q, l, hshape, -⟩ := CheckpointUpdateProgress_shape env
    { (PerformReplaceOperation env s1 op k).2 with
      next_operation_num := (PerformReplaceOperation env s1 op k).2.next_operation_num + 1 }
  refine ⟨_, rfl, ?_⟩
  rw [hshape, hP]
  have hsz : s.manifest.signatures_size.getD 0 = op.data_length := by rw [hsize]; rfl
  have hexact : s1.buffer.length = op.data_length → op.data_offset + op.data_length < u64 →
      (s1.buffer_offset + s1.buffer.length) % u64 = s.buffer_offset + op.data_length ∧
      s1.buffer.take op.data_length = s1.buffer := by
    intro hlen hfit
    constructor
    · rw [e_bo, hlen, hbo]
      exact Nat.mod_eq_of_lt hfit
    · rw [← hlen]
      exact List.take_length _
  have hsp : (∀ e ∈ op.dst_extents, e.start_block = kSparseHole) → W.2 = s.device k := by
    intro h
    rw [hW]
    exact writeExtents_sparse _ _ h _ _
  have hoffs : (s1.buffer_offset + s1.buffer.length) % u64 =
      (s.buffer_offset + s1.buffer.length) % u64 := by rw [e_bo]
  rw [hsz, ← e_hc, ← e_next]
  cases k
  · exact ⟨rfl, rfl, rfl, rfl, hoffs, hexact, rfl, rfl, e_dev true, hsp⟩
  · exact ⟨rfl, rfl, rfl, rfl, hoffs, hexact, rfl, rfl, e_dev false, hsp⟩

/-- The C18 extraction on the applier whose one operation is a Replace of
four bytes at the declared signature offset, fed the bytes 9, 9, 9, 9. -/
theorem Write_signature_extraction_witness :
    ∃ s2 : State,
      Write (exEnv exFresh.manifest) (exSignatureState (some 4)) [9, 9, 9, 9] =
        Write (exEnv exFresh.manifest) s2 [] ∧
      s2.signatures_message_data = [9, 9, 9, 9] ∧
      s2.signed_hash_context = [1] ∧
      s2.hash_calculator = [9, 9, 9, 9] ∧
      s2.next_operation_num = 1 ∧
      s2.buffer_offset = 4 :=
  let ⟨s2, h1, h2, h3, h4, h5, _, h7, _⟩ :=
    Write_signature_extraction (exEnv exFresh.manifest) (exSignatureState (some 4))
      { exSignatureState (some 4) with buffer := [9, 9, 9, 9] } [9, 9, 9, 9]
      (writeExtents (exDevice 64) 4 [⟨0, 1⟩] [9, 9, 9, 9])
      rfl (by decide) rfl rfl rfl rfl rfl rfl rfl (by decide) (by decide) (Or.inl rfl) rfl
      (by decide)
  ⟨s2, h1, h2, h3, h4, h5, (h7 rfl (by decide)).1⟩

/-! ## C19: source partition verification -/

/-- When `VerifySourcePartitions` succeeds: for each old-partition info that
the manifest declares, the hash of the install plan is not empty and equals
the declared hash. -/
theorem VerifySourcePartitions_iff (s : State) :
    VerifySourcePartitions s = true ↔
      (∀ info, s.manifest.old_kernel_info = some info →
        s.install_plan.kernel_hash ≠ [] ∧ s.install_plan.kernel_hash = info.hash) ∧
      (∀ info, s.manifest.old_rootfs_info = some info →
        s.install_plan.rootfs_hash ≠ [] ∧ s.install_plan.rootfs_hash = info.hash) := by
  have hl : ∀ a b : Bytes, (a.length = b.length ∧ a = b) ↔ a = b :=
    fun a b => ⟨fun h => h.2, fun h => ⟨by rw [h], h⟩⟩
  unfold VerifySourcePartitions
  cases hk : s.manifest.old_kernel_info <;> cases hr : s.manifest.old_rootfs_info <;>
    simp [hl]

/-- The metadata loop of `Write`, entered with the manifest not valid, when
`ParsePayloadMetadata` succeeds in its first pass or, after the header gave
the metadata size, in its second: the loop ends with `metadataFinish` on
the parsed state, which has the store of the state before and no valid
manifest. -/
theorem metadataLoop_reaches_finish (env : Env) (a : State) (x : Bytes) (e : ErrorCode)
    (t : State) (hv : a.manifest_valid = false)
    (hpass :
      ParsePayloadMetadata env
          { a with buffer := a.buffer ++ x.take (room a (metadataLimit env a)) }
          (a.buffer ++ x.take (room a (metadataLimit env a))) =
        (MetadataParseResult.kMetadataParseSuccess, e, t) ∨
      (a.metadata_size = 0 ∧ ∃ e1 t1,
        ParsePayloadMetadata env
            { a with buffer := a.buffer ++ x.take (room a (metadataLimit env a)) }
            (a.buffer ++ x.take (room a (metadataLimit env a))) =
          (MetadataParseResult.kMetadataParseInsufficientData, e1, t1) ∧
        t1.metadata_size ≠ 0 ∧
        ParsePayloadMetadata env
            { t1 with buffer := t1.buffer ++
              (x.drop (room a (metadataLimit env a))).take (room t1 (metadataLimit env t1)) }
            (t1.buffer ++
              (x.drop (room a (metadataLimit env a))).take (room t1 (metadataLimit env t1))) =
          (MetadataParseResult.kMetadataParseSuccess, e, t))) :
    (∃ y, metadataLoop env 2 a x = some (metadataFinish env t y)) ∧
    t.manifest_valid = false ∧ t.prefs = a.prefs := by
  rcases hpass with hp | ⟨h0, e1, t1, hp1, ht1, hp2⟩
  · have hfr := ParsePayloadMetadata_frame env
      { a with buffer := a.buffer ++ x.take (room a (metadataLimit env a)) }
      (a.buffer ++ x.take (room a (metadataLimit env a)))
    rw [hp] at hfr
    exact ⟨⟨_, metadataLoop_pass_finish env 1 a x e t _ rfl hv hp⟩, hfr.2.2.2.1.trans hv,
      hfr.2.2.2.2⟩
  · have hfr1 := ParsePayloadMetadata_frame env
      { a with buffer := a.buffer ++ x.take (room a (metadataLimit env a)) }
      (a.buffer ++ x.take (room a (metadataLimit env a)))
    rw [hp1] at hfr1
    have hv1 : t1.manifest_valid = false := hfr1.2.2.2.1.trans hv
    have hfr2 := ParsePayloadMetadata_frame env
      { t1 with buffer := t1.buffer ++
        (x.drop (room a (metadataLimit env a))).take (room t1 (metadataLimit env t1)) }
      (t1.buffer ++
        (x.drop (room a (metadataLimit env a))).take (room t1 (metadataLimit env t1)))
    rw [hp2] at hfr2
    refine ⟨⟨(x.drop (room a (metadataLimit env a))).drop (room t1 (metadataLimit env t1)), ?_⟩,
      hfr2.2.2.2.1.trans hv1, hfr2.2.2.2.2.trans hfr1.2.2.2.2⟩
    rw [metadataLoop_pass_continue env 1 a x e1 t1 _ rfl hv h0 hp1 ht1,
      metadataLoop_pass_finish env 0 t1 _ e t _ rfl hv1 hp2]

/-- On a store that holds a positive next-operation index, the result of
`PrimeUpdateState` does not depend on the install plan or on the
old-partition infos of the manifest. -/
theorem PrimeUpdateState_resume_no_compare (env : Env) (s : State) (n : Int)
    (h : s.prefs.kPrefsUpdateStateNextOperation = some n) (hn : 0 < n)
    (plan : InstallPlan) (ki ri : Option PartitionInfo) :
    (PrimeUpdateState env
      { s with
        install_plan := plan,
        manifest := { s.manifest with old_kernel_info := ki, old_rootfs_info := ri } }).1 =
      (PrimeUpdateState env s).1 := by
  have hna : ¬ (n = kUpdateStateOperationInvalid ∨ n ≤ 0) := by
    unfold kUpdateStateOperationInvalid
    omega
  unfold PrimeUpdateState
  simp only [h, hna, if_false]
  cases s.prefs.kPrefsUpdateStateNextDataOffset with
  | none => rfl
  | some o =>
    simp only []
    by_cases ho : o ≥ 0
    · simp only [ho, not_true_eq_false, if_false]
      cases s.prefs.kPrefsUpdateStateSHA256Context with
      | none => rfl
      | some c =>
        simp only []
        cases env.SetContext c with
        | none => rfl
        | some fed =>
          simp only []
          cases s.prefs.kPrefsManifestMetadataSize with
          | none => rfl
          | some z =>
            simp only []
            by_cases hz : z > 0
            · simp only [hz, not_true_eq_false, if_false]
            · simp only [hz, not_false_eq_true, if_true]
    · simp only [ho, not_false_eq_true, if_true]

/-- C19 (source partition verification): on a store that holds no positive
next-operation index, `PrimeUpdateState` succeeds exactly when, for each of
`old_kernel_info` and `old_rootfs_info` that the manifest declares, the
corresponding hash of the install plan is not empty and equals the declared
hash.  When the metadata loop of `Write`, on such a store, has parsed and
validated the manifest and one of these comparisons fails, `Write` returns
`false` with `kDownloadStateInitializationError`.  On a store that holds a
positive next-operation index the comparison is not made: the result of
`PrimeUpdateState` is the same for every install plan and all old-partition
infos. -/
theorem Write_source_partition_verification (env : Env) (a : State) (x : Bytes)
    (e : ErrorCode) (t : State) (hv : a.manifest_valid = false)
    (hpass :
      ParsePayloadMetadata env
          { a with buffer := a.buffer ++ x.take (room a (metadataLimit env a)) }
          (a.buffer ++ x.take (room a (metadataLimit env a))) =
        (MetadataParseResult.kMetadataParseSuccess, e, t) ∨
      (a.metadata_size = 0 ∧ ∃ e1 t1,
        ParsePayloadMetadata env
            { a with buffer := a.buffer ++ x.take (room a (metadataLimit env a)) }
            (a.buffer ++ x.take (room a (metadataLimit env a))) =
          (MetadataParseResult.kMetadataParseInsufficientData, e1, t1) ∧
        t1.metadata_size ≠ 0 ∧
        ParsePayloadMetadata env
            { t1 with buffer := t1.buffer ++
              (x.drop (room a (metadataLimit env a))).take (room t1 (metadataLimit env t1)) }
            (t1.buffer ++
              (x.drop (room a (metadataLimit env a))).take (room t1 (metadataLimit env t1))) =
          (MetadataParseResult.kMetadataParseSuccess, e, t)))
    (hfresh : freshPath a.prefs) (hvm : ValidateManifest t = ErrorCode.kSuccess) :
    (∀ s : State, freshPath s.prefs →
      ((PrimeUpdateState env s).1 = true ↔
        (∀ info, s.manifest.old_kernel_info = some info →
          s.install_plan.kernel_hash ≠ [] ∧ s.install_plan.kernel_hash = info.hash) ∧
        (∀ info, s.manifest.old_rootfs_info = some info →
          s.install_plan.rootfs_hash ≠ [] ∧ s.install_plan.rootfs_hash = info.hash))) ∧
    (¬ ((∀ info, t.manifest.old_kernel_info = some info →
          t.install_plan.kernel_hash ≠ [] ∧ t.install_plan.kernel_hash = info.hash) ∧
        (∀ info, t.manifest.old_rootfs_info = some info →
          t.install_plan.rootfs_hash ≠ [] ∧ t.install_plan.rootfs_hash = info.hash)) →
      ∃ s2, Write env a x =
        some ⟨false, ErrorCode.kDownloadStateInitializationError, s2⟩) ∧
    (∀ (s : State) (n : Int), s.prefs.kPrefsUpdateStateNextOperation = some n → 0 < n →
      ∀ (plan : InstallPlan) (ki ri : Option PartitionInfo),
        (PrimeUpdateState env
          { s with
            install_plan := plan,
            manifest := { s.manifest with old_kernel_info := ki, old_rootfs_info := ri } }).1 =
          (PrimeUpdateState env s).1) := by
  refine ⟨fun s hf => ?_, fun hbad => ?_,
    fun s n h hn plan ki ri => PrimeUpdateState_resume_no_compare env s n h hn plan ki ri⟩
  · rw [PrimeUpdateState_fresh env s hf]
    exact VerifySourcePartitions_iff { s with block_size := s.manifest.block_size }
  · obtain ⟨⟨y, hloop⟩, -, hprefs⟩ := metadataLoop_reaches_finish env a x e t hv hpass
    have hft : freshPath t.prefs := by rw [hprefs]; exact hfresh
    have hvsp : VerifySourcePartitions
        { metadataPrepare t with block_size := (metadataPrepare t).manifest.block_size } =
        false := by
      rw [← Bool.not_eq_true]
      intro h
      exact hbad
        ((VerifySourcePartitions_iff
          { metadataPrepare t with block_size := (metadataPrepare t).manifest.block_size }).mp h)
    refine ⟨(PrimeUpdateState env (metadataPrepare t)).2, ?_⟩
    unfold Write
    rw [hloop]
    unfold metadataFinish
    simp only [hvm, ne_eq, not_true_eq_false, if_false]
    rw [PrimeUpdateState_fresh env _ (freshPath_metadataPrepare t hft)]
    simp only [hvsp, Bool.false_eq_true, not_false_eq_true, if_true]

/-- The C19 verification on a fresh applier whose install plan carries no
rootfs hash, fed the header of a payload whose manifest declares an old
rootfs hash: `Write` fails with `kDownloadStateInitializationError`. -/
theorem Write_source_partition_verification_witness :
    ∃ s2, Write (exEnv exSourceManifest) exFresh exHeader =
      some ⟨false, ErrorCode.kDownloadStateInitializationError, s2⟩ :=
  (Write_source_partition_verification (exEnv exSourceManifest) exFresh exHeader
    ErrorCode.kSuccess
    { exFresh with
      buffer := exHeader, metadata_size := 20, manifest := exSourceManifest,
      manifest_parsed := true }
    rfl (Or.inl rfl) (fun _ h => Option.noConfusion h) (by decide)).2.1
    (fun h => absurd (h.2 ⟨64, [5]⟩ rfl).1 (by decide))

/-! ## C20: the order of the checkpoint writes -/

/-- The sets of a checkpoint, issued one by one on a writable store, all
succeeding, leave the store that `CheckpointUpdateProgress` leaves. -/
theorem runSets_all (env : Env) (s : State) (hw : s.prefs.writable = true) :
    runSets (fun _ => true) 5 0 s.prefs (checkpointSets env s) =
      (CheckpointUpdateProgress env s).2.prefs := by
  unfold checkpointSets CheckpointUpdateProgress ResetUpdateProgress
  by_cases hb : s.last_updated_buffer_offset ≠ s.buffer_offset
  · simp [hb, runSets, PrefSet.apply, Prefs.setNextOperation, Prefs.setSHA256Context,
      Prefs.setNextDataOffset, Prefs.setNextDataLength, hw, currentOp]
  · simp [hb, runSets, PrefSet.apply, Prefs.setNextOperation, hw]

/-- No set is issued on an empty list. -/
theorem runSets_nil (ok : Nat → Bool) (n i : Nat) (p : Prefs) : runSets ok n i p [] = p := by
  cases n <;> rfl

/-- The order of the sets when the reset is not lost: when the set of the
invalid marker succeeds (or the checkpoint is at the offset of the last one,
whose offset and hash context the store holds), then wherever the process
dies and whichever later sets fail, the store is as it was before the
checkpoint, or holds the invalid marker, or holds the next-operation index,
data offset and hash context of the checkpoint being written. -/
theorem runSets_ordered (env : Env) (s : State) (ok : Nat → Bool) (n : Nat)
    (hreset : s.last_updated_buffer_offset ≠ s.buffer_offset → ok 0 = true)
    (hsync : s.last_updated_buffer_offset = s.buffer_offset →
      s.prefs.kPrefsUpdateStateNextDataOffset = some (toInt64 s.buffer_offset) ∧
      s.prefs.kPrefsUpdateStateSHA256Context = some (env.GetContext s.hash_calculator)) :
    runSets ok n 0 s.prefs (checkpointSets env s) = s.prefs ∨
    (runSets ok n 0 s.prefs (checkpointSets env s)).kPrefsUpdateStateNextOperation =
      some kUpdateStateOperationInvalid ∨
    (runSets ok n 0 s.prefs (checkpointSets env s)).holds (checkpointOf env s) = true := by
  unfold checkpointSets
  by_cases hb : s.last_updated_buffer_offset ≠ s.buffer_offset
  · have h0 := hreset hb
    simp only [hb, ne_eq, not_false_eq_true, if_true, List.cons_append, List.nil_append]
    rcases n with _ | _ | _ | _ | _ | n
    all_goals simp only [runSets, h0, if_true, runSets_nil]
    all_goals (try split_ifs)
    all_goals simp [PrefSet.apply, Prefs.holds, checkpointOf]
  · have hs := hsync (not_not.mp hb)
    simp only [hb, if_false, List.nil_append]
    rcases n with _ | n
    all_goals simp only [runSets, runSets_nil]
    all_goals (try split_ifs)
    all_goals simp [PrefSet.apply, Prefs.holds, checkpointOf, hs.1, hs.2]

/-- C20 (checkpoint write ordering): `CheckpointUpdateProgress` on an
applier whose store holds the checkpoint before operation 3 (next operation
3, data offset 100, the hash context of `[2]`) and that has since reached
operation 4 at offset 110, when the set of the next-operation key to the
invalid marker fails, its result not being tested, and the later sets
succeed: when the process dies after two sets, and also when all five sets
were issued and the last one failed, the store is resumable and holds next
operation 3 with the hash context of the new checkpoint, which is neither
the checkpoint it held before nor the one being written.  When the first set
succeeds the store holds the invalid marker after it. -/
theorem CheckpointUpdateProgress_reset_unchecked :
    exCheckpointState.prefs.holds (3, 100, (exEnv exFresh.manifest).GetContext [2]) = true ∧
    checkpointOf (exEnv exFresh.manifest) exCheckpointState = (4, 110, [1, 2, 9]) ∧
    (checkpointSets (exEnv exFresh.manifest) exCheckpointState).map Prod.snd =
      [false, true, true, true, true] ∧
    (∀ n ∈ [2, 3, 4, 5],
      CanResumeUpdate (exLostReset n) [7] = true ∧
      (exLostReset n).kPrefsUpdateStateNextOperation = some 3 ∧
      (exLostReset n).kPrefsUpdateStateSHA256Context = some [1, 2, 9] ∧
      (exLostReset n).holds (3, 100, (exEnv exFresh.manifest).GetContext [2]) = false ∧
      (exLostReset n).holds (checkpointOf (exEnv exFresh.manifest) exCheckpointState) =
        false) ∧
    (exLostReset 5).kPrefsUpdateStateNextDataOffset = some 110 ∧
    (∀ n ∈ [1, 2, 3, 4],
      (runSets (fun _ => true) n 0 exCheckpointState.prefs
        (checkpointSets (exEnv exFresh.manifest)
          exCheckpointState)).kPrefsUpdateStateNextOperation =
        some kUpdateStateOperationInvalid) := by
  refine ⟨by decide, by decide, by decide, by decide, by decide, by decide⟩

/-! ## C21: an applier failure is fatal -/

/-- `setDevice` keeps the store. -/
theorem setDevice_prefs (s : State) (k : Bool) (d : Device) : (s.setDevice k d).prefs = s.prefs := by
  cases k <;> rfl

/-- `markNonIdempotent` leaves the next-operation key as it is or sets the
invalid marker. -/
theorem markNonIdempotent_next_key (s : State) (op : InstallOperation) :
    (markNonIdempotent s op).prefs.kPrefsUpdateStateNextOperation =
      s.prefs.kPrefsUpdateStateNextOperation ∨
    (markNonIdempotent s op).prefs.kPrefsUpdateStateNextOperation =
      some kUpdateStateOperationInvalid := by
  unfold markNonIdempotent
  simp only [ResetUpdateProgress_quick]
  unfold Prefs.setNextOperation
  cases hw : s.prefs.writable <;> split_ifs <;> simp [hw]

/-- `ExtractSignatureMessage` leaves the next-operation key as it is. -/
theorem ExtractSignatureMessage_next_key (env : Env) (s : State) (op : InstallOperation) :
    (ExtractSignatureMessage env s op).2.prefs.kPrefsUpdateStateNextOperation =
      s.prefs.kPrefsUpdateStateNextOperation := by
  unfold ExtractSignatureMessage Prefs.setSignatureBlob Prefs.setSignedSHA256Context
  cases hw : s.prefs.writable <;> split_ifs <;> simp [hw]

/-- `bsdiffApply` keeps the store. -/
theorem bsdiffApply_prefs (env : Env) (s : State) (op : InstallOperation) (k : Bool)
    (patch : Bytes) (i o : String) :
    (bsdiffApply env s op k patch i o).2.prefs = s.prefs := by
  unfold bsdiffApply
  simp only []
  repeat' split
  all_goals simp [setDevice_prefs]

/-- `PerformReplaceOperation` leaves the next-operation key as it is. -/
theorem PerformReplaceOperation_next_key (env : Env) (s : State) (op : InstallOperation)
    (k : Bool) :
    (PerformReplaceOperation env s op k).2.prefs.kPrefsUpdateStateNextOperation =
      s.prefs.kPrefsUpdateStateNextOperation := by
  have he := ExtractSignatureMessage_next_key env s op
  have hd : ∀ t : State, (DiscardBuffer t true).prefs = t.prefs := fun _ => rfl
  unfold PerformReplaceOperation
  simp only []
  repeat' split
  all_goals first
    | rfl
    | exact he
    | rw [setDevice_prefs, he]
    | rw [hd, setDevice_prefs, he]

/-- The dispatch leaves the next-operation key as it is or sets the invalid
marker. -/
theorem performOperation_next_key (env : Env) (s : State) (op : InstallOperation) (k : Bool)
    (e : ErrorCode) :
    (performOperation env s op k e).2.prefs.kPrefsUpdateStateNextOperation =
      s.prefs.kPrefsUpdateStateNextOperation ∨
    (performOperation env s op k e).2.prefs.kPrefsUpdateStateNextOperation =
      some kUpdateStateOperationInvalid := by
  unfold performOperation
  split_ifs
  · exact Or.inl (PerformReplaceOperation_next_key env s op k)
  · show (PerformMoveOperation s op k).2.prefs.kPrefsUpdateStateNextOperation = _ ∨ _
    unfold PerformMoveOperation
    simp only []
    split
    · exact Or.inl rfl
    · rw [setDevice_prefs]
      exact markNonIdempotent_next_key s op
  · show (PerformBsdiffOperation env s op k).2.prefs.kPrefsUpdateStateNextOperation = _ ∨ _
    unfold PerformBsdiffOperation
    simp only []
    repeat' split
    all_goals first
      | exact Or.inl rfl
      | (rw [bsdiffApply_prefs]
         exact markNonIdempotent_next_key (DiscardBuffer s true) op)
  · exact Or.inl rfl

/-- `HandleOpResult` returns the result of the applier. -/
theorem HandleOpResult_fst (b : Bool) (e : ErrorCode) : (HandleOpResult b e).1 = b := by
  cases b <;> rfl

/-- The result of the dispatch is `HandleOpResult` of its own return value. -/
theorem performOperation_result (env : Env) (s : State) (op : InstallOperation) (k : Bool)
    (e : ErrorCode) :
    (performOperation env s op k e).1 = HandleOpResult (performOperation env s op k e).1.1 e := by
  unfold performOperation
  split_ifs <;> simp only [HandleOpResult_fst]

/-- C21 (applier failure is fatal and atomic for the counter): in a pass of
the operations loop of `Write` that reaches the dispatch (the data gate is
open and the hash check lets the operation through), the result of the
dispatch is the result of the applier selected by the type of the operation,
and failure for a type that is none of `REPLACE`, `REPLACE_BZ`, `MOVE` and
`BSDIFF`.  On failure `Write` returns `false` with
`kDownloadOperationExecutionError`, `next_operation_num_` is as before, and no
checkpoint is written: the stored data offset and hash context and the
offset of the last checkpoint are as before, and the stored next-operation
index is as before or the invalid marker.  On success `Write` goes on with
`next_operation_num_` larger by exactly one. -/
theorem Write_applier_failure (env : Env) (s s1 : State) (x : Bytes)
    (r : (Bool × ErrorCode) × State)
    (hv : s.manifest_valid = true) (hn : s.next_operation_num < s.num_total_operations)
    (hc : env.ShouldCancel = none)
    (hs1 : s1 = { s with buffer := s.buffer ++ x.take (room s (currentOp s).data_length) })
    (hgate : CanPerformInstallOperation s1 (currentOp s) = true)
    (hchk : s.install_plan.metadata_signature.isEmpty = true ∨
      ValidateOperationHash env s1 (currentOp s) = ErrorCode.kSuccess ∨
      s.install_plan.hash_checks_mandatory = false)
    (hr : r = performOperation env s1 (currentOp s)
      (decide (s.next_operation_num ≥ s.num_rootfs_operations)) ErrorCode.kSuccess) :
    (r.1.1 =
      if (currentOp s).type = OpType.REPLACE ∨ (currentOp s).type = OpType.REPLACE_BZ then
        (PerformReplaceOperation env s1 (currentOp s)
          (decide (s.next_operation_num ≥ s.num_rootfs_operations))).1
      else if (currentOp s).type = OpType.MOVE then
        (PerformMoveOperation s1 (currentOp s)
          (decide (s.next_operation_num ≥ s.num_rootfs_operations))).1
      else if (currentOp s).type = OpType.BSDIFF then
        (PerformBsdiffOperation env s1 (currentOp s)
          (decide (s.next_operation_num ≥ s.num_rootfs_operations))).1
      else false) ∧
    (r.1.1 = false →
      ∃ s2, Write env s x = some ⟨false, ErrorCode.kDownloadOperationExecutionError, s2⟩ ∧
        s2.next_operation_num = s.next_operation_num ∧
        s2.prefs.kPrefsUpdateStateNextDataOffset = s.prefs.kPrefsUpdateStateNextDataOffset ∧
        s2.prefs.kPrefsUpdateStateSHA256Context = s.prefs.kPrefsUpdateStateSHA256Context ∧
        s2.last_updated_buffer_offset = s.last_updated_buffer_offset ∧
        (s2.prefs.kPrefsUpdateStateNextOperation = s.prefs.kPrefsUpdateStateNextOperation ∨
          s2.prefs.kPrefsUpdateStateNextOperation = some kUpdateStateOperationInvalid)) ∧
    (r.1.1 = true →
      ∃ s2, Write env s x = Write env s2 (x.drop (room s (currentOp s).data_length)) ∧
        s2.next_operation_num = s.next_operation_num + 1) := by
  generalize hk : decide (s.next_operation_num ≥ s.num_rootfs_operations) = k at hr ⊢
  generalize hop : currentOp s = op at *
  have e_plan : s1.install_plan = s.install_plan := by rw [hs1]
  have hpass : ¬ ((if ¬ s1.install_plan.metadata_signature.isEmpty = true then
      ValidateOperationHash env s1 op else ErrorCode.kSuccess) ≠ ErrorCode.kSuccess ∧
      s1.install_plan.hash_checks_mandatory = true) := by
    rw [e_plan]
    rcases hchk with h | h | h
    · simp [h]
    · simp [h]
    · simp [h]
  have hbody : operationBody env s1 op k (x.drop (room s op.data_length)) =
      if ¬ r.1.1 = true then LoopStep.ret ⟨false, r.1.2, { r.2 with exit_blocked := false }⟩
      else LoopStep.next
        { (CheckpointUpdateProgress env
            { r.2 with next_operation_num := r.2.next_operation_num + 1 }).2 with
          exit_blocked := false }
        (x.drop (room s op.data_length)) := by
    unfold operationBody
    simp only [hgate, not_true_eq_false, if_false]
    rw [if_neg hpass, ← hr]
  have hstatic := (performOperation_frame env s1 op k ErrorCode.kSuccess).1
  rw [← hr] at hstatic
  have hnum : r.2.next_operation_num = s.next_operation_num := by
    have := congrArg Static.next_operation_num hstatic
    rw [hs1] at this
    exact this
  have hW : Write env s x =
      if ¬ r.1.1 = true then some ⟨false, r.1.2, { r.2 with exit_blocked := false }⟩
      else Write env
        { (CheckpointUpdateProgress env
            { r.2 with next_operation_num := r.2.next_operation_num + 1 }).2 with
          exit_blocked := false }
        (x.drop (room s op.data_length)) := by
    rw [Write_ops_gen env s x hv hn, operationStep_eq_body env s x hc, hop, hk, ← hs1, hbody]
    split_ifs <;> rfl
  refine ⟨?_, fun hf => ?_, fun ht => ?_⟩
  · rw [hr]
    unfold performOperation
    split_ifs <;> simp only [HandleOpResult_fst]
  · have herr : r.1.2 = ErrorCode.kDownloadOperationExecutionError := by
      have h1 := performOperation_result env s1 op k ErrorCode.kSuccess
      rw [← hr] at h1
      rw [h1, hf]
      rfl
    have hkept := performOperation_kept env s1 op k ErrorCode.kSuccess
    rw [← hr] at hkept
    have hkey := performOperation_next_key env s1 op k ErrorCode.kSuccess
    rw [← hr] at hkey
    refine ⟨{ r.2 with exit_blocked := false }, ?_, hnum, ?_, ?_, ?_, ?_⟩
    · rw [hW]
      simp only [hf, Bool.false_eq_true, not_false_eq_true, if_true, herr]
    · have := congrArg (fun t => t.2.1) hkept
      rw [hs1] at this
      exact this
    · have := congrArg (fun t => t.2.2.1) hkept
      rw [hs1] at this
      exact this
    · have := congrArg (fun t => t.2.2.2.2) hkept
      rw [hs1] at this
      exact this
    · rw [hs1] at hkey
      exact hkey
  · refine ⟨{ (CheckpointUpdateProgress env
        { r.2 with next_operation_num := r.2.next_operation_num + 1 }).2 with
      exit_blocked := false }, ?_, ?_⟩
    · rw [hW]
      simp only [ht, not_true_eq_false, if_false]
    · have hc1 := (CheckpointUpdateProgress_frame env
        { r.2 with next_operation_num := r.2.next_operation_num + 1 }).1
      have := congrArg Static.next_operation_num hc1
      show (CheckpointUpdateProgress env _).2.next_operation_num = _
      rw [← hnum]
      exact this

/-- The C21 failure on an applier whose one operation has an unknown type:
`Write` fails with `kDownloadOperationExecutionError` and the operation is
not counted. -/
theorem Write_applier_failure_witness :
    ∃ s2, Write (exEnv exFresh.manifest) exUnknownState [] =
        some ⟨false, ErrorCode.kDownloadOperationExecutionError, s2⟩ ∧
      s2.next_operation_num = 0 :=
  let ⟨s2, h1, h2, _⟩ :=
    (Write_applier_failure (exEnv exFresh.manifest) exUnknownState exUnknownState []
      (performOperation (exEnv exFresh.manifest) exUnknownState (currentOp exUnknownState)
        (decide (exUnknownState.next_operation_num ≥ exUnknownState.num_rootfs_operations))
        ErrorCode.kSuccess)
      rfl (by decide) rfl rfl (by decide) (Or.inl rfl) rfl).2.1 (by decide)
  ⟨s2, h1, h2⟩

/-! ## C22: what a Replace consumes -/

/-- The buffer offset does not always advance by the data length: on an
applier with five buffered bytes, the Replace of three bytes at data offset 0
succeeds, writes the three bytes, drops all five and advances the buffer
offset by five.  `Write` reaches such a state on the payload of
`exOverfullManifest`, whose Move declares five data bytes. -/
theorem PerformReplaceOperation_overfull :
    (currentOp exOverfullState).type = OpType.REPLACE ∧
    (currentOp exOverfullState).data_length = 3 ∧
    exOverfullState.buffer_offset = 0 ∧
    (PerformReplaceOperation (exEnv exFresh.manifest) exOverfullState
      (currentOp exOverfullState) false).1 = true ∧
    (PerformReplaceOperation (exEnv exFresh.manifest) exOverfullState
      (currentOp exOverfullState) false).2.buffer_offset = 5 ∧
    (PerformReplaceOperation (exEnv exFresh.manifest) exOverfullState
      (currentOp exOverfullState) false).2.buffer = [] ∧
    exOverfullState.buffer.drop 3 = [4, 5] ∧
    (Write (exEnv exOverfullManifest) exFresh (exHeader ++ [1, 2, 3, 4, 5])).map
      (fun r => (r.ok, r.state.next_operation_num, r.state.buffer_offset, r.state.buffer)) =
      some (true, 2, 5, []) := by
  refine ⟨by decide, by decide, by decide, by decide, by decide, by decide, by decide,
    by decide!⟩

/-- C22 (Replace consumption, amended): after a successful
`PerformReplaceOperation` (the operation is a `REPLACE` or a `REPLACE_BZ`,
the buffer offset was its data offset and the buffer held at least
`data_length` bytes) the whole buffer has been removed and fed to the hash,
and the buffer offset is larger than before by the length of the buffer,
modulo `2 ^ 64`.  When the buffer held exactly the blob, which it does when
it held at most `data_length` bytes, and the sum stays below `2 ^ 64`, the
bytes removed are the blob (the first `data_length` bytes of the buffer) and
the buffer offset is larger than before by exactly `data_length`. -/
theorem PerformReplaceOperation_consumes (env : Env) (s : State) (op : InstallOperation)
    (k : Bool) (hok : (PerformReplaceOperation env s op k).1 = true) :
    (op.type = OpType.REPLACE ∨ op.type = OpType.REPLACE_BZ) ∧
    s.buffer_offset = op.data_offset ∧ op.data_length ≤ s.buffer.length ∧
    (PerformReplaceOperation env s op k).2.buffer = [] ∧
    (PerformReplaceOperation env s op k).2.hash_calculator = s.hash_calculator ++ s.buffer ∧
    (PerformReplaceOperation env s op k).2.buffer_offset =
      (s.buffer_offset + s.buffer.length) % u64 ∧
    (s.buffer.length ≤ op.data_length → s.buffer_offset + op.data_length < u64 →
      (PerformReplaceOperation env s op k).2.buffer = s.buffer.drop op.data_length ∧
      s.buffer.take op.data_length = s.buffer ∧
      (PerformReplaceOperation env s op k).2.buffer_offset =
        s.buffer_offset + op.data_length) := by
  obtain ⟨f1, -, -, -, f5, f6⟩ := ExtractSignatureMessage_frame env s op
  have hdisc : ∀ (t : State) (d : Device),
      (DiscardBuffer (t.setDevice k d) true).buffer = [] ∧
      (DiscardBuffer (t.setDevice k d) true).hash_calculator = t.hash_calculator ++ t.buffer ∧
      (DiscardBuffer (t.setDevice k d) true).buffer_offset =
        (t.buffer_offset + t.buffer.length) % u64 := by
    intro t d
    cases k <;> exact ⟨rfl, rfl, rfl⟩
  unfold PerformReplaceOperation at hok ⊢
  by_cases h1 : s.buffer_offset = op.data_offset
  swap
  · simp [h1] at hok
  by_cases h2 : s.buffer.length ≥ op.data_length
  swap
  · simp [h1, h2] at hok
  have htype : op.type = OpType.REPLACE ∨ op.type = OpType.REPLACE_BZ := by
    by_contra hne
    push_neg at hne
    simp [h1, h2, hne.1, hne.2] at hok
  rw [if_neg (by simp [h1]), if_neg (by simp [h2])] at hok ⊢
  simp only [] at hok ⊢
  generalize hout : (if op.type = OpType.REPLACE then
      some ((ExtractSignatureMessage env s op).2.buffer.take op.data_length)
    else if op.type = OpType.REPLACE_BZ then
      env.bunzip ((ExtractSignatureMessage env s op).2.buffer.take op.data_length)
    else none) = out at hok ⊢
  cases out with
  | none => simp at hok
  | some data =>
    simp only [] at hok ⊢
    split_ifs at hok ⊢ with hw
    · obtain ⟨d1, d2, d3⟩ := hdisc (ExtractSignatureMessage env s op).2
        (writeExtents ((ExtractSignatureMessage env s op).2.device k)
          (ExtractSignatureMessage env s op).2.block_size op.dst_extents
          (data ++ zeroPad (ExtractSignatureMessage env s op).2.block_size data.length)).2
      rw [f1, f6] at d2
      rw [f1, f5] at d3
      refine ⟨htype, h1, h2, d1, d2, d3, fun hle hlt => ?_⟩
      have hlen : s.buffer.length = op.data_length := le_antisymm hle h2
      refine ⟨?_, ?_, ?_⟩
      · rw [d1, ← hlen, List.drop_length]
      · rw [← hlen, List.take_length]
      · rw [d3, hlen]
        exact Nat.mod_eq_of_lt hlt

/-- The C22 consumption on an applier that has buffered exactly the four
bytes of its Replace: the buffer is empty afterwards and the buffer offset
is 4. -/
theorem PerformReplaceOperation_consumes_witness :
    (PerformReplaceOperation (exEnv exFresh.manifest)
        { exSignatureState none with buffer := [9, 9, 9, 9] }
        (currentOp (exSignatureState none)) false).2.buffer =
      ([9, 9, 9, 9] : Bytes).drop 4 ∧
    ([9, 9, 9, 9] : Bytes).take 4 = [9, 9, 9, 9] ∧
    (PerformReplaceOperation (exEnv exFresh.manifest)
        { exSignatureState none with buffer := [9, 9, 9, 9] }
        (currentOp (exSignatureState none)) false).2.buffer_offset = 0 + 4 :=
  (PerformReplaceOperation_consumes (exEnv exFresh.manifest)
    { exSignatureState none with buffer := [9, 9, 9, 9] }
    (currentOp (exSignatureState none)) false (by decide)).2.2.2.2.2.2 (by decide) (by decide)

/-! ## C23: sparse holes in Move -/

/-- Dropping the last character of a string. -/
theorem dropRight_one_append (t : String) (c : Char) :
    (t ++ String.singleton c).dropRight 1 = t := by
  obtain ⟨cs⟩ := t
  have hval : Substring.ValidFor [] ((c :: cs.reverse).reverse ++ []) []
      (String.toSubstring ⟨cs ++ [c]⟩) := by
    have := String.validFor_toSubstring ⟨cs ++ [c]⟩
    simpa using this
  have hp := hval.prevn 1
  have hb : (String.toSubstring ⟨cs ++ [c]⟩).bsize = String.utf8Len (c :: cs.reverse) := by
    rw [hval.bsize]
    simp only [List.append_nil, String.utf8Len_reverse]
  have hz : ∀ p : String.Pos, (0 : String.Pos) + p = p := by
    intro p
    apply String.Pos.ext
    show 0 + p.byteIdx = p.byteIdx
    omega
  show ((String.toSubstring ⟨cs ++ [c]⟩).dropRight 1).toString = ⟨cs⟩
  unfold Substring.dropRight
  simp only [hb, hp]
  simp only [List.drop_succ_cons, List.drop_zero, Substring.toString, String.toSubstring, hz,
    String.utf8Len_reverse]
  have := String.extract_of_valid [] cs [c]
  simp only [List.nil_append, String.utf8Len_nil, Nat.zero_add] at this
  convert this using 2
  apply String.Pos.ext
  show 0 + String.utf8Len cs = String.utf8Len cs
  omega

/-- The strings each followed by a comma are the strings joined by commas,
followed by a comma. -/
theorem trailComma_cons (a : String) (rest : List String) :
    trailComma (a :: rest) = joinComma (a :: rest) ++ "," := by
  induction rest generalizing a with
  | nil => simp [trailComma, joinComma]
  | cons b rest ih =>
    rw [trailComma, ih b, joinComma]
    simp only [String.append_assoc]

/-- An `int64_t` made from a `uint64_t` and back. -/
theorem ofInt64_toInt64 (n : Nat) : ofInt64 (toInt64 n) = n % u64 := by
  have hu : u64 = 18446744073709551616 := by unfold u64; norm_num
  have hlt : n % u64 < 18446744073709551616 := by
    have := Nat.mod_lt n (show 0 < u64 by rw [hu]; norm_num)
    omega
  unfold toInt64 ofInt64
  split_ifs with h
  · norm_num
    omega
  · norm_num at h ⊢
    omega

/-- Two `uint64_t` values give the same `int64_t` only when they are
equal. -/
theorem toInt64_inj (a b : Nat) (ha : a < u64) (hb : b < u64) (h : toInt64 a = toInt64 b) :
    a = b := by
  have h1 := ofInt64_toInt64 a
  have h2 := ofInt64_toInt64 b
  rw [h, h2, Nat.mod_eq_of_lt hb, Nat.mod_eq_of_lt ha] at h1
  exact h1.symm

/-- The loop of `ExtentsToBsdiffPositionsString`, started with `length` at
most `full_length`: it appends the items of the extents, each followed by a
comma, and adds the lengths emitted, which stay within `full_length`. -/
theorem positionsLoop_spec (B L : Nat) (hL : L < u64) :
    ∀ (es : List Extent) (ret : String) (len : Nat), len ≤ L →
      (∀ e ∈ es, e.start_block < u64) →
      positionsLoop B L es ret len =
        (ret ++ trailComma (List.zipWith (positionItem B) es (emittedLengths B L es len)),
          len + (emittedLengths B L es len).sum) ∧
      len + (emittedLengths B L es len).sum ≤ L := by
  have hu : u64 = 18446744073709551616 := by unfold u64; norm_num
  intro es
  induction es with
  | nil =>
    intro ret len hlen _
    simp [positionsLoop, emittedLengths, trailComma, hlen]
  | cons e es ih =>
    intro ret len hlen hsb
    have hsb_e := hsb e (List.mem_cons_self _ _)
    have hleft : (L % u64 + u64 - len % u64) % u64 = L - len := by
      rw [hu] at hL ⊢
      omega
    have hmin : min (L - len) ((e.num_blocks * B) % u64) ≤ L - len := Nat.min_le_left _ _
    have hnew : (len + min (L - len) ((e.num_blocks * B) % u64)) % u64 =
        len + min (L - len) ((e.num_blocks * B) % u64) := by
      apply Nat.mod_eq_of_lt
      omega
    have hstart : (if toInt64 e.start_block = toInt64 kSparseHole then (-1 : Int)
        else toInt64 (ofInt64 (toInt64 e.start_block) * B)) =
        (if e.start_block = kSparseHole then (-1 : Int) else toInt64 (e.start_block * B)) := by
      rw [ofInt64_toInt64, Nat.mod_eq_of_lt hsb_e]
      by_cases hh : e.start_block = kSparseHole
      · simp [hh]
      · have : toInt64 e.start_block ≠ toInt64 kSparseHole := by
          intro heq
          exact hh (toInt64_inj _ _ hsb_e (by unfold kSparseHole; rw [hu]; norm_num) heq)
        simp [hh, this]
    obtain ⟨ih1, ih2⟩ := ih
      (ret ++ toString (if e.start_block = kSparseHole then (-1 : Int)
          else toInt64 (e.start_block * B)) ++ ":" ++
        toString (min (L - len) ((e.num_blocks * B) % u64)) ++ ",")
      (len + min (L - len) ((e.num_blocks * B) % u64)) (by omega)
      (fun e1 h1 => hsb e1 (List.mem_cons_of_mem _ h1))
    constructor
    · rw [positionsLoop]
      simp only [hleft, hstart, hnew]
      rw [ih1]
      simp only [emittedLengths, List.zipWith_cons_cons, trailComma, positionItem,
        List.sum_cons, String.append_assoc, Nat.add_assoc]
    · simp only [emittedLengths, List.sum_cons]
      omega

/-- `ExtentsToBsdiffPositionsString` when it succeeds returns the position
list as the specification words it. -/
theorem ExtentsToBsdiffPositionsString_eq (extents : List Extent) (B L : Nat) (s : String)
    (hL : L < u64) (hsb : ∀ e ∈ extents, e.start_block < u64)
    (h : ExtentsToBsdiffPositionsString extents B L = some s) :
    s = positionsSpec extents B L ∧ (emittedLengths B L extents 0).sum = L := by
  obtain ⟨h1, -⟩ := positionsLoop_spec B L hL extents "" 0 (Nat.zero_le _) hsb
  unfold ExtentsToBsdiffPositionsString at h
  simp only [h1, Nat.zero_add] at h
  by_cases hsum : (emittedLengths B L extents 0).sum = L
  swap
  · simp [hsum] at h
  refine ⟨?_, hsum⟩
  simp only [hsum, not_true_eq_false, if_false] at h
  unfold positionsSpec
  cases extents with
  | nil =>
    have he : ("" : String).isEmpty = true := by decide
    simp [emittedLengths, trailComma, he] at h
    simp [emittedLengths, joinComma, h]
  | cons e es =>
    simp only [emittedLengths, List.zipWith_cons_cons] at h ⊢
    rw [trailComma_cons] at h
    generalize joinComma (positionItem B e (min (L - 0) ((e.num_blocks * B) % u64)) ::
      List.zipWith (positionItem B) es (emittedLengths B L es
        (0 + min (L - 0) ((e.num_blocks * B) % u64)))) = j at h ⊢
    have hcomma : ("," : String) = String.singleton ',' := by decide
    have hne : ("" ++ (j ++ ",")).isEmpty = false := by
      rw [Bool.eq_false_iff, ne_eq, String.isEmpty_iff]
      intro hc
      have := congrArg String.length hc
      rw [String.length_append, String.length_append] at this
      have h2 : ("," : String).length = 1 := by decide
      have h3 : ("" : String).length = 0 := by decide
      omega
    rw [hne] at h
    simp only [Bool.false_eq_true, not_false_eq_true, if_true, String.empty_append,
      Option.some.injEq] at h
    rw [← h, hcomma]
    exact dropRight_one_append j ','

/-- C24 (position-list format): when `ExtentsToBsdiffPositionsString`
succeeds on extents with `uint64_t` start blocks and a `uint64_t` full
length, the string it returns is the items `start:length` of the extents in
extent order, joined by commas with no trailing comma, the empty string for
no extents; `start` is -1 for a sparse-hole extent and else the byte offset
`start_block * block_size` as `StringPrintf` prints the `int64_t`, which is
its decimal numeral when it is below `2 ^ 63`; `length` is the number of
bytes of `full_length` that fall in the extent, that is what the extents
before left of `full_length`, at most the byte length of the extent.  For
the extents `{1,1},{4,2},{hole,1},{0,1}`, block size 4096 and full length
20467 the string is `4096:4096,16384:8192,-1:4096,0:4083`. -/
theorem ExtentsToBsdiffPositionsString_format (extents : List Extent) (B L : Nat)
    (s : String) (hL : L < u64) (hsb : ∀ e ∈ extents, e.start_block < u64)
    (h : ExtentsToBsdiffPositionsString extents B L = some s) :
    s = joinComma (List.zipWith (positionItem B) extents (emittedLengths B L extents 0)) ∧
    joinComma [] = "" ∧
    (∀ a : String, joinComma [a] = a) ∧
    (∀ (a b : String) (rest : List String),
      joinComma (a :: b :: rest) = a ++ "," ++ joinComma (b :: rest)) ∧
    (∀ (e : Extent) (len : Nat), e.start_block = kSparseHole →
      positionItem B e len = "-1" ++ ":" ++ toString len) ∧
    (∀ (e : Extent) (len : Nat), e.start_block ≠ kSparseHole → e.start_block * B < 2 ^ 63 →
      positionItem B e len = toString (e.start_block * B) ++ ":" ++ toString len) ∧
    (∀ (e : Extent) (es : List Extent) (covered : Nat),
      emittedLengths B L (e :: es) covered =
        min (L - covered) ((e.num_blocks * B) % u64) ::
          emittedLengths B L es (covered + min (L - covered) ((e.num_blocks * B) % u64))) ∧
    ExtentsToBsdiffPositionsString [⟨1, 1⟩, ⟨4, 2⟩, ⟨kSparseHole, 1⟩, ⟨0, 1⟩] 4096 20467 =
      some "4096:4096,16384:8192,-1:4096,0:4083" := by
  refine ⟨(ExtentsToBsdiffPositionsString_eq extents B L s hL hsb h).1, rfl, fun a => rfl,
    fun a b rest => rfl, fun e len he => ?_, fun e len he hlt => ?_, fun e es covered => rfl,
    by decide!⟩
  · unfold positionItem
    simp only [he, if_true]
    rfl
  · unfold positionItem
    simp only [he, if_false, (toInt64_small _ hlt).1]
    rfl

/-- The C24 format on two extents of one block of four bytes, the second a
hole, for a full length of six bytes. -/
theorem ExtentsToBsdiffPositionsString_format_witness :
    ("8:4,-1:2" : String) =
      joinComma (List.zipWith (positionItem 4) [⟨2, 1⟩, ⟨kSparseHole, 1⟩]
        (emittedLengths 4 6 [⟨2, 1⟩, ⟨kSparseHole, 1⟩] 0)) :=
  (ExtentsToBsdiffPositionsString_format [⟨2, 1⟩, ⟨kSparseHole, 1⟩] 4 6 "8:4,-1:2"
    (by decide) (by decide) (by decide!)).1

/-! ## C25: the zero fill after a binary diff -/

/-- When `CanResumeUpdate` returns true, key by key. -/
theorem CanResumeUpdate_true_iff (prefs : Prefs) (h : Bytes) :
    CanResumeUpdate prefs h = true ↔
      (∃ n, prefs.kPrefsUpdateStateNextOperation = some n ∧ 0 < n) ∧
      (∃ ih, prefs.kPrefsUpdateCheckResponseHash = some ih ∧ ih ≠ [] ∧ ih = h) ∧
      (∀ f, prefs.kPrefsResumedUpdateFailures = some f → f ≤ 10) ∧
      (∃ o, prefs.kPrefsUpdateStateNextDataOffset = some o ∧ 0 ≤ o) ∧
      (∃ c, prefs.kPrefsUpdateStateSHA256Context = some c ∧ c ≠ []) ∧
      (∃ z, prefs.kPrefsManifestMetadataSize = some z ∧ 0 < z) := by
  have hempty : ∀ b : Bytes, b.isEmpty = true ↔ b = [] := fun b => List.isEmpty_iff
  unfold CanResumeUpdate kUpdateStateOperationInvalid kMaxResumedUpdateFailures
  cases h1 : prefs.kPrefsUpdateStateNextOperation with
  | none => simp
  | some n =>
    have hn : (n ≠ -1 ∧ n > 0) ↔ 0 < n := ⟨fun hc => hc.2, fun hc => ⟨by omega, hc⟩⟩
    cases h2 : prefs.kPrefsUpdateCheckResponseHash with
    | none => simp
    | some ih =>
      cases h4 : prefs.kPrefsUpdateStateNextDataOffset with
      | none =>
        simp only [hn, hempty]
        split_ifs <;> simp
      | some o =>
        cases h5 : prefs.kPrefsUpdateStateSHA256Context with
        | none =>
          simp only [hn, hempty]
          split_ifs <;> simp
        | some c =>
          cases h6 : prefs.kPrefsManifestMetadataSize with
          | none =>
            simp only [hn, hempty]
            split_ifs <;> simp
          | some z =>
            cases h3 : prefs.kPrefsResumedUpdateFailures with
            | none =>
              simp only [hn, hempty]
              split_ifs <;> first
                | (simp_all; done)
                | (simp_all; intro _ hc; subst hc; simp_all)
            | some f =>
              simp only [hn, hempty]
              split_ifs <;> first
                | (simp_all; done)
                | (simp_all; intro _ hc; subst hc; simp_all)

/-- C26 (`CanResumeUpdate`): `CanResumeUpdate(prefs, h)` returns true
exactly when the next-operation key is readable and positive; the stored
response hash is readable, not empty and equal to `h`; the counter of
resumed failures is absent or at most 10; the next-data-offset key is
readable and not negative; the hash context is readable and not empty; and
the metadata-size key is readable and positive.  The function only reads
the store: its result is a function of the store, which it does not
return, and `kMaxResumedUpdateFailures` is 10. -/
theorem CanResumeUpdate_iff (prefs : Prefs) (h : Bytes) :
    (CanResumeUpdate prefs h = true ↔
      (∃ n, prefs.kPrefsUpdateStateNextOperation = some n ∧ 0 < n) ∧
      (∃ ih, prefs.kPrefsUpdateCheckResponseHash = some ih ∧ ih ≠ [] ∧ ih = h) ∧
      (∀ f, prefs.kPrefsResumedUpdateFailures = some f → f ≤ 10) ∧
      (∃ o, prefs.kPrefsUpdateStateNextDataOffset = some o ∧ 0 ≤ o) ∧
      (∃ c, prefs.kPrefsUpdateStateSHA256Context = some c ∧ c ≠ []) ∧
      (∃ z, prefs.kPrefsManifestMetadataSize = some z ∧ 0 < z)) ∧
    kMaxResumedUpdateFailures = 10 :=
  ⟨CanResumeUpdate_true_iff prefs h, rfl⟩

/-! ## C27: `CanResumeUpdate` covers what resume needs -/

/-- A `uint64_t` made from an `int64_t` that is not negative. -/
theorem ofInt64_nonneg (v : Int) (h0 : 0 ≤ v) (h1 : v < 2 ^ 63) : ((ofInt64 v : Nat) : Int) = v := by
  unfold ofInt64
  have hm : v % (2 : Int) ^ 64 = v := Int.emod_eq_of_lt h0 (by omega)
  rw [hm]
  exact Int.toNat_of_nonneg h0

/-- An `int64_t` through `uint64_t` and back. -/
theorem toInt64_ofInt64 (m : Int) (h0 : -(2 : Int) ^ 63 ≤ m) (h1 : m < 2 ^ 63) :
    toInt64 (ofInt64 m) = m := by
  have hu : u64 = 18446744073709551616 := by unfold u64; norm_num
  unfold toInt64 ofInt64
  rw [hu]
  have hpos : (0 : Int) ≤ m % (2 : Int) ^ 64 := Int.emod_nonneg _ (by norm_num)
  have hlt : m % (2 : Int) ^ 64 < (2 : Int) ^ 64 := Int.emod_lt_of_pos _ (by norm_num)
  have hcast : (((m % (2 : Int) ^ 64).toNat : Nat) : Int) = m % (2 : Int) ^ 64 :=
    Int.toNat_of_nonneg hpos
  have hmod : (m % (2 : Int) ^ 64).toNat % 18446744073709551616 = (m % (2 : Int) ^ 64).toNat := by
    apply Nat.mod_eq_of_lt
    have : (((m % (2 : Int) ^ 64).toNat : Nat) : Int) < (18446744073709551616 : Int) := by
      rw [hcast]
      norm_num at hlt ⊢
      exact hlt
    exact_mod_cast this
  rw [hmod]
  by_cases hm : 0 ≤ m
  · have e : m % (2 : Int) ^ 64 = m := Int.emod_eq_of_lt hm (by omega)
    have hc2 : (((m % (2 : Int) ^ 64).toNat : Nat) : Int) = m := by rw [hcast, e]
    have hlt2 : (m % (2 : Int) ^ 64).toNat < 2 ^ 63 := by
      have : (((m % (2 : Int) ^ 64).toNat : Nat) : Int) < (2 : Int) ^ 63 := by rw [hc2]; exact h1
      exact_mod_cast this
    rw [if_pos hlt2]
    exact hc2
  · have e : m % (2 : Int) ^ 64 = m + 2 ^ 64 := by
      have h2 : (m + 2 ^ 64) % (2 : Int) ^ 64 = m + 2 ^ 64 :=
        Int.emod_eq_of_lt (by omega) (by omega)
      rw [← h2, Int.add_emod_self]
    have hc2 : (((m % (2 : Int) ^ 64).toNat : Nat) : Int) = m + 2 ^ 64 := by rw [hcast, e]
    have hge : ¬ (m % (2 : Int) ^ 64).toNat < 2 ^ 63 := by
      intro hc
      have : (((m % (2 : Int) ^ 64).toNat : Nat) : Int) < (2 : Int) ^ 63 := by exact_mod_cast hc
      rw [hc2] at this
      omega
    rw [if_neg hge, hc2]
    omega

/-- C27 (`CanResumeUpdate` covers what resume needs): on a store that
`CanResumeUpdate` accepts, whose stored values are `int64_t` values, and
whose stored hash context the hash accumulator loads (to the state of
having been fed `fed`), `PrimeUpdateState` takes the resume path (the store
is not one on which a new update starts) and succeeds, with
`next_operation_num_`, `buffer_offset_` and `metadata_size_` equal to the
stored next operation, next data offset and metadata size, the hash
accumulator loaded, and the counter of resumed failures set, by a `Set`
whose result is not tested, to the stored counter plus one, or to 1 when it
was absent: that is the counter the store holds afterwards when it takes
the write. -/
theorem PrimeUpdateState_after_CanResumeUpdate (env : Env) (s : State) (h fed : Bytes)
    (hcan : CanResumeUpdate s.prefs h = true)
    (hload : ∀ c, s.prefs.kPrefsUpdateStateSHA256Context = some c → env.SetContext c = some fed)
    (hnext : ∀ v, s.prefs.kPrefsUpdateStateNextOperation = some v → v < 2 ^ 63)
    (hoff : ∀ v, s.prefs.kPrefsUpdateStateNextDataOffset = some v → v < 2 ^ 63)
    (hsize : ∀ v, s.prefs.kPrefsManifestMetadataSize = some v → v < 2 ^ 63)
    (hcount : ∀ v, s.prefs.kPrefsResumedUpdateFailures = some v → -(2 : Int) ^ 63 ≤ v) :
    ¬ freshPath s.prefs ∧
    (PrimeUpdateState env s).1 = true ∧
    s.prefs.kPrefsUpdateStateNextOperation =
      some ((PrimeUpdateState env s).2.next_operation_num : Int) ∧
    s.prefs.kPrefsUpdateStateNextDataOffset =
      some ((PrimeUpdateState env s).2.buffer_offset : Int) ∧
    s.prefs.kPrefsManifestMetadataSize =
      some ((PrimeUpdateState env s).2.metadata_size : Int) ∧
    (PrimeUpdateState env s).2.hash_calculator = fed ∧
    (PrimeUpdateState env s).2.prefs =
      (s.prefs.setResumedUpdateFailures
        ((s.prefs.kPrefsResumedUpdateFailures.map (fun n => n + 1)).getD 1)).2 ∧
    (s.prefs.writable = true →
      (PrimeUpdateState env s).2.prefs.kPrefsResumedUpdateFailures =
        some ((s.prefs.kPrefsResumedUpdateFailures.map (fun n => n + 1)).getD 1)) := by
  obtain ⟨⟨a, h1, ha⟩, -, hf, ⟨o, h2, ho⟩, ⟨c, h3, -⟩, ⟨z, h5, hz⟩⟩ :=
    (CanResumeUpdate_true_iff s.prefs h).mp hcan
  have h4 := hload c h3
  have hna : ¬ (a = kUpdateStateOperationInvalid ∨ a ≤ 0) := by
    unfold kUpdateStateOperationInvalid
    omega
  have hstate : PrimeUpdateState env s =
      (true, { s with
        block_size := s.manifest.block_size, next_operation_num := ofInt64 a,
        buffer_offset := ofInt64 o,
        signed_hash_context :=
          (s.prefs.kPrefsUpdateStateSignedSHA256Context).getD s.signed_hash_context,
        signatures_message_data :=
          (s.prefs.kPrefsUpdateStateSignatureBlob).getD s.signatures_message_data,
        hash_calculator := fed, metadata_size := ofInt64 z,
        prefs := (s.prefs.setResumedUpdateFailures
          ((s.prefs.kPrefsResumedUpdateFailures.map (fun n => n + 1)).getD 1)).2 }) := by
    unfold PrimeUpdateState
    simp only [h1, h2, h3, h4, h5, hna, if_false, ge_iff_le, ho, not_true_eq_false, gt_iff_lt,
      hz]
    cases hc : s.prefs.kPrefsResumedUpdateFailures with
    | none => rfl
    | some n =>
      have b1 := hf n hc
      have b2 := hcount n hc
      simp only [Option.map_some', Option.getD_some,
        toInt64_ofInt64 (n + 1) (by omega) (by omega)]
  refine ⟨fun hfresh => ?_, ?_, ?_, ?_, ?_, ?_, ?_, fun hw => ?_⟩
  · have := hfresh a h1
    omega
  · rw [hstate]
  · rw [hstate, h1]
    show some a = some ((ofInt64 a : Nat) : Int)
    rw [ofInt64_nonneg a (by omega) (hnext a h1)]
  · rw [hstate, h2]
    show some o = some ((ofInt64 o : Nat) : Int)
    rw [ofInt64_nonneg o ho (hoff o h2)]
  · rw [hstate, h5]
    show some z = some ((ofInt64 z : Nat) : Int)
    rw [ofInt64_nonneg z (by omega) (hsize z h5)]
  · rw [hstate]
  · rw [hstate]
  · rw [hstate]
    show (s.prefs.setResumedUpdateFailures _).2.kPrefsResumedUpdateFailures = _
    unfold Prefs.setResumedUpdateFailures
    simp only [hw, if_true]

/-- The C27 resume on the example store that `CanResumeUpdate` accepts for
the response hash `[7]`: `PrimeUpdateState` succeeds and the counter of
resumed failures, absent before, is 1. -/
theorem PrimeUpdateState_after_CanResumeUpdate_witness :
    (PrimeUpdateState (exEnv exFresh.manifest) { exFresh with prefs := exResumablePrefs }).1 =
      true ∧
    (PrimeUpdateState (exEnv exFresh.manifest)
      { exFresh with prefs := exResumablePrefs }).2.prefs.kPrefsResumedUpdateFailures =
      some 1 :=
  ⟨(PrimeUpdateState_after_CanResumeUpdate (exEnv exFresh.manifest)
      { exFresh with prefs := exResumablePrefs } [7] [2] (by decide)
      (fun c hc => by cases hc; rfl) (fun v hv => by cases hv; decide)
      (fun v hv => by cases hv; decide) (fun v hv => by cases hv; decide)
      (fun v hv => by cases hv)).2.1,
    (PrimeUpdateState_after_CanResumeUpdate (exEnv exFresh.manifest)
      { exFresh with prefs := exResumablePrefs } [7] [2] (by decide)
      (fun c hc => by cases hc; rfl) (fun v hv => by cases hv; decide)
      (fun v hv => by cases hv; decide) (fun v hv => by cases hv; decide)
      (fun v hv => by cases hv)).2.2.2.2.2.2.2 rfl⟩

/-! ## C28: the state after a failed header parse -/

/-- C28 (failed header parse): a mandatory metadata-size mismatch does not
leave the parser state as it was, unlike the errors for a bad magic and an
unsupported version, which return before `metadata_size_` is assigned.  On a
fresh applier with mandatory hash checks whose install plan announces 99
bytes of metadata, the payload with 21 bytes of metadata is refused with
`kDownloadInvalidMetadataSize`, by `ParsePayloadMetadata` and by `Write`,
and afterwards `metadata_size_` is 21, not 0 (`manifest_parsed_` is still
false), while twenty zero bytes, a bad magic, leave it at 0; a second call
on the same applier and payload skips the header checks, the size check
among them, and parses the manifest with success. -/
theorem ParsePayloadMetadata_error_sets_size :
    exMismatchState.metadata_size = 0 ∧
    (ParsePayloadMetadata (exEnv exFresh.manifest) exMismatchState exSignedPayload).1 =
      MetadataParseResult.kMetadataParseError ∧
    (ParsePayloadMetadata (exEnv exFresh.manifest) exMismatchState exSignedPayload).2.1 =
      ErrorCode.kDownloadInvalidMetadataSize ∧
    (ParsePayloadMetadata (exEnv exFresh.manifest) exMismatchState
      exSignedPayload).2.2.metadata_size = 21 ∧
    (ParsePayloadMetadata (exEnv exFresh.manifest) exMismatchState
      exSignedPayload).2.2.manifest_parsed = false ∧
    (ParsePayloadMetadata (exEnv exFresh.manifest)
      (ParsePayloadMetadata (exEnv exFresh.manifest) exMismatchState exSignedPayload).2.2
      exSignedPayload).1 = MetadataParseResult.kMetadataParseSuccess ∧
    (ParsePayloadMetadata (exEnv exFresh.manifest) exMismatchState
      (List.replicate 20 0)).2.2.metadata_size = 0 ∧
    (Write (exEnv exFresh.manifest) exMismatchState exSignedPayload).map
      (fun r => (r.ok, r.error, r.state.metadata_size, r.state.manifest_parsed)) =
      some (false, ErrorCode.kDownloadInvalidMetadataSize, 21, false) := by
  refine ⟨by decide, by decide, by decide, by decide, by decide, by decide, by decide,
    by decide!⟩

/-- The state after each error of the header phase of
`ParsePayloadMetadata`, while the metadata size is unknown, on a buffer that
holds the header: when the function returns the parse error for a bad magic
or for an unsupported major version, the state is as it was, so
`metadata_size_` is still 0 and `manifest_parsed_` as before; when it
returns the parse error for a mandatory metadata-size mismatch,
`manifest_parsed_` is as before but `metadata_size_` is the size `M`
computed from the header, and when `M` lies above the header size a later
call goes straight to the part after the header branch. -/
theorem ParsePayloadMetadata_header_error_state (env : Env) (s : State) (p : Bytes)
    (h0 : s.metadata_size = 0) (hlen : GetManifestOffset env ≤ p.length) :
    (p.take env.kDeltaMagic.length ≠ env.kDeltaMagic →
      ParsePayloadMetadata env s p =
        (MetadataParseResult.kMetadataParseError,
          ErrorCode.kDownloadInvalidMetadataMagicString, s)) ∧
    (p.take env.kDeltaMagic.length = env.kDeltaMagic →
      be64 p (GetVersionOffset env) ≠ kSupportedMajorPayloadVersion →
      ParsePayloadMetadata env s p =
        (MetadataParseResult.kMetadataParseError,
          ErrorCode.kUnsupportedMajorPayloadVersion, s)) ∧
    (p.take env.kDeltaMagic.length = env.kDeltaMagic →
      be64 p (GetVersionOffset env) = kSupportedMajorPayloadVersion →
      s.install_plan.hash_checks_mandatory = true →
      s.install_plan.metadata_size ≠
        (GetManifestOffset env + be64 p (GetManifestSizeOffset env)) % u64 →
      ParsePayloadMetadata env s p =
        (MetadataParseResult.kMetadataParseError, ErrorCode.kDownloadInvalidMetadataSize,
          { s with metadata_size :=
            (GetManifestOffset env + be64 p (GetManifestSizeOffset env)) % u64 }) ∧
      (ParsePayloadMetadata env s p).2.2.manifest_parsed = s.manifest_parsed ∧
      (GetManifestOffset env <
          (GetManifestOffset env + be64 p (GetManifestSizeOffset env)) % u64 →
        ∀ q : Bytes,
          ParsePayloadMetadata env (ParsePayloadMetadata env s p).2.2 q =
            ParseBody env (ParsePayloadMetadata env s p).2.2
              ((GetManifestOffset env + be64 p (GetManifestSizeOffset env)) % u64 -
                GetManifestOffset env) q)) := by
  have hhead := ParsePayloadMetadata_header env s
  refine ⟨fun hmagic => ?_, fun hmagic hver => ?_, fun hmagic hver hm hne => ?_⟩
  · rw [hhead p h0]
    unfold ParseHeader
    simp only [Nat.not_lt.mpr hlen, if_false, hmagic, ne_eq, not_false_eq_true, if_true]
  · rw [hhead p h0]
    unfold ParseHeader
    simp only [Nat.not_lt.mpr hlen, if_false, hmagic, ne_eq, not_true_eq_false, hver,
      not_false_eq_true, if_true]
  · have hres : ParsePayloadMetadata env s p =
        (MetadataParseResult.kMetadataParseError, ErrorCode.kDownloadInvalidMetadataSize,
          { s with metadata_size :=
            (GetManifestOffset env + be64 p (GetManifestSizeOffset env)) % u64 }) := by
      rw [hhead p h0]
      unfold ParseHeader
      simp only [Nat.not_lt.mpr hlen, if_false, hmagic, ne_eq, not_true_eq_false, hver, hm,
        hne, not_false_eq_true, and_self, if_true]
    refine ⟨hres, by rw [hres], fun hMO q => ?_⟩
    rw [hres]
    exact ParsePayloadMetadata_body env _ q hMO (Nat.mod_lt _ (by unfold u64; norm_num))

/-- The state after a header with a bad magic: the applier is as it was. -/
theorem ParsePayloadMetadata_header_error_state_witness :
    ParsePayloadMetadata (exEnv exFresh.manifest) exMismatchState (List.replicate 20 0) =
      (MetadataParseResult.kMetadataParseError,
        ErrorCode.kDownloadInvalidMetadataMagicString, exMismatchState) :=
  (ParsePayloadMetadata_header_error_state (exEnv exFresh.manifest) exMismatchState
    (List.replicate 20 0) rfl (by decide)).1 (by decide)

/-! ## C29: when the position list can be built -/

/-- The length that the loop of `ExtentsToBsdiffPositionsString` has covered
at its end, started with `length` at most `full_length`. -/
theorem positionsLoop_length (B L : Nat) (hL : L < u64) :
    ∀ (es : List Extent) (ret : String) (len : Nat), len ≤ L →
      (positionsLoop B L es ret len).2 = len + (emittedLengths B L es len).sum ∧
      len + (emittedLengths B L es len).sum ≤ L := by
  have hu : u64 = 18446744073709551616 := by unfold u64; norm_num
  intro es
  induction es with
  | nil =>
    intro ret len hlen
    simp [positionsLoop, emittedLengths, hlen]
  | cons e es ih =>
    intro ret len hlen
    have hleft : (L % u64 + u64 - len % u64) % u64 = L - len := by
      rw [hu] at hL ⊢
      omega
    have hmin : min (L - len) ((e.num_blocks * B) % u64) ≤ L - len := Nat.min_le_left _ _
    have hnew : (len + min (L - len) ((e.num_blocks * B) % u64)) % u64 =
        len + min (L - len) ((e.num_blocks * B) % u64) := by
      apply Nat.mod_eq_of_lt
      omega
    rw [positionsLoop]
    simp only [hleft, hnew]
    obtain ⟨ih1, ih2⟩ := ih
      (ret ++ toString (if toInt64 e.start_block = toInt64 kSparseHole then (-1 : Int)
          else toInt64 (ofInt64 (toInt64 e.start_block) * B)) ++ ":" ++
        toString (min (L - len) ((e.num_blocks * B) % u64)) ++ ",")
      (len + min (L - len) ((e.num_blocks * B) % u64)) (by omega)
    rw [ih1]
    simp only [emittedLengths, List.sum_cons]
    constructor <;> omega

/-- The lengths emitted sum to what is left of the full length, at most the
byte length of the extents. -/
theorem emittedLengths_sum (B L : Nat) :
    ∀ (es : List Extent) (c : Nat),
      (emittedLengths B L es c).sum = min (L - c) (extentsBytes64 B es) := by
  intro es
  induction es with
  | nil => intro c; simp [emittedLengths, extentsBytes64]
  | cons e es ih =>
    intro c
    simp only [emittedLengths, List.sum_cons, extentsBytes64, ih]
    omega

/-- Each emitted length is at most the byte length of its extent. -/
theorem emittedLengths_le (B L : Nat) :
    ∀ (es : List Extent) (c : Nat), ∀ p ∈ List.zip es (emittedLengths B L es c),
      p.2 ≤ (p.1.num_blocks * B) % u64 := by
  intro es
  induction es with
  | nil => intro c p hp; simp [emittedLengths] at hp
  | cons e es ih =>
    intro c p hp
    simp only [emittedLengths, List.zip_cons_cons, List.mem_cons] at hp
    rcases hp with hp | hp
    · rw [hp]
      exact Nat.min_le_right _ _
    · exact ih _ p hp

/-- Once the full length is covered every length emitted is 0. -/
theorem emittedLengths_full (B L : Nat) :
    ∀ (es : List Extent) (c : Nat), L ≤ c →
      emittedLengths B L es c = List.replicate es.length 0 := by
  intro es
  induction es with
  | nil => intro c _; rfl
  | cons e es ih =>
    intro c hc
    have h0 : L - c = 0 := by omega
    simp only [emittedLengths, h0, Nat.zero_min, Nat.add_zero, List.length_cons,
      List.replicate_succ, ih c hc]

/-- The lengths emitted for extents one after the other. -/
theorem emittedLengths_append (B L : Nat) :
    ∀ (pre post : List Extent) (c : Nat),
      emittedLengths B L (pre ++ post) c =
        emittedLengths B L pre c ++ emittedLengths B L post (c + (emittedLengths B L pre c).sum) := by
  intro pre
  induction pre with
  | nil => intro post c; simp [emittedLengths]
  | cons e pre ih =>
    intro post c
    show emittedLengths B L (e :: (pre ++ post)) c = _
    simp only [emittedLengths, ih, List.sum_cons, Nat.add_assoc, List.cons_append]

/-- `ExtentsToBsdiffPositionsString` returns a string exactly when the
length its loop has covered is the full length. -/
theorem ExtentsToBsdiffPositionsString_isSome (es : List Extent) (B L : Nat) :
    (ExtentsToBsdiffPositionsString es B L).isSome = true ↔
      (positionsLoop B L es "" 0).2 = L := by
  unfold ExtentsToBsdiffPositionsString
  simp only []
  by_cases h : (positionsLoop B L es "" 0).2 = L
  · simp only [h, not_true_eq_false, if_false, iff_true]
    split_ifs <;> rfl
  · simp only [h, not_false_eq_true, if_true, Option.isSome_none, Bool.false_eq_true]

/-- The byte lengths in `uint64_t` are the byte lengths when every product
is below `2 ^ 64`. -/
theorem extentsBytes64_eq (B : Nat) (es : List Extent)
    (hfit : ∀ e ∈ es, e.num_blocks * B < u64) : extentsBytes64 B es = extentsLength B es := by
  induction es with
  | nil => rfl
  | cons e es ih =>
    simp only [extentsBytes64, extentsLength]
    rw [Nat.mod_eq_of_lt (hfit e (List.mem_cons_self _ _)),
      ih (fun e1 h1 => hfit e1 (List.mem_cons_of_mem _ h1))]

/-- C29 (`ExtentsToBsdiffPositionsString` succeeds iff the extents are long
enough): for a `uint64_t` full length, the function succeeds exactly when
the full length is at most the sum over the extents of their byte lengths
`num_blocks * block_size` (each product in `uint64_t`, which is the product
itself when that is below `2 ^ 64`).  On success the lengths emitted sum to
exactly the full length, each is at most the byte length of its extent,
every extent behind the point where the full length is covered is emitted
with length 0, and for `uint64_t` start blocks the string returned is built
from these lengths.  On failure no string is returned, so that the output
string of the caller stays as it was. -/
theorem ExtentsToBsdiffPositionsString_succeeds_iff (es : List Extent) (B L : Nat)
    (hL : L < u64) :
    ((ExtentsToBsdiffPositionsString es B L).isSome = true ↔ L ≤ extentsBytes64 B es) ∧
    ((∀ e ∈ es, e.num_blocks * B < u64) → extentsBytes64 B es = extentsLength B es) ∧
    (∀ s, ExtentsToBsdiffPositionsString es B L = some s →
      ((∀ e ∈ es, e.start_block < u64) →
        s = joinComma (List.zipWith (positionItem B) es (emittedLengths B L es 0))) ∧
      (emittedLengths B L es 0).sum = L ∧
      (∀ p ∈ List.zip es (emittedLengths B L es 0), p.2 ≤ (p.1.num_blocks * B) % u64) ∧
      (∀ pre post : List Extent, es = pre ++ post → (emittedLengths B L pre 0).sum = L →
        emittedLengths B L es 0 = emittedLengths B L pre 0 ++ List.replicate post.length 0)) ∧
    (¬ L ≤ extentsBytes64 B es → ExtentsToBsdiffPositionsString es B L = none) := by
  have hlen := (positionsLoop_length B L hL es "" 0 (Nat.zero_le _)).1
  have hsum := emittedLengths_sum B L es 0
  have hiff : (ExtentsToBsdiffPositionsString es B L).isSome = true ↔
      L ≤ extentsBytes64 B es := by
    rw [ExtentsToBsdiffPositionsString_isSome, hlen, hsum]
    omega
  refine ⟨hiff, fun hfit => ?_, fun s hs => ⟨fun hsb => ?_, ?_, ?_, fun pre post hes hpre => ?_⟩,
    fun hno => ?_⟩
  · exact extentsBytes64_eq B es hfit
  · exact (ExtentsToBsdiffPositionsString_eq es B L s hL hsb hs).1
  · have h1 : (ExtentsToBsdiffPositionsString es B L).isSome = true := by rw [hs]; rfl
    have h2 := hiff.mp h1
    rw [hsum]
    omega
  · exact emittedLengths_le B L es 0
  · rw [hes, emittedLengths_append, Nat.zero_add, hpre, emittedLengths_full B L post L (le_refl _)]
  · cases hc : ExtentsToBsdiffPositionsString es B L with
    | none => rfl
    | some s =>
      have h1 : (ExtentsToBsdiffPositionsString es B L).isSome = true := by rw [hc]; rfl
      exact absurd (hiff.mp h1) hno

/-- The C29 rule on two extents of one block of four bytes: a full length
of nine bytes is refused, being more than their eight bytes. -/
theorem ExtentsToBsdiffPositionsString_succeeds_iff_witness :
    ExtentsToBsdiffPositionsString [⟨2, 1⟩, ⟨kSparseHole, 1⟩] 4 9 = none :=
  (ExtentsToBsdiffPositionsString_succeeds_iff [⟨2, 1⟩, ⟨kSparseHole, 1⟩] 4 9
    (by decide)).2.2.2 (by decide)

/-! ## C30: the last destination extent exists -/

end DeltaPerformer
